import Mathlib

/-!
# Stochastic-cloning Kalman filters of the localization library

A shallow embedding of `Sckf.cpp` (the fixed-size indirect Kalman filter) and of
`filters/UsckfError.hpp` (the manifold filter with three cloned epochs), together
with the properties of the filters that are established about them.

Scalars are elements of an arbitrary linearly ordered field `α`, so every
definition can be run on `ℚ` and every theorem holds on `ℝ`: the embedding
describes the arithmetic of the code in exact arithmetic.  Functions of the
numerical libraries that have no rational counterpart (square root, sine, cosine,
the Euler-angle extraction and the singular value decomposition of Eigen) are
collected in a record `NumericLib` that the operations receive as an argument.
-/

namespace Localization

open Matrix

set_option linter.unusedSectionVars false

variable {α : Type} [LinearOrderedField α]

/-! ## Eigen primitives -/

/-- Functions of the numerical libraries used by the filters.  `eulerAngles m a0 a1 a2`
is `m.eulerAngles(a0, a1, a2)`; `svdSingularValues` and `svdMatrixU` are the two results
read from a `JacobiSVD` with `ComputeThinU` of a 3x3 matrix. -/
structure NumericLib (α : Type) where
  sqrt : α → α
  sin : α → α
  cos : α → α
  eulerAngles : Matrix (Fin 3) (Fin 3) α → Nat → Nat → Nat → (Fin 3 → α)
  svdSingularValues : Matrix (Fin 3) (Fin 3) α → (Fin 3 → α)
  svdMatrixU : Matrix (Fin 3) (Fin 3) α → Matrix (Fin 3) (Fin 3) α

/-- The block `A.block<p,q>(i0, j0)` of a matrix. -/
def block {r c : Nat} (p q : Nat) (A : Matrix (Fin r) (Fin c) α) (i0 j0 : Nat) :
    Matrix (Fin p) (Fin q) α :=
  fun i j => if h : i0 + i.val < r ∧ j0 + j.val < c then A ⟨i0 + i.val, h.1⟩ ⟨j0 + j.val, h.2⟩ else 0

/-- The matrix after the assignment `A.block<p,q>(i0, j0) = B`. -/
def setBlock {r c p q : Nat} (A : Matrix (Fin r) (Fin c) α) (i0 j0 : Nat)
    (B : Matrix (Fin p) (Fin q) α) : Matrix (Fin r) (Fin c) α :=
  fun i j =>
    if h : (i0 ≤ i.val ∧ i.val < i0 + p) ∧ (j0 ≤ j.val ∧ j.val < j0 + q) then
      B ⟨i.val - i0, by omega⟩ ⟨j.val - j0, by omega⟩
    else A i j

/-- The segment `x.block<p,1>(i0, 0)` of a column vector. -/
def segment {r : Nat} (p : Nat) (x : Fin r → α) (i0 : Nat) : Fin p → α :=
  fun i => if h : i0 + i.val < r then x ⟨i0 + i.val, h⟩ else 0

/-- The vector after the assignment `x.block<p,1>(i0, 0) = y`. -/
def setSegment {r p : Nat} (x : Fin r → α) (i0 : Nat) (y : Fin p → α) : Fin r → α :=
  fun i => if h : i0 ≤ i.val ∧ i.val < i0 + p then y ⟨i.val - i0, by omega⟩ else x i

/-- The inverse `A.inverse()` of a square matrix in exact arithmetic. -/
def inverse {ι : Type} [Fintype ι] [DecidableEq ι] (A : Matrix ι ι α) : Matrix ι ι α :=
  (A.det)⁻¹ • A.adjugate

/-- The cross-product matrix written with the comma initialiser
`0, -a(2), a(1), a(2), 0, -a(0), -a(1), a(0), 0`. -/
def crossProductMatrix (a : Fin 3 → α) : Matrix (Fin 3) (Fin 3) α :=
  !![0, -a 2, a 1;
     a 2, 0, -a 0;
     -a 1, a 0, 0]

/-- The 4x4 quaternion-rate matrix that `setOmega` and `predict` write with the comma
initialiser. -/
def omegaMatrix (u : Fin 3 → α) : Matrix (Fin 4) (Fin 4) α :=
  !![0, -u 0, -u 1, -u 2;
     u 0, 0, u 2, -u 1;
     u 1, -u 2, 0, u 0;
     u 2, u 1, -u 0, 0]

/-- The value `a.squaredNorm()` of a vector. -/
def squaredNorm {n : Nat} (a : Fin n → α) : α := a ⬝ᵥ a

/-- A symmetric positive-semi-definite matrix: equal to its transpose, with a non-negative
quadratic form. -/
def IsPSD {ι : Type} [Fintype ι] (A : Matrix ι ι α) : Prop :=
  Aᵀ = A ∧ ∀ v : ι → α, 0 ≤ v ⬝ᵥ A *ᵥ v

/-- The position of an index in the rows and columns of a stored matrix. -/
class StorageIndex (ι : Type) where
  position : ι → Nat

/-- The rows and columns of a fixed-size matrix are stored in the order of their numbers. -/
instance finStorageIndex (n : Nat) : StorageIndex (Fin n) where
  position := fun i => i.val

/-- The matrix after the assignment `A = 0.5 * (A + A.transpose())`.  The right-hand side
holds no product, so Eigen makes no temporary and writes the coefficients column by column
into the matrix that it reads through the transpose.  A coefficient on or below the diagonal
reads a coefficient that is not yet written and becomes the mean of the pair; a coefficient
above the diagonal reads the mean already written below the diagonal. -/
def symmetrizeInPlace {ι : Type} [StorageIndex ι] (A : Matrix ι ι α) : Matrix ι ι α :=
  fun i j =>
    if StorageIndex.position i < StorageIndex.position j then
      0.5 * (A i j + 0.5 * (A j i + A i j))
    else 0.5 * (A i j + A j i)

/-- An `Eigen::Quaternion<double>` with its coefficients `w, x, y, z`. -/
structure Quat (α : Type) where
  w : α
  x : α
  y : α
  z : α

namespace Quat

/-- The quaternion product `a * b` of Eigen. -/
def mul (a b : Quat α) : Quat α where
  w := a.w * b.w - a.x * b.x - a.y * b.y - a.z * b.z
  x := a.w * b.x + a.x * b.w + a.y * b.z - a.z * b.y
  y := a.w * b.y + a.y * b.w + a.z * b.x - a.x * b.z
  z := a.w * b.z + a.z * b.w + a.x * b.y - a.y * b.x

/-- The value `q.squaredNorm()`. -/
def squaredNorm (q : Quat α) : α := q.w * q.w + q.x * q.x + q.y * q.y + q.z * q.z

/-- The value `q.norm()`, the square root of the squared norm. -/
def norm (L : NumericLib α) (q : Quat α) : α := L.sqrt q.squaredNorm

/-- The quaternion after `q.normalize()`: every coefficient divided by the norm. -/
def normalize (L : NumericLib α) (q : Quat α) : Quat α where
  w := q.w / norm L q
  x := q.x / norm L q
  y := q.y / norm L q
  z := q.z / norm L q

/-- The identity quaternion written by `setIdentity()`. -/
def identity : Quat α := ⟨1, 0, 0, 0⟩

/-- The zero quaternion. -/
def zero : Quat α := ⟨0, 0, 0, 0⟩

/-- The matrix `q.toRotationMatrix()` of Eigen (no normalisation is applied). -/
def toRotationMatrix (q : Quat α) : Matrix (Fin 3) (Fin 3) α :=
  let tx := 2 * q.x
  let ty := 2 * q.y
  let tz := 2 * q.z
  let twx := tx * q.w
  let twy := ty * q.w
  let twz := tz * q.w
  let txx := tx * q.x
  let txy := ty * q.x
  let txz := tz * q.x
  let tyy := ty * q.y
  let tyz := tz * q.y
  let tzz := tz * q.z
  !![1 - (tyy + tzz), txy - twz, txz + twy;
     txy + twz, 1 - (txx + tzz), tyz - twx;
     txz - twy, tyz + twx, 1 - (txx + tyy)]

/-- The quaternion `Quaternion(AngleAxisd(angle, axis))`. -/
def ofAngleAxis (L : NumericLib α) (angle : α) (axis : Fin 3 → α) : Quat α where
  w := L.cos (angle / 2)
  x := L.sin (angle / 2) * axis 0
  y := L.sin (angle / 2) * axis 1
  z := L.sin (angle / 2) * axis 2

/-- The column `(w, x, y, z)` that `predict` copies the quaternion into. -/
def toVec (q : Quat α) : Fin 4 → α := ![q.w, q.x, q.y, q.z]

/-- The quaternion read back from the column `(w, x, y, z)`. -/
def ofVec (v : Fin 4 → α) : Quat α := ⟨v 0, v 1, v 2, v 3⟩

end Quat

/-- The axis `Vector3d::UnitX()`. -/
def unitX : Fin 3 → α := ![1, 0, 0]

/-- The axis `Vector3d::UnitY()`. -/
def unitY : Fin 3 → α := ![0, 1, 0]

/-- The axis `Vector3d::UnitZ()`. -/
def unitZ : Fin 3 → α := ![0, 0, 1]

/-- The function `Quaternion2DCM` of `Sckf.cpp`: the direction cosine matrix written
into `C` from the coefficients of the quaternion. -/
def Quaternion2DCM (q : Quat α) : Matrix (Fin 3) (Fin 3) α :=
  let q0 := q.w
  let q1 := q.x
  let q2 := q.y
  let q3 := q.z
  !![2 * q0 * q0 + 2 * q1 * q1 - 1, 2 * q1 * q2 + 2 * q0 * q3, 2 * q1 * q3 - 2 * q0 * q2;
     2 * q1 * q2 - 2 * q0 * q3, 2 * q0 * q0 + 2 * q2 * q2 - 1, 2 * q2 * q3 + 2 * q0 * q1;
     2 * q1 * q3 + 2 * q0 * q2, 2 * q2 * q3 - 2 * q0 * q1, 2 * q0 * q0 + 2 * q3 * q3 - 1]

/-! ## The Mahalanobis significance test of `UsckfError.hpp` -/

/-- The function `Usckf::accept_mahalanobis_distance`: the 5 % chi-square test on the squared
Mahalanobis distance for the degrees of freedom 1 to 9, and `false` for every other `dof`. -/
def accept_mahalanobis_distance (mahalanobis2 : α) (dof : Int) : Bool :=
  match dof with
  | 1 => if mahalanobis2 < 3.84 then true else false
  | 2 => if mahalanobis2 < 5.99 then true else false
  | 3 => if mahalanobis2 < 7.81 then true else false
  | 4 => if mahalanobis2 < 9.49 then true else false
  | 5 => if mahalanobis2 < 11.07 then true else false
  | 6 => if mahalanobis2 < 12.59 then true else false
  | 7 => if mahalanobis2 < 14.07 then true else false
  | 8 => if mahalanobis2 < 15.51 then true else false
  | 9 => if mahalanobis2 < 16.92 then true else false
  | _ => false

/-- The table of critical values that the claim about the test refers to. -/
def chiSquareCritical : Int → α
  | 1 => 3.84
  | 2 => 5.99
  | 3 => 7.81
  | 4 => 9.49
  | 5 => 11.07
  | 6 => 12.59
  | 7 => 14.07
  | 8 => 15.51
  | 9 => 16.92
  | _ => 0

/-! ## The indirect Kalman filter of `Sckf.cpp` -/

/-- The data members of `Sckf` that the embedded member functions read or write.  The
history length `M1` of `Configuration.hpp` fixes the width of `RHist`.  The two vectors
handed to the external `filtermeasurement` object are kept in `angularVelocities` and
`linearAcceleration`. -/
structure Sckf (α : Type) (M1 : Nat) where
  xk_k : Fin 15 → α
  xki_k : Fin 15 → α
  A : Matrix (Fin 9) (Fin 9) α
  Fki : Matrix (Fin 15) (Fin 15) α
  Qk : Matrix (Fin 15) (Fin 15) α
  Pk_k : Matrix (Fin 15) (Fin 15) α
  Pki_k : Matrix (Fin 15) (Fin 15) α
  K : Matrix (Fin 15) (Fin 6) α
  H1a : Matrix (Fin 3) (Fin 9) α
  H2a : Matrix (Fin 3) (Fin 9) α
  Hk : Matrix (Fin 6) (Fin 15) α
  gtilde : Fin 3 → α
  mtilde : Fin 3 → α
  RHist : Matrix (Fin 3) (Fin (3 * M1)) α
  Rg : Matrix (Fin 3) (Fin 3) α
  Ra : Matrix (Fin 3) (Fin 3) α
  Rat : Matrix (Fin 3) (Fin 3) α
  Rm : Matrix (Fin 3) (Fin 3) α
  Rk : Matrix (Fin 6) (Fin 6) α
  zki : Fin 6 → α
  bghat : Fin 3 → α
  bahat : Fin 3 → α
  oldomega4 : Matrix (Fin 4) (Fin 4) α
  q4 : Quat α
  r1count : Nat
  r2count : Nat
  angularVelocities : Fin 3 → α
  linearAcceleration : Fin 3 → α

namespace Sckf

variable {M1 : Nat}

/-- The member function `Sckf::setAttitude`. -/
def setAttitude (s : Sckf α M1) (initq : Quat α) : Sckf α M1 :=
  { s with q4 := initq }

/-- The member function `Sckf::setOmega` (the reference argument is never null). -/
def setOmega (s : Sckf α M1) (u : Fin 3 → α) : Sckf α M1 :=
  { s with oldomega4 := omegaMatrix u }

/-- The member function `Sckf::getEuler`: roll, pitch and yaw, read in this order from the
angles that Eigen extracts with `eulerAngles(2, 1, 0)` from the matrix of `q4`. -/
def getEuler (L : NumericLib α) (s : Sckf α M1) : Fin 3 → α :=
  let e := L.eulerAngles s.q4.toRotationMatrix 2 1 0
  ![e 2, e 1, e 0]

/-- The member function `Sckf::setHeading`. -/
def setHeading (L : NumericLib α) (s : Sckf α M1) (yaw : α) : Sckf α M1 :=
  let e := L.eulerAngles s.q4.toRotationMatrix 2 1 0
  let euler : Fin 3 → α := ![e 2, e 1, yaw]
  { s with
    q4 := Quat.mul (Quat.mul (Quat.ofAngleAxis L (euler 2) unitZ)
      (Quat.ofAngleAxis L (euler 1) unitY)) (Quat.ofAngleAxis L (euler 0) unitX) }

/-- The member function `Sckf::Init`.  The argument `s` supplies the contents of the members
that `Init` only resizes (`K`, `Hk`, `Rk`) and of the quaternion, which `Init` fills with
NaN, a value without a counterpart in exact arithmetic. -/
def Init (L : NumericLib α) (s : Sckf α M1) (P_0 : Matrix (Fin 15) (Fin 15) α)
    (Rg Qbg Qba Ra Rat Rm : Matrix (Fin 3) (Fin 3) α) (g alpha : α) (R2COUNT : Nat) :
    Sckf α M1 :=
  let A0 : Matrix (Fin 9) (Fin 9) α := 0
  let A1 : Matrix (Fin 9) (Fin 9) α :=
    fun i j => if (i.val = 0 ∧ j.val = 3) ∨ (i.val = 1 ∧ j.val = 4) ∨ (i.val = 2 ∧ j.val = 5)
      then -0.5 else A0 i j
  let Qk0 : Matrix (Fin 15) (Fin 15) α := 0
  let Qk1 := setBlock Qk0 3 3 Ra
  let Qk2 := setBlock Qk1 6 6 ((0.25 : α) • Rg)
  let Qk3 := setBlock Qk2 9 9 Qbg
  let Qk4 := setBlock Qk3 12 12 Qba
  let H1a0 : Matrix (Fin 3) (Fin 9) α := 0
  let H1a1 : Matrix (Fin 3) (Fin 9) α :=
    fun i j => if (i.val = 0 ∧ j.val = 6) ∨ (i.val = 1 ∧ j.val = 7) ∨ (i.val = 2 ∧ j.val = 8)
      then 1 else H1a0 i j
  { s with
    gtilde := ![0, 0, g]
    mtilde := ![L.cos alpha, 0, -L.sin alpha]
    xki_k := 0
    xk_k := 0
    Fki := 0
    A := A1
    Qk := Qk4
    Pki_k := P_0
    Pk_k := P_0
    H1a := H1a1
    H2a := 0
    RHist := 0
    Rg := Rg
    Ra := Ra
    Rat := Rat
    Rm := Rm
    zki := 0
    bghat := 0
    bahat := 0
    oldomega4 := 0
    r1count := 0
    r2count := R2COUNT }

/-- The quaternion-integration matrix of `predict`.  The literals `1/6`, `1/24` and `1/48`
of the source are quotients of `int` constants, so they are integer divisions. -/
def integrationMatrix (angvelo : Fin 3 → α) (omega4 oldomega4 : Matrix (Fin 4) (Fin 4) α)
    (dt : α) : Matrix (Fin 4) (Fin 4) α :=
  1 + (0.75 * dt) • omega4 - (0.25 * dt) • oldomega4
    - ((((1 : Int) / 6 : Int) : α) * Localization.squaredNorm angvelo * dt ^ 2) •
        (1 : Matrix (Fin 4) (Fin 4) α)
    - dt ^ 2 • (((((1 : Int) / 24 : Int) : α) • omega4) * oldomega4)
    - dt ^ 3 • (((((1 : Int) / 48 : Int) : α) * Localization.squaredNorm angvelo) • omega4)

/-- The quaternion-integration matrix as the specification words it, with the rational
coefficients one sixth, one twenty-fourth and one forty-eighth. -/
def integrationMatrixOfSpec (angvelo : Fin 3 → α) (omega4 oldomega4 : Matrix (Fin 4) (Fin 4) α)
    (dt : α) : Matrix (Fin 4) (Fin 4) α :=
  1 + (0.75 * dt) • omega4 - (0.25 * dt) • oldomega4
    - ((1 / 6 : α) * Localization.squaredNorm angvelo * dt ^ 2) •
        (1 : Matrix (Fin 4) (Fin 4) α)
    - ((1 / 24 : α) * dt ^ 2) • (omega4 * oldomega4)
    - ((1 / 48 : α) * Localization.squaredNorm angvelo * dt ^ 3) • omega4

/-- The column `quat` of `predict` after the quaternion integration and before it is stored
back and normalised. -/
def predictQuat (s : Sckf α M1) (u : Fin 3 → α) (dt : α) : Fin 4 → α :=
  let angvelo := u - s.bghat
  let omega4 := omegaMatrix angvelo
  integrationMatrix angvelo omega4 s.oldomega4 dt *ᵥ s.q4.toVec

/-- The continuous system matrix `Fki` as `predict` leaves it. -/
def predictFki (s : Sckf α M1) (u v : Fin 3 → α) : Matrix (Fin 15) (Fin 15) α :=
  let angvelo := u - s.bghat
  let velo2product := crossProductMatrix angvelo
  let Cq := Quaternion2DCM s.q4
  let gtilde_body := Cq *ᵥ s.gtilde
  let linacc := v - s.bahat - gtilde_body
  let acc2product := crossProductMatrix linacc
  let A := setBlock s.A 0 0 (-velo2product)
  let Fki1 := setBlock s.Fki 0 3 (1 : Matrix (Fin 3) (Fin 3) α)
  let Fki2 := setBlock Fki1 3 6 (-(inverse Cq) * acc2product)
  let Fki3 := setBlock Fki2 3 12 (-(inverse Cq))
  setBlock Fki3 6 6 A

/-- The discrete system matrix `dFki` of `predict`. -/
def predictdFki (s : Sckf α M1) (u v : Fin 3 → α) (dt : α) : Matrix (Fin 15) (Fin 15) α :=
  let Fki := predictFki s u v
  1 + dt • Fki + (dt ^ 2 / 2) • (Fki * Fki)

/-- The member function `Sckf::predict`. -/
def predict (L : NumericLib α) (s : Sckf α M1) (u v : Fin 3 → α) (dt : α) : Sckf α M1 :=
  let angvelo := u - s.bghat
  let velo2product := crossProductMatrix angvelo
  let Cq := Quaternion2DCM s.q4
  let gtilde_body := Cq *ᵥ s.gtilde
  let linacc := v - s.bahat - gtilde_body
  let A := setBlock s.A 0 0 (-velo2product)
  let Fki := predictFki s u v
  let dFki := predictdFki s u v dt
  let xki_k := dFki *ᵥ s.xki_k
  let Qk1 := setBlock s.Qk 0 0 (dt • s.Ra)
  let Qk := setBlock Qk1 3 3 (inverse Cq * s.Ra)
  let Qdk0 := dt • Qk + (0.5 * dt * dt) • Fki * Qk + (0.5 * dt * dt) • Qk * Fkiᵀ
  let Qdk := symmetrizeInPlace Qdk0
  let Pki_k := dFki * s.Pki_k * dFkiᵀ + Qdk
  let omega4 := omegaMatrix angvelo
  let quat := predictQuat s u dt
  { s with
    angularVelocities := angvelo
    linearAcceleration := linacc
    A := A
    Fki := Fki
    xki_k := xki_k
    Qk := Qk
    Pki_k := Pki_k
    q4 := Quat.normalize L (Quat.ofVec quat)
    oldomega4 := omega4 }

/-- The error quaternion `qe` that `update` multiplies the attitude with: built from the
roll and pitch that Eigen extracts from the quaternion `(1, xa_k(0), xa_k(1), xa_k(2))`,
where `xa_k` is the copy of the attitude part of the state taken on entry, with the yaw
angle set to zero. -/
def updateErrorQuat (L : NumericLib α) (s : Sckf α M1) : Quat α :=
  let xa_k : Fin 9 → α := segment 9 s.xki_k 6
  let qe : Quat α := ⟨1, xa_k 0, xa_k 1, xa_k 2⟩
  let e2 : α := 0
  let e1 : α := L.eulerAngles qe.toRotationMatrix 2 1 0 1
  let e0 : α := L.eulerAngles qe.toRotationMatrix 2 1 0 2
  Quat.mul (Quat.mul (Quat.ofAngleAxis L e0 unitX) (Quat.ofAngleAxis L e1 unitY))
    (Quat.ofAngleAxis L e2 unitZ)

/-- The roll angle `error_euler[0]` of `update`: the third of the angles that Eigen extracts
with `eulerAngles(2, 1, 0)` from the quaternion `(1, xa_k(0), xa_k(1), xa_k(2))`. -/
def updateRoll (L : NumericLib α) (s : Sckf α M1) : α :=
  let xa_k : Fin 9 → α := segment 9 s.xki_k 6
  let qe : Quat α := ⟨1, xa_k 0, xa_k 1, xa_k 2⟩
  L.eulerAngles qe.toRotationMatrix 2 1 0 2

/-- The pitch angle `error_euler[1]` of `update`: the second of the angles that Eigen
extracts with `eulerAngles(2, 1, 0)` from the quaternion `(1, xa_k(0), xa_k(1), xa_k(2))`. -/
def updatePitch (L : NumericLib α) (s : Sckf α M1) : α :=
  let xa_k : Fin 9 → α := segment 9 s.xki_k 6
  let qe : Quat α := ⟨1, xa_k 0, xa_k 1, xa_k 2⟩
  L.eulerAngles qe.toRotationMatrix 2 1 0 1

/-- The error quaternion that the statements of `update` from `qe.w() = 1` to the product of
the three angle-axis rotations build from an attitude error `(x, y, z)`. -/
def errorQuat (L : NumericLib α) (x y z : α) : Quat α :=
  let qe : Quat α := ⟨1, x, y, z⟩
  let e2 : α := 0
  let e1 : α := L.eulerAngles qe.toRotationMatrix 2 1 0 1
  let e0 : α := L.eulerAngles qe.toRotationMatrix 2 1 0 2
  Quat.mul (Quat.mul (Quat.ofAngleAxis L e0 unitX) (Quat.ofAngleAxis L e1 unitY))
    (Quat.ofAngleAxis L e2 unitZ)

/-- The quaternion `q4 * qe` of `update` before it is normalised. -/
def updateQuat (L : NumericLib α) (s : Sckf α M1) : Quat α :=
  Quat.mul s.q4 (updateErrorQuat L s)

/-- The sum `a(0) u0 u0ᵀ + a(1) u1 u1ᵀ + a(2) u2 u2ᵀ` over the columns of `u`. -/
def inflation (a : Fin 3 → α) (u : Matrix (Fin 3) (Fin 3) α) : Matrix (Fin 3) (Fin 3) α :=
  a 0 • vecMulVec (fun i => u i 0) (fun i => u i 0)
    + a 1 • vecMulVec (fun i => u i 1) (fun i => u i 1)
    + a 2 • vecMulVec (fun i => u i 2) (fun i => u i 2)

/-- The member function `Sckf::update`.  `M2` and `GAMMA` are the constants of
`Configuration.hpp`; `auxvector0` is the content of the local `auxvector`, which the
source reads without having written it when no external acceleration is detected. -/
def update {sl : Nat} (L : NumericLib α) (M2 : Nat) (GAMMA : α) (auxvector0 : Fin 3 → α)
    (s : Sckf α M1) (Hme : Matrix (Fin 3) (Fin sl) α) (Rme : Matrix (Fin sl) (Fin sl) α)
    (slip_error : Fin sl → α) (acc _mag : Fin 3 → α) (_dt : α) (_magn_on_off : Bool) :
    Sckf α M1 :=
  let xa_k : Fin 9 → α := segment 9 s.xki_k 6
  let P1a : Matrix (Fin 9) (Fin 9) α := block 9 9 s.Pki_k 6 6
  let Cq := Quaternion2DCM s.q4
  let gtilde_body := Cq *ᵥ s.gtilde
  let gtilde2product := crossProductMatrix gtilde_body
  let H1a := setBlock s.H1a 0 0 ((2 : α) • gtilde2product)
  let z1a := acc - s.bahat - gtilde_body
  let R1a := vecMulVec (z1a - H1a *ᵥ xa_k) (z1a - H1a *ᵥ xa_k)
  let RHist := setBlock s.RHist 0 ((s.r1count * (M1 - 1)) % M1) R1a
  let r1count := s.r1count + 1
  let Uk0 := (List.range M1).foldl (fun U j => U + block 3 3 RHist 0 (3 * j)) R1a
  let Uk := (M1 : α)⁻¹ • Uk0
  let fooR2 := H1a * P1a * H1aᵀ + s.Ra
  let lambda := L.svdSingularValues Uk
  let u := L.svdMatrixU Uk
  let mu : Fin 3 → α := fun i => (fun j => u j i) ᵥ* fooR2 ⬝ᵥ (fun j => u j i)
  let detected : Bool := decide (max (max (lambda 0 - mu 0) (lambda 1 - mu 1)) (lambda 2 - mu 2) > GAMMA)
  let r2count := if detected then 0 else s.r2count + 1
  let auxvector : Fin 3 → α :=
    if detected then fun i => max (lambda i - mu i) 0 else auxvector0
  let Qstar : Matrix (Fin 3) (Fin 3) α :=
    if detected then inflation auxvector u
    else if r2count < M2 then inflation auxvector u else 0
  let zki := setSegment (setSegment s.zki 0 (Hme *ᵥ slip_error)) 3 z1a
  let Hk0 : Matrix (Fin 6) (Fin 15) α := 0
  let Hk := setBlock (setBlock Hk0 0 3 Cq) 3 6 H1a
  let Rve := Hme * Rme * Hmeᵀ
  let R1a_noise := s.Ra + s.Rat + Qstar
  let Rk := setBlock (setBlock s.Rk 0 0 Rve) 3 3 R1a_noise
  let K := s.Pki_k * Hkᵀ * inverse (Hk * s.Pki_k * Hkᵀ + Rk)
  let xki_k := s.xki_k + K *ᵥ (zki - Hk *ᵥ s.xki_k)
  let Pki_k0 := (1 - K * Hk) * s.Pki_k * (1 - K * Hk)ᵀ + K * Rk * Kᵀ
  let Pki_k := symmetrizeInPlace Pki_k0
  { s with
    H1a := H1a
    RHist := RHist
    r1count := r1count
    r2count := r2count
    zki := zki
    Hk := Hk
    Rk := Rk
    K := K
    xki_k := xki_k
    Pki_k := Pki_k
    q4 := Quat.normalize L (updateQuat L s)
    bghat := s.bghat + segment 3 xki_k 9
    bahat := s.bahat + segment 3 xki_k 12 }

/-- The member function `Sckf::resetStateVector`. -/
def resetStateVector (s : Sckf α M1) : Sckf α M1 :=
  let x1 := setSegment s.xki_k 6 (0 : Fin 3 → α)
  let x2 := setSegment x1 9 (0 : Fin 3 → α)
  let x3 := setSegment x2 12 (0 : Fin 3 → α)
  { s with xki_k := x3 }

/-- A filter all of whose members are zero, except the attitude `q`: a concrete state on
which the member functions can be evaluated. -/
def blank (q : Quat α) : Sckf α M1 where
  xk_k := 0
  xki_k := 0
  A := 0
  Fki := 0
  Qk := 0
  Pk_k := 0
  Pki_k := 0
  K := 0
  H1a := 0
  H2a := 0
  Hk := 0
  gtilde := 0
  mtilde := 0
  RHist := 0
  Rg := 0
  Ra := 0
  Rat := 0
  Rm := 0
  Rk := 0
  zki := 0
  bghat := 0
  bahat := 0
  oldomega4 := 0
  q4 := q
  r1count := 0
  r2count := 0
  angularVelocities := 0
  linearAcceleration := 0

/-- A call of `predict` or of `update`, with its arguments. -/
inductive Call (α : Type) (sl : Nat) where
  | predict (u v : Fin 3 → α) (dt : α)
  | update (M2 : Nat) (GAMMA : α) (auxvector0 : Fin 3 → α) (Hme : Matrix (Fin 3) (Fin sl) α)
      (Rme : Matrix (Fin sl) (Fin sl) α) (slip_error : Fin sl → α) (acc mag : Fin 3 → α)
      (dt : α) (magn_on_off : Bool)

/-- The filter after one call. -/
def step {sl : Nat} (L : NumericLib α) (s : Sckf α M1) : Call α sl → Sckf α M1
  | Call.predict u v dt => s.predict L u v dt
  | Call.update M2 GAMMA auxvector0 Hme Rme slip_error acc mag dt magn_on_off =>
    s.update L M2 GAMMA auxvector0 Hme Rme slip_error acc mag dt magn_on_off

/-- The filter after a sequence of calls, the first call first. -/
def run {sl : Nat} (L : NumericLib α) (s : Sckf α M1) (calls : List (Call α sl)) : Sckf α M1 :=
  calls.foldl (step L) s

/-- The process noise `Qk` as `predict` leaves it: the blocks `(0,0) = Ra * dt` and
`(3,3) = Cq.inverse() * Ra` are written over the matrix kept from `Init`. -/
def predictQk (s : Sckf α M1) (dt : α) : Matrix (Fin 15) (Fin 15) α :=
  let Cq := Quaternion2DCM s.q4
  let Qk1 := setBlock s.Qk 0 0 (dt • s.Ra)
  setBlock Qk1 3 3 (inverse Cq * s.Ra)

/-- The discretised process noise `Qdk` of `predict`, after the assignment
`Qdk = 0.5 * (Qdk + Qdk.transpose())`. -/
def predictQdk (s : Sckf α M1) (u v : Fin 3 → α) (dt : α) : Matrix (Fin 15) (Fin 15) α :=
  let Fki := predictFki s u v
  let Qk := predictQk s dt
  let Qdk0 := dt • Qk + (0.5 * dt * dt) • Fki * Qk + (0.5 * dt * dt) • Qk * Fkiᵀ
  symmetrizeInPlace Qdk0

/-- The filter after consecutive calls of `predict`, one for each sample
`(u, v, dt)` of the list, the first sample first. -/
def predictSeq (L : NumericLib α) (s : Sckf α M1) :
    List ((Fin 3 → α) × (Fin 3 → α) × α) → Sckf α M1
  | [] => s
  | (u, v, dt) :: rest => predictSeq L (s.predict L u v dt) rest

/-- The residual `z1a - H1a * xa_k` of `update`, whose outer product is the instantaneous
`R1a`. -/
def updateResidual (s : Sckf α M1) (acc : Fin 3 → α) : Fin 3 → α :=
  let xa_k : Fin 9 → α := segment 9 s.xki_k 6
  let Cq := Quaternion2DCM s.q4
  let gtilde_body := Cq *ᵥ s.gtilde
  let gtilde2product := crossProductMatrix gtilde_body
  let H1a := setBlock s.H1a 0 0 ((2 : α) • gtilde2product)
  let z1a := acc - s.bahat - gtilde_body
  z1a - H1a *ᵥ xa_k

/-- The averaged window `Uk` that `update` hands to the singular value decomposition. -/
def updateUk (s : Sckf α M1) (acc : Fin 3 → α) : Matrix (Fin 3) (Fin 3) α :=
  let xa_k : Fin 9 → α := segment 9 s.xki_k 6
  let Cq := Quaternion2DCM s.q4
  let gtilde_body := Cq *ᵥ s.gtilde
  let gtilde2product := crossProductMatrix gtilde_body
  let H1a := setBlock s.H1a 0 0 ((2 : α) • gtilde2product)
  let z1a := acc - s.bahat - gtilde_body
  let R1a := vecMulVec (z1a - H1a *ᵥ xa_k) (z1a - H1a *ᵥ xa_k)
  let RHist := setBlock s.RHist 0 ((s.r1count * (M1 - 1)) % M1) R1a
  let Uk0 := (List.range M1).foldl (fun U j => U + block 3 3 RHist 0 (3 * j)) R1a
  (M1 : α)⁻¹ • Uk0

/-- The vector `lambda - mu` of `update`: the singular values of `Uk` minus the values of
the quadratic form of `fooR2 = H1a * P1a * H1aᵀ + Ra` on the columns of the factor `u`. -/
def updateLambdaMinusMu (L : NumericLib α) (s : Sckf α M1) (acc : Fin 3 → α) : Fin 3 → α :=
  let P1a : Matrix (Fin 9) (Fin 9) α := block 9 9 s.Pki_k 6 6
  let Cq := Quaternion2DCM s.q4
  let gtilde_body := Cq *ᵥ s.gtilde
  let gtilde2product := crossProductMatrix gtilde_body
  let H1a := setBlock s.H1a 0 0 ((2 : α) • gtilde2product)
  let Uk := updateUk s acc
  let fooR2 := H1a * P1a * H1aᵀ + s.Ra
  let lambda := L.svdSingularValues Uk
  let u := L.svdMatrixU Uk
  let mu : Fin 3 → α := fun i => (fun j => u j i) ᵥ* fooR2 ⬝ᵥ (fun j => u j i)
  lambda - mu

/-- The outcome of the test `(lambda - mu).maxCoeff() > GAMMA` of `update`. -/
def updateDetected (L : NumericLib α) (GAMMA : α) (s : Sckf α M1) (acc : Fin 3 → α) : Bool :=
  let d := updateLambdaMinusMu L s acc
  decide (max (max (d 0) (d 1)) (d 2) > GAMMA)

/-- The matrix `Qstar` of `update`, the external acceleration covariance that enters the
attitude measurement noise `R1a = Ra + Rat + Qstar`. -/
def updateQstar (L : NumericLib α) (M2 : Nat) (GAMMA : α) (auxvector0 : Fin 3 → α)
    (s : Sckf α M1) (acc : Fin 3 → α) : Matrix (Fin 3) (Fin 3) α :=
  let d := updateLambdaMinusMu L s acc
  let u := L.svdMatrixU (updateUk s acc)
  let detected := updateDetected L GAMMA s acc
  let r2count := if detected then 0 else s.r2count + 1
  let auxvector : Fin 3 → α := if detected then fun i => max (d i) 0 else auxvector0
  if detected then inflation auxvector u
  else if r2count < M2 then inflation auxvector u else 0

/-- The arguments of one call of `update`, with the content `auxvector0` that the local
`auxvector` has on entry. -/
structure UpdateArgs (α : Type) (sl : Nat) where
  auxvector0 : Fin 3 → α
  Hme : Matrix (Fin 3) (Fin sl) α
  Rme : Matrix (Fin sl) (Fin sl) α
  slip_error : Fin sl → α
  acc : Fin 3 → α
  mag : Fin 3 → α
  dt : α
  magn_on_off : Bool

/-- The filter after consecutive calls of `update`, the first call first. -/
def updateSeq {sl : Nat} (L : NumericLib α) (M2 : Nat) (GAMMA : α) (s : Sckf α M1) :
    List (UpdateArgs α sl) → Sckf α M1
  | [] => s
  | a :: rest =>
    updateSeq L M2 GAMMA
      (s.update L M2 GAMMA a.auxvector0 a.Hme a.Rme a.slip_error a.acc a.mag a.dt a.magn_on_off)
      rest

/-- Every call of the sequence of `update` calls is quiet when it is made: its test
`(lambda - mu).maxCoeff() > GAMMA` is false. -/
def updatesQuiet {sl : Nat} (L : NumericLib α) (M2 : Nat) (GAMMA : α) (s : Sckf α M1) :
    List (UpdateArgs α sl) → Bool
  | [] => true
  | a :: rest =>
    !(updateDetected L GAMMA s a.acc)
      && updatesQuiet L M2 GAMMA
        (s.update L M2 GAMMA a.auxvector0 a.Hme a.Rme a.slip_error a.acc a.mag a.dt
          a.magn_on_off) rest

end Sckf

/-! ## The manifold filter of `filters/UsckfError.hpp` -/

/-- The three epoch slots of the augmented state. -/
inductive Epoch where
  | statek
  | statek_l
  | statek_i
  deriving DecidableEq, Fintype

/-- The number of an epoch slot in the augmented state, whose slots come in the order
`statek`, `statek_l`, `statek_i`. -/
def Epoch.position : Epoch → Nat
  | Epoch.statek => 0
  | Epoch.statek_l => 1
  | Epoch.statek_i => 2

/-- The rows and columns of an augmented covariance are stored slot after slot, each slot
with the components of its single state. -/
instance augmentedStorageIndex (n : Nat) : StorageIndex (Epoch × Fin n) where
  position := fun p => p.1.position * n + p.2.val

/-- The augmented state: one single state per epoch slot.  The template argument
`_AugmentedState` of `Usckf` is used through its members `statek`, `statek_l`, `statek_i`. -/
structure AugmentedState (S : Type) where
  statek : S
  statek_l : S
  statek_i : S

/-- Modelled from the spec: the manifold capabilities of a state type, which the library
takes from `MtkWrap.hpp` and `State.hpp`: additive displacement (`x + delta`), difference to
another state (`x - y`), serialisation to a flat vector (`getVectorizedState` in the
error-quaternion mode) and the way back (`x.set(v)`). -/
structure ManifoldOps (α : Type) (ι : Type) (M : Type) where
  boxplus : M → (ι → α) → M
  boxminus : M → M → (ι → α)
  getVectorizedState : M → (ι → α)
  set : M → (ι → α) → M

/-- The covariance block `MTK::subblock(P, a, b)` of the epoch pair `(a, b)`. -/
def subblock {n : Nat} (P : Matrix (Epoch × Fin n) (Epoch × Fin n) α) (a b : Epoch) :
    Matrix (Fin n) (Fin n) α :=
  fun i j => P (a, i) (b, j)

/-- The covariance after the assignment `MTK::subblock(P, a, b) = M`. -/
def setSubblock {n : Nat} (P : Matrix (Epoch × Fin n) (Epoch × Fin n) α) (a b : Epoch)
    (M : Matrix (Fin n) (Fin n) α) : Matrix (Epoch × Fin n) (Epoch × Fin n) α :=
  fun x y => if x.1 = a ∧ y.1 = b then M x.2 y.2 else P x y

/-- The data members of `Usckf`. -/
structure Usckf (α : Type) (n : Nat) (S : Type) where
  mu_state : AugmentedState S
  mu_error : AugmentedState S
  Pk_error : Matrix (Epoch × Fin n) (Epoch × Fin n) α

/-- The single state of the spec: position, velocity, orientation, gyroscope bias and
accelerometer bias, the members that `singleUpdate`, `ekfSingleUpdate` and
`muErrorSingleReset` access. -/
structure SingleState (α : Type) where
  pos : Fin 3 → α
  vel : Fin 3 → α
  orient : Quat α
  gbias : Fin 3 → α
  abias : Fin 3 → α

/-- The function `getVectorizedSingleState` of `MeasurementModels.hpp`: position, velocity,
the vector part of the orientation quaternion, gyroscope bias and accelerometer bias. -/
def getVectorizedSingleState (state : SingleState α) : Fin 15 → α :=
  let v0 : Fin 15 → α := 0
  let v1 := setSegment v0 0 state.pos
  let v2 := setSegment v1 3 state.vel
  let qe : Fin 3 → α := ![state.orient.x, state.orient.y, state.orient.z]
  let v3 := setSegment v2 6 qe
  let v4 := setSegment v3 9 state.gbias
  setSegment v4 12 state.abias

/-- The order in which the columns of an augmented covariance factor are visited. -/
def augmentedColumns (n : Nat) : List (Epoch × Fin n) :=
  [Epoch.statek, Epoch.statek_l, Epoch.statek_i].flatMap
    (fun e => (List.finRange n).map (fun i => (e, i)))

namespace Usckf

variable {n : Nat} {S : Type}

/-- The member function `Usckf::setStatek_i`. -/
def setStatek_i (s : Usckf α n S) (state : S) : Usckf α n S :=
  { s with mu_state := { s.mu_state with statek_i := state } }

/-- The member function `Usckf::muState`. -/
def muState (s : Usckf α n S) : AugmentedState S := s.mu_state

/-- The member function `Usckf::muError`. -/
def muError (s : Usckf α n S) : AugmentedState S := s.mu_error

/-- The member function `Usckf::PkAugmentedState`. -/
def PkAugmentedState (s : Usckf α n S) : Matrix (Epoch × Fin n) (Epoch × Fin n) α := s.Pk_error

/-- The member function `Usckf::PkSingleState`. -/
def PkSingleState (s : Usckf α n S) : Matrix (Fin n) (Fin n) α :=
  subblock s.Pk_error Epoch.statek_i Epoch.statek_i

/-- The four cross-covariance assignments shared by `ekfPredict` and `predict`: the blocks
`(statek, statek_i)` and `(statek_l, statek_i)` are multiplied by `Fᵀ` on the right, the
blocks `(statek_i, statek)` and `(statek_i, statek_l)` by `F` on the left. -/
def propagateCrossCov (P : Matrix (Epoch × Fin n) (Epoch × Fin n) α)
    (F : Matrix (Fin n) (Fin n) α) : Matrix (Epoch × Fin n) (Epoch × Fin n) α :=
  let P1 := setSubblock P Epoch.statek Epoch.statek_i
    (subblock P Epoch.statek Epoch.statek_i * Fᵀ)
  let P2 := setSubblock P1 Epoch.statek_l Epoch.statek_i
    (subblock P1 Epoch.statek_l Epoch.statek_i * Fᵀ)
  let P3 := setSubblock P2 Epoch.statek_i Epoch.statek
    (F * subblock P2 Epoch.statek_i Epoch.statek)
  setSubblock P3 Epoch.statek_i Epoch.statek_l
    (F * subblock P3 Epoch.statek_i Epoch.statek_l)

/-- The member function `Usckf::ekfPredict`. -/
def ekfPredict (ops : ManifoldOps α (Fin n) S) (s : Usckf α n S)
    (F Q : Matrix (Fin n) (Fin n) α) : Usckf α n S :=
  let Pk := subblock s.Pk_error Epoch.statek_i Epoch.statek_i
  let statek_i := ops.set s.mu_error.statek_i (F *ᵥ ops.getVectorizedState s.mu_error.statek_i)
  let Pk := F * Pk * Fᵀ + Q
  let P1 := setSubblock s.Pk_error Epoch.statek_i Epoch.statek_i Pk
  { s with
    mu_error := { s.mu_error with statek_i := statek_i }
    Pk_error := propagateCrossCov P1 F }

/-- The single-state overload of `Usckf::generateSigmaPoints`; `llt sigma` is the factor
`Eigen::LLT(sigma).matrixL()`. -/
def generateSigmaPointsSingle (ops : ManifoldOps α (Fin n) S)
    (llt : Matrix (Fin n) (Fin n) α → Matrix (Fin n) (Fin n) α)
    (mu : S) (sigma : Matrix (Fin n) (Fin n) α) : List S :=
  let Lm := llt sigma
  mu :: (List.finRange n).flatMap
    (fun j => [ops.boxplus mu (fun i => Lm i j), ops.boxplus mu (-(fun i => Lm i j))])

/-- The augmented-state overload of `Usckf::generateSigmaPoints` with the displacement
`delta`; `chol sigma` is the factor of `ukfom::lapack::cholesky`, absent when `isSPD()` is
false, in which case the assertion `assert(L.isSPD())` fails and no points are produced. -/
def generateSigmaPointsDelta (opsA : ManifoldOps α (Epoch × Fin n) (AugmentedState S))
    (chol : Matrix (Epoch × Fin n) (Epoch × Fin n) α →
      Option (Matrix (Epoch × Fin n) (Epoch × Fin n) α))
    (mu : AugmentedState S) (delta : Epoch × Fin n → α)
    (sigma : Matrix (Epoch × Fin n) (Epoch × Fin n) α) : Option (List (AugmentedState S)) :=
  match chol sigma with
  | none => none
  | some Lm =>
    some (opsA.boxplus mu delta :: (augmentedColumns n).flatMap
      (fun j => [opsA.boxplus mu (delta + fun i => Lm i j),
                 opsA.boxplus mu (delta - fun i => Lm i j)]))

/-- The augmented-state overload of `Usckf::generateSigmaPoints` without displacement. -/
def generateSigmaPoints (opsA : ManifoldOps α (Epoch × Fin n) (AugmentedState S))
    (chol : Matrix (Epoch × Fin n) (Epoch × Fin n) α →
      Option (Matrix (Epoch × Fin n) (Epoch × Fin n) α))
    (mu : AugmentedState S) (sigma : Matrix (Epoch × Fin n) (Epoch × Fin n) α) :
    Option (List (AugmentedState S)) :=
  generateSigmaPointsDelta opsA chol mu 0 sigma

/-- The loop of the manifold overload of `Usckf::meanSigmaPoints`, with `k` the number of
averaging steps still allowed: the result is absent when the iteration count reaches
`max_it`, where the source fails the assertion. -/
def meanSigmaPointsLoop {ι M : Type} [Fintype ι] (L : NumericLib α) (ops : ManifoldOps α ι M)
    (X : List M) : Nat → M → Option M
  | 0, _ => none
  | k + 1, reference =>
    let mean_delta : ι → α :=
      ((X.length : α))⁻¹ • X.foldl (fun acc Xi => acc + ops.boxminus Xi reference) 0
    let reference1 := ops.boxplus reference mean_delta
    if L.sqrt (mean_delta ⬝ᵥ mean_delta) > 1e-6 then meanSigmaPointsLoop L ops X k reference1
    else some reference1

/-- The manifold overload of `Usckf::meanSigmaPoints`: the loop starts at `X[0]` with
`max_it = 10000`. -/
def meanSigmaPoints {ι M : Type} [Fintype ι] (L : NumericLib α) (ops : ManifoldOps α ι M)
    (X : List M) : Option M :=
  match X with
  | [] => none
  | X0 :: _ => meanSigmaPointsLoop L ops X 10000 X0

/-- The mean displacement `mean_delta` that one averaging step of the manifold
`meanSigmaPoints` computes at the reference `reference`. -/
def meanSigmaPointsDelta {ι M : Type} [Fintype ι] (ops : ManifoldOps α ι M) (X : List M)
    (reference : M) : ι → α :=
  ((X.length : α))⁻¹ • X.foldl (fun acc Xi => acc + ops.boxminus Xi reference) 0

/-- The reference after `k` averaging steps of the manifold `meanSigmaPoints` from
`reference`: each step displaces the reference by its mean displacement. -/
def meanSigmaPointsIterate {ι M : Type} [Fintype ι] (ops : ManifoldOps α ι M) (X : List M) :
    Nat → M → M
  | 0, reference => reference
  | k + 1, reference =>
    meanSigmaPointsIterate ops X k
      (ops.boxplus reference (meanSigmaPointsDelta ops X reference))

/-- The vector overload of `Usckf::meanSigmaPoints`: the arithmetic mean. -/
def meanSigmaPointsVector {m : Nat} (Z : List (Fin m → α)) : Fin m → α :=
  ((Z.length : α))⁻¹ • Z.foldl (fun acc Zi => acc + Zi) 0

/-- The function `Usckf::covSigmaPoints`, with the differences `*Vi - mean` already taken. -/
def covSigmaPointsOfDiffs {ι : Type} (D : List (ι → α)) : Matrix ι ι α :=
  (0.5 : α) • D.foldl (fun c d => c + vecMulVec d d) 0

/-- The function `Usckf::covSigmaPoints` on a manifold. -/
def covSigmaPoints {ι M : Type} (ops : ManifoldOps α ι M) (mean : M) (V : List M) :
    Matrix ι ι α :=
  covSigmaPointsOfDiffs (V.map (fun Vi => ops.boxminus Vi mean))

/-- The function `Usckf::covSigmaPoints` on vectors. -/
def covSigmaPointsVector {m : Nat} (mean : Fin m → α) (V : List (Fin m → α)) :
    Matrix (Fin m) (Fin m) α :=
  covSigmaPointsOfDiffs (V.map (fun Vi => Vi - mean))

/-- The function `Usckf::crossCovSigmaPoints`, with the differences `*Xi - meanX` and
`*Zi - meanZ` already taken. -/
def crossCovSigmaPointsOfDiffs {ι κ : Type} (D : List ((ι → α) × (κ → α))) : Matrix ι κ α :=
  (0.5 : α) • D.foldl (fun c d => c + vecMulVec d.1 d.2) 0

/-- The function `Usckf::crossCovSigmaPoints` between two manifolds. -/
def crossCovSigmaPoints {ι κ M N : Type} (opsX : ManifoldOps α ι M) (opsZ : ManifoldOps α κ N)
    (meanX : M) (meanZ : N) (X : List M) (Z : List N) : Matrix ι κ α :=
  crossCovSigmaPointsOfDiffs
    ((X.zip Z).map (fun p => (opsX.boxminus p.1 meanX, opsZ.boxminus p.2 meanZ)))

/-- The function `Usckf::crossCovSigmaPoints` between a manifold and a vector measurement. -/
def crossCovSigmaPointsVector {ι M : Type} {m : Nat} (opsX : ManifoldOps α ι M)
    (meanX : M) (meanZ : Fin m → α) (X : List M) (Z : List (Fin m → α)) :
    Matrix ι (Fin m) α :=
  crossCovSigmaPointsOfDiffs
    ((X.zip Z).map (fun p => (opsX.boxminus p.1 meanX, p.2 - meanZ)))

/-- The unscented member function `Usckf::predict(f, Q)`.  The result is absent when the
manifold mean of the transformed sigma points fails its assertion. -/
def predict (L : NumericLib α) (ops : ManifoldOps α (Fin n) S)
    (llt : Matrix (Fin n) (Fin n) α → Matrix (Fin n) (Fin n) α)
    (s : Usckf α n S) (f : S → S) (Q : Matrix (Fin n) (Fin n) α) : Option (Usckf α n S) :=
  let statek_i := s.mu_error.statek_i
  let Pk := subblock s.Pk_error Epoch.statek_i Epoch.statek_i
  let XCopy := generateSigmaPointsSingle ops llt statek_i Pk
  let X := XCopy.map f
  match meanSigmaPoints L ops X with
  | none => none
  | some mean =>
    let Pxy := crossCovSigmaPoints ops ops statek_i mean XCopy X
    let Fk := Pxyᵀ * inverse Pk
    let Qk := Q
    let Pk1 := covSigmaPoints ops mean X + Qk
    let P1 := setSubblock s.Pk_error Epoch.statek_i Epoch.statek_i Pk1
    some { s with
      mu_error := { s.mu_error with statek_i := mean }
      Pk_error := propagateCrossCov P1 Fk }

/-- The quantities that the unscented `Usckf::update` computes before the significance
test: the gain `K`, the innovation covariance `S`, the innovation and the squared
Mahalanobis distance.  Absent when the sigma-point generation fails its assertion. -/
def updateGain {m : Nat} (opsA : ManifoldOps α (Epoch × Fin n) (AugmentedState S))
    (chol : Matrix (Epoch × Fin n) (Epoch × Fin n) α →
      Option (Matrix (Epoch × Fin n) (Epoch × Fin n) α))
    (s : Usckf α n S) (z : Fin m → α) (h : AugmentedState S → (Fin m → α))
    (R : Matrix (Fin m) (Fin m) α) :
    Option (Matrix (Epoch × Fin n) (Fin m) α × Matrix (Fin m) (Fin m) α × (Fin m → α) × α) :=
  match generateSigmaPoints opsA chol s.mu_error s.Pk_error with
  | none => none
  | some X =>
    let Z := X.map h
    let meanZ := meanSigmaPointsVector Z
    let Sm := covSigmaPointsVector meanZ Z + R
    let covXZ := crossCovSigmaPointsVector opsA s.mu_error meanZ X Z
    let S_inverse := inverse Sm
    let K := covXZ * S_inverse
    let innovation := z - meanZ
    let mahalanobis2 := (innovation ᵥ* S_inverse) ⬝ᵥ innovation
    some (K, Sm, innovation, mahalanobis2)

/-- The unscented member function `Usckf::update(z, h, R, mt)` for a vector measurement. -/
def update {m : Nat} (opsA : ManifoldOps α (Epoch × Fin n) (AugmentedState S))
    (chol : Matrix (Epoch × Fin n) (Epoch × Fin n) α →
      Option (Matrix (Epoch × Fin n) (Epoch × Fin n) α))
    (s : Usckf α n S) (z : Fin m → α) (h : AugmentedState S → (Fin m → α))
    (R : Matrix (Fin m) (Fin m) α) (mt : α → Bool) : Option (Usckf α n S) :=
  match updateGain opsA chol s z h R with
  | none => none
  | some (K, Sm, innovation, mahalanobis2) =>
    if mt mahalanobis2 then
      some { s with
        Pk_error := s.Pk_error - K * Sm * Kᵀ
        mu_error := opsA.boxplus s.mu_error (K *ᵥ innovation) }
    else some s

/-- The outcome `mt(mahalanobis2)` of the significance test in the unscented `Usckf::update`,
absent when the sigma-point generation fails its assertion before the test. -/
def updateAccepted {m : Nat} (opsA : ManifoldOps α (Epoch × Fin n) (AugmentedState S))
    (chol : Matrix (Epoch × Fin n) (Epoch × Fin n) α →
      Option (Matrix (Epoch × Fin n) (Epoch × Fin n) α))
    (s : Usckf α n S) (z : Fin m → α) (h : AugmentedState S → (Fin m → α))
    (R : Matrix (Fin m) (Fin m) α) (mt : α → Bool) : Option Bool :=
  (updateGain opsA chol s z h R).map (fun g => mt g.2.2.2)

/-- The innovation covariance `S = H P Hᵀ + R` of the linearised updates. -/
def innovationCov {ι : Type} [Fintype ι] {m : Nat} (P : Matrix ι ι α) (H : Matrix (Fin m) ι α)
    (R : Matrix (Fin m) (Fin m) α) : Matrix (Fin m) (Fin m) α :=
  H * P * Hᵀ + R

/-- The gain `K = P Hᵀ S.inverse()` of the linearised updates. -/
def kalmanGain {ι : Type} [Fintype ι] [DecidableEq ι] {m : Nat} (P : Matrix ι ι α)
    (H : Matrix (Fin m) ι α) (R : Matrix (Fin m) (Fin m) α) : Matrix ι (Fin m) α :=
  P * Hᵀ * inverse (innovationCov P H R)

/-- The scalar `(innovationᵀ S.inverse() innovation)(0)` of the linearised updates. -/
def mahalanobis2 {ι : Type} [Fintype ι] {m : Nat} (P : Matrix ι ι α) (H : Matrix (Fin m) ι α)
    (R : Matrix (Fin m) (Fin m) α) (innovation : Fin m → α) : α :=
  (innovation ᵥ* inverse (innovationCov P H R)) ⬝ᵥ innovation

/-- The covariance of the accepted branch of the linearised updates: the Joseph form
followed by the assignment `P = 0.5 * (P + P.transpose())`. -/
def josephUpdate {ι : Type} [Fintype ι] [DecidableEq ι] [StorageIndex ι] {m : Nat}
    (P : Matrix ι ι α) (H : Matrix (Fin m) ι α) (R : Matrix (Fin m) (Fin m) α) : Matrix ι ι α :=
  let K := kalmanGain P H R
  let P1 := (1 - K * H) * P * (1 - K * H)ᵀ + K * R * Kᵀ
  symmetrizeInPlace P1

/-- The member function `Usckf::ekfUpdate(z, H, R, mt)`: the filter after the call and the
returned vector.  The locals `x_breve` and `x_hat` are copies of the vectorised states; the
sum `x_hat + K * innovation` of the accepted branch is assigned to the local only. -/
def ekfUpdate {m : Nat} (opsA : ManifoldOps α (Epoch × Fin n) (AugmentedState S))
    (s : Usckf α n S) (z : Fin m → α) (H : Matrix (Fin m) (Epoch × Fin n) α)
    (R : Matrix (Fin m) (Fin m) α) (mt : α → Int → Bool) : Usckf α n S × (Fin m → α) :=
  let _x_breve := opsA.getVectorizedState s.mu_error
  let x_hat := opsA.getVectorizedState s.mu_state
  let Sm := H * s.Pk_error * Hᵀ + R
  let S_inverse := inverse Sm
  let K := s.Pk_error * Hᵀ * S_inverse
  let innovation := z - H *ᵥ x_hat
  let mahalanobis2 := (innovation ᵥ* S_inverse) ⬝ᵥ innovation
  if mt mahalanobis2 ((m : Int) - 1) then
    let _x_hat := x_hat + K *ᵥ innovation
    let Pk1 := (1 - K * H) * s.Pk_error * (1 - K * H)ᵀ + K * R * Kᵀ
    ({ s with Pk_error := symmetrizeInPlace Pk1 }, 0)
  else
    (s, innovation)

/-- The member function `Usckf::ekfUpdate(z, H, R)` with the default significance test. -/
def ekfUpdateDefault {m : Nat} (opsA : ManifoldOps α (Epoch × Fin n) (AugmentedState S))
    (s : Usckf α n S) (z : Fin m → α) (H : Matrix (Fin m) (Epoch × Fin n) α)
    (R : Matrix (Fin m) (Fin m) α) : Usckf α n S × (Fin m → α) :=
  ekfUpdate opsA s z H R accept_mahalanobis_distance

/-- The innovation `z - H * x_hat` of `Usckf::ekfUpdate`, with `x_hat` the vectorised
`mu_state`. -/
def ekfUpdateInnovation {m : Nat} (opsA : ManifoldOps α (Epoch × Fin n) (AugmentedState S))
    (s : Usckf α n S) (z : Fin m → α) (H : Matrix (Fin m) (Epoch × Fin n) α) : Fin m → α :=
  z - H *ᵥ opsA.getVectorizedState s.mu_state

/-- The outcome `mt(mahalanobis2, innovation.size()-1)` of the significance test in
`Usckf::ekfUpdate`. -/
def ekfUpdateAccepted {m : Nat} (opsA : ManifoldOps α (Epoch × Fin n) (AugmentedState S))
    (s : Usckf α n S) (z : Fin m → α) (H : Matrix (Fin m) (Epoch × Fin n) α)
    (R : Matrix (Fin m) (Fin m) α) (mt : α → Int → Bool) : Bool :=
  mt (mahalanobis2 s.Pk_error H R (ekfUpdateInnovation opsA s z H)) ((m : Int) - 1)

/-- The correction that `singleUpdate` and `ekfSingleUpdate` apply to the active epoch of
`mu_state`: the vector members are incremented, the orientation is multiplied by the error
quaternion and normalised. -/
def applyCorrection (L : NumericLib α) (st : SingleState α) (dpos dvel : Fin 3 → α)
    (qe : Quat α) (dgbias dabias : Fin 3 → α) : SingleState α :=
  { pos := st.pos + dpos
    vel := st.vel + dvel
    orient := Quat.normalize L (Quat.mul st.orient qe)
    gbias := st.gbias + dgbias
    abias := st.abias + dabias }

/-- The member function `Usckf::singleUpdate(z, h, R)` for a vector measurement. -/
def singleUpdate {m : Nat} (L : NumericLib α) (ops : ManifoldOps α (Fin 15) (SingleState α))
    (llt : Matrix (Fin 15) (Fin 15) α → Matrix (Fin 15) (Fin 15) α)
    (s : Usckf α 15 (SingleState α)) (z : Fin m → α) (h : SingleState α → (Fin m → α))
    (R : Matrix (Fin m) (Fin m) α) : Usckf α 15 (SingleState α) :=
  let errork_i := s.mu_error.statek_i
  let Pk := subblock s.Pk_error Epoch.statek_i Epoch.statek_i
  let X := generateSigmaPointsSingle ops llt errork_i Pk
  let Z := X.map h
  let meanZ := meanSigmaPointsVector Z
  let Sm := covSigmaPointsVector meanZ Z + R
  let covXZ := crossCovSigmaPointsVector ops errork_i meanZ X Z
  let S_inverse := inverse Sm
  let K := covXZ * S_inverse
  let innovation := z - meanZ
  let Pk1 := Pk - K * Sm * Kᵀ
  let Pk2 := symmetrizeInPlace Pk1
  let errork_i1 := ops.boxplus errork_i (K *ᵥ innovation)
  { mu_error := { s.mu_error with statek_i := errork_i1 }
    Pk_error := setSubblock s.Pk_error Epoch.statek_i Epoch.statek_i Pk2
    mu_state := { s.mu_state with
      statek_i := applyCorrection L s.mu_state.statek_i errork_i1.pos errork_i1.vel
        errork_i1.orient errork_i1.gbias errork_i1.abias } }

/-- The member function `Usckf::ekfSingleUpdate(z, H, R, mt)`. -/
def ekfSingleUpdate {m : Nat} (L : NumericLib α) (ops : ManifoldOps α (Fin 15) (SingleState α))
    (s : Usckf α 15 (SingleState α)) (z : Fin m → α) (H : Matrix (Fin m) (Fin 15) α)
    (R : Matrix (Fin m) (Fin m) α) (mt : α → Int → Bool) : Usckf α 15 (SingleState α) :=
  let xk_i := ops.getVectorizedState s.mu_error.statek_i
  let Pk := subblock s.Pk_error Epoch.statek_i Epoch.statek_i
  let Sm := H * Pk * Hᵀ + R
  let S_inverse := inverse Sm
  let K := Pk * Hᵀ * S_inverse
  let innovation := z - H *ᵥ xk_i
  let mahalanobis2 := (innovation ᵥ* S_inverse) ⬝ᵥ innovation
  let accepted := mt mahalanobis2 ((m : Int) - 1)
  let xk_i1 := if accepted then xk_i + K *ᵥ innovation else xk_i
  let Pk1 :=
    if accepted then
      let Pk0 := (1 - K * H) * Pk * (1 - K * H)ᵀ + K * R * Kᵀ
      symmetrizeInPlace Pk0
    else Pk
  let qe : Quat α := ⟨1, xk_i1 6, xk_i1 7, xk_i1 8⟩
  { mu_error := s.mu_error
    Pk_error := setSubblock s.Pk_error Epoch.statek_i Epoch.statek_i Pk1
    mu_state := { s.mu_state with
      statek_i := applyCorrection L s.mu_state.statek_i (segment 3 xk_i1 0) (segment 3 xk_i1 3)
        qe (segment 3 xk_i1 9) (segment 3 xk_i1 12) } }

/-- The outcome `mt(mahalanobis2, innovation.size()-1)` of the significance test in
`Usckf::ekfSingleUpdate`. -/
def ekfSingleUpdateAccepted {m : Nat} (ops : ManifoldOps α (Fin 15) (SingleState α))
    (s : Usckf α 15 (SingleState α)) (z : Fin m → α) (H : Matrix (Fin m) (Fin 15) α)
    (R : Matrix (Fin m) (Fin m) α) (mt : α → Int → Bool) : Bool :=
  let xk_i := ops.getVectorizedState s.mu_error.statek_i
  let Pk := subblock s.Pk_error Epoch.statek_i Epoch.statek_i
  mt (mahalanobis2 Pk H R (z - H *ᵥ xk_i)) ((m : Int) - 1)

/-- The member function `Usckf::ekfSingleUpdate(z, H, R)` with the default significance
test. -/
def ekfSingleUpdateDefault {m : Nat} (L : NumericLib α)
    (ops : ManifoldOps α (Fin 15) (SingleState α)) (s : Usckf α 15 (SingleState α))
    (z : Fin m → α) (H : Matrix (Fin m) (Fin 15) α) (R : Matrix (Fin m) (Fin m) α) :
    Usckf α 15 (SingleState α) :=
  ekfSingleUpdate L ops s z H R accept_mahalanobis_distance

/-- The member function `Usckf::muErrorSingleReset`. -/
def muErrorSingleReset (s : Usckf α 15 (SingleState α)) : Usckf α 15 (SingleState α) :=
  { s with
    mu_error := { s.mu_error with
      statek_i := { pos := 0, vel := 0, orient := Quat.identity, gbias := 0, abias := 0 } } }

/-- The member function `Usckf::cloning`. -/
def cloning (s : Usckf α n S) : Usckf α n S :=
  let mu_state1 := { s.mu_state with statek_l := s.mu_state.statek_i }
  let mu_state2 := { mu_state1 with statek := mu_state1.statek_l }
  let mu_error1 := { s.mu_error with statek_l := s.mu_error.statek_i }
  let mu_error2 := { mu_error1 with statek := mu_error1.statek_l }
  let Pk := subblock s.Pk_error Epoch.statek_i Epoch.statek_i
  let P1 := setSubblock s.Pk_error Epoch.statek Epoch.statek Pk
  let P2 := setSubblock P1 Epoch.statek_l Epoch.statek_l Pk
  let P3 := setSubblock P2 Epoch.statek_i Epoch.statek_i Pk
  let P4 := setSubblock P3 Epoch.statek Epoch.statek_l Pk
  let P5 := setSubblock P4 Epoch.statek Epoch.statek_i Pk
  let P6 := setSubblock P5 Epoch.statek_l Epoch.statek Pk
  let P7 := setSubblock P6 Epoch.statek_i Epoch.statek Pk
  let P8 := setSubblock P7 Epoch.statek_l Epoch.statek_i Pk
  let P9 := setSubblock P8 Epoch.statek_i Epoch.statek_l Pk
  { mu_state := mu_state2, mu_error := mu_error2, Pk_error := P9 }

/-- One call of a member function of the filter on the 15-dimensional single state, as a
transition between filter states.  The unscented `predict` and `update` make a transition
only when they return, that is when no assertion of the sigma-point machinery fails.  The
process noise of the two predictions and the measurement noise of the four updates are
symmetric matrices. -/
inductive Step (L : NumericLib α) (ops : ManifoldOps α (Fin 15) (SingleState α))
    (opsA : ManifoldOps α (Epoch × Fin 15) (AugmentedState (SingleState α)))
    (llt : Matrix (Fin 15) (Fin 15) α → Matrix (Fin 15) (Fin 15) α)
    (chol : Matrix (Epoch × Fin 15) (Epoch × Fin 15) α →
      Option (Matrix (Epoch × Fin 15) (Epoch × Fin 15) α)) :
    Usckf α 15 (SingleState α) → Usckf α 15 (SingleState α) → Prop where
  | ekfPredict (s : Usckf α 15 (SingleState α)) (F Q : Matrix (Fin 15) (Fin 15) α)
      (hQ : Q.IsSymm) : Step L ops opsA llt chol s (s.ekfPredict ops F Q)
  | predict (s t : Usckf α 15 (SingleState α)) (f : SingleState α → SingleState α)
      (Q : Matrix (Fin 15) (Fin 15) α) (hQ : Q.IsSymm)
      (h : s.predict L ops llt f Q = some t) : Step L ops opsA llt chol s t
  | update {m : Nat} (s t : Usckf α 15 (SingleState α)) (z : Fin m → α)
      (h : AugmentedState (SingleState α) → (Fin m → α)) (R : Matrix (Fin m) (Fin m) α)
      (mt : α → Bool) (hR : R.IsSymm) (ht : s.update opsA chol z h R mt = some t) :
      Step L ops opsA llt chol s t
  | ekfUpdate {m : Nat} (s : Usckf α 15 (SingleState α)) (z : Fin m → α)
      (H : Matrix (Fin m) (Epoch × Fin 15) α) (R : Matrix (Fin m) (Fin m) α)
      (mt : α → Int → Bool) (hR : R.IsSymm) :
      Step L ops opsA llt chol s (s.ekfUpdate opsA z H R mt).1
  | singleUpdate {m : Nat} (s : Usckf α 15 (SingleState α)) (z : Fin m → α)
      (h : SingleState α → (Fin m → α)) (R : Matrix (Fin m) (Fin m) α) (hR : R.IsSymm) :
      Step L ops opsA llt chol s (s.singleUpdate L ops llt z h R)
  | ekfSingleUpdate {m : Nat} (s : Usckf α 15 (SingleState α)) (z : Fin m → α)
      (H : Matrix (Fin m) (Fin 15) α) (R : Matrix (Fin m) (Fin m) α) (mt : α → Int → Bool)
      (hR : R.IsSymm) : Step L ops opsA llt chol s (s.ekfSingleUpdate L ops z H R mt)
  | cloning (s : Usckf α 15 (SingleState α)) : Step L ops opsA llt chol s s.cloning
  | muErrorSingleReset (s : Usckf α 15 (SingleState α)) :
      Step L ops opsA llt chol s s.muErrorSingleReset
  | setStatek_i (s : Usckf α 15 (SingleState α)) (state : SingleState α) :
      Step L ops opsA llt chol s (s.setStatek_i state)

end Usckf

/-! ## The adaptive attitude covariance of `filters/MeasurementModels.hpp` -/

/-- The data members of `AdaptiveAttitudeCov`.  The counters are `unsigned int`, so
`r2count++` is taken modulo `2 ^ 32`. -/
structure AdaptiveAttitudeCov (α : Type) where
  r1count : Nat
  m1 : Nat
  m2 : Nat
  gamma : α
  r2count : Nat
  RHist : List (Matrix (Fin 3) (Fin 3) α)

namespace AdaptiveAttitudeCov

/-- The constructor `AdaptiveAttitudeCov(M1, M2, GAMMA, R2COUNT)`. -/
def create (M1 M2 : Nat) (GAMMA : α) (R2COUNT : Nat) : AdaptiveAttitudeCov α where
  m1 := M1
  m2 := M2
  gamma := GAMMA
  r2count := R2COUNT
  r1count := 0
  RHist := List.replicate M1 0

/-- The history after the assignment `RHist[r1count] = R1a` of `matrix`.  The index is below
`m1`, the length of the history, after the constructor and after every call with `m1 > 0`;
an index outside the vector, which the source leaves undefined, changes nothing here. -/
def matrixRHist {n : Nat} (c : AdaptiveAttitudeCov α) (xk : Fin n → α) (z : Fin 3 → α)
    (H : Matrix (Fin 3) (Fin n) α) : List (Matrix (Fin 3) (Fin 3) α) :=
  let R1a := vecMulVec (z - H *ᵥ xk) (z - H *ᵥ xk)
  c.RHist.set c.r1count R1a

/-- The averaged window `Uk` of `matrix`: the sum of `RHist[j]` for `j < m1`, divided by
`m1`. -/
def matrixUk {n : Nat} (c : AdaptiveAttitudeCov α) (xk : Fin n → α) (z : Fin 3 → α)
    (H : Matrix (Fin 3) (Fin n) α) : Matrix (Fin 3) (Fin 3) α :=
  let RHist := matrixRHist c xk z H
  let Uk0 := (List.range c.m1).foldl (fun U j => U + RHist.getD j 0)
    (0 : Matrix (Fin 3) (Fin 3) α)
  (c.m1 : α)⁻¹ • Uk0

/-- The vector `lambda - mu` of `matrix`: the singular values of `Uk` minus the values of
the quadratic form of `fooR = H * Pk * Hᵀ + R` on the columns of the factor `u`. -/
def matrixLambdaMinusMu {n : Nat} (L : NumericLib α) (c : AdaptiveAttitudeCov α)
    (xk : Fin n → α) (Pk : Matrix (Fin n) (Fin n) α) (z : Fin 3 → α)
    (H : Matrix (Fin 3) (Fin n) α) (R : Matrix (Fin 3) (Fin 3) α) : Fin 3 → α :=
  let Uk := matrixUk c xk z H
  let fooR := H * Pk * Hᵀ + R
  let lambda := L.svdSingularValues Uk
  let u := L.svdMatrixU Uk
  let mu : Fin 3 → α := fun i => (fun j => u j i) ᵥ* fooR ⬝ᵥ (fun j => u j i)
  lambda - mu

/-- The outcome of the test `(lambda - mu).maxCoeff() > gamma` of `matrix`. -/
def matrixDetected {n : Nat} (L : NumericLib α) (c : AdaptiveAttitudeCov α)
    (xk : Fin n → α) (Pk : Matrix (Fin n) (Fin n) α) (z : Fin 3 → α)
    (H : Matrix (Fin 3) (Fin n) α) (R : Matrix (Fin 3) (Fin 3) α) : Bool :=
  let d := matrixLambdaMinusMu L c xk Pk z H R
  decide (max (max (d 0) (d 1)) (d 2) > c.gamma)

/-- The member function `AdaptiveAttitudeCov::matrix`: the returned `Qstar` and the object
after the call.  The counter `r2count` is an `unsigned int`, so `r2count ++` wraps at
`2 ^ 32`. -/
def matrix {n : Nat} (L : NumericLib α) (c : AdaptiveAttitudeCov α)
    (xk : Fin n → α) (Pk : Matrix (Fin n) (Fin n) α) (z : Fin 3 → α)
    (H : Matrix (Fin 3) (Fin n) α) (R : Matrix (Fin 3) (Fin 3) α) :
    Matrix (Fin 3) (Fin 3) α × AdaptiveAttitudeCov α :=
  let RHist := matrixRHist c xk z H
  let r1count := (c.r1count + 1) % c.m1
  let d := matrixLambdaMinusMu L c xk Pk z H R
  let u := L.svdMatrixU (matrixUk c xk z H)
  if matrixDetected L c xk Pk z H R then
    let r2count := 0
    let auxvector : Fin 3 → α := fun i => max (d i) 0
    (Sckf.inflation auxvector u,
      { c with RHist := RHist, r1count := r1count, r2count := r2count })
  else
    let r2count := (c.r2count + 1) % 2 ^ 32
    if r2count < c.m2 then
      let auxvector : Fin 3 → α := fun i => max (d i) 0
      (Sckf.inflation auxvector u,
        { c with RHist := RHist, r1count := r1count, r2count := r2count })
    else
      (0, { c with RHist := RHist, r1count := r1count, r2count := r2count })

/-- The arguments of one call of `matrix` for a state of dimension `n`. -/
structure Args (α : Type) (n : Nat) where
  xk : Fin n → α
  Pk : Matrix (Fin n) (Fin n) α
  z : Fin 3 → α
  H : Matrix (Fin 3) (Fin n) α
  R : Matrix (Fin 3) (Fin 3) α

/-- The outer product `R1a = (z - H * xk) * (z - H * xk)ᵀ` of the residual of a call. -/
def Args.residualOuter {n : Nat} (a : Args α n) : Matrix (Fin 3) (Fin 3) α :=
  vecMulVec (a.z - a.H *ᵥ a.xk) (a.z - a.H *ᵥ a.xk)

/-- The object after consecutive calls of `matrix`, the first call first. -/
def after {n : Nat} (L : NumericLib α) (c : AdaptiveAttitudeCov α) :
    List (Args α n) → AdaptiveAttitudeCov α
  | [] => c
  | a :: rest => after L (matrix L c a.xk a.Pk a.z a.H a.R).2 rest

/-- Every call of the sequence is quiet when it is made: its test `max(lambda - mu) > gamma`
is false. -/
def allQuiet {n : Nat} (L : NumericLib α) (c : AdaptiveAttitudeCov α) :
    List (Args α n) → Bool
  | [] => true
  | a :: rest =>
    !(matrixDetected L c a.xk a.Pk a.z a.H a.R)
      && allQuiet L (matrix L c a.xk a.Pk a.z a.H a.R).2 rest

end AdaptiveAttitudeCov

/-! ## Concrete states and capabilities for evaluating the manifold filter -/

/-- Modelled from the spec: the manifold capabilities of the single state, which are those
of `State.hpp` and `MtkWrap.hpp` in the library, read on the flat vector of the state: the
serialisation is `getVectorizedSingleState`, `set` reads the five members back from the
vector (keeping the scalar part of the quaternion), the displacement and the difference are
those of the flat vectors. -/
def flatOps : ManifoldOps α (Fin 15) (SingleState α) where
  getVectorizedState := getVectorizedSingleState
  set st v :=
    { pos := segment 3 v 0
      vel := segment 3 v 3
      orient := ⟨st.orient.w, v 6, v 7, v 8⟩
      gbias := segment 3 v 9
      abias := segment 3 v 12 }
  boxplus st delta :=
    let v := getVectorizedSingleState st + delta
    { pos := segment 3 v 0
      vel := segment 3 v 3
      orient := ⟨st.orient.w, v 6, v 7, v 8⟩
      gbias := segment 3 v 9
      abias := segment 3 v 12 }
  boxminus a b := getVectorizedSingleState a - getVectorizedSingleState b

/-- The single state of the epoch slot `e` of an augmented state. -/
def AugmentedState.slot {S : Type} (x : AugmentedState S) : Epoch → S
  | Epoch.statek => x.statek
  | Epoch.statek_l => x.statek_l
  | Epoch.statek_i => x.statek_i

/-- Modelled from the spec: the manifold capabilities of the augmented state, the
composition of three epoch slots: each capability of `State.hpp` acts on the three slots
with the capability of the single state, on the part of the flat vector of that slot. -/
def augmentedOps {n : Nat} {S : Type} (ops : ManifoldOps α (Fin n) S) :
    ManifoldOps α (Epoch × Fin n) (AugmentedState S) where
  getVectorizedState x := fun p => ops.getVectorizedState (x.slot p.1) p.2
  set x v :=
    { statek := ops.set x.statek (fun i => v (Epoch.statek, i))
      statek_l := ops.set x.statek_l (fun i => v (Epoch.statek_l, i))
      statek_i := ops.set x.statek_i (fun i => v (Epoch.statek_i, i)) }
  boxplus x delta :=
    { statek := ops.boxplus x.statek (fun i => delta (Epoch.statek, i))
      statek_l := ops.boxplus x.statek_l (fun i => delta (Epoch.statek_l, i))
      statek_i := ops.boxplus x.statek_i (fun i => delta (Epoch.statek_i, i)) }
  boxminus x y := fun p => ops.boxminus (x.slot p.1) (y.slot p.1) p.2

/-- The quaternion `q.conjugate()`, the inverse of a unit quaternion. -/
def Quat.conj (q : Quat α) : Quat α := ⟨q.w, -q.x, -q.y, -q.z⟩

/-- Modelled from the spec: the exponential and the logarithm of the orientation group, the
two maps with which the manifold library behind `MtkWrap.hpp` and `State.hpp` (both absent
from the sources) generalises the addition and the subtraction of vectors to orientations. -/
structure RotationChart (α : Type) where
  exp : (Fin 3 → α) → Quat α
  log : Quat α → (Fin 3 → α)

/-- Modelled from the spec: the manifold capabilities of the wrapped single state of
`MtkWrap.hpp` and `State.hpp` (absent from the sources), a tuple of position, velocity,
orientation, gyroscope bias and accelerometer bias.  The displacement `x + delta` adds the
parts of `delta` to the vector members and composes the orientation with the exponential of
its part; the difference `y - x` subtracts the vector members and takes the logarithm of the
rotation from `x` to `y`; the serialisation and `set` are those of `flatOps`. -/
def manifoldOps (chart : RotationChart α) : ManifoldOps α (Fin 15) (SingleState α) where
  getVectorizedState := getVectorizedSingleState
  set := flatOps.set
  boxplus x delta :=
    { pos := x.pos + segment 3 delta 0
      vel := x.vel + segment 3 delta 3
      orient := Quat.mul x.orient (chart.exp (segment 3 delta 6))
      gbias := x.gbias + segment 3 delta 9
      abias := x.abias + segment 3 delta 12 }
  boxminus y x :=
    let l := chart.log (Quat.mul (Quat.conj x.orient) y.orient)
    getVectorizedSingleState
      { pos := y.pos - x.pos
        vel := y.vel - x.vel
        orient := ⟨0, l 0, l 1, l 2⟩
        gbias := y.gbias - x.gbias
        abias := y.abias - x.abias }

/-- A chart of the orientation group on the rationals: the logarithm is the vector part
divided by `1 + w` and the exponential of `v` is `(1 - |v|², 2 v) / (1 + |v|²)`, inverse to
each other on the unit quaternions with `w ≠ -1`. -/
def cayleyChart : RotationChart ℚ where
  exp v :=
    let n := v ⬝ᵥ v
    ⟨(1 - n) / (1 + n), 2 * v 0 / (1 + n), 2 * v 1 / (1 + n), 2 * v 2 / (1 + n)⟩
  log q := fun i => (![q.x, q.y, q.z] : Fin 3 → ℚ) i / (1 + q.w)

/-- The single state at the origin: zero vectors and the identity orientation. -/
def SingleState.origin : SingleState α :=
  { pos := 0, vel := 0, orient := Quat.identity, gbias := 0, abias := 0 }

/-- The filter whose nominal and error states are at the origin in the three epochs, with
the covariance `P`. -/
def Usckf.atOrigin (P : Matrix (Epoch × Fin 15) (Epoch × Fin 15) α) :
    Usckf α 15 (SingleState α) where
  mu_state := ⟨SingleState.origin, SingleState.origin, SingleState.origin⟩
  mu_error := ⟨SingleState.origin, SingleState.origin, SingleState.origin⟩
  Pk_error := P

/-- The filter at the origin with the covariance `P`, except that the error state of the
active epoch is `e`. -/
def Usckf.atOriginWithError (P : Matrix (Epoch × Fin 15) (Epoch × Fin 15) α)
    (e : SingleState α) : Usckf α 15 (SingleState α) where
  mu_state := ⟨SingleState.origin, SingleState.origin, SingleState.origin⟩
  mu_error := ⟨SingleState.origin, SingleState.origin, e⟩
  Pk_error := P

/-- The single state at the origin displaced to the position `p`. -/
def SingleState.atPosition (p : Fin 3 → α) : SingleState α :=
  { pos := p, vel := 0, orient := Quat.identity, gbias := 0, abias := 0 }

/-- A numerical library on the rationals: the square root is exact at 0 and 1, the sine and
the cosine are exact at 0, the Euler angles and the singular value decomposition are those of
the identity rotation and of the zero matrix. -/
def ratLib : NumericLib ℚ where
  sqrt := fun x => x
  sin := fun _ => 0
  cos := fun _ => 1
  eulerAngles := fun _ _ _ _ => 0
  svdSingularValues := fun _ => 0
  svdMatrixU := fun _ => 1

/-- A measurement matrix that observes the velocity of the active epoch of the augmented
state: three rows with a one at the velocity components of `statek_i`. -/
def velocityRows : Matrix (Fin 3) (Epoch × Fin 15) α :=
  fun i p => if p = (Epoch.statek_i, (⟨i.val + 3, by have := i.isLt; omega⟩ : Fin 15)) then 1 else 0

/-- A measurement matrix that observes the velocity of a single state: three rows with a one
at the velocity components, as in the block `H.block<3,3>(0,3).setIdentity()` of
`proprioceptiveMeasurementMatrix`. -/
def velocityRowsSingle : Matrix (Fin 3) (Fin 15) α :=
  fun i j => if j = (⟨i.val + 3, by have := i.isLt; omega⟩ : Fin 15) then 1 else 0

/-- A numerical library on the rationals whose singular value decomposition is the one of a
diagonal matrix with non-negative entries in descending order: the singular values are the
diagonal entries and the factor `u` is the identity. -/
def diagLib : NumericLib ℚ where
  sqrt := fun x => x
  sin := fun _ => 0
  cos := fun _ => 1
  eulerAngles := fun _ _ _ _ => 0
  svdSingularValues := fun A i => A i i
  svdMatrixU := fun _ => 1

/-- A filter at the identity attitude after `Init` with zero initial covariance, unit noise
matrices `Qbg`, `Qba` and `Ra`, the gyroscope noise `Rg = 1 / 100` and zero gravity. -/
def Sckf.unitNoiseAtIdentity : Sckf ℚ 1 :=
  ((Sckf.blank Quat.identity : Sckf ℚ 1).Init ratLib 0 ((1 / 100 : ℚ) • 1) 1 1 1 0 0 0 0
    0).setAttitude Quat.identity

/-- A filter at the identity attitude after `Init` with unit initial covariance, zero noise
matrices and gravity 9.81. -/
def Sckf.noiseFreeAtIdentity : Sckf ℚ 1 :=
  ((Sckf.blank Quat.identity : Sckf ℚ 1).Init ratLib 1 0 0 0 0 0 0 9.81 0 0).setAttitude
    Quat.identity

/-- A numerical library on the rationals that satisfies `cos² + sin² = 1`: the sine and the
cosine are exact at 0 and take the values 3/5 and 4/5 elsewhere; the first Euler angle is
the entry `(1, 0)` of the matrix, which vanishes exactly when the ZYX yaw `atan2(m10, m00)`
of a matrix with `m00 > 0` does, and the two other angles are 1. -/
def pythagoreanLib : NumericLib ℚ where
  sqrt := fun x => x
  sin := fun a => if a = 0 then 0 else 3 / 5
  cos := fun a => if a = 0 then 1 else 4 / 5
  eulerAngles := fun m _ _ _ k => if k = 0 then m 1 0 else 1
  svdSingularValues := fun _ => 0
  svdMatrixU := fun _ => 1

/-- A filter whose attitude is the product of the angle-axis rotations about Z, Y and X that
`pythagoreanLib` builds for the angles `168 / 625`, `1` and `1`; the entry `(1, 0)` of its
matrix is `168 / 625`, so these are the angles that the library extracts from it. -/
def Sckf.tiltedAttitude : Sckf ℚ 1 :=
  Sckf.blank
    (Quat.mul (Quat.mul (Quat.ofAngleAxis pythagoreanLib (168 / 625) unitZ)
      (Quat.ofAngleAxis pythagoreanLib 1 unitY)) (Quat.ofAngleAxis pythagoreanLib 1 unitX))

/-- A numerical library on the rationals whose square root is the constant 1: every norm it
computes exceeds the tolerance of the manifold mean. -/
def stalledLib : NumericLib ℚ where
  sqrt := fun _ => 1
  sin := fun _ => 0
  cos := fun _ => 1
  eulerAngles := fun _ _ _ _ => 0
  svdSingularValues := fun _ => 0
  svdMatrixU := fun _ => 1

/-- A numerical library on the rationals with the small-angle functions `sin a = a` and
`cos a = 1`, the Euler angles `(m10, -m20, m21)` that a rotation matrix close to the identity
has to first order, the identity as square root and the decomposition of the zero matrix. -/
def smallAngleLib : NumericLib ℚ where
  sqrt := fun x => x
  sin := fun a => a
  cos := fun _ => 1
  eulerAngles := fun m _ _ _ => ![m 1 0, -(m 2 0), m 2 1]
  svdSingularValues := fun _ => 0
  svdMatrixU := fun _ => 1

/-- A filter at the identity attitude after `Init` with gravity `1 / 2`, an initial covariance
that has the single non-zero entry 1 at the first attitude error, the accelerometer noise
`diag(2, 1, 2)` and all other noise matrices zero; its error state is zero. -/
def Sckf.attitudeErrorExample : Sckf ℚ 1 :=
  ((Sckf.blank Quat.identity : Sckf ℚ 1).Init smallAngleLib
    (vecMulVec (Pi.single 6 1) (Pi.single 6 1)) 0 0 0 (Matrix.diagonal ![2, 1, 2]) 0 0 (1 / 2) 0
    0).setAttitude Quat.identity

/-- A symmetric positive-definite matrix: equal to its transpose, with a quadratic form that
is positive on every non-zero vector.  This is the property that `isSPD()` of the Cholesky
factorisation and `assert(L.isSPD())` of the augmented sigma-point generator test. -/
def IsSPD {ι : Type} [Fintype ι] (A : Matrix ι ι α) : Prop :=
  Aᵀ = A ∧ ∀ v : ι → α, v ≠ 0 → 0 < v ⬝ᵥ A *ᵥ v

/-- The stacked vector over the three epochs with `v` on the `statek` part, `-v` on the
`statek_l` part and zero on the `statek_i` part. -/
def cloneDifference {n : Nat} (v : Fin n → α) : Epoch × Fin n → α :=
  fun p =>
    match p.1 with
    | Epoch.statek => v p.2
    | Epoch.statek_l => -v p.2
    | Epoch.statek_i => 0

/-- The transition of the three-epoch augmented state as the specification words it:
block-diagonal, with `F` on the `statek_i` block and the identity on the `statek` and
`statek_l` blocks. -/
def augmentedTransitionOfSpec {n : Nat} (F : Matrix (Fin n) (Fin n) α) :
    Matrix (Epoch × Fin n) (Epoch × Fin n) α :=
  fun x y =>
    if x.1 = y.1 then
      if x.1 = Epoch.statek_i then F x.2 y.2 else (1 : Matrix (Fin n) (Fin n) α) x.2 y.2
    else 0

/-- The process noise of the three-epoch augmented state as the specification words it: `Q`
on the `(statek_i, statek_i)` block and zero elsewhere. -/
def augmentedNoiseOfSpec {n : Nat} (Q : Matrix (Fin n) (Fin n) α) :
    Matrix (Epoch × Fin n) (Epoch × Fin n) α :=
  fun x y => if x.1 = Epoch.statek_i ∧ y.1 = Epoch.statek_i then Q x.2 y.2 else 0

/-! ## The data model of `DataModel.cpp` -/

/-- The public members of `DataModel`: the dynamic column `data` with its number of rows and
the dynamic matrix `Cov` with its numbers of rows and columns. -/
structure DataModel (α : Type) where
  size : Nat
  data : Fin size → α
  covRows : Nat
  covCols : Nat
  Cov : Matrix (Fin covRows) (Fin covCols) α

namespace DataModel

/-- The value `Cov.size()`, the number of coefficients of the covariance. -/
def covSize (d : DataModel α) : Nat := d.covRows * d.covCols

/-- A data model with a vector of `d` rows and a `d x d` covariance, as the constructor
`DataModel(data, Cov)` builds it from such arguments. -/
def square (d : Nat) (data : Fin d → α) (Cov : Matrix (Fin d) (Fin d) α) : DataModel α :=
  ⟨d, data, d, d, Cov⟩

/-- The member function `DataModel::operator+`, with `data2` the object itself and `data1`
the argument, as the source names them.  The Eigen expressions of the fusion branch are
defined when both covariances are square of the same dimension and both vectors have that
many rows; for other shapes Eigen fails an assertion and there is no result. -/
def add (data2 data1 : DataModel α) : Option (DataModel α) :=
  if data1.covSize ≠ 0 ∧ data2.covSize ≠ 0 ∧ data1.covSize = data2.covSize then
    if h : data1.covCols = data1.covRows ∧ data2.covRows = data1.covRows
        ∧ data2.covCols = data1.covRows ∧ data1.size = data1.covRows
        ∧ data2.size = data1.covRows then
      let C1 : Matrix (Fin data1.covRows) (Fin data1.covRows) α :=
        fun i j => data1.Cov i (Fin.cast h.1.symm j)
      let C2 : Matrix (Fin data1.covRows) (Fin data1.covRows) α :=
        fun i j => data2.Cov (Fin.cast h.2.1.symm i) (Fin.cast h.2.2.1.symm j)
      let d1 : Fin data1.covRows → α := fun i => data1.data (Fin.cast h.2.2.2.1.symm i)
      let d2 : Fin data1.covRows → α := fun i => data2.data (Fin.cast h.2.2.2.2.symm i)
      let P := inverse (inverse C1 + inverse C2)
      let result := P *ᵥ (inverse C1 *ᵥ d1 + inverse C2 *ᵥ d2)
      some (square data1.covRows result P)
    else none
  else some data1

end DataModel

namespace Sckf

variable {M1 : Nat}

/-- The member function `Sckf::setGravity`. -/
def setGravity (s : Sckf α M1) (g : α) : Sckf α M1 :=
  { s with gtilde := ![0, 0, g] }

/-- The member function `Sckf::setStatex`: the argument is resized to the 15 rows of the
state before it is stored. -/
def setStatex (s : Sckf α M1) (x_0 : Fin 15 → α) : Sckf α M1 :=
  { s with xki_k := x_0 }

/-- The continuous error-state matrix as the specification words it, in the block order
position, velocity, attitude, gyroscope bias, accelerometer bias: the identity at
(position, velocity), `-C⁻¹ [f_c]×` at (velocity, attitude), `-C⁻¹` at (velocity,
accelerometer bias), `-[ω_c]×` at (attitude, attitude), `-0.5 I` at (attitude, gyroscope
bias) and zero everywhere else. -/
def systemMatrixOfSpec (C : Matrix (Fin 3) (Fin 3) α) (f_c omega_c : Fin 3 → α) :
    Matrix (Fin 15) (Fin 15) α :=
  let F0 : Matrix (Fin 15) (Fin 15) α := 0
  let F1 := setBlock F0 0 3 (1 : Matrix (Fin 3) (Fin 3) α)
  let F2 := setBlock F1 3 6 (-(inverse C) * crossProductMatrix f_c)
  let F3 := setBlock F2 3 12 (-(inverse C))
  let F4 := setBlock F3 6 6 (-crossProductMatrix omega_c)
  setBlock F4 6 9 ((-0.5 : α) • (1 : Matrix (Fin 3) (Fin 3) α))

/-- The members `A` and `Fki` hold what `Init` and `predict` leave in them: outside its
block `(0, 0)`, which `predict` writes, `A` has `-0.5` at `(0, 3)`, `(1, 4)`, `(2, 5)` and zero
elsewhere, and `Fki` is zero outside the four blocks that `predict` writes. -/
def SystemShape (s : Sckf α M1) : Prop :=
  (∀ i j : Fin 9, ¬ (i.val < 3 ∧ j.val < 3) →
      s.A i j = if i.val < 3 ∧ j.val = i.val + 3 then (-0.5 : α) else 0)
  ∧ (∀ i j : Fin 15,
      ¬ ((i.val < 3 ∧ 3 ≤ j.val ∧ j.val < 6) ∨ (3 ≤ i.val ∧ i.val < 6 ∧ 6 ≤ j.val ∧ j.val < 9)
        ∨ (3 ≤ i.val ∧ i.val < 6 ∧ 12 ≤ j.val) ∨ (6 ≤ i.val ∧ 6 ≤ j.val)) →
      s.Fki i j = 0)

/-- A state that the embedded member functions reach after `Init`.  The member function
`measurementGeneration`, which is not embedded, writes only the external measurement object. -/
inductive Reachable (L : NumericLib α) : Sckf α M1 → Prop where
  | Init (s : Sckf α M1) (P_0 : Matrix (Fin 15) (Fin 15) α)
      (Rg Qbg Qba Ra Rat Rm : Matrix (Fin 3) (Fin 3) α) (g alpha : α) (R2COUNT : Nat) :
      Reachable L (s.Init L P_0 Rg Qbg Qba Ra Rat Rm g alpha R2COUNT)
  | setAttitude (s : Sckf α M1) (initq : Quat α) :
      Reachable L s → Reachable L (s.setAttitude initq)
  | setGravity (s : Sckf α M1) (g : α) : Reachable L s → Reachable L (s.setGravity g)
  | setOmega (s : Sckf α M1) (u : Fin 3 → α) : Reachable L s → Reachable L (s.setOmega u)
  | setStatex (s : Sckf α M1) (x_0 : Fin 15 → α) : Reachable L s → Reachable L (s.setStatex x_0)
  | setHeading (s : Sckf α M1) (yaw : α) : Reachable L s → Reachable L (s.setHeading L yaw)
  | resetStateVector (s : Sckf α M1) : Reachable L s → Reachable L s.resetStateVector
  | predict (s : Sckf α M1) (u v : Fin 3 → α) (dt : α) :
      Reachable L s → Reachable L (s.predict L u v dt)
  | update {sl : Nat} (s : Sckf α M1) (M2 : Nat) (GAMMA : α) (auxvector0 : Fin 3 → α)
      (Hme : Matrix (Fin 3) (Fin sl) α) (Rme : Matrix (Fin sl) (Fin sl) α)
      (slip_error : Fin sl → α) (acc mag : Fin 3 → α) (dt : α) (magn_on_off : Bool) :
      Reachable L s →
      Reachable L (s.update L M2 GAMMA auxvector0 Hme Rme slip_error acc mag dt magn_on_off)

end Sckf

/-- The manifold capabilities of a Euclidean state, a vector of the flat space: the
displacement `x + delta` and the difference `x - y` are those of vectors, the state is its own
flat vector and `set` stores the vector. -/
def vectorOps (ι : Type) : ManifoldOps α ι (ι → α) where
  boxplus x delta := x + delta
  boxminus x y := x - y
  getVectorizedState x := x
  set _ v := v

/-- The member function `Usckf::checkSigmaPoints`, which changes nothing: the result tells
whether every assertion on its way holds, that of the augmented sigma-point generator, that
of the manifold mean, the bound `1e-6` on the largest absolute difference between the
covariance of the sigma points and `Pk_error`, and `mu_error == muX`.  The comparison
`eq` is the `operator==` of the state type. -/
def Usckf.checkSigmaPoints {n : Nat} {S : Type} (L : NumericLib α)
    (opsA : ManifoldOps α (Epoch × Fin n) (AugmentedState S))
    (chol : Matrix (Epoch × Fin n) (Epoch × Fin n) α →
      Option (Matrix (Epoch × Fin n) (Epoch × Fin n) α))
    (eq : AugmentedState S → AugmentedState S → Bool) (s : Usckf α n S) : Bool :=
  match Usckf.generateSigmaPoints opsA chol s.mu_error s.Pk_error with
  | none => false
  | some X =>
    match Usckf.meanSigmaPoints L opsA X with
    | none => false
    | some muX =>
      let Pk_errortest := Usckf.covSigmaPoints opsA muX X
      if ∃ i j, |(Pk_errortest - s.Pk_error) i j| > 1e-6 then false
      else eq s.mu_error muX

/-- The local `Fk = Pxy.transpose() * Pk.inverse()` of the unscented `Usckf::predict`, the
transition recovered from the cross-covariance of the sigma points before and after the
process model; absent when the manifold mean fails its assertion. -/
def Usckf.predictFk {n : Nat} {S : Type} (L : NumericLib α) (ops : ManifoldOps α (Fin n) S)
    (llt : Matrix (Fin n) (Fin n) α → Matrix (Fin n) (Fin n) α)
    (s : Usckf α n S) (f : S → S) : Option (Matrix (Fin n) (Fin n) α) :=
  let statek_i := s.mu_error.statek_i
  let Pk := subblock s.Pk_error Epoch.statek_i Epoch.statek_i
  let XCopy := Usckf.generateSigmaPointsSingle ops llt statek_i Pk
  let X := XCopy.map f
  match Usckf.meanSigmaPoints L ops X with
  | none => none
  | some mean =>
    let Pxy := Usckf.crossCovSigmaPoints ops ops statek_i mean XCopy X
    some (Pxyᵀ * inverse Pk)

/-- A filter on the Euclidean plane whose active-epoch error mean is `(1, 2)` and whose
covariance has `4 I` as block of the active epoch and zero elsewhere. -/
def Usckf.planeExample : Usckf ℚ 2 (Fin 2 → ℚ) where
  mu_state := ⟨0, 0, 0⟩
  mu_error := ⟨0, 0, ![1, 2]⟩
  Pk_error := setSubblock 0 Epoch.statek_i Epoch.statek_i ((4 : ℚ) • 1)

/-- A filter after `Init` with zero initial covariance, the accelerometer noise `Ra = 1`,
every other noise matrix zero and zero gravity, then set to the unit attitude
`(3/5, 0, 0, 4/5)`, a turn about the vertical axis. -/
def Sckf.turnedAboutVertical : Sckf ℚ 1 :=
  ((Sckf.blank Quat.identity : Sckf ℚ 1).Init ratLib 0 0 0 0 1 0 0 0 0 0).setAttitude
    ⟨3 / 5, 0, 0, 4 / 5⟩

/-- A filter at the identity attitude after `Init` with the accelerometer noise `Ra = 1`,
every other noise matrix zero, zero gravity and an initial covariance that is not symmetric:
its only non-zero entry is the one of row 0, column 1. -/
def Sckf.lopsidedCovariance : Sckf ℚ 1 :=
  ((Sckf.blank Quat.identity : Sckf ℚ 1).Init ratLib (Matrix.stdBasisMatrix 0 1 1) 0 0 0 1 0 0
    0 0 0).setAttitude Quat.identity

/-- A filter after `Init` with unit initial covariance, the gyroscope noise `Rg = 1`, every
other noise matrix zero and zero gravity, then set to the unit attitude `(3/5, 0, 0, 4/5)`,
a turn about the vertical axis. -/
def Sckf.gyroNoiseTurned : Sckf ℚ 1 :=
  ((Sckf.blank Quat.identity : Sckf ℚ 1).Init ratLib 1 1 0 0 0 0 0 0 0 0).setAttitude
    ⟨3 / 5, 0, 0, 4 / 5⟩

/-! ## Properties of the embedded filters -/

section Properties

variable {M1 : Nat}

/-! ### The orientation quaternion of the indirect filter (C1) -/

theorem omegaMatrix_transpose (u : Fin 3 → α) : (omegaMatrix u)ᵀ = -omegaMatrix u := by
  ext i j
  fin_cases i <;> fin_cases j <;> simp [omegaMatrix]

theorem dotProduct_skew_mulVec {k : Nat} (T : Matrix (Fin k) (Fin k) α) (hT : Tᵀ = -T)
    (v : Fin k → α) : v ⬝ᵥ T *ᵥ v = 0 := by
  have h1 : v ⬝ᵥ T *ᵥ v = (Tᵀ *ᵥ v) ⬝ᵥ v := by
    rw [Matrix.dotProduct_mulVec, ← Matrix.mulVec_transpose]  
  have h2 : (Tᵀ *ᵥ v) ⬝ᵥ v = -(v ⬝ᵥ T *ᵥ v) := by
    rw [hT, Matrix.neg_mulVec, Matrix.neg_dotProduct, Matrix.dotProduct_comm]
  have h3 : v ⬝ᵥ T *ᵥ v = -(v ⬝ᵥ T *ᵥ v) := h1.trans h2
  linarith

theorem dotProduct_self_nonneg_field {k : Nat} (v : Fin k → α) : 0 ≤ v ⬝ᵥ v :=
  Finset.sum_nonneg (fun i _ => mul_self_nonneg (v i))

theorem integrationMatrix_eq (angvelo : Fin 3 → α) (omega4 oldomega4 : Matrix (Fin 4) (Fin 4) α)
    (dt : α) :
    Sckf.integrationMatrix angvelo omega4 oldomega4 dt
      = 1 + ((0.75 * dt) • omega4 - (0.25 * dt) • oldomega4) := by
  have h6 : (((1 : Int) / 6 : Int) : α) = 0 := by norm_num
  have h24 : (((1 : Int) / 24 : Int) : α) = 0 := by norm_num
  have h48 : (((1 : Int) / 48 : Int) : α) = 0 := by norm_num
  unfold Sckf.integrationMatrix
  rw [h6, h24, h48]
  simp [add_sub_assoc]

theorem Quat.squaredNorm_nonneg (q : Quat α) : 0 ≤ q.squaredNorm := by
  unfold Quat.squaredNorm
  nlinarith [mul_self_nonneg q.w, mul_self_nonneg q.x, mul_self_nonneg q.y, mul_self_nonneg q.z]

theorem Quat.squaredNorm_pos_iff (q : Quat α) : 0 < q.squaredNorm ↔ q ≠ Quat.zero := by
  constructor
  · intro h hq
    rw [hq] at h
    simp [Quat.squaredNorm, Quat.zero] at h
  · intro h
    rcases lt_or_eq_of_le (Quat.squaredNorm_nonneg q) with hlt | heq
    · exact hlt
    · exfalso
      apply h
      unfold Quat.squaredNorm at heq
      have hw : q.w = 0 := by
        nlinarith [mul_self_nonneg q.w, mul_self_nonneg q.x, mul_self_nonneg q.y,
          mul_self_nonneg q.z]
      have hx : q.x = 0 := by
        nlinarith [mul_self_nonneg q.w, mul_self_nonneg q.x, mul_self_nonneg q.y,
          mul_self_nonneg q.z]
      have hy : q.y = 0 := by
        nlinarith [mul_self_nonneg q.w, mul_self_nonneg q.x, mul_self_nonneg q.y,
          mul_self_nonneg q.z]
      have hz : q.z = 0 := by
        nlinarith [mul_self_nonneg q.w, mul_self_nonneg q.x, mul_self_nonneg q.y,
          mul_self_nonneg q.z]
      cases q
      simp only [Quat.zero, Quat.mk.injEq]
      exact ⟨hw, hx, hy, hz⟩

theorem Quat.squaredNorm_mul (a b : Quat α) :
    (Quat.mul a b).squaredNorm = a.squaredNorm * b.squaredNorm := by
  simp only [Quat.squaredNorm, Quat.mul]
  ring

theorem Quat.squaredNorm_ofVec (v : Fin 4 → α) : (Quat.ofVec v).squaredNorm = v ⬝ᵥ v := by
  simp [Quat.squaredNorm, Quat.ofVec, Matrix.dotProduct, Fin.sum_univ_four]

theorem Quat.toVec_dotProduct (q : Quat α) : q.toVec ⬝ᵥ q.toVec = q.squaredNorm := by
  simp [Quat.squaredNorm, Quat.toVec, Matrix.dotProduct, Fin.sum_univ_four]

/-- Normalising a non-zero quaternion gives norm one, for a square root that is the
non-negative root on non-negative arguments. -/
theorem Quat.norm_normalize (L : NumericLib α)
    (hsqrt : ∀ x : α, 0 ≤ x → 0 ≤ L.sqrt x ∧ L.sqrt x * L.sqrt x = x)
    (q : Quat α) (hq : 0 < q.squaredNorm) :
    (Quat.normalize L q).squaredNorm = 1 ∧ Quat.norm L (Quat.normalize L q) = 1 := by
  obtain ⟨h0, h1⟩ := hsqrt q.squaredNorm hq.le
  have hne : L.sqrt q.squaredNorm ≠ 0 := by
    intro h
    rw [h] at h1
    simp at h1
    exact (ne_of_gt hq) h1.symm
  have key : ∀ r : α, r * r = q.squaredNorm →
      (⟨q.w / r, q.x / r, q.y / r, q.z / r⟩ : Quat α).squaredNorm = 1 := by
    intro r hr
    have hr0 : r ≠ 0 := by
      intro h
      rw [h] at hr
      simp at hr
      exact (ne_of_gt hq) hr.symm
    simp only [Quat.squaredNorm] at hr ⊢
    field_simp
    linarith
  have hsq : (Quat.normalize L q).squaredNorm = 1 := key _ h1
  refine ⟨hsq, ?_⟩
  unfold Quat.norm
  rw [hsq]
  obtain ⟨g0, g1⟩ := hsqrt 1 zero_le_one
  nlinarith


theorem Quat.squaredNorm_ofAngleAxis_unit (L : NumericLib α)
    (htrig : ∀ a : α, L.cos a * L.cos a + L.sin a * L.sin a = 1) (a : α) :
    (Quat.ofAngleAxis L a unitX).squaredNorm = 1
    ∧ (Quat.ofAngleAxis L a unitY).squaredNorm = 1
    ∧ (Quat.ofAngleAxis L a unitZ).squaredNorm = 1 := by
  have h := htrig (a / 2)
  refine ⟨?_, ?_, ?_⟩ <;>
    simp [Quat.ofAngleAxis, Quat.squaredNorm, unitX, unitY, unitZ] <;> linarith

theorem Sckf.squaredNorm_updateQuat (L : NumericLib α)
    (htrig : ∀ a : α, L.cos a * L.cos a + L.sin a * L.sin a = 1) (s : Sckf α M1) :
    (s.updateQuat L).squaredNorm = s.q4.squaredNorm := by
  unfold Sckf.updateQuat Sckf.updateErrorQuat
  simp only [Quat.squaredNorm_mul]
  rw [(Quat.squaredNorm_ofAngleAxis_unit L htrig _).1,
    (Quat.squaredNorm_ofAngleAxis_unit L htrig _).2.1,
    (Quat.squaredNorm_ofAngleAxis_unit L htrig _).2.2]
  ring

theorem Sckf.squaredNorm_predictQuat_ge (s : Sckf α M1) (hskew : s.oldomega4ᵀ = -s.oldomega4)
    (u : Fin 3 → α) (dt : α) :
    s.q4.squaredNorm ≤ (Quat.ofVec (s.predictQuat u dt)).squaredNorm := by
  rw [Quat.squaredNorm_ofVec, ← Quat.toVec_dotProduct]
  unfold Sckf.predictQuat
  simp only [integrationMatrix_eq]
  set T : Matrix (Fin 4) (Fin 4) α :=
    (0.75 * dt) • omegaMatrix (u - s.bghat) - (0.25 * dt) • s.oldomega4 with hT
  have hTskew : Tᵀ = -T := by
    rw [hT, Matrix.transpose_sub, Matrix.transpose_smul, Matrix.transpose_smul,
      omegaMatrix_transpose, hskew]
    simp
    abel
  have h0 := dotProduct_skew_mulVec T hTskew s.q4.toVec
  have h1 : (1 + T) *ᵥ s.q4.toVec = s.q4.toVec + T *ᵥ s.q4.toVec := by
    rw [Matrix.add_mulVec, Matrix.one_mulVec]
  rw [h1]
  simp only [Matrix.dotProduct_add, Matrix.add_dotProduct]
  rw [Matrix.dotProduct_comm (T *ᵥ s.q4.toVec) s.q4.toVec, h0]
  have := dotProduct_self_nonneg_field (T *ᵥ s.q4.toVec)
  linarith

/-- Claim C1: in exact arithmetic, for a filter whose quaternion is not zero and whose retained
previous-Omega matrix is skew-symmetric, the quaternion that `predict` normalises is not the
zero quaternion and the orientation has norm 1 after `predict`, for every gyroscope sample,
accelerometer sample and time step; the same holds for `update`, for every measurement.  The
retained matrix is skew-symmetric again after `predict`, is left as it is by `update`, and is
skew-symmetric after `setOmega` and after `Init`. -/
theorem C1_quaternion_has_unit_norm (L : NumericLib α)
    (hsqrt : ∀ x : α, 0 ≤ x → 0 ≤ L.sqrt x ∧ L.sqrt x * L.sqrt x = x)
    (htrig : ∀ a : α, L.cos a * L.cos a + L.sin a * L.sin a = 1)
    (s : Sckf α M1) (hq : s.q4 ≠ Quat.zero) (hskew : s.oldomega4ᵀ = -s.oldomega4) :
    (∀ (u v : Fin 3 → α) (dt : α),
        Quat.ofVec (s.predictQuat u dt) ≠ Quat.zero
        ∧ (s.predict L u v dt).q4 = Quat.normalize L (Quat.ofVec (s.predictQuat u dt))
        ∧ Quat.norm L (s.predict L u v dt).q4 = 1
        ∧ (s.predict L u v dt).oldomega4ᵀ = -(s.predict L u v dt).oldomega4)
    ∧ (∀ (sl M2 : Nat) (GAMMA : α) (auxvector0 : Fin 3 → α) (Hme : Matrix (Fin 3) (Fin sl) α)
        (Rme : Matrix (Fin sl) (Fin sl) α) (slip_error : Fin sl → α) (acc mag : Fin 3 → α)
        (dt : α) (magn_on_off : Bool),
        s.updateQuat L ≠ Quat.zero
        ∧ (s.update L M2 GAMMA auxvector0 Hme Rme slip_error acc mag dt magn_on_off).q4
            = Quat.normalize L (s.updateQuat L)
        ∧ Quat.norm L
            (s.update L M2 GAMMA auxvector0 Hme Rme slip_error acc mag dt magn_on_off).q4 = 1
        ∧ (s.update L M2 GAMMA auxvector0 Hme Rme slip_error acc mag dt magn_on_off).oldomega4
            = s.oldomega4)
    ∧ (∀ u : Fin 3 → α, (s.setOmega u).oldomega4ᵀ = -(s.setOmega u).oldomega4)
    ∧ (∀ (P_0 : Matrix (Fin 15) (Fin 15) α) (Rg Qbg Qba Ra Rat Rm : Matrix (Fin 3) (Fin 3) α)
        (g alpha : α) (R2COUNT : Nat),
        (s.Init L P_0 Rg Qbg Qba Ra Rat Rm g alpha R2COUNT).oldomega4ᵀ
          = -(s.Init L P_0 Rg Qbg Qba Ra Rat Rm g alpha R2COUNT).oldomega4) := by
  have hpos : 0 < s.q4.squaredNorm := (Quat.squaredNorm_pos_iff _).2 hq
  refine ⟨?_, ?_, ?_, ?_⟩
  · intro u v dt
    have h1 : 0 < (Quat.ofVec (s.predictQuat u dt)).squaredNorm :=
      lt_of_lt_of_le hpos (Sckf.squaredNorm_predictQuat_ge s hskew u dt)
    exact ⟨(Quat.squaredNorm_pos_iff _).1 h1, rfl, (Quat.norm_normalize L hsqrt _ h1).2,
      omegaMatrix_transpose _⟩
  · intro sl M2 GAMMA auxvector0 Hme Rme slip_error acc mag dt magn_on_off
    have h1 : 0 < (s.updateQuat L).squaredNorm := by
      rw [Sckf.squaredNorm_updateQuat L htrig]
      exact hpos
    exact ⟨(Quat.squaredNorm_pos_iff _).1 h1, rfl, (Quat.norm_normalize L hsqrt _ h1).2, rfl⟩
  · intro u
    exact omegaMatrix_transpose u
  · intro P_0 Rg Qbg Qba Ra Rat Rm g alpha R2COUNT
    show (0 : Matrix (Fin 4) (Fin 4) α)ᵀ = -0
    simp

/-- Witness of claim C1 on the real numbers, with the real square root, sine and cosine:
a prediction and an update from the identity attitude. -/
theorem C1_quaternion_has_unit_norm_witness :
    (Sckf.blank Quat.identity : Sckf ℝ 1).q4 ≠ Quat.zero
    ∧ (Sckf.blank Quat.identity : Sckf ℝ 1).oldomega4ᵀ
        = -(Sckf.blank Quat.identity : Sckf ℝ 1).oldomega4
    ∧ Quat.norm (⟨Real.sqrt, Real.sin, Real.cos, fun _ _ _ _ => 0, fun _ => 0, fun _ => 1⟩ :
        NumericLib ℝ)
      (((Sckf.blank Quat.identity : Sckf ℝ 1).predict
        ⟨Real.sqrt, Real.sin, Real.cos, fun _ _ _ _ => 0, fun _ => 0, fun _ => 1⟩
        ![1, 2, 3] ![0, 0, 9.81] 0.01).q4) = 1
    ∧ Quat.norm (⟨Real.sqrt, Real.sin, Real.cos, fun _ _ _ _ => 0, fun _ => 0, fun _ => 1⟩ :
        NumericLib ℝ)
      (((Sckf.blank Quat.identity : Sckf ℝ 1).update
        ⟨Real.sqrt, Real.sin, Real.cos, fun _ _ _ _ => 0, fun _ => 0, fun _ => 1⟩
        1 0 0 (0 : Matrix (Fin 3) (Fin 2) ℝ) 0 0 ![0, 0, 9.81] 0 0.01 false).q4) = 1 :=
  have h := C1_quaternion_has_unit_norm
    (⟨Real.sqrt, Real.sin, Real.cos, fun _ _ _ _ => 0, fun _ => 0, fun _ => 1⟩ : NumericLib ℝ)
    (fun x hx => ⟨Real.sqrt_nonneg x, Real.mul_self_sqrt hx⟩)
    (fun a => by
      have := Real.sin_sq_add_cos_sq a
      simp only [sq] at this
      linarith)
    (Sckf.blank Quat.identity : Sckf ℝ 1)
    (by simp [Sckf.blank, Quat.identity, Quat.zero])
    (by simp [Sckf.blank])
  ⟨by simp [Sckf.blank, Quat.identity, Quat.zero], by simp [Sckf.blank],
    (h.1 ![1, 2, 3] ![0, 0, 9.81] 0.01).2.2.1,
    (h.2.1 2 1 0 0 0 0 0 ![0, 0, 9.81] 0 0.01 false).2.2.1⟩

/-! ### The assignment `A = 0.5 * (A + A.transpose())` -/

theorem symmetrizeInPlace_of_isSymm {ι : Type} [StorageIndex ι] (A : Matrix ι ι α)
    (h : Aᵀ = A) : symmetrizeInPlace A = A := by
  ext i j
  have hji : A j i = A i j := congrFun (congrFun h i) j
  unfold symmetrizeInPlace
  split_ifs
  · rw [hji]
    norm_num
    ring
  · rw [hji]
    norm_num
    ring

theorem symmetrizeInPlace_zero {ι : Type} [StorageIndex ι] :
    symmetrizeInPlace (0 : Matrix ι ι α) = 0 :=
  symmetrizeInPlace_of_isSymm 0 Matrix.transpose_zero

theorem symmetrizeInPlace_apply_of_lt {n : Nat} (A : Matrix (Fin n) (Fin n) α) (i j : Fin n)
    (h : i.val < j.val) : symmetrizeInPlace A i j = 0.75 * A i j + 0.25 * A j i := by
  have h2 : StorageIndex.position i < StorageIndex.position j := h
  unfold symmetrizeInPlace
  rw [if_pos h2]
  norm_num
  ring

theorem symmetrizeInPlace_apply_of_le {n : Nat} (A : Matrix (Fin n) (Fin n) α) (i j : Fin n)
    (h : j.val ≤ i.val) : symmetrizeInPlace A i j = 0.5 * (A i j + A j i) := by
  have h2 : ¬ StorageIndex.position i < StorageIndex.position j := not_lt.mpr h
  unfold symmetrizeInPlace
  rw [if_neg h2]

theorem symmetrizeInPlace_transpose_iff {n : Nat} (A : Matrix (Fin n) (Fin n) α) :
    (symmetrizeInPlace A)ᵀ = symmetrizeInPlace A ↔ Aᵀ = A := by
  constructor
  · intro h
    have key : ∀ i j : Fin n, i.val < j.val → A i j = A j i := by
      intro i j hij
      have hij2 := congrFun (congrFun h i) j
      rw [Matrix.transpose_apply, symmetrizeInPlace_apply_of_le A j i (le_of_lt hij),
        symmetrizeInPlace_apply_of_lt A i j hij] at hij2
      norm_num at hij2
      linarith
    ext i j
    rw [Matrix.transpose_apply]
    rcases lt_trichotomy i.val j.val with hlt | heq | hgt
    · exact (key i j hlt).symm
    · rw [Fin.ext heq]
    · exact key j i hgt
  · intro h
    rw [symmetrizeInPlace_of_isSymm A h, h]

theorem isSymm_conj_add {ι κ : Type} [Fintype ι] [Fintype κ] (B : Matrix κ ι α)
    (P : Matrix ι ι α) (Q : Matrix κ κ α) (hP : P.IsSymm) (hQ : Q.IsSymm) :
    (B * P * Bᵀ + Q).IsSymm := by
  unfold Matrix.IsSymm at *
  rw [Matrix.transpose_add, Matrix.transpose_mul, Matrix.transpose_mul,
    Matrix.transpose_transpose, hP, hQ, Matrix.mul_assoc]

theorem isSymm_joseph {ι κ : Type} [Fintype ι] [Fintype κ] (X : Matrix ι ι α)
    (P : Matrix ι ι α) (K : Matrix ι κ α) (R : Matrix κ κ α) (hP : P.IsSymm) (hR : R.IsSymm) :
    (X * P * Xᵀ + K * R * Kᵀ).IsSymm := by
  unfold Matrix.IsSymm at *
  rw [Matrix.transpose_add, Matrix.transpose_mul, Matrix.transpose_mul,
    Matrix.transpose_transpose, Matrix.transpose_mul, Matrix.transpose_mul,
    Matrix.transpose_transpose, hP, hR, Matrix.mul_assoc, Matrix.mul_assoc K]

/-! ### Symmetry of the augmented covariance (C3) -/

section Blocks

variable {n : Nat}

theorem subblock_setSubblock (P : Matrix (Epoch × Fin n) (Epoch × Fin n) α) (a b c d : Epoch)
    (M : Matrix (Fin n) (Fin n) α) :
    subblock (setSubblock P a b M) c d = if c = a ∧ d = b then M else subblock P c d := by
  ext i j
  by_cases h : c = a ∧ d = b
  · simp [subblock, setSubblock, h]
  · simp [subblock, setSubblock, h]

theorem isSymm_iff_subblock (P : Matrix (Epoch × Fin n) (Epoch × Fin n) α) :
    P.IsSymm ↔ ∀ a b : Epoch, (subblock P a b)ᵀ = subblock P b a := by
  constructor
  · intro h a b
    ext i j
    have := congrFun (congrFun h (b, i)) (a, j)
    simpa [subblock, Matrix.transpose_apply] using this
  · intro h
    ext ⟨a, i⟩ ⟨b, j⟩
    have := congrFun (congrFun (h b a) i) j
    simpa [subblock, Matrix.transpose_apply] using this

theorem setSubblock_diag_isSymm (P : Matrix (Epoch × Fin n) (Epoch × Fin n) α) (a : Epoch)
    (M : Matrix (Fin n) (Fin n) α) (hP : P.IsSymm) (hM : M.IsSymm) :
    (setSubblock P a a M).IsSymm := by
  rw [isSymm_iff_subblock] at hP ⊢
  intro c d
  rw [subblock_setSubblock, subblock_setSubblock]
  by_cases h : c = a ∧ d = a
  · rw [if_pos h, if_pos ⟨h.2, h.1⟩]
    exact hM
  · rw [if_neg h, if_neg (fun h2 => h ⟨h2.2, h2.1⟩)]
    exact hP c d

theorem Usckf.propagateCrossCov_isSymm (P : Matrix (Epoch × Fin n) (Epoch × Fin n) α)
    (F : Matrix (Fin n) (Fin n) α) (hP : P.IsSymm) : (Usckf.propagateCrossCov P F).IsSymm := by
  rw [isSymm_iff_subblock] at hP ⊢
  intro a b
  cases a <;> cases b <;>
    simp [Usckf.propagateCrossCov, subblock_setSubblock, Matrix.transpose_mul, hP]

theorem Usckf.cloning_isSymm {S : Type} (s : Usckf α n S) (hP : s.Pk_error.IsSymm) :
    s.cloning.Pk_error.IsSymm := by
  rw [isSymm_iff_subblock] at hP ⊢
  intro a b
  cases a <;> cases b <;>
    simp [Usckf.cloning, subblock_setSubblock, hP]

end Blocks

theorem Usckf.covSigmaPointsOfDiffs_isSymm {ι : Type} (D : List (ι → α)) :
    (Usckf.covSigmaPointsOfDiffs D).IsSymm := by
  have hfold : ∀ (D : List (ι → α)) (c : Matrix ι ι α), c.IsSymm →
      (D.foldl (fun c d => c + vecMulVec d d) c).IsSymm := by
    intro D
    induction D with
    | nil => intro c hc; exact hc
    | cons d ds ih =>
      intro c hc
      apply ih
      apply Matrix.IsSymm.add hc
      ext i j
      simp [Matrix.vecMulVec_apply, mul_comm]
  exact (hfold D 0 Matrix.isSymm_zero).smul _

theorem isSymm_sub_conj {ι κ : Type} [Fintype κ] (P : Matrix ι ι α) (K : Matrix ι κ α)
    (Sm : Matrix κ κ α) (hP : P.IsSymm) (hS : Sm.IsSymm) : (P - K * Sm * Kᵀ).IsSymm := by
  apply Matrix.IsSymm.sub hP
  unfold Matrix.IsSymm at *
  rw [Matrix.transpose_mul, Matrix.transpose_mul, Matrix.transpose_transpose, hS,
    Matrix.mul_assoc]

theorem subblock_diag_isSymm {n : Nat} (P : Matrix (Epoch × Fin n) (Epoch × Fin n) α)
    (hP : P.IsSymm) (a : Epoch) : (subblock P a a).IsSymm :=
  (isSymm_iff_subblock P).1 hP a a

theorem Usckf.ekfPredict_isSymm {n : Nat} {S : Type} (ops : ManifoldOps α (Fin n) S)
    (s : Usckf α n S) (F Q : Matrix (Fin n) (Fin n) α) (hP : s.Pk_error.IsSymm)
    (hQ : Q.IsSymm) : (s.ekfPredict ops F Q).Pk_error.IsSymm :=
  Usckf.propagateCrossCov_isSymm _ _
    (setSubblock_diag_isSymm _ _ _ hP
      (isSymm_conj_add _ _ _ (subblock_diag_isSymm _ hP _) hQ))

theorem Usckf.predict_isSymm {n : Nat} {S : Type} (L : NumericLib α)
    (ops : ManifoldOps α (Fin n) S)
    (llt : Matrix (Fin n) (Fin n) α → Matrix (Fin n) (Fin n) α)
    (s t : Usckf α n S) (f : S → S) (Q : Matrix (Fin n) (Fin n) α) (hP : s.Pk_error.IsSymm)
    (hQ : Q.IsSymm) (h : s.predict L ops llt f Q = some t) : t.Pk_error.IsSymm := by
  dsimp only [Usckf.predict] at h
  split at h
  · exact absurd h (by simp)
  · simp only [Option.some.injEq] at h
    subst h
    exact Usckf.propagateCrossCov_isSymm _ _
      (setSubblock_diag_isSymm _ _ _ hP
        ((Usckf.covSigmaPointsOfDiffs_isSymm _).add hQ))

theorem Usckf.update_isSymm {n m : Nat} {S : Type}
    (opsA : ManifoldOps α (Epoch × Fin n) (AugmentedState S))
    (chol : Matrix (Epoch × Fin n) (Epoch × Fin n) α →
      Option (Matrix (Epoch × Fin n) (Epoch × Fin n) α))
    (s t : Usckf α n S) (z : Fin m → α) (h : AugmentedState S → (Fin m → α))
    (R : Matrix (Fin m) (Fin m) α) (mt : α → Bool) (hP : s.Pk_error.IsSymm) (hR : R.IsSymm)
    (ht : s.update opsA chol z h R mt = some t) : t.Pk_error.IsSymm := by
  unfold Usckf.update at ht
  split at ht
  · exact absurd ht (by simp)
  · rename_i K Sm innovation mahalanobis2 hg
    have hS : Sm.IsSymm := by
      unfold Usckf.updateGain at hg
      split at hg
      · exact absurd hg (by simp)
      · simp only [Option.some.injEq, Prod.mk.injEq] at hg
        rw [← hg.2.1]
        exact (Usckf.covSigmaPointsOfDiffs_isSymm _).add hR
    split at ht
    · simp only [Option.some.injEq] at ht
      subst ht
      exact isSymm_sub_conj _ _ _ hP hS
    · simp only [Option.some.injEq] at ht
      subst ht
      exact hP

theorem Usckf.ekfUpdate_isSymm {n m : Nat} {S : Type}
    (opsA : ManifoldOps α (Epoch × Fin n) (AugmentedState S))
    (s : Usckf α n S) (z : Fin m → α) (H : Matrix (Fin m) (Epoch × Fin n) α)
    (R : Matrix (Fin m) (Fin m) α) (mt : α → Int → Bool) (hP : s.Pk_error.IsSymm)
    (hR : R.IsSymm) : (s.ekfUpdate opsA z H R mt).1.Pk_error.IsSymm := by
  unfold Usckf.ekfUpdate
  simp only
  split
  · show (symmetrizeInPlace _).IsSymm
    rw [symmetrizeInPlace_of_isSymm _ (isSymm_joseph _ _ _ _ hP hR)]
    exact isSymm_joseph _ _ _ _ hP hR
  · exact hP

theorem Usckf.singleUpdate_isSymm {m : Nat} (L : NumericLib α)
    (ops : ManifoldOps α (Fin 15) (SingleState α))
    (llt : Matrix (Fin 15) (Fin 15) α → Matrix (Fin 15) (Fin 15) α)
    (s : Usckf α 15 (SingleState α)) (z : Fin m → α) (h : SingleState α → (Fin m → α))
    (R : Matrix (Fin m) (Fin m) α) (hP : s.Pk_error.IsSymm) (hR : R.IsSymm) :
    (s.singleUpdate L ops llt z h R).Pk_error.IsSymm := by
  have hS : (Usckf.covSigmaPointsVector
      (Usckf.meanSigmaPointsVector
        ((Usckf.generateSigmaPointsSingle ops llt s.mu_error.statek_i
          (subblock s.Pk_error Epoch.statek_i Epoch.statek_i)).map h))
      ((Usckf.generateSigmaPointsSingle ops llt s.mu_error.statek_i
        (subblock s.Pk_error Epoch.statek_i Epoch.statek_i)).map h) + R).IsSymm :=
    (Usckf.covSigmaPointsOfDiffs_isSymm _).add hR
  have hJ := isSymm_sub_conj (subblock s.Pk_error Epoch.statek_i Epoch.statek_i)
    (Usckf.crossCovSigmaPointsVector ops s.mu_error.statek_i
      (Usckf.meanSigmaPointsVector
        ((Usckf.generateSigmaPointsSingle ops llt s.mu_error.statek_i
          (subblock s.Pk_error Epoch.statek_i Epoch.statek_i)).map h))
      (Usckf.generateSigmaPointsSingle ops llt s.mu_error.statek_i
        (subblock s.Pk_error Epoch.statek_i Epoch.statek_i))
      ((Usckf.generateSigmaPointsSingle ops llt s.mu_error.statek_i
        (subblock s.Pk_error Epoch.statek_i Epoch.statek_i)).map h)
      * inverse (Usckf.covSigmaPointsVector
        (Usckf.meanSigmaPointsVector
          ((Usckf.generateSigmaPointsSingle ops llt s.mu_error.statek_i
            (subblock s.Pk_error Epoch.statek_i Epoch.statek_i)).map h))
        ((Usckf.generateSigmaPointsSingle ops llt s.mu_error.statek_i
          (subblock s.Pk_error Epoch.statek_i Epoch.statek_i)).map h) + R))
    _ (subblock_diag_isSymm _ hP _) hS
  apply setSubblock_diag_isSymm _ _ _ hP
  show (symmetrizeInPlace _).IsSymm
  rw [symmetrizeInPlace_of_isSymm _ hJ]
  exact hJ

theorem Usckf.ekfSingleUpdate_isSymm {m : Nat} (L : NumericLib α)
    (ops : ManifoldOps α (Fin 15) (SingleState α))
    (s : Usckf α 15 (SingleState α)) (z : Fin m → α) (H : Matrix (Fin m) (Fin 15) α)
    (R : Matrix (Fin m) (Fin m) α) (mt : α → Int → Bool) (hP : s.Pk_error.IsSymm)
    (hR : R.IsSymm) : (s.ekfSingleUpdate L ops z H R mt).Pk_error.IsSymm := by
  unfold Usckf.ekfSingleUpdate
  simp only
  apply setSubblock_diag_isSymm _ _ _ hP
  split
  · show (symmetrizeInPlace _).IsSymm
    rw [symmetrizeInPlace_of_isSymm _
      (isSymm_joseph _ _ _ _ (subblock_diag_isSymm _ hP _) hR)]
    exact isSymm_joseph _ _ _ _ (subblock_diag_isSymm _ hP _) hR
  · exact subblock_diag_isSymm _ hP _

theorem Usckf.step_isSymm (L : NumericLib α) (ops : ManifoldOps α (Fin 15) (SingleState α))
    (opsA : ManifoldOps α (Epoch × Fin 15) (AugmentedState (SingleState α)))
    (llt : Matrix (Fin 15) (Fin 15) α → Matrix (Fin 15) (Fin 15) α)
    (chol : Matrix (Epoch × Fin 15) (Epoch × Fin 15) α →
      Option (Matrix (Epoch × Fin 15) (Epoch × Fin 15) α))
    (s t : Usckf α 15 (SingleState α)) (hst : Usckf.Step L ops opsA llt chol s t)
    (hP : s.Pk_error.IsSymm) : t.Pk_error.IsSymm := by
  cases hst with
  | ekfPredict _ F Q hQ => exact Usckf.ekfPredict_isSymm ops s F Q hP hQ
  | predict _ _ f Q hQ h => exact Usckf.predict_isSymm L ops llt s t f Q hP hQ h
  | update _ _ z h R mt hR ht => exact Usckf.update_isSymm opsA chol s t z h R mt hP hR ht
  | ekfUpdate _ z H R mt hR => exact Usckf.ekfUpdate_isSymm opsA s z H R mt hP hR
  | singleUpdate _ z h R hR => exact Usckf.singleUpdate_isSymm L ops llt s z h R hP hR
  | ekfSingleUpdate _ z H R mt hR =>
    exact Usckf.ekfSingleUpdate_isSymm L ops s z H R mt hP hR
  | cloning => exact Usckf.cloning_isSymm s hP
  | muErrorSingleReset => exact hP
  | setStatek_i _ state => exact hP

/-- Claim C3: when the augmented covariance `Pk_error` is symmetric and every supplied
process noise and measurement noise is symmetric, `Pk_error` is symmetric after each of
`ekfPredict`, `predict`, `update`, `ekfUpdate`, `singleUpdate`, `ekfSingleUpdate` and
`cloning` (each a constructor of `Usckf.Step`), whether the measurement is accepted or
rejected; hence it is symmetric in every state reachable from a symmetric covariance.  In
the three updates that end with `Pk = 0.5 * (Pk + Pk.transpose())` the matrix assigned is
symmetric already, so that this assignment returns it unchanged. -/
theorem C3_usckf_covariance_symmetric (L : NumericLib α)
    (ops : ManifoldOps α (Fin 15) (SingleState α))
    (opsA : ManifoldOps α (Epoch × Fin 15) (AugmentedState (SingleState α)))
    (llt : Matrix (Fin 15) (Fin 15) α → Matrix (Fin 15) (Fin 15) α)
    (chol : Matrix (Epoch × Fin 15) (Epoch × Fin 15) α →
      Option (Matrix (Epoch × Fin 15) (Epoch × Fin 15) α))
    (s t : Usckf α 15 (SingleState α)) (hP : s.Pk_errorᵀ = s.Pk_error)
    (hst : Relation.ReflTransGen (Usckf.Step L ops opsA llt chol) s t) :
    t.Pk_errorᵀ = t.Pk_error := by
  induction hst with
  | refl => exact hP
  | tail _ hstep ih => exact Usckf.step_isSymm L ops opsA llt chol _ _ hstep ih

/-- Witness of claim C3 on the rationals: a linearised prediction, a cloning and the three
updates that symmetrise, each with the identity as measurement noise, from the filter at the
origin with the identity covariance. -/
theorem C3_usckf_covariance_symmetric_witness :
    (Usckf.atOrigin (1 : Matrix (Epoch × Fin 15) (Epoch × Fin 15) ℚ)).Pk_errorᵀ
      = (Usckf.atOrigin (1 : Matrix (Epoch × Fin 15) (Epoch × Fin 15) ℚ)).Pk_error
    ∧ ((((((Usckf.atOrigin (1 : Matrix (Epoch × Fin 15) (Epoch × Fin 15) ℚ)).ekfPredict
          flatOps (2 : Matrix (Fin 15) (Fin 15) ℚ) 1).cloning).ekfUpdate (augmentedOps flatOps)
          ![1, 0, 0] velocityRows 1 accept_mahalanobis_distance).1.singleUpdate ratLib flatOps
          id ![1, 0, 0] (fun x => x.vel) 1).ekfSingleUpdate ratLib flatOps ![1, 0, 0]
          velocityRowsSingle 1 accept_mahalanobis_distance).Pk_errorᵀ
      = ((((((Usckf.atOrigin (1 : Matrix (Epoch × Fin 15) (Epoch × Fin 15) ℚ)).ekfPredict
          flatOps (2 : Matrix (Fin 15) (Fin 15) ℚ) 1).cloning).ekfUpdate (augmentedOps flatOps)
          ![1, 0, 0] velocityRows 1 accept_mahalanobis_distance).1.singleUpdate ratLib flatOps
          id ![1, 0, 0] (fun x => x.vel) 1).ekfSingleUpdate ratLib flatOps ![1, 0, 0]
          velocityRowsSingle 1 accept_mahalanobis_distance).Pk_error :=
  ⟨by simp [Usckf.atOrigin],
    C3_usckf_covariance_symmetric
      ratLib
      flatOps (augmentedOps flatOps) id (fun _ => none) _ _ (by simp [Usckf.atOrigin])
      (((((Relation.ReflTransGen.single
          (Usckf.Step.ekfPredict _ (2 : Matrix (Fin 15) (Fin 15) ℚ) 1 Matrix.isSymm_one)).tail
        (Usckf.Step.cloning _)).tail
        (Usckf.Step.ekfUpdate _ ![1, 0, 0] velocityRows 1 accept_mahalanobis_distance
          Matrix.isSymm_one)).tail
        (Usckf.Step.singleUpdate _ ![1, 0, 0] (fun x => x.vel) 1 Matrix.isSymm_one)).tail
        (Usckf.Step.ekfSingleUpdate _ ![1, 0, 0] velocityRowsSingle 1
          accept_mahalanobis_distance Matrix.isSymm_one))⟩

/-! ### The reset of the error state (C4) and the significance test (C5, C6) -/

/-- Claim C4: after `Sckf::resetStateVector` the components 6 to 14 of the error state
(attitude error, gyroscope-bias error, accelerometer-bias error) are zero and the components
0 to 5 (position and velocity error) are the ones before the call; the covariance, the
orientation quaternion and the two bias estimates are unchanged. -/
theorem C4_resetStateVector_zeroes_attitude_and_bias (s : Sckf α M1) :
    (s.resetStateVector.xki_k = fun i : Fin 15 => if i.val < 6 then s.xki_k i else 0)
    ∧ s.resetStateVector.Pki_k = s.Pki_k
    ∧ s.resetStateVector.q4 = s.q4
    ∧ s.resetStateVector.bghat = s.bghat
    ∧ s.resetStateVector.bahat = s.bahat := by
  refine ⟨?_, rfl, rfl, rfl, rfl⟩
  funext i
  simp only [Sckf.resetStateVector, setSegment, dite_eq_ite, Pi.zero_apply]
  split_ifs <;> first | rfl | (exfalso; omega)

/-- Claim C5: for the degrees of freedom 1 to 9 the test accepts exactly the squared
distances strictly below the tabulated 5 % critical value (3.84, 5.99, 7.81, 9.49, 11.07,
12.59, 14.07, 15.51, 16.92); with three degrees of freedom 7.80 is accepted and 7.82 is
rejected. -/
theorem C5_accept_iff_below_critical_value (m : α) (dof : Int) (h1 : 1 ≤ dof) (h9 : dof ≤ 9) :
    (accept_mahalanobis_distance m dof = true ↔ m < chiSquareCritical dof)
    ∧ (chiSquareCritical 1 : α) = 3.84 ∧ (chiSquareCritical 2 : α) = 5.99
    ∧ (chiSquareCritical 3 : α) = 7.81 ∧ (chiSquareCritical 4 : α) = 9.49
    ∧ (chiSquareCritical 5 : α) = 11.07 ∧ (chiSquareCritical 6 : α) = 12.59
    ∧ (chiSquareCritical 7 : α) = 14.07 ∧ (chiSquareCritical 8 : α) = 15.51
    ∧ (chiSquareCritical 9 : α) = 16.92
    ∧ accept_mahalanobis_distance (7.80 : α) 3 = true
    ∧ accept_mahalanobis_distance (7.82 : α) 3 = false := by
  refine ⟨?_, rfl, rfl, rfl, rfl, rfl, rfl, rfl, rfl, rfl, ?_, ?_⟩
  · interval_cases dof <;> simp [accept_mahalanobis_distance, chiSquareCritical]
  · simp only [accept_mahalanobis_distance]
    norm_num
  · simp only [accept_mahalanobis_distance]
    norm_num

/-- Witness of claim C5 on the rationals: the squared distance 7.80 with three degrees of
freedom. -/
theorem C5_accept_iff_below_critical_value_witness :
    (1 : Int) ≤ 3 ∧ (3 : Int) ≤ 9
    ∧ (accept_mahalanobis_distance (7.80 : ℚ) 3 = true ↔ (7.80 : ℚ) < chiSquareCritical 3) :=
  ⟨by decide, by decide,
    (C5_accept_iff_below_critical_value (7.80 : ℚ) 3 (by decide) (by decide)).1⟩

/-- Claim C6: for every degree of freedom outside 1 to 9 the test returns `false`, whatever
the squared distance; the function is total, so it returns in every case. -/
theorem C6_unsupported_dof_is_rejected (m : α) (dof : Int) (h : dof < 1 ∨ 9 < dof) :
    accept_mahalanobis_distance m dof = false := by
  unfold accept_mahalanobis_distance
  split <;> first | rfl | omega

/-- Witness of claim C6 on the rationals: zero degrees of freedom. -/
theorem C6_unsupported_dof_is_rejected_witness :
    ((0 : Int) < 1 ∨ (9 : Int) < 0) ∧ accept_mahalanobis_distance (0 : ℚ) 0 = false :=
  ⟨Or.inl (by decide), C6_unsupported_dof_is_rejected (0 : ℚ) 0 (Or.inl (by decide))⟩

/-! ### Evaluation of the linearised updates at concrete inputs -/

theorem inverse_eq_inv {ι : Type} [Fintype ι] [DecidableEq ι] (A : Matrix ι ι α) :
    inverse A = A⁻¹ := by
  simp [inverse, Matrix.inv_def]

theorem inverse_smul_one {ι : Type} [Fintype ι] [DecidableEq ι] (c : α) (hc : c ≠ 0) :
    inverse (c • (1 : Matrix ι ι α)) = c⁻¹ • (1 : Matrix ι ι α) := by
  rw [inverse_eq_inv]
  apply Matrix.inv_eq_right_inv
  rw [Matrix.smul_mul, Matrix.mul_smul, Matrix.one_mul, smul_smul, mul_inv_cancel₀ hc, one_smul]

theorem Usckf.ekfUpdate_eq {n m : Nat} {S : Type}
    (opsA : ManifoldOps α (Epoch × Fin n) (AugmentedState S))
    (s : Usckf α n S) (z : Fin m → α) (H : Matrix (Fin m) (Epoch × Fin n) α)
    (R : Matrix (Fin m) (Fin m) α) (mt : α → Int → Bool) :
    s.ekfUpdate opsA z H R mt
      = if Usckf.ekfUpdateAccepted opsA s z H R mt then
          ({ s with Pk_error := Usckf.josephUpdate s.Pk_error H R }, 0)
        else (s, Usckf.ekfUpdateInnovation opsA s z H) := rfl

theorem velocityRows_mulVec (x : Epoch × Fin 15 → α) (i : Fin 3) :
    ((velocityRows : Matrix (Fin 3) (Epoch × Fin 15) α) *ᵥ x) i
      = x (Epoch.statek_i, (⟨i.val + 3, by have := i.isLt; omega⟩ : Fin 15)) := by
  simp [velocityRows, Matrix.mulVec, Matrix.dotProduct, ite_mul]

theorem velocityRows_mul_transpose :
    (velocityRows : Matrix (Fin 3) (Epoch × Fin 15) α) * velocityRowsᵀ
      = (1 : Matrix (Fin 3) (Fin 3) α) := by
  ext i j
  simp only [Matrix.mul_apply, Matrix.transpose_apply, velocityRows, ite_mul, one_mul, zero_mul,
    Finset.sum_ite_eq', Finset.mem_univ, if_true, Matrix.one_apply]
  fin_cases i <;> fin_cases j <;> simp

theorem velocityRowsSingle_mulVec (x : Fin 15 → α) (i : Fin 3) :
    ((velocityRowsSingle : Matrix (Fin 3) (Fin 15) α) *ᵥ x) i
      = x (⟨i.val + 3, by have := i.isLt; omega⟩ : Fin 15) := by
  simp [velocityRowsSingle, Matrix.mulVec, Matrix.dotProduct, ite_mul]

theorem velocityRowsSingle_mul_transpose :
    (velocityRowsSingle : Matrix (Fin 3) (Fin 15) α) * velocityRowsSingleᵀ
      = (1 : Matrix (Fin 3) (Fin 3) α) := by
  ext i j
  simp only [Matrix.mul_apply, Matrix.transpose_apply, velocityRowsSingle, ite_mul, one_mul,
    zero_mul, Finset.sum_ite_eq', Finset.mem_univ, if_true, Matrix.one_apply]
  fin_cases i <;> fin_cases j <;> simp

theorem getVectorizedSingleState_origin :
    getVectorizedSingleState (SingleState.origin : SingleState α) = 0 := by
  have h3 : ∀ k : Fin 3, (![0, 0, 0] : Fin 3 → α) k = 0 := by
    intro k
    fin_cases k <;> rfl
  funext i
  simp only [getVectorizedSingleState, SingleState.origin, Quat.identity, setSegment,
    Pi.zero_apply]
  split_ifs <;> first | rfl | exact h3 _

theorem getVectorizedState_atOrigin (P : Matrix (Epoch × Fin 15) (Epoch × Fin 15) α) :
    (augmentedOps flatOps).getVectorizedState (Usckf.atOrigin P).mu_state = 0 := by
  funext p
  obtain ⟨e, i⟩ := p
  cases e <;>
    simp [augmentedOps, flatOps, Usckf.atOrigin, AugmentedState.slot,
      getVectorizedSingleState_origin]

theorem subblock_one (a : Epoch) :
    subblock (1 : Matrix (Epoch × Fin 15) (Epoch × Fin 15) α) a a = 1 := by
  ext i j
  simp [subblock, Matrix.one_apply]

theorem innovationCov_velocityRows :
    Usckf.innovationCov (1 : Matrix (Epoch × Fin 15) (Epoch × Fin 15) α) velocityRows 1
      = (2 : α) • (1 : Matrix (Fin 3) (Fin 3) α) := by
  rw [Usckf.innovationCov, Matrix.mul_one, velocityRows_mul_transpose, two_smul]

theorem innovationCov_velocityRowsSingle :
    Usckf.innovationCov (1 : Matrix (Fin 15) (Fin 15) α) velocityRowsSingle 1
      = (2 : α) • (1 : Matrix (Fin 3) (Fin 3) α) := by
  rw [Usckf.innovationCov, Matrix.mul_one, velocityRowsSingle_mul_transpose, two_smul]

theorem vecMul_smul_one {k : Nat} (v : Fin k → α) (c : α) :
    v ᵥ* (c • (1 : Matrix (Fin k) (Fin k) α)) = c • v := by
  funext j
  simp [Matrix.vecMul, Matrix.dotProduct, Matrix.one_apply, mul_comm]

theorem mahalanobis2_of_innovationCov {ι : Type} [Fintype ι] [DecidableEq ι]
    (P : Matrix ι ι α) (H : Matrix (Fin 3) ι α) (R : Matrix (Fin 3) (Fin 3) α)
    (hS : Usckf.innovationCov P H R = (2 : α) • (1 : Matrix (Fin 3) (Fin 3) α))
    (v : Fin 3 → α) :
    Usckf.mahalanobis2 P H R v = 2⁻¹ * (v 0 * v 0 + v 1 * v 1 + v 2 * v 2) := by
  rw [Usckf.mahalanobis2, hS, inverse_smul_one (2 : α) two_ne_zero, vecMul_smul_one,
    Matrix.smul_dotProduct]
  simp [Matrix.dotProduct, Fin.sum_univ_three]

/-! ### The gate of the linearised updates (C7) -/

theorem ekfUpdateInnovation_atOrigin {m : Nat}
    (P : Matrix (Epoch × Fin 15) (Epoch × Fin 15) α) (z : Fin m → α)
    (H : Matrix (Fin m) (Epoch × Fin 15) α) :
    Usckf.ekfUpdateInnovation (augmentedOps flatOps) (Usckf.atOrigin P) z H = z := by
  simp [Usckf.ekfUpdateInnovation, getVectorizedState_atOrigin]

theorem accept_mahalanobis_distance_zero_dof (x : α) :
    accept_mahalanobis_distance x (((1 : Nat) : Int) - 1) = false := by
  simp [accept_mahalanobis_distance]

/-- Claim C7, evaluated on the code: the linearised updates pass `innovation.size() - 1` as
the degrees of freedom.  For the filter at the origin with identity covariance, a velocity
measurement with identity noise and `z = (19/5, 1, 2/5)`, the three-component innovation has
squared Mahalanobis distance 7.80; the test with three degrees of freedom accepts 7.80, but
`ekfUpdate` and `ekfSingleUpdate` reject the measurement (they compare with the critical
value 5.99 of two degrees of freedom), and `ekfUpdate` returns the filter unchanged together
with the innovation.  A one-component innovation is rejected whatever its distance. -/
theorem C7_gate_uses_size_minus_one_degrees_of_freedom :
    Usckf.mahalanobis2 (Usckf.atOrigin (1 : Matrix (Epoch × Fin 15) (Epoch × Fin 15) ℚ)).Pk_error
        velocityRows 1
        (Usckf.ekfUpdateInnovation (augmentedOps flatOps)
          (Usckf.atOrigin (1 : Matrix (Epoch × Fin 15) (Epoch × Fin 15) ℚ))
          ![19 / 5, 1, 2 / 5] velocityRows) = 7.80
    ∧ accept_mahalanobis_distance (7.80 : ℚ) 3 = true
    ∧ Usckf.ekfUpdateAccepted (augmentedOps flatOps)
        (Usckf.atOrigin (1 : Matrix (Epoch × Fin 15) (Epoch × Fin 15) ℚ))
        ![19 / 5, 1, 2 / 5] velocityRows 1 accept_mahalanobis_distance = false
    ∧ Usckf.ekfUpdateDefault (augmentedOps flatOps)
        (Usckf.atOrigin (1 : Matrix (Epoch × Fin 15) (Epoch × Fin 15) ℚ))
        ![19 / 5, 1, 2 / 5] velocityRows 1
      = (Usckf.atOrigin (1 : Matrix (Epoch × Fin 15) (Epoch × Fin 15) ℚ), ![19 / 5, 1, 2 / 5])
    ∧ Usckf.ekfSingleUpdateAccepted flatOps
        (Usckf.atOrigin (1 : Matrix (Epoch × Fin 15) (Epoch × Fin 15) ℚ))
        ![19 / 5, 1, 2 / 5] velocityRowsSingle 1 accept_mahalanobis_distance = false
    ∧ (∀ (s : Usckf ℚ 15 (SingleState ℚ)) (z : Fin 1 → ℚ)
        (H : Matrix (Fin 1) (Epoch × Fin 15) ℚ) (R : Matrix (Fin 1) (Fin 1) ℚ),
        Usckf.ekfUpdateAccepted (augmentedOps flatOps) s z H R accept_mahalanobis_distance
          = false)
    ∧ (∀ (s : Usckf ℚ 15 (SingleState ℚ)) (z : Fin 1 → ℚ)
        (H : Matrix (Fin 1) (Fin 15) ℚ) (R : Matrix (Fin 1) (Fin 1) ℚ),
        Usckf.ekfSingleUpdateAccepted flatOps s z H R accept_mahalanobis_distance = false) := by
  have hm : Usckf.mahalanobis2
      (Usckf.atOrigin (1 : Matrix (Epoch × Fin 15) (Epoch × Fin 15) ℚ)).Pk_error velocityRows 1
      (Usckf.ekfUpdateInnovation (augmentedOps flatOps)
        (Usckf.atOrigin (1 : Matrix (Epoch × Fin 15) (Epoch × Fin 15) ℚ))
        ![19 / 5, 1, 2 / 5] velocityRows) = 39 / 5 := by
    rw [ekfUpdateInnovation_atOrigin]
    show Usckf.mahalanobis2 (1 : Matrix (Epoch × Fin 15) (Epoch × Fin 15) ℚ) velocityRows 1
      ![19 / 5, 1, 2 / 5] = 39 / 5
    rw [mahalanobis2_of_innovationCov _ _ _ innovationCov_velocityRows]
    norm_num
  have hacc : Usckf.ekfUpdateAccepted (augmentedOps flatOps)
      (Usckf.atOrigin (1 : Matrix (Epoch × Fin 15) (Epoch × Fin 15) ℚ))
      ![19 / 5, 1, 2 / 5] velocityRows 1 accept_mahalanobis_distance = false := by
    unfold Usckf.ekfUpdateAccepted
    rw [hm]
    show accept_mahalanobis_distance (39 / 5 : ℚ) 2 = false
    simp only [accept_mahalanobis_distance]
    norm_num
  have hms : Usckf.mahalanobis2
      (subblock (Usckf.atOrigin (1 : Matrix (Epoch × Fin 15) (Epoch × Fin 15) ℚ)).Pk_error
        Epoch.statek_i Epoch.statek_i) velocityRowsSingle 1
      (![19 / 5, 1, 2 / 5] - velocityRowsSingle *ᵥ flatOps.getVectorizedState
        (Usckf.atOrigin (1 : Matrix (Epoch × Fin 15) (Epoch × Fin 15) ℚ)).mu_error.statek_i)
      = 39 / 5 := by
    have h0 : flatOps.getVectorizedState
        (Usckf.atOrigin (1 : Matrix (Epoch × Fin 15) (Epoch × Fin 15) ℚ)).mu_error.statek_i
        = 0 := getVectorizedSingleState_origin
    rw [h0, Matrix.mulVec_zero, sub_zero]
    show Usckf.mahalanobis2 (subblock (1 : Matrix (Epoch × Fin 15) (Epoch × Fin 15) ℚ)
      Epoch.statek_i Epoch.statek_i) velocityRowsSingle 1 ![19 / 5, 1, 2 / 5] = 39 / 5
    rw [subblock_one, mahalanobis2_of_innovationCov _ _ _ innovationCov_velocityRowsSingle]
    norm_num
  refine ⟨?_, ?_, hacc, ?_, ?_, ?_, ?_⟩
  · rw [hm]
    norm_num
  · simp only [accept_mahalanobis_distance]
    norm_num
  · rw [Usckf.ekfUpdateDefault, Usckf.ekfUpdate_eq, hacc, ekfUpdateInnovation_atOrigin]
    rfl
  · unfold Usckf.ekfSingleUpdateAccepted
    simp only
    rw [hms]
    show accept_mahalanobis_distance (39 / 5 : ℚ) 2 = false
    simp only [accept_mahalanobis_distance]
    norm_num
  · intro s z H R
    unfold Usckf.ekfUpdateAccepted
    exact accept_mahalanobis_distance_zero_dof _
  · intro s z H R
    unfold Usckf.ekfSingleUpdateAccepted
    exact accept_mahalanobis_distance_zero_dof _

/-! ### Rejected measurements (C8, C9) -/

/-- Claim C8: when the significance test rejects the measurement, the unscented `update`
returns the filter it was given, and `ekfUpdate` returns the filter it was given together
with the innovation `z - H * x_hat`; when the test accepts, `ekfUpdate` returns the zero
vector. -/
theorem C8_rejected_measurement_leaves_filter_unchanged {n m : Nat} {S : Type}
    (opsA : ManifoldOps α (Epoch × Fin n) (AugmentedState S))
    (chol : Matrix (Epoch × Fin n) (Epoch × Fin n) α →
      Option (Matrix (Epoch × Fin n) (Epoch × Fin n) α))
    (s : Usckf α n S) (z : Fin m → α) (R : Matrix (Fin m) (Fin m) α) :
    (∀ (h : AugmentedState S → (Fin m → α)) (mt : α → Bool),
        Usckf.updateAccepted opsA chol s z h R mt = some false →
        s.update opsA chol z h R mt = some s)
    ∧ (∀ (H : Matrix (Fin m) (Epoch × Fin n) α) (mt : α → Int → Bool),
        Usckf.ekfUpdateAccepted opsA s z H R mt = false →
        s.ekfUpdate opsA z H R mt = (s, z - H *ᵥ opsA.getVectorizedState s.mu_state))
    ∧ (∀ (H : Matrix (Fin m) (Epoch × Fin n) α) (mt : α → Int → Bool),
        Usckf.ekfUpdateAccepted opsA s z H R mt = true →
        (s.ekfUpdate opsA z H R mt).2 = 0) := by
  refine ⟨?_, ?_, ?_⟩
  · intro h mt hrej
    unfold Usckf.updateAccepted at hrej
    unfold Usckf.update
    cases hg : Usckf.updateGain opsA chol s z h R with
    | none => rw [hg] at hrej; simp at hrej
    | some g =>
      obtain ⟨K, Sm, innovation, m2⟩ := g
      rw [hg] at hrej
      simp only [Option.map_some', Option.some.injEq] at hrej
      simp [hrej]
  · intro H mt hrej
    rw [Usckf.ekfUpdate_eq, hrej]
    rfl
  · intro H mt hacc
    rw [Usckf.ekfUpdate_eq, hacc]
    rfl

/-- Witness of claim C8 on the rationals, on the filter at the origin with the identity
covariance and a velocity measurement: a test that rejects every distance, for `update` and
for `ekfUpdate`, and a test that accepts every distance, for `ekfUpdate`. -/
theorem C8_rejected_measurement_leaves_filter_unchanged_witness :
    (Usckf.updateAccepted (augmentedOps flatOps) (fun P => some P)
        (Usckf.atOrigin (1 : Matrix (Epoch × Fin 15) (Epoch × Fin 15) ℚ)) ![1, 0, 0]
        (fun x => velocityRows *ᵥ (augmentedOps flatOps).getVectorizedState x) 1
        (fun _ => false) = some false
      ∧ (Usckf.atOrigin (1 : Matrix (Epoch × Fin 15) (Epoch × Fin 15) ℚ)).update
          (augmentedOps flatOps) (fun P => some P) ![1, 0, 0]
          (fun x => velocityRows *ᵥ (augmentedOps flatOps).getVectorizedState x) 1
          (fun _ => false)
        = some (Usckf.atOrigin (1 : Matrix (Epoch × Fin 15) (Epoch × Fin 15) ℚ)))
    ∧ (Usckf.ekfUpdateAccepted (augmentedOps flatOps)
        (Usckf.atOrigin (1 : Matrix (Epoch × Fin 15) (Epoch × Fin 15) ℚ)) ![1, 0, 0]
        velocityRows 1 (fun _ _ => false) = false
      ∧ (Usckf.atOrigin (1 : Matrix (Epoch × Fin 15) (Epoch × Fin 15) ℚ)).ekfUpdate
          (augmentedOps flatOps) ![1, 0, 0] velocityRows 1 (fun _ _ => false)
        = (Usckf.atOrigin (1 : Matrix (Epoch × Fin 15) (Epoch × Fin 15) ℚ),
            ![1, 0, 0] - velocityRows *ᵥ (augmentedOps flatOps).getVectorizedState
              (Usckf.atOrigin (1 : Matrix (Epoch × Fin 15) (Epoch × Fin 15) ℚ)).mu_state))
    ∧ (Usckf.ekfUpdateAccepted (augmentedOps flatOps)
        (Usckf.atOrigin (1 : Matrix (Epoch × Fin 15) (Epoch × Fin 15) ℚ)) ![1, 0, 0]
        velocityRows 1 (fun _ _ => true) = true
      ∧ ((Usckf.atOrigin (1 : Matrix (Epoch × Fin 15) (Epoch × Fin 15) ℚ)).ekfUpdate
          (augmentedOps flatOps) ![1, 0, 0] velocityRows 1 (fun _ _ => true)).2 = 0) :=
  have hrej : Usckf.updateAccepted (augmentedOps flatOps) (fun P => some P)
        (Usckf.atOrigin (1 : Matrix (Epoch × Fin 15) (Epoch × Fin 15) ℚ)) ![1, 0, 0]
        (fun x => velocityRows *ᵥ (augmentedOps flatOps).getVectorizedState x) 1
        (fun _ => false) = some false := by
    simp only [Usckf.updateAccepted, Usckf.updateGain, Usckf.generateSigmaPoints,
      Usckf.generateSigmaPointsDelta, Option.map_some']
  have h := C8_rejected_measurement_leaves_filter_unchanged (augmentedOps flatOps)
    (fun P => some P) (Usckf.atOrigin (1 : Matrix (Epoch × Fin 15) (Epoch × Fin 15) ℚ))
    ![1, 0, 0] 1
  ⟨⟨hrej, h.1 _ _ hrej⟩, ⟨rfl, h.2.1 velocityRows (fun _ _ => false) rfl⟩,
    ⟨rfl, h.2.2 velocityRows (fun _ _ => true) rfl⟩⟩

theorem setSubblock_subblock_self {n : Nat} (P : Matrix (Epoch × Fin n) (Epoch × Fin n) α)
    (a b : Epoch) : setSubblock P a b (subblock P a b) = P := by
  ext ⟨c, i⟩ ⟨d, j⟩
  simp only [setSubblock, subblock]
  split_ifs with h
  · obtain ⟨h1, h2⟩ := h
    subst h1 h2
    rfl
  · rfl

theorem segment_getVectorizedSingleState (st : SingleState α) :
    segment 3 (getVectorizedSingleState st) 0 = st.pos
    ∧ segment 3 (getVectorizedSingleState st) 3 = st.vel
    ∧ segment 3 (getVectorizedSingleState st) 9 = st.gbias
    ∧ segment 3 (getVectorizedSingleState st) 12 = st.abias := by
  refine ⟨?_, ?_, ?_, ?_⟩ <;>
  · funext i
    fin_cases i <;> simp [segment, getVectorizedSingleState, setSegment, Fin.coe_ofNat_eq_mod]

theorem velocityRowsSingle_mulVec_getVectorizedSingleState (st : SingleState α) :
    (velocityRowsSingle : Matrix (Fin 3) (Fin 15) α) *ᵥ getVectorizedSingleState st = st.vel := by
  funext i
  rw [velocityRowsSingle_mulVec]
  fin_cases i <;> simp [getVectorizedSingleState, setSegment, Fin.coe_ofNat_eq_mod]

theorem Usckf.ekfSingleUpdate_rejected {m : Nat} (L : NumericLib α)
    (ops : ManifoldOps α (Fin 15) (SingleState α))
    (s : Usckf α 15 (SingleState α)) (z : Fin m → α) (H : Matrix (Fin m) (Fin 15) α)
    (R : Matrix (Fin m) (Fin m) α) (mt : α → Int → Bool)
    (hrej : Usckf.ekfSingleUpdateAccepted ops s z H R mt = false) :
    s.ekfSingleUpdate L ops z H R mt =
      { mu_error := s.mu_error
        Pk_error := s.Pk_error
        mu_state := { s.mu_state with
          statek_i := Usckf.applyCorrection L s.mu_state.statek_i
            (segment 3 (ops.getVectorizedState s.mu_error.statek_i) 0)
            (segment 3 (ops.getVectorizedState s.mu_error.statek_i) 3)
            ⟨1, ops.getVectorizedState s.mu_error.statek_i 6,
              ops.getVectorizedState s.mu_error.statek_i 7,
              ops.getVectorizedState s.mu_error.statek_i 8⟩
            (segment 3 (ops.getVectorizedState s.mu_error.statek_i) 9)
            (segment 3 (ops.getVectorizedState s.mu_error.statek_i) 12) } } := by
  have h : mt ((z - H *ᵥ ops.getVectorizedState s.mu_error.statek_i) ᵥ*
      inverse (H * subblock s.Pk_error Epoch.statek_i Epoch.statek_i * Hᵀ + R) ⬝ᵥ
      (z - H *ᵥ ops.getVectorizedState s.mu_error.statek_i)) ((m : Int) - 1) = false := hrej
  unfold Usckf.ekfSingleUpdate
  simp only [h, Bool.false_eq_true, if_false, setSubblock_subblock_self]

theorem ekfSingleUpdateAccepted_velocity_four (e : SingleState ℚ) (he : e.vel = 0) :
    Usckf.ekfSingleUpdateAccepted flatOps
      (Usckf.atOriginWithError (1 : Matrix (Epoch × Fin 15) (Epoch × Fin 15) ℚ) e)
      ![4, 0, 0] velocityRowsSingle 1 accept_mahalanobis_distance = false := by
  unfold Usckf.ekfSingleUpdateAccepted
  simp only
  have h0 : velocityRowsSingle *ᵥ flatOps.getVectorizedState
      (Usckf.atOriginWithError (1 : Matrix (Epoch × Fin 15) (Epoch × Fin 15) ℚ) e).mu_error.statek_i
      = 0 := by
    show velocityRowsSingle *ᵥ getVectorizedSingleState e = 0
    rw [velocityRowsSingle_mulVec_getVectorizedSingleState, he]
  rw [h0, sub_zero]
  show accept_mahalanobis_distance
    (Usckf.mahalanobis2 (subblock (1 : Matrix (Epoch × Fin 15) (Epoch × Fin 15) ℚ)
      Epoch.statek_i Epoch.statek_i) velocityRowsSingle 1 ![4, 0, 0]) 2 = false
  rw [subblock_one, mahalanobis2_of_innovationCov _ _ _ innovationCov_velocityRowsSingle]
  simp only [accept_mahalanobis_distance]
  norm_num

/-- Counterexample to claim C9 as stated, on the rationals: the filter at the origin with
identity covariance whose active-epoch error state has position `(1, 0, 0)`, and the velocity
measurement `z = (4, 0, 0)` with identity noise.  The default test rejects the measurement
(squared distance 8 against the critical value 5.99), and the position of the active epoch
of `mu_state`, zero before the call, is `(1, 0, 0)` after it. -/
theorem C9_rejected_ekfSingleUpdate_changes_mu_state :
    Usckf.ekfSingleUpdateAccepted flatOps
        (Usckf.atOriginWithError (1 : Matrix (Epoch × Fin 15) (Epoch × Fin 15) ℚ)
          (SingleState.atPosition ![1, 0, 0]))
        ![4, 0, 0] velocityRowsSingle 1 accept_mahalanobis_distance = false
    ∧ (Usckf.atOriginWithError (1 : Matrix (Epoch × Fin 15) (Epoch × Fin 15) ℚ)
          (SingleState.atPosition ![1, 0, 0])).mu_state.statek_i.pos = 0
    ∧ (Usckf.ekfSingleUpdateDefault ratLib flatOps
        (Usckf.atOriginWithError (1 : Matrix (Epoch × Fin 15) (Epoch × Fin 15) ℚ)
          (SingleState.atPosition ![1, 0, 0]))
        ![4, 0, 0] velocityRowsSingle 1).mu_state.statek_i.pos = ![1, 0, 0]
    ∧ (Usckf.ekfSingleUpdateDefault ratLib flatOps
        (Usckf.atOriginWithError (1 : Matrix (Epoch × Fin 15) (Epoch × Fin 15) ℚ)
          (SingleState.atPosition ![1, 0, 0]))
        ![4, 0, 0] velocityRowsSingle 1).mu_state
      ≠ (Usckf.atOriginWithError (1 : Matrix (Epoch × Fin 15) (Epoch × Fin 15) ℚ)
          (SingleState.atPosition ![1, 0, 0])).mu_state := by
  have hrej := ekfSingleUpdateAccepted_velocity_four (SingleState.atPosition ![1, 0, 0]) rfl
  have hpos : (Usckf.ekfSingleUpdateDefault ratLib flatOps
        (Usckf.atOriginWithError (1 : Matrix (Epoch × Fin 15) (Epoch × Fin 15) ℚ)
          (SingleState.atPosition ![1, 0, 0]))
        ![4, 0, 0] velocityRowsSingle 1).mu_state.statek_i.pos = ![1, 0, 0] := by
    rw [Usckf.ekfSingleUpdateDefault, Usckf.ekfSingleUpdate_rejected _ _ _ _ _ _ _ hrej]
    show (0 : Fin 3 → ℚ) + segment 3 (getVectorizedSingleState
      (SingleState.atPosition ![1, 0, 0])) 0 = ![1, 0, 0]
    rw [(segment_getVectorizedSingleState _).1, zero_add]
    rfl
  refine ⟨hrej, rfl, hpos, ?_⟩
  intro h
  have h2 := congrArg (fun x => x.statek_i.pos 0) h
  simp only [hpos] at h2
  simp [Usckf.atOriginWithError, SingleState.origin] at h2

theorem segment_zero (p i0 : Nat) : segment p (0 : Fin 15 → α) i0 = 0 := by
  funext i
  simp [segment]

theorem Usckf.applyCorrection_zero (L : NumericLib α) (st : SingleState α)
    (hunit : st.orient.squaredNorm = 1) (hsqrt : L.sqrt 1 = 1) :
    Usckf.applyCorrection L st 0 0 ⟨1, 0, 0, 0⟩ 0 0 = st := by
  have hmul : Quat.mul st.orient ⟨1, 0, 0, 0⟩ = st.orient := by
    cases h : st.orient
    simp [Quat.mul]
  have hnorm : Quat.normalize L st.orient = st.orient := by
    cases h : st.orient with
    | mk w x y z =>
      rw [h] at hunit
      simp [Quat.normalize, Quat.norm, hunit, hsqrt]
  cases st
  simp only [Usckf.applyCorrection, add_zero] at *
  rw [hmul, hnorm]

/-- Claim C9 as amended: when the significance test rejects the measurement,
`ekfSingleUpdate` leaves `mu_error` and `Pk_error` as they were before the call and leaves the
epochs `statek` and `statek_l` of `mu_state` as they were; the active epoch of `mu_state` is
displaced by the error state the filter had before the call (position, velocity and the two
biases incremented by the components of the vectorised error state, orientation multiplied by
the quaternion `(1, e6, e7, e8)` and normalised), whatever the rejected measurement; so
`mu_state` is as before the call when that vectorised error state is zero and the orientation is
a unit quaternion. -/
theorem C9_rejected_ekfSingleUpdate_injects_prior_error {m : Nat} (L : NumericLib α)
    (ops : ManifoldOps α (Fin 15) (SingleState α))
    (s : Usckf α 15 (SingleState α)) (z : Fin m → α) (H : Matrix (Fin m) (Fin 15) α)
    (R : Matrix (Fin m) (Fin m) α) (mt : α → Int → Bool)
    (hrej : Usckf.ekfSingleUpdateAccepted ops s z H R mt = false) :
    (s.ekfSingleUpdate L ops z H R mt).mu_error = s.mu_error
    ∧ (s.ekfSingleUpdate L ops z H R mt).Pk_error = s.Pk_error
    ∧ (s.ekfSingleUpdate L ops z H R mt).mu_state.statek = s.mu_state.statek
    ∧ (s.ekfSingleUpdate L ops z H R mt).mu_state.statek_l = s.mu_state.statek_l
    ∧ (s.ekfSingleUpdate L ops z H R mt).mu_state.statek_i
        = Usckf.applyCorrection L s.mu_state.statek_i
            (segment 3 (ops.getVectorizedState s.mu_error.statek_i) 0)
            (segment 3 (ops.getVectorizedState s.mu_error.statek_i) 3)
            ⟨1, ops.getVectorizedState s.mu_error.statek_i 6,
              ops.getVectorizedState s.mu_error.statek_i 7,
              ops.getVectorizedState s.mu_error.statek_i 8⟩
            (segment 3 (ops.getVectorizedState s.mu_error.statek_i) 9)
            (segment 3 (ops.getVectorizedState s.mu_error.statek_i) 12)
    ∧ (ops.getVectorizedState s.mu_error.statek_i = 0 →
        s.mu_state.statek_i.orient.squaredNorm = 1 → L.sqrt 1 = 1 →
        (s.ekfSingleUpdate L ops z H R mt).mu_state = s.mu_state) := by
  rw [Usckf.ekfSingleUpdate_rejected L ops s z H R mt hrej]
  refine ⟨rfl, rfl, rfl, rfl, rfl, ?_⟩
  intro he hunit hsqrt
  simp only [he, segment_zero, Pi.zero_apply]
  rw [Usckf.applyCorrection_zero L _ hunit hsqrt]

/-- Witness of the amended claim C9 on the rationals: the rejected velocity measurement
`z = (4, 0, 0)` on the filter whose active-epoch error state has position `(1, 0, 0)`, and on
the filter at the origin, whose error state is zero. -/
theorem C9_rejected_ekfSingleUpdate_injects_prior_error_witness :
    (Usckf.ekfSingleUpdateAccepted flatOps
        (Usckf.atOriginWithError (1 : Matrix (Epoch × Fin 15) (Epoch × Fin 15) ℚ)
          (SingleState.atPosition ![1, 0, 0]))
        ![4, 0, 0] velocityRowsSingle 1 accept_mahalanobis_distance = false
      ∧ ((Usckf.atOriginWithError (1 : Matrix (Epoch × Fin 15) (Epoch × Fin 15) ℚ)
          (SingleState.atPosition ![1, 0, 0])).ekfSingleUpdate ratLib flatOps
          ![4, 0, 0] velocityRowsSingle 1 accept_mahalanobis_distance).Pk_error
        = (Usckf.atOriginWithError (1 : Matrix (Epoch × Fin 15) (Epoch × Fin 15) ℚ)
          (SingleState.atPosition ![1, 0, 0])).Pk_error)
    ∧ (Usckf.ekfSingleUpdateAccepted flatOps
        (Usckf.atOriginWithError (1 : Matrix (Epoch × Fin 15) (Epoch × Fin 15) ℚ)
          SingleState.origin)
        ![4, 0, 0] velocityRowsSingle 1 accept_mahalanobis_distance = false
      ∧ flatOps.getVectorizedState
          (Usckf.atOriginWithError (1 : Matrix (Epoch × Fin 15) (Epoch × Fin 15) ℚ)
            SingleState.origin).mu_error.statek_i = 0
      ∧ (Usckf.atOriginWithError (1 : Matrix (Epoch × Fin 15) (Epoch × Fin 15) ℚ)
            SingleState.origin).mu_state.statek_i.orient.squaredNorm = 1
      ∧ ratLib.sqrt 1 = 1
      ∧ ((Usckf.atOriginWithError (1 : Matrix (Epoch × Fin 15) (Epoch × Fin 15) ℚ)
          SingleState.origin).ekfSingleUpdate ratLib flatOps
          ![4, 0, 0] velocityRowsSingle 1 accept_mahalanobis_distance).mu_state
        = (Usckf.atOriginWithError (1 : Matrix (Epoch × Fin 15) (Epoch × Fin 15) ℚ)
          SingleState.origin).mu_state) :=
  have h1 := ekfSingleUpdateAccepted_velocity_four (SingleState.atPosition ![1, 0, 0]) rfl
  have h2 := ekfSingleUpdateAccepted_velocity_four SingleState.origin rfl
  have h3 : flatOps.getVectorizedState
      (Usckf.atOriginWithError (1 : Matrix (Epoch × Fin 15) (Epoch × Fin 15) ℚ)
        SingleState.origin).mu_error.statek_i = 0 := getVectorizedSingleState_origin
  have h4 : (Usckf.atOriginWithError (1 : Matrix (Epoch × Fin 15) (Epoch × Fin 15) ℚ)
      SingleState.origin).mu_state.statek_i.orient.squaredNorm = 1 := by
    simp [Usckf.atOriginWithError, SingleState.origin, Quat.identity, Quat.squaredNorm]
  ⟨⟨h1, (C9_rejected_ekfSingleUpdate_injects_prior_error ratLib flatOps _ _ _ _ _ h1).2.1⟩,
    ⟨h2, h3, h4, rfl,
      (C9_rejected_ekfSingleUpdate_injects_prior_error ratLib flatOps _ _ _ _ _ h2).2.2.2.2.2
        h3 h4 rfl⟩⟩

/-! ### The accepted branch of `ekfUpdate` (C10) -/

theorem kalmanGain_velocityRows :
    Usckf.kalmanGain (1 : Matrix (Epoch × Fin 15) (Epoch × Fin 15) α) velocityRows 1
      = (2 : α)⁻¹ • (velocityRows : Matrix (Fin 3) (Epoch × Fin 15) α)ᵀ := by
  rw [Usckf.kalmanGain, innovationCov_velocityRows, inverse_smul_one (2 : α) two_ne_zero,
    Matrix.one_mul, Matrix.mul_smul, Matrix.mul_one]

/-- Claim C10, evaluated on the code: `ekfUpdate` never assigns `mu_state`, so the state
returned by `muState()` after the call is the one before it, for every input.  For the
filter at the origin with identity covariance and the velocity measurement `z = (1, 0, 0)`
with identity noise, the measurement is accepted by the default test, the correction
`K * (z - H * x_hat)` has the value 1/2 at the first velocity component of the active epoch,
and the velocity of the active epoch after the call is still zero. -/
theorem C10_ekfUpdate_does_not_store_the_corrected_state :
    (∀ (n m : Nat) (S : Type) (opsA : ManifoldOps ℚ (Epoch × Fin n) (AugmentedState S))
        (s : Usckf ℚ n S) (z : Fin m → ℚ) (H : Matrix (Fin m) (Epoch × Fin n) ℚ)
        (R : Matrix (Fin m) (Fin m) ℚ) (mt : ℚ → Int → Bool),
        (s.ekfUpdate opsA z H R mt).1.muState = s.muState)
    ∧ Usckf.ekfUpdateAccepted (augmentedOps flatOps)
        (Usckf.atOrigin (1 : Matrix (Epoch × Fin 15) (Epoch × Fin 15) ℚ))
        ![1, 0, 0] velocityRows 1 accept_mahalanobis_distance = true
    ∧ (Usckf.kalmanGain
          (Usckf.atOrigin (1 : Matrix (Epoch × Fin 15) (Epoch × Fin 15) ℚ)).Pk_error
          velocityRows 1 *ᵥ
        Usckf.ekfUpdateInnovation (augmentedOps flatOps)
          (Usckf.atOrigin (1 : Matrix (Epoch × Fin 15) (Epoch × Fin 15) ℚ))
          ![1, 0, 0] velocityRows) (Epoch.statek_i, 3) = 1 / 2
    ∧ (Usckf.ekfUpdateDefault (augmentedOps flatOps)
        (Usckf.atOrigin (1 : Matrix (Epoch × Fin 15) (Epoch × Fin 15) ℚ))
        ![1, 0, 0] velocityRows 1).1.muState.statek_i.vel = 0
    ∧ (Usckf.ekfUpdateDefault (augmentedOps flatOps)
        (Usckf.atOrigin (1 : Matrix (Epoch × Fin 15) (Epoch × Fin 15) ℚ))
        ![1, 0, 0] velocityRows 1).1.muState
      = (Usckf.atOrigin (1 : Matrix (Epoch × Fin 15) (Epoch × Fin 15) ℚ)).muState := by
  have hall : ∀ (n m : Nat) (S : Type) (opsA : ManifoldOps ℚ (Epoch × Fin n) (AugmentedState S))
      (s : Usckf ℚ n S) (z : Fin m → ℚ) (H : Matrix (Fin m) (Epoch × Fin n) ℚ)
      (R : Matrix (Fin m) (Fin m) ℚ) (mt : ℚ → Int → Bool),
      (s.ekfUpdate opsA z H R mt).1.muState = s.muState := by
    intro n m S opsA s z H R mt
    rw [Usckf.ekfUpdate_eq]
    split <;> rfl
  have hm : Usckf.mahalanobis2
      (Usckf.atOrigin (1 : Matrix (Epoch × Fin 15) (Epoch × Fin 15) ℚ)).Pk_error velocityRows 1
      (Usckf.ekfUpdateInnovation (augmentedOps flatOps)
        (Usckf.atOrigin (1 : Matrix (Epoch × Fin 15) (Epoch × Fin 15) ℚ))
        ![1, 0, 0] velocityRows) = 1 / 2 := by
    rw [ekfUpdateInnovation_atOrigin]
    show Usckf.mahalanobis2 (1 : Matrix (Epoch × Fin 15) (Epoch × Fin 15) ℚ) velocityRows 1
      ![1, 0, 0] = 1 / 2
    rw [mahalanobis2_of_innovationCov _ _ _ innovationCov_velocityRows]
    norm_num
  refine ⟨hall, ?_, ?_, ?_, hall _ _ _ _ _ _ _ _ _⟩
  · unfold Usckf.ekfUpdateAccepted
    rw [hm]
    show accept_mahalanobis_distance (1 / 2 : ℚ) 2 = true
    simp only [accept_mahalanobis_distance]
    norm_num
  · rw [ekfUpdateInnovation_atOrigin]
    show (Usckf.kalmanGain (1 : Matrix (Epoch × Fin 15) (Epoch × Fin 15) ℚ) velocityRows 1 *ᵥ
      ![1, 0, 0]) (Epoch.statek_i, 3) = 1 / 2
    rw [kalmanGain_velocityRows]
    simp [Matrix.smul_mulVec_assoc, Matrix.mulVec, Matrix.dotProduct, Fin.sum_univ_three,
      velocityRows]
  · have h := hall 15 3 (SingleState ℚ) (augmentedOps flatOps)
      (Usckf.atOrigin (1 : Matrix (Epoch × Fin 15) (Epoch × Fin 15) ℚ)) ![1, 0, 0]
      velocityRows 1 accept_mahalanobis_distance
    unfold Usckf.ekfUpdateDefault
    rw [h]
    rfl


/-! ### Cloning and the reset of the active error state -/

theorem Usckf.cloning_subblock {n : Nat} {S : Type} (s : Usckf α n S) (a b : Epoch) :
    subblock s.cloning.Pk_error a b = subblock s.Pk_error Epoch.statek_i Epoch.statek_i := by
  cases a <;> cases b <;> simp [Usckf.cloning, subblock_setSubblock]

theorem matrix_ext_subblock {n : Nat} (P Q : Matrix (Epoch × Fin n) (Epoch × Fin n) α)
    (h : ∀ a b : Epoch, subblock P a b = subblock Q a b) : P = Q := by
  ext ⟨a, i⟩ ⟨b, j⟩
  exact congrFun (congrFun (h a b) i) j

/-- Claim C11.  After `cloning` the three epoch sub-states of the nominal state and of the
error state all equal the sub-state `statek_i` held before the call, every one of the nine
epoch-pair blocks of `Pk_error` equals the `(statek_i, statek_i)` block held before the
call, and a second `cloning` changes nothing. -/
theorem C11_cloning_replicates_the_active_epoch {n : Nat} {S : Type} (s : Usckf α n S) :
    (s.cloning.mu_state.statek = s.mu_state.statek_i
      ∧ s.cloning.mu_state.statek_l = s.mu_state.statek_i
      ∧ s.cloning.mu_state.statek_i = s.mu_state.statek_i)
    ∧ (s.cloning.mu_error.statek = s.mu_error.statek_i
      ∧ s.cloning.mu_error.statek_l = s.mu_error.statek_i
      ∧ s.cloning.mu_error.statek_i = s.mu_error.statek_i)
    ∧ (∀ a b : Epoch,
        subblock s.cloning.Pk_error a b = subblock s.Pk_error Epoch.statek_i Epoch.statek_i)
    ∧ s.cloning.cloning = s.cloning := by
  refine ⟨⟨rfl, rfl, rfl⟩, ⟨rfl, rfl, rfl⟩, Usckf.cloning_subblock s, ?_⟩
  have hP : s.cloning.cloning.Pk_error = s.cloning.Pk_error :=
    matrix_ext_subblock _ _ (fun a b => by
      rw [Usckf.cloning_subblock, Usckf.cloning_subblock, Usckf.cloning_subblock])
  have hs : s.cloning.cloning.mu_state = s.cloning.mu_state := rfl
  have he : s.cloning.cloning.mu_error = s.cloning.mu_error := rfl
  cases h1 : s.cloning.cloning with
  | mk a b c =>
    cases h2 : s.cloning with
    | mk a2 b2 c2 =>
      rw [h1, h2] at hP hs he
      simp only at hP hs he
      rw [hP, hs, he]

/-- Claim C12.  After `muErrorSingleReset` the error state of the active epoch has zero
position, velocity, gyroscope bias and accelerometer bias and the identity quaternion as
orientation, while the error states of the two other epochs, the nominal state and the
covariance are the ones held before the call. -/
theorem C12_muErrorSingleReset_resets_the_active_error_state
    (s : Usckf α 15 (SingleState α)) :
    (s.muErrorSingleReset.mu_error.statek_i.pos = 0
      ∧ s.muErrorSingleReset.mu_error.statek_i.vel = 0
      ∧ s.muErrorSingleReset.mu_error.statek_i.gbias = 0
      ∧ s.muErrorSingleReset.mu_error.statek_i.abias = 0
      ∧ s.muErrorSingleReset.mu_error.statek_i.orient = Quat.identity)
    ∧ s.muErrorSingleReset.mu_error.statek = s.mu_error.statek
    ∧ s.muErrorSingleReset.mu_error.statek_l = s.mu_error.statek_l
    ∧ s.muErrorSingleReset.mu_state = s.mu_state
    ∧ s.muErrorSingleReset.Pk_error = s.Pk_error :=
  ⟨⟨rfl, rfl, rfl, rfl, rfl⟩, rfl, rfl, rfl, rfl⟩

/-! ### The magnetometer arguments of the update -/

/-- Claim C19.  Two calls of `update` from the same filter with the same `Hme`, `Rme`,
`slip_error`, `acc` and `dt` produce the same filter (error state, covariance, bias
estimates, quaternion, gain and adaptive counters included), whatever their magnetometer
samples and magnetometer flags are. -/
theorem C19_update_ignores_the_magnetometer {sl : Nat} (L : NumericLib α) (M2 : Nat)
    (GAMMA : α) (auxvector0 : Fin 3 → α) (s : Sckf α M1) (Hme : Matrix (Fin 3) (Fin sl) α)
    (Rme : Matrix (Fin sl) (Fin sl) α) (slip_error : Fin sl → α) (acc : Fin 3 → α) (dt : α)
    (mag mag2 : Fin 3 → α) (magn_on_off magn_on_off2 : Bool) :
    s.update L M2 GAMMA auxvector0 Hme Rme slip_error acc mag dt magn_on_off
      = s.update L M2 GAMMA auxvector0 Hme Rme slip_error acc mag2 dt magn_on_off2 :=
  rfl


/-! ### Stationary prediction -/

theorem Sckf.predict_xki_k_zero (L : NumericLib α) (s : Sckf α M1) (u v : Fin 3 → α) (dt : α)
    (h : s.xki_k = 0) : (s.predict L u v dt).xki_k = 0 := by
  show Sckf.predictdFki s u v dt *ᵥ s.xki_k = 0
  rw [h, Matrix.mulVec_zero]

theorem Sckf.predictSeq_xki_k_zero (L : NumericLib α)
    (samples : List ((Fin 3 → α) × (Fin 3 → α) × α)) :
    ∀ s : Sckf α M1, s.xki_k = 0 → (Sckf.predictSeq L s samples).xki_k = 0 := by
  induction samples with
  | nil => intro s h; exact h
  | cons x rest ih =>
    intro s h
    obtain ⟨u, v, dt⟩ := x
    exact ih _ (Sckf.predict_xki_k_zero L s u v dt h)

/-- Claim C13.  When the error-state vector is zero before `predict` it is zero after it, for
every gyroscope sample, accelerometer sample, time step, orientation and bias estimate; and
after any sequence of consecutive `predict` calls from a zero error state the error-state
vector is zero, in particular its position part (rows 0 to 2) and its velocity part (rows 3
to 5). -/
theorem C13_zero_error_state_stays_zero_under_predict (L : NumericLib α) (s : Sckf α M1)
    (h : s.xki_k = 0) :
    (∀ (u v : Fin 3 → α) (dt : α), (s.predict L u v dt).xki_k = 0)
    ∧ ∀ samples : List ((Fin 3 → α) × (Fin 3 → α) × α),
        (Sckf.predictSeq L s samples).xki_k = 0
        ∧ segment 3 (Sckf.predictSeq L s samples).xki_k 0 = 0
        ∧ segment 3 (Sckf.predictSeq L s samples).xki_k 3 = 0 := by
  refine ⟨fun u v dt => Sckf.predict_xki_k_zero L s u v dt h, fun samples => ?_⟩
  have h0 := Sckf.predictSeq_xki_k_zero L samples s h
  refine ⟨h0, ?_, ?_⟩ <;> rw [h0] <;> exact segment_zero 3 _

/-- The filter of the stationary scenario: initialised with zero bias, the identity
orientation and gravity 9.81 along Z. -/
theorem C13_zero_error_state_stays_zero_under_predict_witness :
    ((Sckf.blank Quat.identity : Sckf ℚ 5).Init ratLib 0 0 0 0 0 0 0 9.81 0 0).xki_k = 0
    ∧ ((∀ (u v : Fin 3 → ℚ) (dt : ℚ),
          (((Sckf.blank Quat.identity : Sckf ℚ 5).Init ratLib 0 0 0 0 0 0 0 9.81 0 0).predict
            ratLib u v dt).xki_k = 0)
      ∧ ∀ samples : List ((Fin 3 → ℚ) × (Fin 3 → ℚ) × ℚ),
        (Sckf.predictSeq ratLib
            ((Sckf.blank Quat.identity : Sckf ℚ 5).Init ratLib 0 0 0 0 0 0 0 9.81 0 0)
            samples).xki_k = 0
        ∧ segment 3 (Sckf.predictSeq ratLib
            ((Sckf.blank Quat.identity : Sckf ℚ 5).Init ratLib 0 0 0 0 0 0 0 9.81 0 0)
            samples).xki_k 0 = 0
        ∧ segment 3 (Sckf.predictSeq ratLib
            ((Sckf.blank Quat.identity : Sckf ℚ 5).Init ratLib 0 0 0 0 0 0 0 9.81 0 0)
            samples).xki_k 3 = 0) :=
  ⟨rfl, C13_zero_error_state_stays_zero_under_predict ratLib _ rfl⟩

theorem Quat.normalize_of_squaredNorm_one (L : NumericLib α) (h1 : L.sqrt 1 = 1) (q : Quat α)
    (hq : q.squaredNorm = 1) : Quat.normalize L q = q := by
  cases q
  simp [Quat.normalize, Quat.norm, hq, h1]

theorem omegaMatrix_zero : omegaMatrix (0 : Fin 3 → α) = 0 := by
  ext i j
  fin_cases i <;> fin_cases j <;> simp [omegaMatrix, Matrix.vecHead, Matrix.vecTail]

theorem Quat.ofVec_toVec (q : Quat α) : Quat.ofVec q.toVec = q := by
  cases q
  simp [Quat.ofVec, Quat.toVec]

theorem Sckf.predict_stationary (L : NumericLib α) (h1 : L.sqrt 1 = 1) (s : Sckf α M1)
    (u v : Fin 3 → α) (dt : α) (hu : u = s.bghat) (ho : s.oldomega4 = 0)
    (hq : s.q4.squaredNorm = 1) :
    (s.predict L u v dt).q4 = s.q4 ∧ (s.predict L u v dt).oldomega4 = 0 := by
  have ha : u - s.bghat = 0 := by rw [hu, sub_self]
  constructor
  · show Quat.normalize L (Quat.ofVec (Sckf.predictQuat s u dt)) = s.q4
    have hquat : Sckf.predictQuat s u dt = s.q4.toVec := by
      unfold Sckf.predictQuat
      simp only [ha, omegaMatrix_zero, ho, integrationMatrix_eq]
      simp
    rw [hquat, Quat.ofVec_toVec]
    exact Quat.normalize_of_squaredNorm_one L h1 _ hq
  · show omegaMatrix (u - s.bghat) = 0
    rw [ha, omegaMatrix_zero]

theorem Sckf.predictSeq_stationary (L : NumericLib α) (h1 : L.sqrt 1 = 1)
    (samples : List ((Fin 3 → α) × (Fin 3 → α) × α)) :
    ∀ s : Sckf α M1, (∀ x ∈ samples, x.1 = s.bghat) → s.oldomega4 = 0 →
      s.q4.squaredNorm = 1 →
      (Sckf.predictSeq L s samples).q4 = s.q4
        ∧ (Sckf.predictSeq L s samples).oldomega4 = 0 := by
  induction samples with
  | nil => intro s _ ho _; exact ⟨rfl, ho⟩
  | cons x rest ih =>
    intro s hx ho hq
    obtain ⟨u, v, dt⟩ := x
    have hu : u = s.bghat := hx (u, v, dt) (List.mem_cons_self _ _)
    obtain ⟨e1, e2⟩ := Sckf.predict_stationary L h1 s u v dt hu ho hq
    have hb : (s.predict L u v dt).bghat = s.bghat := rfl
    have := ih (s.predict L u v dt)
      (fun y hy => by rw [hb]; exact hx y (List.mem_cons_of_mem _ hy)) e2 (by rw [e1]; exact hq)
    show (Sckf.predictSeq L (s.predict L u v dt) rest).q4 = s.q4
      ∧ (Sckf.predictSeq L (s.predict L u v dt) rest).oldomega4 = 0
    rw [this.1, e1]
    exact ⟨rfl, this.2⟩

/-- Claim C14.  When the gyroscope sample equals the gyroscope-bias estimate, the retained
matrix `oldomega4` is zero and the orientation has unit norm, `predict` leaves the
orientation quaternion unchanged and leaves `oldomega4` zero, for every accelerometer sample
and time step; the same holds after any sequence of such calls, and 100 stationary steps
(bias zero, angular velocity zero, specific force `(0, 0, 9.81)`, `dt = 0.01`) from the
identity orientation end at the identity orientation.  The square root of the library is
only required to map 1 to 1. -/
theorem C14_stationary_predict_keeps_the_orientation (L : NumericLib α) (h1 : L.sqrt 1 = 1)
    (s : Sckf α M1) (ho : s.oldomega4 = 0) (hq : s.q4.squaredNorm = 1) :
    (∀ (v : Fin 3 → α) (dt : α),
        (s.predict L s.bghat v dt).q4 = s.q4 ∧ (s.predict L s.bghat v dt).oldomega4 = 0)
    ∧ (∀ samples : List ((Fin 3 → α) × (Fin 3 → α) × α), (∀ x ∈ samples, x.1 = s.bghat) →
        (Sckf.predictSeq L s samples).q4 = s.q4
          ∧ (Sckf.predictSeq L s samples).oldomega4 = 0)
    ∧ (s.bghat = 0 → s.q4 = Quat.identity →
        (Sckf.predictSeq L s (List.replicate 100 (0, ![0, 0, 9.81], 0.01))).q4
          = Quat.identity) := by
  refine ⟨fun v dt => Sckf.predict_stationary L h1 s _ v dt rfl ho hq,
    fun samples hx => Sckf.predictSeq_stationary L h1 samples s hx ho hq, ?_⟩
  intro hb hi
  rw [← hi]
  refine (Sckf.predictSeq_stationary L h1 _ s ?_ ho hq).1
  intro x hx
  rw [List.eq_of_mem_replicate hx, hb]

/-- The filter of the stationary scenario keeps the identity orientation over 100 steps. -/
theorem C14_stationary_predict_keeps_the_orientation_witness :
    (Sckf.predictSeq ratLib
        ((Sckf.blank Quat.identity : Sckf ℚ 5).Init ratLib 0 0 0 0 0 0 0 9.81 0 0)
        (List.replicate 100 (0, ![0, 0, 9.81], 0.01))).q4 = Quat.identity :=
  (C14_stationary_predict_keeps_the_orientation ratLib rfl
    ((Sckf.blank Quat.identity : Sckf ℚ 5).Init ratLib 0 0 0 0 0 0 0 9.81 0 0) rfl
    (by simp [Sckf.Init, Sckf.blank, Quat.identity, Quat.squaredNorm])).2.2 rfl rfl


/-! ### The adaptive estimate of the external acceleration covariance -/

theorem Sckf.inflation_zero (u : Matrix (Fin 3) (Fin 3) α) :
    Sckf.inflation (fun _ => (0 : α)) u = 0 := by
  simp [Sckf.inflation]

theorem Sckf.inflation_eq (a : Fin 3 → α) (u : Matrix (Fin 3) (Fin 3) α) :
    Sckf.inflation a u = u * Matrix.diagonal a * uᵀ := by
  ext i j
  simp [Sckf.inflation, Matrix.mul_apply, Matrix.diagonal_apply, Fin.sum_univ_succ,
    Matrix.vecMulVec_apply]
  ring

theorem Sckf.inflation_ne_zero (a : Fin 3 → α) (u : Matrix (Fin 3) (Fin 3) α)
    (hu : uᵀ * u = 1) (i : Fin 3) (hi : a i ≠ 0) : Sckf.inflation a u ≠ 0 := by
  intro h
  have h2 : uᵀ * (Sckf.inflation a u) * u = Matrix.diagonal a := by
    rw [Sckf.inflation_eq]
    calc uᵀ * (u * Matrix.diagonal a * uᵀ) * u
        = (uᵀ * u) * Matrix.diagonal a * (uᵀ * u) := by simp only [Matrix.mul_assoc]
      _ = Matrix.diagonal a := by rw [hu, Matrix.one_mul, Matrix.mul_one]
  rw [h, Matrix.mul_zero, Matrix.zero_mul] at h2
  have := congrFun (congrFun h2 i) i
  simp at this
  exact hi this.symm

theorem max3_gt_iff (a b c g : α) : max (max a b) c > g ↔ g < a ∨ g < b ∨ g < c := by
  simp only [gt_iff_lt, lt_max_iff, or_assoc]

theorem inflation_detected_ne_zero (d : Fin 3 → α) (g : α) (hg : 0 ≤ g)
    (hd : max (max (d 0) (d 1)) (d 2) > g) (u : Matrix (Fin 3) (Fin 3) α) (hu : uᵀ * u = 1) :
    Sckf.inflation (fun i => max (d i) 0) u ≠ 0 := by
  rw [max3_gt_iff] at hd
  have key : ∀ i : Fin 3, g < d i → Sckf.inflation (fun i => max (d i) 0) u ≠ 0 := by
    intro i hi
    refine Sckf.inflation_ne_zero _ u hu i ?_
    have : 0 < d i := lt_of_le_of_lt hg hi
    simp only [ne_eq]
    rw [max_eq_left this.le]
    exact this.ne'
  rcases hd with h | h | h
  · exact key 0 h
  · exact key 1 h
  · exact key 2 h

theorem block_setBlock_self {r c p q : Nat} (A : Matrix (Fin r) (Fin c) α) (i0 j0 : Nat)
    (B : Matrix (Fin p) (Fin q) α) (hr : i0 + p ≤ r) (hc : j0 + q ≤ c) :
    block p q (setBlock A i0 j0 B) i0 j0 = B := by
  ext i j
  have hi : i0 + i.val < r := by have := i.isLt; omega
  have hj : j0 + j.val < c := by have := j.isLt; omega
  have h2 : (i0 ≤ i0 + i.val ∧ i0 + i.val < i0 + p) ∧ (j0 ≤ j0 + j.val ∧ j0 + j.val < j0 + q) := by
    have := i.isLt
    have := j.isLt
    omega
  simp only [block, setBlock, dif_pos (And.intro hi hj), dif_pos h2]
  congr 1 <;> apply Fin.ext <;> simp

theorem Sckf.update_r2count {sl : Nat} (L : NumericLib α) (M2 : Nat) (GAMMA : α)
    (auxvector0 : Fin 3 → α) (s : Sckf α M1) (Hme : Matrix (Fin 3) (Fin sl) α)
    (Rme : Matrix (Fin sl) (Fin sl) α) (slip_error : Fin sl → α) (acc mag : Fin 3 → α) (dt : α)
    (flag : Bool) :
    (s.update L M2 GAMMA auxvector0 Hme Rme slip_error acc mag dt flag).r2count
      = if Sckf.updateDetected L GAMMA s acc then 0 else s.r2count + 1 :=
  rfl

theorem Sckf.update_Rk_block {sl : Nat} (L : NumericLib α) (M2 : Nat) (GAMMA : α)
    (auxvector0 : Fin 3 → α) (s : Sckf α M1) (Hme : Matrix (Fin 3) (Fin sl) α)
    (Rme : Matrix (Fin sl) (Fin sl) α) (slip_error : Fin sl → α) (acc mag : Fin 3 → α) (dt : α)
    (flag : Bool) :
    block 3 3 (s.update L M2 GAMMA auxvector0 Hme Rme slip_error acc mag dt flag).Rk 3 3
      = s.Ra + s.Rat + Sckf.updateQstar L M2 GAMMA auxvector0 s acc :=
  block_setBlock_self _ 3 3 _ (by norm_num) (by norm_num)

theorem Sckf.updateQstar_quiet (L : NumericLib α) (M2 : Nat) (GAMMA : α)
    (auxvector0 : Fin 3 → α) (s : Sckf α M1) (acc : Fin 3 → α)
    (h : Sckf.updateDetected L GAMMA s acc = false) (hm : M2 ≤ s.r2count + 1) :
    Sckf.updateQstar L M2 GAMMA auxvector0 s acc = 0 := by
  unfold Sckf.updateQstar
  simp only [h, Bool.false_eq_true, if_false]
  rw [if_neg (by omega)]

theorem Sckf.updateQstar_detected (L : NumericLib α) (M2 : Nat) (GAMMA : α)
    (auxvector0 : Fin 3 → α) (s : Sckf α M1) (acc : Fin 3 → α)
    (h : Sckf.updateDetected L GAMMA s acc = true) :
    Sckf.updateQstar L M2 GAMMA auxvector0 s acc
      = Sckf.inflation (fun i => max (Sckf.updateLambdaMinusMu L s acc i) 0)
          (L.svdMatrixU (Sckf.updateUk s acc)) := by
  unfold Sckf.updateQstar
  simp only [h, if_true]

namespace AdaptiveAttitudeCov

theorem matrix_quiet {n : Nat} (L : NumericLib α) (c : AdaptiveAttitudeCov α)
    (xk : Fin n → α) (Pk : Matrix (Fin n) (Fin n) α) (z : Fin 3 → α)
    (H : Matrix (Fin 3) (Fin n) α) (R : Matrix (Fin 3) (Fin 3) α)
    (h : matrixDetected L c xk Pk z H R = false) :
    (matrix L c xk Pk z H R).2.r2count = (c.r2count + 1) % 2 ^ 32
    ∧ (matrix L c xk Pk z H R).2.m2 = c.m2
    ∧ (c.m2 ≤ (c.r2count + 1) % 2 ^ 32 → (matrix L c xk Pk z H R).1 = 0) := by
  unfold matrix
  simp only [h, Bool.false_eq_true, if_false]
  refine ⟨?_, ?_, ?_⟩
  · split_ifs <;> rfl
  · split_ifs <;> rfl
  · intro hm
    rw [if_neg (by omega)]

theorem matrix_detected {n : Nat} (L : NumericLib α) (c : AdaptiveAttitudeCov α)
    (xk : Fin n → α) (Pk : Matrix (Fin n) (Fin n) α) (z : Fin 3 → α)
    (H : Matrix (Fin 3) (Fin n) α) (R : Matrix (Fin 3) (Fin 3) α)
    (h : matrixDetected L c xk Pk z H R = true) :
    (matrix L c xk Pk z H R).2.r2count = 0
    ∧ (matrix L c xk Pk z H R).2.m2 = c.m2
    ∧ (matrix L c xk Pk z H R).1
        = Sckf.inflation (fun i => max (matrixLambdaMinusMu L c xk Pk z H R i) 0)
            (L.svdMatrixU (matrixUk c xk z H)) := by
  unfold matrix
  simp only [h, if_true]
  exact ⟨trivial, trivial, trivial⟩

theorem after_quiet {n : Nat} (L : NumericLib α) (calls : List (Args α n)) :
    ∀ c : AdaptiveAttitudeCov α, allQuiet L c calls = true →
      c.r2count + calls.length < 2 ^ 32 →
      (after L c calls).r2count = c.r2count + calls.length
        ∧ (after L c calls).m2 = c.m2 := by
  induction calls with
  | nil => intro c _ _; exact ⟨rfl, rfl⟩
  | cons a rest ih =>
    intro c hq hlen
    simp only [allQuiet, Bool.and_eq_true, Bool.not_eq_true'] at hq
    simp only [List.length_cons] at hlen
    obtain ⟨h1, h2, _⟩ := matrix_quiet L c a.xk a.Pk a.z a.H a.R hq.1
    rw [Nat.mod_eq_of_lt (by omega)] at h1
    obtain ⟨e1, e2⟩ := ih (matrix L c a.xk a.Pk a.z a.H a.R).2 hq.2 (by rw [h1]; omega)
    simp only [after, List.length_cons]
    rw [e1, e2, h1, h2]
    exact ⟨by omega, rfl⟩

theorem allQuiet_append {n : Nat} (L : NumericLib α) (calls : List (Args α n)) (a : Args α n) :
    ∀ c : AdaptiveAttitudeCov α, allQuiet L c (calls ++ [a]) = true →
      allQuiet L c calls = true
        ∧ matrixDetected L (after L c calls) a.xk a.Pk a.z a.H a.R = false := by
  induction calls with
  | nil =>
    intro c h
    simpa [allQuiet, after] using h
  | cons b rest ih =>
    intro c h
    simp only [List.cons_append, allQuiet, Bool.and_eq_true, Bool.not_eq_true'] at h
    obtain ⟨e1, e2⟩ := ih _ h.2
    simp only [allQuiet, Bool.and_eq_true, Bool.not_eq_true', after]
    exact ⟨⟨h.1, e1⟩, e2⟩

theorem matrix_zero_after_m2_quiet {n : Nat} (L : NumericLib α) (c : AdaptiveAttitudeCov α)
    (h0 : c.r2count = 0) (hm : c.m2 < 2 ^ 32) (calls : List (Args α n)) (a : Args α n)
    (hlen : calls.length + 1 = c.m2) (hq : allQuiet L c (calls ++ [a]) = true) :
    (matrix L (after L c calls) a.xk a.Pk a.z a.H a.R).1 = 0 := by
  obtain ⟨q1, q2⟩ := allQuiet_append L calls a c hq
  obtain ⟨e1, e2⟩ := after_quiet L calls c q1 (by omega)
  refine (matrix_quiet L _ a.xk a.Pk a.z a.H a.R q2).2.2 ?_
  rw [e1, e2, h0, Nat.mod_eq_of_lt (by omega)]
  omega

end AdaptiveAttitudeCov

theorem AdaptiveAttitudeCov.matrixUk_eq_zero {n : Nat} (c : AdaptiveAttitudeCov α)
    (xk : Fin n → α) (z : Fin 3 → α) (H : Matrix (Fin 3) (Fin n) α)
    (hhist : ∀ M ∈ c.RHist, M = 0) (hres : z - H *ᵥ xk = 0) :
    AdaptiveAttitudeCov.matrixUk c xk z H = 0 := by
  have hall : ∀ j : Nat, (AdaptiveAttitudeCov.matrixRHist c xk z H).getD j 0 = 0 := by
    intro j
    unfold AdaptiveAttitudeCov.matrixRHist
    rw [hres]
    simp only [List.getD_eq_getElem?_getD]
    cases hj : (c.RHist.set c.r1count (vecMulVec 0 0))[j]? with
    | none => rfl
    | some M =>
      have hmem : M ∈ c.RHist.set c.r1count (vecMulVec 0 0) := List.getElem?_mem hj
      rcases List.mem_or_eq_of_mem_set hmem with h | h
      · simpa using hhist M h
      · rw [h]; ext a b; simp [Matrix.vecMulVec_apply]
  have hfold : ∀ (l : List Nat) (U : Matrix (Fin 3) (Fin 3) α), U = 0 →
      l.foldl (fun U j => U + (AdaptiveAttitudeCov.matrixRHist c xk z H).getD j 0) U = 0 := by
    intro l
    induction l with
    | nil => intro U hU; exact hU
    | cons j rest ih =>
      intro U hU
      simp only [List.foldl_cons]
      exact ih _ (by rw [hU, hall, add_zero])
  unfold AdaptiveAttitudeCov.matrixUk
  simp only [hfold _ 0 rfl, smul_zero]

theorem AdaptiveAttitudeCov.matrixLambdaMinusMu_nonpos {n : Nat} (L : NumericLib α)
    (c : AdaptiveAttitudeCov α) (xk : Fin n → α) (Pk : Matrix (Fin n) (Fin n) α)
    (z : Fin 3 → α) (H : Matrix (Fin 3) (Fin n) α) (R : Matrix (Fin 3) (Fin 3) α)
    (hsvd : L.svdSingularValues 0 = 0) (hUk : AdaptiveAttitudeCov.matrixUk c xk z H = 0)
    (hpsd : IsPSD (H * Pk * Hᵀ + R)) (i : Fin 3) :
    AdaptiveAttitudeCov.matrixLambdaMinusMu L c xk Pk z H R i ≤ 0 := by
  unfold AdaptiveAttitudeCov.matrixLambdaMinusMu
  simp only [hUk, hsvd, Pi.sub_apply, Pi.zero_apply, zero_sub, neg_nonpos]
  rw [← Matrix.dotProduct_mulVec]
  exact hpsd.2 _

/-- Claim C18.  When the averaged window `Uk` of `AdaptiveAttitudeCov::matrix` is the zero
matrix, the singular values that the decomposition returns for the zero matrix are zero and
`H * Pk * Hᵀ + R` is symmetric positive-semi-definite, the call returns the zero matrix,
whatever the factor `u` of the decomposition, the threshold `gamma` and the quiet counter
are. -/
theorem C18_zero_window_gives_zero_inflation {n : Nat} (L : NumericLib α)
    (c : AdaptiveAttitudeCov α) (xk : Fin n → α) (Pk : Matrix (Fin n) (Fin n) α)
    (z : Fin 3 → α) (H : Matrix (Fin 3) (Fin n) α) (R : Matrix (Fin 3) (Fin 3) α)
    (hsvd : L.svdSingularValues 0 = 0) (hUk : AdaptiveAttitudeCov.matrixUk c xk z H = 0)
    (hpsd : IsPSD (H * Pk * Hᵀ + R)) :
    (AdaptiveAttitudeCov.matrix L c xk Pk z H R).1 = 0 := by
  have hd : (fun i => max (AdaptiveAttitudeCov.matrixLambdaMinusMu L c xk Pk z H R i) 0)
      = fun _ => (0 : α) := by
    funext i
    exact max_eq_right
      (AdaptiveAttitudeCov.matrixLambdaMinusMu_nonpos L c xk Pk z H R hsvd hUk hpsd i)
  unfold AdaptiveAttitudeCov.matrix
  simp only [hd, Sckf.inflation_zero]
  split_ifs <;> rfl

theorem isPSD_one {k : Nat} : IsPSD (1 : Matrix (Fin k) (Fin k) α) := by
  refine ⟨Matrix.transpose_one, fun v => ?_⟩
  rw [Matrix.one_mulVec]
  exact Finset.sum_nonneg (fun i _ => mul_self_nonneg (v i))

/-- A window of three zero history entries with a zero residual, zero covariance and unit
measurement noise. -/
theorem C18_zero_window_gives_zero_inflation_witness :
    (AdaptiveAttitudeCov.matrix ratLib (AdaptiveAttitudeCov.create 3 2 0 5)
      (0 : Fin 3 → ℚ) 0 0 1 1).1 = 0 :=
  C18_zero_window_gives_zero_inflation ratLib (AdaptiveAttitudeCov.create 3 2 0 5)
    (0 : Fin 3 → ℚ) 0 0 1 1 rfl
    (AdaptiveAttitudeCov.matrixUk_eq_zero _ _ _ _
      (fun M hM => List.eq_of_mem_replicate hM) (by simp))
    (by simpa using (isPSD_one : IsPSD (1 : Matrix (Fin 3) (Fin 3) ℚ)))


theorem Sckf.updateSeq_quiet {sl : Nat} (L : NumericLib α) (M2 : Nat) (GAMMA : α)
    (calls : List (Sckf.UpdateArgs α sl)) :
    ∀ s : Sckf α M1, Sckf.updatesQuiet L M2 GAMMA s calls = true →
      (Sckf.updateSeq L M2 GAMMA s calls).r2count = s.r2count + calls.length := by
  induction calls with
  | nil => intro s _; rfl
  | cons a rest ih =>
    intro s hq
    simp only [Sckf.updatesQuiet, Bool.and_eq_true, Bool.not_eq_true'] at hq
    have h1 := Sckf.update_r2count L M2 GAMMA a.auxvector0 s a.Hme a.Rme a.slip_error a.acc
      a.mag a.dt a.magn_on_off
    rw [hq.1] at h1
    simp only [Sckf.updateSeq, List.length_cons]
    rw [ih _ hq.2, h1]
    simp only [Bool.false_eq_true, if_false]
    omega

theorem Sckf.updatesQuiet_append {sl : Nat} (L : NumericLib α) (M2 : Nat) (GAMMA : α)
    (calls : List (Sckf.UpdateArgs α sl)) (a : Sckf.UpdateArgs α sl) :
    ∀ s : Sckf α M1, Sckf.updatesQuiet L M2 GAMMA s (calls ++ [a]) = true →
      Sckf.updatesQuiet L M2 GAMMA s calls = true
        ∧ Sckf.updateDetected L GAMMA (Sckf.updateSeq L M2 GAMMA s calls) a.acc = false := by
  induction calls with
  | nil =>
    intro s h
    simpa [Sckf.updatesQuiet, Sckf.updateSeq] using h
  | cons b rest ih =>
    intro s h
    simp only [List.cons_append, Sckf.updatesQuiet, Bool.and_eq_true, Bool.not_eq_true'] at h
    obtain ⟨e1, e2⟩ := ih _ h.2
    simp only [Sckf.updatesQuiet, Bool.and_eq_true, Bool.not_eq_true', Sckf.updateSeq]
    exact ⟨⟨h.1, e1⟩, e2⟩

/-- Claim C16.  A call of `AdaptiveAttitudeCov::matrix` whose test `max(lambda - mu) > gamma`
fails increments the quiet counter (an `unsigned int`) and returns the zero matrix whenever
the incremented counter is at least `m2`; the same branch of `Sckf::update` increments
`r2count` and, when the incremented counter is at least `M2`, uses `Qstar = 0`, so that the
attitude block of `Rk` is `Ra + Rat`; and from a counter equal to zero, as a detection leaves
it, the `m2`-th of `m2` consecutive quiet calls of `matrix` returns the zero matrix, and the
`M2`-th of `M2` consecutive quiet calls of `update` uses `Qstar = 0`. -/
theorem C16_quiet_calls_reach_zero_inflation (L : NumericLib α) :
    (∀ (n : Nat) (c : AdaptiveAttitudeCov α) (a : AdaptiveAttitudeCov.Args α n),
      AdaptiveAttitudeCov.matrixDetected L c a.xk a.Pk a.z a.H a.R = false →
        (AdaptiveAttitudeCov.matrix L c a.xk a.Pk a.z a.H a.R).2.r2count
            = (c.r2count + 1) % 2 ^ 32
          ∧ (c.m2 ≤ (c.r2count + 1) % 2 ^ 32 →
              (AdaptiveAttitudeCov.matrix L c a.xk a.Pk a.z a.H a.R).1 = 0))
    ∧ (∀ (sl : Nat) (s : Sckf α M1) (M2 : Nat) (GAMMA : α) (auxvector0 : Fin 3 → α)
        (Hme : Matrix (Fin 3) (Fin sl) α) (Rme : Matrix (Fin sl) (Fin sl) α)
        (slip_error : Fin sl → α) (acc mag : Fin 3 → α) (dt : α) (magn_on_off : Bool),
      Sckf.updateDetected L GAMMA s acc = false →
        (s.update L M2 GAMMA auxvector0 Hme Rme slip_error acc mag dt magn_on_off).r2count
            = s.r2count + 1
          ∧ (M2 ≤ s.r2count + 1 →
              Sckf.updateQstar L M2 GAMMA auxvector0 s acc = 0
                ∧ block 3 3 (s.update L M2 GAMMA auxvector0 Hme Rme slip_error acc mag dt
                    magn_on_off).Rk 3 3 = s.Ra + s.Rat))
    ∧ (∀ (n : Nat) (c : AdaptiveAttitudeCov α) (calls : List (AdaptiveAttitudeCov.Args α n))
        (a : AdaptiveAttitudeCov.Args α n),
      c.r2count = 0 → c.m2 < 2 ^ 32 → calls.length + 1 = c.m2 →
        AdaptiveAttitudeCov.allQuiet L c (calls ++ [a]) = true →
          (AdaptiveAttitudeCov.matrix L (AdaptiveAttitudeCov.after L c calls)
            a.xk a.Pk a.z a.H a.R).1 = 0)
    ∧ (∀ (sl : Nat) (s : Sckf α M1) (M2 : Nat) (GAMMA : α)
        (calls : List (Sckf.UpdateArgs α sl)) (a : Sckf.UpdateArgs α sl),
      s.r2count = 0 → calls.length + 1 = M2 →
        Sckf.updatesQuiet L M2 GAMMA s (calls ++ [a]) = true →
          Sckf.updateQstar L M2 GAMMA a.auxvector0 (Sckf.updateSeq L M2 GAMMA s calls) a.acc
            = 0) := by
  refine ⟨?_, ?_, ?_, ?_⟩
  · intro n c a h
    obtain ⟨h1, _, h3⟩ := AdaptiveAttitudeCov.matrix_quiet L c a.xk a.Pk a.z a.H a.R h
    exact ⟨h1, h3⟩
  · intro sl s M2 GAMMA auxvector0 Hme Rme slip_error acc mag dt flag h
    refine ⟨?_, fun hm => ?_⟩
    · rw [Sckf.update_r2count, h]
      rfl
    · have hq := Sckf.updateQstar_quiet L M2 GAMMA auxvector0 s acc h hm
      refine ⟨hq, ?_⟩
      rw [Sckf.update_Rk_block, hq, add_zero]
  · intro n c calls a h0 hm hlen hq
    exact AdaptiveAttitudeCov.matrix_zero_after_m2_quiet L c h0 hm calls a hlen hq
  · intro sl s M2 GAMMA calls a h0 hlen hq
    obtain ⟨q1, q2⟩ := Sckf.updatesQuiet_append L M2 GAMMA calls a s hq
    refine Sckf.updateQstar_quiet L M2 GAMMA a.auxvector0 _ a.acc q2 ?_
    rw [Sckf.updateSeq_quiet L M2 GAMMA calls s q1, h0]
    omega

/-- Claim C17.  When the test `max(lambda - mu) > gamma` succeeds with `gamma >= 0`,
`AdaptiveAttitudeCov::matrix` stores 0 in the quiet counter, whatever it held, and returns
`Qstar`, the sum of `max(lambda_i - mu_i, 0) u_i u_iᵀ` over the columns of the factor `u`,
which is not the zero matrix when these columns are orthonormal; the same branch of
`Sckf::update` stores 0 in `r2count` and puts `Ra + Rat + Qstar`, with the same non-zero
`Qstar`, in the attitude block of `Rk`. -/
theorem C17_detection_resets_the_counter_and_inflates (L : NumericLib α) :
    (∀ (n : Nat) (c : AdaptiveAttitudeCov α) (a : AdaptiveAttitudeCov.Args α n),
      0 ≤ c.gamma → AdaptiveAttitudeCov.matrixDetected L c a.xk a.Pk a.z a.H a.R = true →
      (L.svdMatrixU (AdaptiveAttitudeCov.matrixUk c a.xk a.z a.H))ᵀ
          * L.svdMatrixU (AdaptiveAttitudeCov.matrixUk c a.xk a.z a.H) = 1 →
        (AdaptiveAttitudeCov.matrix L c a.xk a.Pk a.z a.H a.R).2.r2count = 0
          ∧ (AdaptiveAttitudeCov.matrix L c a.xk a.Pk a.z a.H a.R).1
              = Sckf.inflation
                  (fun i => max (AdaptiveAttitudeCov.matrixLambdaMinusMu L c a.xk a.Pk a.z a.H
                    a.R i) 0)
                  (L.svdMatrixU (AdaptiveAttitudeCov.matrixUk c a.xk a.z a.H))
          ∧ (AdaptiveAttitudeCov.matrix L c a.xk a.Pk a.z a.H a.R).1 ≠ 0)
    ∧ (∀ (sl : Nat) (s : Sckf α M1) (M2 : Nat) (GAMMA : α) (auxvector0 : Fin 3 → α)
        (Hme : Matrix (Fin 3) (Fin sl) α) (Rme : Matrix (Fin sl) (Fin sl) α)
        (slip_error : Fin sl → α) (acc mag : Fin 3 → α) (dt : α) (magn_on_off : Bool),
      0 ≤ GAMMA → Sckf.updateDetected L GAMMA s acc = true →
      (L.svdMatrixU (Sckf.updateUk s acc))ᵀ * L.svdMatrixU (Sckf.updateUk s acc) = 1 →
        (s.update L M2 GAMMA auxvector0 Hme Rme slip_error acc mag dt magn_on_off).r2count = 0
          ∧ Sckf.updateQstar L M2 GAMMA auxvector0 s acc
              = Sckf.inflation (fun i => max (Sckf.updateLambdaMinusMu L s acc i) 0)
                  (L.svdMatrixU (Sckf.updateUk s acc))
          ∧ Sckf.updateQstar L M2 GAMMA auxvector0 s acc ≠ 0
          ∧ block 3 3 (s.update L M2 GAMMA auxvector0 Hme Rme slip_error acc mag dt
              magn_on_off).Rk 3 3
              = s.Ra + s.Rat + Sckf.updateQstar L M2 GAMMA auxvector0 s acc) := by
  refine ⟨?_, ?_⟩
  · intro n c a hg h hu
    obtain ⟨h1, _, h3⟩ := AdaptiveAttitudeCov.matrix_detected L c a.xk a.Pk a.z a.H a.R h
    refine ⟨h1, h3, ?_⟩
    rw [h3]
    refine inflation_detected_ne_zero _ c.gamma hg ?_ _ hu
    simpa [AdaptiveAttitudeCov.matrixDetected] using h
  · intro sl s M2 GAMMA auxvector0 Hme Rme slip_error acc mag dt flag hg h hu
    have hq := Sckf.updateQstar_detected L M2 GAMMA auxvector0 s acc h
    refine ⟨?_, hq, ?_, Sckf.update_Rk_block L M2 GAMMA auxvector0 s Hme Rme slip_error acc
      mag dt flag⟩
    · rw [Sckf.update_r2count, h]
      rfl
    · rw [hq]
      refine inflation_detected_ne_zero _ GAMMA hg ?_ _ hu
      simpa [Sckf.updateDetected] using h

theorem block_zero {r c : Nat} (p q i0 j0 : Nat) :
    block p q (0 : Matrix (Fin r) (Fin c) α) i0 j0 = 0 := by
  ext i j
  simp [block]

theorem AdaptiveAttitudeCov.matrixLambdaMinusMu_ratLib (n : Nat) (c : AdaptiveAttitudeCov ℚ)
    (xk : Fin n → ℚ) (z : Fin 3 → ℚ) :
    AdaptiveAttitudeCov.matrixLambdaMinusMu ratLib c xk 0 z 0 0 = 0 := by
  funext i
  simp [AdaptiveAttitudeCov.matrixLambdaMinusMu, ratLib]

theorem AdaptiveAttitudeCov.matrixDetected_ratLib (n : Nat) (c : AdaptiveAttitudeCov ℚ)
    (xk : Fin n → ℚ) (z : Fin 3 → ℚ) (hg : 0 ≤ c.gamma) :
    AdaptiveAttitudeCov.matrixDetected ratLib c xk 0 z 0 0 = false := by
  simp [AdaptiveAttitudeCov.matrixDetected, AdaptiveAttitudeCov.matrixLambdaMinusMu_ratLib, hg]

theorem AdaptiveAttitudeCov.matrix_gamma {n : Nat} (L : NumericLib α)
    (c : AdaptiveAttitudeCov α) (xk : Fin n → α) (Pk : Matrix (Fin n) (Fin n) α)
    (z : Fin 3 → α) (H : Matrix (Fin 3) (Fin n) α) (R : Matrix (Fin 3) (Fin 3) α) :
    (AdaptiveAttitudeCov.matrix L c xk Pk z H R).2.gamma = c.gamma := by
  unfold AdaptiveAttitudeCov.matrix
  dsimp only
  split_ifs <;> rfl

theorem Sckf.update_Pki_k_zero {sl : Nat} (L : NumericLib α) (M2 : Nat) (GAMMA : α)
    (auxvector0 : Fin 3 → α) (s : Sckf α M1) (Hme : Matrix (Fin 3) (Fin sl) α)
    (Rme : Matrix (Fin sl) (Fin sl) α) (slip_error : Fin sl → α) (acc mag : Fin 3 → α) (dt : α)
    (flag : Bool) (h : s.Pki_k = 0) :
    (s.update L M2 GAMMA auxvector0 Hme Rme slip_error acc mag dt flag).Pki_k = 0 := by
  unfold Sckf.update
  simp [h, symmetrizeInPlace_zero]

theorem Sckf.updateDetected_ratLib_zero (s : Sckf ℚ M1) (acc : Fin 3 → ℚ) (hP : s.Pki_k = 0)
    (hR : s.Ra = 0) : Sckf.updateDetected ratLib 0 s acc = false := by
  have hd : Sckf.updateLambdaMinusMu ratLib s acc = 0 := by
    funext i
    simp [Sckf.updateLambdaMinusMu, ratLib, hP, hR, block_zero]
  simp [Sckf.updateDetected, hd]

/-- Two quiet calls with `m2 = 2` on the object, and quiet calls with `M2 = 1` and `M2 = 2`
on the filter. -/
theorem C16_quiet_calls_reach_zero_inflation_witness :
    ((AdaptiveAttitudeCov.matrix ratLib (AdaptiveAttitudeCov.create 1 2 0 1)
          (0 : Fin 1 → ℚ) 0 0 0 0).2.r2count = (1 + 1) % 2 ^ 32
      ∧ (AdaptiveAttitudeCov.matrix ratLib (AdaptiveAttitudeCov.create 1 2 0 1)
          (0 : Fin 1 → ℚ) 0 0 0 0).1 = 0)
    ∧ (((Sckf.blank Quat.identity : Sckf ℚ 1).update ratLib 1 0 ![1, 1, 1]
          (0 : Matrix (Fin 3) (Fin 2) ℚ) 0 0 0 0 0 false).r2count = 0 + 1
      ∧ Sckf.updateQstar ratLib 1 0 ![1, 1, 1] (Sckf.blank Quat.identity : Sckf ℚ 1) 0 = 0
      ∧ block 3 3 ((Sckf.blank Quat.identity : Sckf ℚ 1).update ratLib 1 0 ![1, 1, 1]
          (0 : Matrix (Fin 3) (Fin 2) ℚ) 0 0 0 0 0 false).Rk 3 3
          = (Sckf.blank Quat.identity : Sckf ℚ 1).Ra + (Sckf.blank Quat.identity : Sckf ℚ 1).Rat)
    ∧ (AdaptiveAttitudeCov.matrix ratLib
        (AdaptiveAttitudeCov.after ratLib (AdaptiveAttitudeCov.create 1 2 0 0)
          [(⟨0, 0, 0, 0, 0⟩ : AdaptiveAttitudeCov.Args ℚ 1)])
        (0 : Fin 1 → ℚ) 0 0 0 0).1 = 0
    ∧ Sckf.updateQstar ratLib 2 0 ![1, 1, 1]
        (Sckf.updateSeq ratLib 2 0 (Sckf.blank Quat.identity : Sckf ℚ 1)
          [(⟨![1, 1, 1], 0, 0, 0, 0, 0, 0, false⟩ : Sckf.UpdateArgs ℚ 2)]) 0 = 0 :=
  have h := @C16_quiet_calls_reach_zero_inflation ℚ _ 1 ratLib
  ⟨(fun x => ⟨x.1, x.2 (by decide)⟩)
      (h.1 1 (AdaptiveAttitudeCov.create 1 2 0 1) ⟨0, 0, 0, 0, 0⟩
        (AdaptiveAttitudeCov.matrixDetected_ratLib 1 _ _ _ (le_refl (0 : ℚ)))),
    (fun x => ⟨x.1, x.2 (by decide)⟩)
      (h.2.1 2 (Sckf.blank Quat.identity) 1 0 ![1, 1, 1] 0 0 0 0 0 0 false
        (Sckf.updateDetected_ratLib_zero _ _ rfl rfl)),
    h.2.2.1 1 (AdaptiveAttitudeCov.create 1 2 0 0) [⟨0, 0, 0, 0, 0⟩] ⟨0, 0, 0, 0, 0⟩ rfl
      (by decide) rfl
      (by
        simp only [List.singleton_append, AdaptiveAttitudeCov.allQuiet, Bool.and_true,
          Bool.and_eq_true, Bool.not_eq_true']
        exact ⟨AdaptiveAttitudeCov.matrixDetected_ratLib 1 _ _ _ (le_refl (0 : ℚ)),
          AdaptiveAttitudeCov.matrixDetected_ratLib 1 _ _ _
            (by rw [AdaptiveAttitudeCov.matrix_gamma]; exact le_refl (0 : ℚ))⟩),
    h.2.2.2 2 (Sckf.blank Quat.identity) 2 0 [⟨![1, 1, 1], 0, 0, 0, 0, 0, 0, false⟩]
      ⟨![1, 1, 1], 0, 0, 0, 0, 0, 0, false⟩ rfl rfl
      (by
        simp only [List.singleton_append, Sckf.updatesQuiet, Bool.and_true,
          Bool.and_eq_true, Bool.not_eq_true']
        exact ⟨Sckf.updateDetected_ratLib_zero _ _ rfl rfl,
          Sckf.updateDetected_ratLib_zero _ _
            (Sckf.update_Pki_k_zero _ _ _ _ _ _ _ _ _ _ _ _ rfl) rfl⟩)⟩

theorem AdaptiveAttitudeCov.matrixUk_create_one (n : Nat) (M2 R2COUNT : Nat) (GAMMA : α)
    (xk : Fin n → α) (z : Fin 3 → α) (H : Matrix (Fin 3) (Fin n) α) :
    AdaptiveAttitudeCov.matrixUk (AdaptiveAttitudeCov.create 1 M2 GAMMA R2COUNT) xk z H
      = vecMulVec (z - H *ᵥ xk) (z - H *ᵥ xk) := by
  simp [AdaptiveAttitudeCov.matrixUk, AdaptiveAttitudeCov.matrixRHist,
    AdaptiveAttitudeCov.create, List.range_succ]

theorem AdaptiveAttitudeCov.matrixDetected_diagLib :
    AdaptiveAttitudeCov.matrixDetected diagLib (AdaptiveAttitudeCov.create 1 2 (1 / 2) 7)
      (0 : Fin 1 → ℚ) 0 ![1, 0, 0] 0 0 = true := by
  simp only [AdaptiveAttitudeCov.matrixDetected, AdaptiveAttitudeCov.matrixLambdaMinusMu,
    AdaptiveAttitudeCov.matrixUk_create_one]
  simp [diagLib, Matrix.vecMulVec_apply, AdaptiveAttitudeCov.create]
  norm_num

theorem Sckf.updateUk_blank (q : Quat α) (acc : Fin 3 → α) :
    Sckf.updateUk (Sckf.blank q : Sckf α 1) acc = (2 : α) • vecMulVec acc acc := by
  have hb : ∀ B : Matrix (Fin 3) (Fin 3) α,
      block 3 3 (setBlock (0 : Matrix (Fin 3) (Fin (3 * 1)) α) 0 0 B) 0 0 = B :=
    fun B => block_setBlock_self _ 0 0 B (by norm_num) (by norm_num)
  simp [Sckf.updateUk, Sckf.blank, List.range_succ, hb, two_smul, segment_zero]

theorem Sckf.updateDetected_diagLib :
    Sckf.updateDetected diagLib (1 / 2) (Sckf.blank Quat.identity : Sckf ℚ 1) ![1, 0, 0]
      = true := by
  simp [Sckf.updateDetected, Sckf.updateLambdaMinusMu, Sckf.updateUk_blank, diagLib,
    Matrix.vecMulVec_apply]
  simp [Sckf.blank, block_zero]
  norm_num

/-- A residual `(1, 0, 0)` against the threshold `1 / 2`, on an object whose counter holds 7
and on a filter at the identity attitude. -/
theorem C17_detection_resets_the_counter_and_inflates_witness :
    ((AdaptiveAttitudeCov.matrix diagLib (AdaptiveAttitudeCov.create 1 2 (1 / 2) 7)
        (0 : Fin 1 → ℚ) 0 ![1, 0, 0] 0 0).2.r2count = 0
      ∧ (AdaptiveAttitudeCov.matrix diagLib (AdaptiveAttitudeCov.create 1 2 (1 / 2) 7)
        (0 : Fin 1 → ℚ) 0 ![1, 0, 0] 0 0).1 ≠ 0)
    ∧ (((Sckf.blank Quat.identity : Sckf ℚ 1).update diagLib 2 (1 / 2) 0
          (0 : Matrix (Fin 3) (Fin 2) ℚ) 0 0 ![1, 0, 0] 0 0 false).r2count = 0
      ∧ Sckf.updateQstar diagLib 2 (1 / 2) 0 (Sckf.blank Quat.identity : Sckf ℚ 1) ![1, 0, 0]
          ≠ 0) :=
  have h := @C17_detection_resets_the_counter_and_inflates ℚ _ 1 diagLib
  ⟨(fun x => ⟨x.1, x.2.2⟩)
      (h.1 1 (AdaptiveAttitudeCov.create 1 2 (1 / 2) 7) ⟨0, 0, ![1, 0, 0], 0, 0⟩
        (by norm_num [AdaptiveAttitudeCov.create]) AdaptiveAttitudeCov.matrixDetected_diagLib
        (by simp [diagLib])),
    (fun x => ⟨x.1, x.2.2.1⟩)
      (h.2 2 (Sckf.blank Quat.identity) 2 (1 / 2) 0 0 0 0 ![1, 0, 0] 0 0 false (by norm_num)
        Sckf.updateDetected_diagLib (by simp [diagLib]))⟩


/-! ### Positive semi-definiteness of the predicted covariance -/

theorem crossProductMatrix_zero : crossProductMatrix (0 : Fin 3 → α) = 0 := by
  ext i j
  fin_cases i <;> fin_cases j <;> simp [crossProductMatrix, Matrix.vecHead, Matrix.vecTail]

theorem isPSD_zero {k : Nat} : IsPSD (0 : Matrix (Fin k) (Fin k) α) := by
  refine ⟨Matrix.transpose_zero, fun v => ?_⟩
  simp

theorem isPSD_smul_one {k : Nat} (c : α) (hc : 0 ≤ c) :
    IsPSD (c • (1 : Matrix (Fin k) (Fin k) α)) := by
  refine ⟨by simp, fun v => ?_⟩
  rw [Matrix.smul_mulVec_assoc, Matrix.one_mulVec, dotProduct_smul]
  exact mul_nonneg hc (Finset.sum_nonneg (fun i _ => mul_self_nonneg (v i)))

theorem isPSD_conj_add {k : Nat} (F P Q : Matrix (Fin k) (Fin k) α) (hP : IsPSD P)
    (hQ : IsPSD Q) : IsPSD (F * P * Fᵀ + Q) := by
  refine ⟨?_, fun w => ?_⟩
  · rw [Matrix.transpose_add, Matrix.transpose_mul, Matrix.transpose_mul,
      Matrix.transpose_transpose, hP.1, hQ.1, Matrix.mul_assoc]
  · rw [Matrix.add_mulVec, dotProduct_add]
    have h1 : w ⬝ᵥ (F * P * Fᵀ) *ᵥ w = (Fᵀ *ᵥ w) ⬝ᵥ P *ᵥ (Fᵀ *ᵥ w) := by
      rw [← Matrix.mulVec_mulVec, ← Matrix.mulVec_mulVec, Matrix.dotProduct_mulVec w F,
        ← Matrix.mulVec_transpose]
    rw [h1]
    exact add_nonneg (hP.2 _) (hQ.2 _)

theorem Sckf.predict_Pki_k (L : NumericLib α) (s : Sckf α M1) (u v : Fin 3 → α) (dt : α) :
    (s.predict L u v dt).Pki_k
      = Sckf.predictdFki s u v dt * s.Pki_k * (Sckf.predictdFki s u v dt)ᵀ
        + Sckf.predictQdk s u v dt :=
  rfl

theorem Sckf.unitNoiseAtIdentity_entries :
    (Sckf.unitNoiseAtIdentity.predict ratLib 0 0 1).Pki_k 6 6 = 1 / 400
    ∧ (Sckf.unitNoiseAtIdentity.predict ratLib 0 0 1).Pki_k 6 9 = -1 / 4
    ∧ (Sckf.unitNoiseAtIdentity.predict ratLib 0 0 1).Pki_k 9 6 = -1 / 4
    ∧ (Sckf.unitNoiseAtIdentity.predict ratLib 0 0 1).Pki_k 9 9 = 1 := by
  refine ⟨?_, ?_, ?_, ?_⟩ <;>
  · simp [Sckf.unitNoiseAtIdentity, Sckf.predict, Sckf.Init, Sckf.blank, Sckf.setAttitude,
      Sckf.predictdFki, Sckf.predictFki, setBlock, Matrix.mul_apply, Fin.sum_univ_succ,
      Fin.coe_ofNat_eq_mod, Matrix.one_apply, Fin.ext_iff, crossProductMatrix_zero,
      symmetrizeInPlace, StorageIndex.position]
    try norm_num

/-- Claim C20, refuted as stated.  The filter initialised by `Init` with zero covariance
and the positive-definite noise matrices `Ra = Qbg = Qba = 1`, `Rg = 1 / 100`, then set to
the identity attitude, satisfies every premise (symmetric positive-semi-definite `P`, `Ra`,
`Rg`, `Qbg` and `Qba`, unit orientation, `dt = 1 > 0`), yet the covariance after `predict`
is not positive-semi-definite: its quadratic form is negative on the vector with 4 at the
first attitude component and 1 at the first gyroscope-bias component. -/
theorem C20_predict_can_lose_positive_semidefiniteness :
    IsPSD (0 : Matrix (Fin 15) (Fin 15) ℚ)
    ∧ IsPSD (1 : Matrix (Fin 3) (Fin 3) ℚ)
    ∧ IsPSD ((1 / 100 : ℚ) • (1 : Matrix (Fin 3) (Fin 3) ℚ))
    ∧ (Quat.identity : Quat ℚ).squaredNorm = 1
    ∧ (0 : ℚ) < 1
    ∧ ¬ IsPSD
        ((((Sckf.blank Quat.identity : Sckf ℚ 1).Init ratLib 0 ((1 / 100 : ℚ) • 1) 1 1 1 0 0
          0 0 0).setAttitude Quat.identity).predict ratLib 0 0 1).Pki_k := by
  refine ⟨isPSD_zero, isPSD_one, isPSD_smul_one (1 / 100) (by norm_num),
    by simp [Quat.identity, Quat.squaredNorm], by norm_num, ?_⟩
  intro h
  have h2 := h.2 (Pi.single 6 4 + Pi.single 9 1)
  obtain ⟨e1, e2, e3, e4⟩ := Sckf.unitNoiseAtIdentity_entries
  simp only [Sckf.unitNoiseAtIdentity] at e1 e2 e3 e4
  simp only [Matrix.mulVec_add, Matrix.mulVec_single, add_dotProduct, dotProduct_add,
    Matrix.single_dotProduct] at h2
  rw [e1, e2, e3, e4] at h2
  norm_num at h2

/-! ### The attitude correction of the update and the yaw angle -/

theorem Sckf.updateErrorQuat_eq (L : NumericLib α) (s : Sckf α M1) :
    Sckf.updateErrorQuat L s
      = Quat.mul (Quat.mul (Quat.ofAngleAxis L (Sckf.updateRoll L s) unitX)
          (Quat.ofAngleAxis L (Sckf.updatePitch L s) unitY)) (Quat.ofAngleAxis L 0 unitZ) :=
  rfl

theorem Sckf.update_q4 {sl : Nat} (L : NumericLib α) (M2 : Nat) (GAMMA : α)
    (auxvector0 : Fin 3 → α) (s : Sckf α M1) (Hme : Matrix (Fin 3) (Fin sl) α)
    (Rme : Matrix (Fin sl) (Fin sl) α) (slip_error : Fin sl → α) (acc mag : Fin 3 → α) (dt : α)
    (flag : Bool) :
    (s.update L M2 GAMMA auxvector0 Hme Rme slip_error acc mag dt flag).q4
      = Quat.normalize L (Quat.mul s.q4 (Sckf.updateErrorQuat L s)) :=
  rfl

theorem Quat.toRotationMatrix_identity :
    (Quat.identity : Quat α).toRotationMatrix = 1 := by
  ext i j
  fin_cases i <;> fin_cases j <;>
    simp [Quat.toRotationMatrix, Quat.identity, Matrix.vecHead, Matrix.vecTail]

theorem Sckf.update_q4_at_identity {sl : Nat} (L : NumericLib α)
    (htrig : ∀ a : α, L.cos a * L.cos a + L.sin a * L.sin a = 1)
    (hsin : L.sin 0 = 0) (hcos : L.cos 0 = 1) (hsqrt : L.sqrt 1 = 1)
    (M2 : Nat) (GAMMA : α)
    (auxvector0 : Fin 3 → α) (s : Sckf α M1) (Hme : Matrix (Fin 3) (Fin sl) α)
    (Rme : Matrix (Fin sl) (Fin sl) α) (slip_error : Fin sl → α) (acc mag : Fin 3 → α) (dt : α)
    (flag : Bool) (hq : s.q4 = Quat.identity) :
    (s.update L M2 GAMMA auxvector0 Hme Rme slip_error acc mag dt flag).q4.toRotationMatrix 1 0
      = 4 * (L.sin (Sckf.updateRoll L s / 2) * L.cos (Sckf.updateRoll L s / 2))
          * (L.sin (Sckf.updatePitch L s / 2) * L.cos (Sckf.updatePitch L s / 2)) := by
  have hn : (Quat.mul s.q4 (Sckf.updateErrorQuat L s)).squaredNorm = 1 := by
    rw [Quat.squaredNorm_mul, Sckf.updateErrorQuat_eq, Quat.squaredNorm_mul,
      Quat.squaredNorm_mul, (Quat.squaredNorm_ofAngleAxis_unit L htrig _).1,
      (Quat.squaredNorm_ofAngleAxis_unit L htrig _).2.1,
      (Quat.squaredNorm_ofAngleAxis_unit L htrig _).2.2, hq]
    simp [Quat.squaredNorm, Quat.identity]
  rw [Sckf.update_q4, Quat.normalize_of_squaredNorm_one L hsqrt _ hn, Sckf.updateErrorQuat_eq, hq]
  simp [Quat.toRotationMatrix, Quat.mul, Quat.ofAngleAxis, Quat.identity, unitX, unitY, unitZ,
    hsin, hcos]
  ring

/-- Claim C15, refuted: the update does not preserve the yaw angle.  For a numerical library
with `cos² + sin² = 1`, `sin 0 = 0`, `cos 0 = 1`, `sqrt 1 = 1`, whose first ZYX angle (the
yaw) is zero on the identity matrix and can only be zero on a matrix with a zero entry
`(1, 0)`, as `atan2(m10, m00)` is: from the identity attitude, whenever the roll `r` and the
pitch `p` extracted from the attitude error have `sin(r/2) cos(r/2)` and `sin(p/2) cos(p/2)`
different from zero, the rotation matrix of the attitude after `update` has the entry
`(1, 0)` equal to `4 sin(r/2) cos(r/2) sin(p/2) cos(p/2)`, that is `sin r sin p`, and its
yaw differs from the yaw before `update`. -/
theorem C15_update_changes_the_yaw_angle {sl : Nat} (L : NumericLib α)
    (htrig : ∀ a : α, L.cos a * L.cos a + L.sin a * L.sin a = 1)
    (hsin : L.sin 0 = 0) (hcos : L.cos 0 = 1) (hsqrt : L.sqrt 1 = 1)
    (hyaw1 : L.eulerAngles 1 2 1 0 0 = 0)
    (hyaw : ∀ m : Matrix (Fin 3) (Fin 3) α, L.eulerAngles m 2 1 0 0 = 0 → m 1 0 = 0)
    (M2 : Nat) (GAMMA : α) (auxvector0 : Fin 3 → α) (s : Sckf α M1)
    (Hme : Matrix (Fin 3) (Fin sl) α) (Rme : Matrix (Fin sl) (Fin sl) α)
    (slip_error : Fin sl → α) (acc mag : Fin 3 → α) (dt : α) (magn_on_off : Bool)
    (hq : s.q4 = Quat.identity)
    (hr : L.sin (Sckf.updateRoll L s / 2) * L.cos (Sckf.updateRoll L s / 2) ≠ 0)
    (hp : L.sin (Sckf.updatePitch L s / 2) * L.cos (Sckf.updatePitch L s / 2) ≠ 0) :
    (s.update L M2 GAMMA auxvector0 Hme Rme slip_error acc mag dt
        magn_on_off).q4.toRotationMatrix 1 0
      = 4 * (L.sin (Sckf.updateRoll L s / 2) * L.cos (Sckf.updateRoll L s / 2))
          * (L.sin (Sckf.updatePitch L s / 2) * L.cos (Sckf.updatePitch L s / 2))
    ∧ L.eulerAngles (s.update L M2 GAMMA auxvector0 Hme Rme slip_error acc mag dt
        magn_on_off).q4.toRotationMatrix 2 1 0 0
      ≠ L.eulerAngles s.q4.toRotationMatrix 2 1 0 0 := by
  have he := Sckf.update_q4_at_identity L htrig hsin hcos hsqrt M2 GAMMA auxvector0 s Hme Rme
    slip_error acc mag dt magn_on_off hq
  refine ⟨he, ?_⟩
  rw [hq, Quat.toRotationMatrix_identity, hyaw1]
  intro h0
  have h1 := hyaw _ h0
  rw [he] at h1
  exact mul_ne_zero (mul_ne_zero (by norm_num) hr) hp h1

/-- The identity attitude with extracted roll and pitch equal to 1, half-angle sine 3/5 and
cosine 4/5: the entry `(1, 0)` of the corrected attitude is `576 / 625`. -/
theorem C15_update_changes_the_yaw_angle_witness :
    ((Sckf.blank Quat.identity : Sckf ℚ 1).update pythagoreanLib 2 0 0
        (0 : Matrix (Fin 3) (Fin 2) ℚ) 0 0 0 0 0 false).q4.toRotationMatrix 1 0 = 576 / 625
    ∧ pythagoreanLib.eulerAngles ((Sckf.blank Quat.identity : Sckf ℚ 1).update pythagoreanLib
        2 0 0 (0 : Matrix (Fin 3) (Fin 2) ℚ) 0 0 0 0 0 false).q4.toRotationMatrix 2 1 0 0
      ≠ pythagoreanLib.eulerAngles
          (Sckf.blank Quat.identity : Sckf ℚ 1).q4.toRotationMatrix 2 1 0 0 := by
  have h := C15_update_changes_the_yaw_angle pythagoreanLib
    (fun a => by by_cases h : a = 0 <;> norm_num [pythagoreanLib, h])
    (by simp [pythagoreanLib]) (by simp [pythagoreanLib]) rfl (by simp [pythagoreanLib])
    (fun m h => by simpa [pythagoreanLib] using h)
    2 0 0 (Sckf.blank Quat.identity : Sckf ℚ 1) (0 : Matrix (Fin 3) (Fin 2) ℚ) 0 0 0 0 0 false
    rfl
    (by simp [pythagoreanLib, Sckf.updateRoll])
    (by simp [pythagoreanLib, Sckf.updatePitch])
  refine ⟨?_, h.2⟩
  rw [h.1]
  simp [pythagoreanLib, Sckf.updateRoll, Sckf.updatePitch]
  norm_num


/-! ### The direction cosine matrix of a unit quaternion -/

theorem matrix3_ext (A B : Matrix (Fin 3) (Fin 3) α)
    (h : A 0 0 = B 0 0 ∧ A 0 1 = B 0 1 ∧ A 0 2 = B 0 2 ∧ A 1 0 = B 1 0 ∧ A 1 1 = B 1 1
      ∧ A 1 2 = B 1 2 ∧ A 2 0 = B 2 0 ∧ A 2 1 = B 2 1 ∧ A 2 2 = B 2 2) : A = B := by
  obtain ⟨h00, h01, h02, h10, h11, h12, h20, h21, h22⟩ := h
  ext i j
  fin_cases i <;> fin_cases j <;> assumption

theorem Quaternion2DCM_entries (q : Quat α) :
    Quaternion2DCM q 0 0 = 2 * q.w * q.w + 2 * q.x * q.x - 1
    ∧ Quaternion2DCM q 0 1 = 2 * q.x * q.y + 2 * q.w * q.z
    ∧ Quaternion2DCM q 0 2 = 2 * q.x * q.z - 2 * q.w * q.y
    ∧ Quaternion2DCM q 1 0 = 2 * q.x * q.y - 2 * q.w * q.z
    ∧ Quaternion2DCM q 1 1 = 2 * q.w * q.w + 2 * q.y * q.y - 1
    ∧ Quaternion2DCM q 1 2 = 2 * q.y * q.z + 2 * q.w * q.x
    ∧ Quaternion2DCM q 2 0 = 2 * q.x * q.z + 2 * q.w * q.y
    ∧ Quaternion2DCM q 2 1 = 2 * q.y * q.z - 2 * q.w * q.x
    ∧ Quaternion2DCM q 2 2 = 2 * q.w * q.w + 2 * q.z * q.z - 1 :=
  ⟨rfl, rfl, rfl, rfl, rfl, rfl, rfl, rfl, rfl⟩

theorem Quaternion2DCM_mul_transpose (q : Quat α) (hq : q.squaredNorm = 1) :
    Quaternion2DCM q * (Quaternion2DCM q)ᵀ = 1 := by
  unfold Quat.squaredNorm at hq
  obtain ⟨e00, e01, e02, e10, e11, e12, e20, e21, e22⟩ := Quaternion2DCM_entries q
  apply matrix3_ext
  simp only [Matrix.mul_apply, Fin.sum_univ_three, Matrix.transpose_apply,
    e00, e01, e02, e10, e11, e12, e20, e21, e22, Matrix.one_apply_eq, ne_eq,
    not_false_eq_true, Matrix.one_apply_ne, Fin.reduceEq, zero_ne_one, one_ne_zero]
  refine ⟨?_, ?_, ?_, ?_, ?_, ?_, ?_, ?_, ?_⟩ <;>
    first
      | linear_combination (4 * (q.w * q.w + q.x * q.x)) * hq
      | linear_combination (4 * (q.w * q.w + q.y * q.y)) * hq
      | linear_combination (4 * (q.w * q.w + q.z * q.z)) * hq
      | linear_combination (4 * q.x * q.y) * hq
      | linear_combination (4 * q.x * q.z) * hq
      | linear_combination (4 * q.y * q.z) * hq

theorem Quaternion2DCM_det (q : Quat α) (hq : q.squaredNorm = 1) :
    (Quaternion2DCM q).det = 1 := by
  unfold Quat.squaredNorm at hq
  obtain ⟨e00, e01, e02, e10, e11, e12, e20, e21, e22⟩ := Quaternion2DCM_entries q
  rw [Matrix.det_fin_three]
  simp only [e00, e01, e02, e10, e11, e12, e20, e21, e22]
  linear_combination
    ((q.w * q.w + q.x * q.x + q.y * q.y + q.z * q.z - 1) ^ 2
      + (q.w * q.w + q.x * q.x + q.y * q.y + q.z * q.z - 1)
          * (3 * q.w * q.w - q.x * q.x - q.y * q.y - q.z * q.z)
      + (q.w * q.w + q.x * q.x + q.y * q.y + q.z * q.z)
          * (3 * q.w * q.w - q.x * q.x - q.y * q.y - q.z * q.z)
      + (q.w * q.w + q.x * q.x + q.y * q.y + q.z * q.z) ^ 2
      + (q.w * q.w + q.x * q.x + q.y * q.y + q.z * q.z) + 1) * hq

/-- Claim C24.  For every unit quaternion the matrix `C` of `Quaternion2DCM` is a rotation
matrix, `C * Cᵀ = Cᵀ * C = 1` and `det C = 1`, and for the identity quaternion it is the
identity matrix. -/
theorem C24_Quaternion2DCM_is_a_rotation_matrix (q : Quat α) (hq : q.squaredNorm = 1) :
    Quaternion2DCM q * (Quaternion2DCM q)ᵀ = 1
    ∧ (Quaternion2DCM q)ᵀ * Quaternion2DCM q = 1
    ∧ (Quaternion2DCM q).det = 1
    ∧ Quaternion2DCM (Quat.identity : Quat α) = 1 := by
  have h1 := Quaternion2DCM_mul_transpose q hq
  refine ⟨h1, Matrix.mul_eq_one_comm.mp h1, Quaternion2DCM_det q hq, ?_⟩
  obtain ⟨e00, e01, e02, e10, e11, e12, e20, e21, e22⟩ :=
    Quaternion2DCM_entries (Quat.identity : Quat α)
  apply matrix3_ext
  simp only [e00, e01, e02, e10, e11, e12, e20, e21, e22, Matrix.one_apply_eq,
    ne_eq, not_false_eq_true, Matrix.one_apply_ne, Fin.reduceEq, zero_ne_one, one_ne_zero]
  norm_num [Quat.identity]

/-- The unit quaternion `(3/5, 4/5, 0, 0)`. -/
theorem C24_Quaternion2DCM_is_a_rotation_matrix_witness :
    Quaternion2DCM (⟨3 / 5, 4 / 5, 0, 0⟩ : Quat ℚ)
        * (Quaternion2DCM (⟨3 / 5, 4 / 5, 0, 0⟩ : Quat ℚ))ᵀ = 1
    ∧ (Quaternion2DCM (⟨3 / 5, 4 / 5, 0, 0⟩ : Quat ℚ))ᵀ
        * Quaternion2DCM (⟨3 / 5, 4 / 5, 0, 0⟩ : Quat ℚ) = 1
    ∧ (Quaternion2DCM (⟨3 / 5, 4 / 5, 0, 0⟩ : Quat ℚ)).det = 1
    ∧ Quaternion2DCM (Quat.identity : Quat ℚ) = 1 :=
  C24_Quaternion2DCM_is_a_rotation_matrix ⟨3 / 5, 4 / 5, 0, 0⟩
    (by norm_num [Quat.squaredNorm])

/-! ### The heading of the attitude -/

theorem Quat.toRotationMatrix_entries (q : Quat α) :
    q.toRotationMatrix 0 0 = 1 - (2 * q.y * q.y + 2 * q.z * q.z)
    ∧ q.toRotationMatrix 0 1 = 2 * q.y * q.x - 2 * q.z * q.w
    ∧ q.toRotationMatrix 0 2 = 2 * q.z * q.x + 2 * q.y * q.w
    ∧ q.toRotationMatrix 1 0 = 2 * q.y * q.x + 2 * q.z * q.w
    ∧ q.toRotationMatrix 1 1 = 1 - (2 * q.x * q.x + 2 * q.z * q.z)
    ∧ q.toRotationMatrix 1 2 = 2 * q.z * q.y - 2 * q.x * q.w
    ∧ q.toRotationMatrix 2 0 = 2 * q.z * q.x - 2 * q.y * q.w
    ∧ q.toRotationMatrix 2 1 = 2 * q.z * q.y + 2 * q.x * q.w
    ∧ q.toRotationMatrix 2 2 = 1 - (2 * q.x * q.x + 2 * q.y * q.y) :=
  ⟨rfl, rfl, rfl, rfl, rfl, rfl, rfl, rfl, rfl⟩

theorem Quat.toRotationMatrix_mul (a b : Quat α) (ha : a.squaredNorm = 1)
    (hb : b.squaredNorm = 1) :
    (Quat.mul a b).toRotationMatrix = a.toRotationMatrix * b.toRotationMatrix := by
  unfold Quat.squaredNorm at ha hb
  obtain ⟨a00, a01, a02, a10, a11, a12, a20, a21, a22⟩ := Quat.toRotationMatrix_entries a
  obtain ⟨b00, b01, b02, b10, b11, b12, b20, b21, b22⟩ := Quat.toRotationMatrix_entries b
  obtain ⟨c00, c01, c02, c10, c11, c12, c20, c21, c22⟩ :=
    Quat.toRotationMatrix_entries (Quat.mul a b)
  apply matrix3_ext
  simp only [Matrix.mul_apply, Fin.sum_univ_three, a00, a01, a02, a10, a11, a12, a20, a21, a22,
    b00, b01, b02, b10, b11, b12, b20, b21, b22, c00, c01, c02, c10, c11, c12, c20, c21, c22]
  simp only [Quat.mul]
  refine ⟨?_, ?_, ?_, ?_, ?_, ?_, ?_, ?_, ?_⟩
  · linear_combination ((1 - (2 * b.y * b.y + 2 * b.z * b.z)) - (b.w * b.w + b.x * b.x + b.y * b.y + b.z * b.z)) * ha
      + ((1 - (2 * a.y * a.y + 2 * a.z * a.z)) + (a.w * a.w + a.x * a.x + a.y * a.y + a.z * a.z) - 2) * hb
  · linear_combination (2 * b.y * b.x - 2 * b.z * b.w) * ha
      + (2 * a.y * a.x - 2 * a.z * a.w) * hb
  · linear_combination (2 * b.z * b.x + 2 * b.y * b.w) * ha
      + (2 * a.z * a.x + 2 * a.y * a.w) * hb
  · linear_combination (2 * b.y * b.x + 2 * b.z * b.w) * ha
      + (2 * a.y * a.x + 2 * a.z * a.w) * hb
  · linear_combination ((1 - (2 * b.x * b.x + 2 * b.z * b.z)) - (b.w * b.w + b.x * b.x + b.y * b.y + b.z * b.z)) * ha
      + ((1 - (2 * a.x * a.x + 2 * a.z * a.z)) + (a.w * a.w + a.x * a.x + a.y * a.y + a.z * a.z) - 2) * hb
  · linear_combination (2 * b.z * b.y - 2 * b.x * b.w) * ha
      + (2 * a.z * a.y - 2 * a.x * a.w) * hb
  · linear_combination (2 * b.z * b.x - 2 * b.y * b.w) * ha
      + (2 * a.z * a.x - 2 * a.y * a.w) * hb
  · linear_combination (2 * b.z * b.y + 2 * b.x * b.w) * ha
      + (2 * a.z * a.y + 2 * a.x * a.w) * hb
  · linear_combination ((1 - (2 * b.x * b.x + 2 * b.y * b.y)) - (b.w * b.w + b.x * b.x + b.y * b.y + b.z * b.z)) * ha
      + ((1 - (2 * a.x * a.x + 2 * a.y * a.y)) + (a.w * a.w + a.x * a.x + a.y * a.y + a.z * a.z) - 2) * hb

theorem Quat.toRotationMatrix_transpose_mul (q : Quat α) (hq : q.squaredNorm = 1) :
    q.toRotationMatrixᵀ * q.toRotationMatrix = 1 := by
  unfold Quat.squaredNorm at hq
  obtain ⟨a00, a01, a02, a10, a11, a12, a20, a21, a22⟩ := Quat.toRotationMatrix_entries q
  apply matrix3_ext
  simp only [Matrix.mul_apply, Fin.sum_univ_three, Matrix.transpose_apply, a00, a01, a02, a10,
    a11, a12, a20, a21, a22, Matrix.one_apply_eq, ne_eq, not_false_eq_true,
    Matrix.one_apply_ne, Fin.reduceEq, zero_ne_one, one_ne_zero]
  refine ⟨?_, ?_, ?_, ?_, ?_, ?_, ?_, ?_, ?_⟩
  · linear_combination (2 - 2 * (1 - (2 * q.y * q.y + 2 * q.z * q.z))) * hq
  · linear_combination
      (-(2 * q.y * q.x - 2 * q.z * q.w) - (2 * q.y * q.x + 2 * q.z * q.w)) * hq
  · linear_combination
      (-(2 * q.z * q.x + 2 * q.y * q.w) - (2 * q.z * q.x - 2 * q.y * q.w)) * hq
  · linear_combination
      (-(2 * q.y * q.x - 2 * q.z * q.w) - (2 * q.y * q.x + 2 * q.z * q.w)) * hq
  · linear_combination (2 - 2 * (1 - (2 * q.x * q.x + 2 * q.z * q.z))) * hq
  · linear_combination
      (-(2 * q.z * q.y - 2 * q.x * q.w) - (2 * q.z * q.y + 2 * q.x * q.w)) * hq
  · linear_combination
      (-(2 * q.z * q.x + 2 * q.y * q.w) - (2 * q.z * q.x - 2 * q.y * q.w)) * hq
  · linear_combination
      (-(2 * q.z * q.y - 2 * q.x * q.w) - (2 * q.z * q.y + 2 * q.x * q.w)) * hq
  · linear_combination (2 - 2 * (1 - (2 * q.x * q.x + 2 * q.y * q.y))) * hq


theorem Sckf.setHeading_q4 (L : NumericLib α) (s : Sckf α M1) (yaw : α) :
    (s.setHeading L yaw).q4
      = Quat.mul (Quat.mul (Quat.ofAngleAxis L yaw unitZ)
          (Quat.ofAngleAxis L (L.eulerAngles s.q4.toRotationMatrix 2 1 0 1) unitY))
          (Quat.ofAngleAxis L (L.eulerAngles s.q4.toRotationMatrix 2 1 0 2) unitX) :=
  rfl

/-- Claim C25.  Let `(yaw0, pitch, roll)` be the angles that `eulerAngles(2, 1, 0)` extracts
from the matrix of the attitude, which is the product `Rz(yaw0) * Ry(pitch) * Rx(roll)` of the
rotations about the axes (the decomposition law of the library), and let `cos² + sin² = 1`.
After `setHeading(yaw)` the attitude is the quaternion product of the three angle-axis
rotations with `yaw`, `pitch` and `roll`; it has unit norm, its matrix is
`Rz(yaw) * Ry(pitch) * Rx(roll)`, which is `Rz(yaw) * Rz(yaw0)ᵀ` times the matrix of the
attitude before the call, and `getEuler` reported that same roll and pitch before the call. -/
theorem C25_setHeading_replaces_only_the_yaw (L : NumericLib α)
    (htrig : ∀ a : α, L.cos a * L.cos a + L.sin a * L.sin a = 1)
    (s : Sckf α M1) (yaw : α)
    (hdecomp : s.q4.toRotationMatrix
      = (Quat.ofAngleAxis L (L.eulerAngles s.q4.toRotationMatrix 2 1 0 0) unitZ).toRotationMatrix
        * (Quat.ofAngleAxis L (L.eulerAngles s.q4.toRotationMatrix 2 1 0 1)
            unitY).toRotationMatrix
        * (Quat.ofAngleAxis L (L.eulerAngles s.q4.toRotationMatrix 2 1 0 2)
            unitX).toRotationMatrix) :
    (s.setHeading L yaw).q4
      = Quat.mul (Quat.mul (Quat.ofAngleAxis L yaw unitZ)
          (Quat.ofAngleAxis L (s.getEuler L 1) unitY)) (Quat.ofAngleAxis L (s.getEuler L 0) unitX)
    ∧ (s.setHeading L yaw).q4.squaredNorm = 1
    ∧ (s.setHeading L yaw).q4.toRotationMatrix
      = (Quat.ofAngleAxis L yaw unitZ).toRotationMatrix
        * (Quat.ofAngleAxis L (s.getEuler L 1) unitY).toRotationMatrix
        * (Quat.ofAngleAxis L (s.getEuler L 0) unitX).toRotationMatrix
    ∧ (s.setHeading L yaw).q4.toRotationMatrix
      = (Quat.ofAngleAxis L yaw unitZ).toRotationMatrix
        * (Quat.ofAngleAxis L (s.getEuler L 2) unitZ).toRotationMatrixᵀ
        * s.q4.toRotationMatrix := by
  have e0 : s.getEuler L 0 = L.eulerAngles s.q4.toRotationMatrix 2 1 0 2 := rfl
  have e1 : s.getEuler L 1 = L.eulerAngles s.q4.toRotationMatrix 2 1 0 1 := rfl
  have e2 : s.getEuler L 2 = L.eulerAngles s.q4.toRotationMatrix 2 1 0 0 := rfl
  rw [e0, e1, e2]
  have hx := fun a => (Quat.squaredNorm_ofAngleAxis_unit L htrig a).1
  have hy := fun a => (Quat.squaredNorm_ofAngleAxis_unit L htrig a).2.1
  have hz := fun a => (Quat.squaredNorm_ofAngleAxis_unit L htrig a).2.2
  have hzy : ∀ a b, (Quat.mul (Quat.ofAngleAxis L a unitZ)
      (Quat.ofAngleAxis L b unitY)).squaredNorm = 1 := by
    intro a b
    rw [Quat.squaredNorm_mul, hz, hy, mul_one]
  have hmat : (s.setHeading L yaw).q4.toRotationMatrix
      = (Quat.ofAngleAxis L yaw unitZ).toRotationMatrix
        * (Quat.ofAngleAxis L (L.eulerAngles s.q4.toRotationMatrix 2 1 0 1)
            unitY).toRotationMatrix
        * (Quat.ofAngleAxis L (L.eulerAngles s.q4.toRotationMatrix 2 1 0 2)
            unitX).toRotationMatrix := by
    rw [Sckf.setHeading_q4, Quat.toRotationMatrix_mul _ _ (hzy _ _) (hx _),
      Quat.toRotationMatrix_mul _ _ (hz _) (hy _)]
  refine ⟨Sckf.setHeading_q4 L s yaw, ?_, hmat, ?_⟩
  · rw [Sckf.setHeading_q4, Quat.squaredNorm_mul, hzy, hx, mul_one]
  · rw [hmat]
    have ho := Quat.toRotationMatrix_transpose_mul
      (Quat.ofAngleAxis L (L.eulerAngles s.q4.toRotationMatrix 2 1 0 0) unitZ) (hz _)
    have key := congrArg (fun X => (Quat.ofAngleAxis L yaw unitZ).toRotationMatrix
      * (Quat.ofAngleAxis L (L.eulerAngles s.q4.toRotationMatrix 2 1 0 0)
          unitZ).toRotationMatrixᵀ * X) hdecomp
    simp only at key
    rw [key]
    simp only [Matrix.mul_assoc]
    rw [← Matrix.mul_assoc (Quat.ofAngleAxis L (L.eulerAngles s.q4.toRotationMatrix 2 1 0 0)
      unitZ).toRotationMatrixᵀ, ho, Matrix.one_mul]

theorem pythagoreanLib_trig (a : ℚ) :
    pythagoreanLib.cos a * pythagoreanLib.cos a + pythagoreanLib.sin a * pythagoreanLib.sin a
      = 1 := by
  by_cases h : a = 0 <;> norm_num [pythagoreanLib, h]

theorem Sckf.tiltedAttitude_decomposition :
    Sckf.tiltedAttitude.q4.toRotationMatrix
      = (Quat.ofAngleAxis pythagoreanLib
          (pythagoreanLib.eulerAngles Sckf.tiltedAttitude.q4.toRotationMatrix 2 1 0 0)
          unitZ).toRotationMatrix
        * (Quat.ofAngleAxis pythagoreanLib
            (pythagoreanLib.eulerAngles Sckf.tiltedAttitude.q4.toRotationMatrix 2 1 0 1)
            unitY).toRotationMatrix
        * (Quat.ofAngleAxis pythagoreanLib
            (pythagoreanLib.eulerAngles Sckf.tiltedAttitude.q4.toRotationMatrix 2 1 0 2)
            unitX).toRotationMatrix := by
  have hx := fun a => (Quat.squaredNorm_ofAngleAxis_unit pythagoreanLib pythagoreanLib_trig a).1
  have hy := fun a =>
    (Quat.squaredNorm_ofAngleAxis_unit pythagoreanLib pythagoreanLib_trig a).2.1
  have hz := fun a =>
    (Quat.squaredNorm_ofAngleAxis_unit pythagoreanLib pythagoreanLib_trig a).2.2
  have hq : Sckf.tiltedAttitude.q4.toRotationMatrix
      = (Quat.ofAngleAxis pythagoreanLib (168 / 625) unitZ).toRotationMatrix
        * (Quat.ofAngleAxis pythagoreanLib 1 unitY).toRotationMatrix
        * (Quat.ofAngleAxis pythagoreanLib 1 unitX).toRotationMatrix := by
    show (Quat.mul (Quat.mul (Quat.ofAngleAxis pythagoreanLib (168 / 625) unitZ)
      (Quat.ofAngleAxis pythagoreanLib 1 unitY))
      (Quat.ofAngleAxis pythagoreanLib 1 unitX)).toRotationMatrix = _
    rw [Quat.toRotationMatrix_mul _ _ (by rw [Quat.squaredNorm_mul, hz, hy, mul_one]) (hx _),
      Quat.toRotationMatrix_mul _ _ (hz _) (hy _)]
  have h0 : pythagoreanLib.eulerAngles Sckf.tiltedAttitude.q4.toRotationMatrix 2 1 0 0
      = 168 / 625 := by
    show Sckf.tiltedAttitude.q4.toRotationMatrix 1 0 = 168 / 625
    rw [(Quat.toRotationMatrix_entries _).2.2.2.1]
    simp [Sckf.tiltedAttitude, Sckf.blank, Quat.mul, Quat.ofAngleAxis, pythagoreanLib, unitX,
      unitY, unitZ]
    norm_num
  have h1 : pythagoreanLib.eulerAngles Sckf.tiltedAttitude.q4.toRotationMatrix 2 1 0 1 = 1 :=
    rfl
  have h2 : pythagoreanLib.eulerAngles Sckf.tiltedAttitude.q4.toRotationMatrix 2 1 0 2 = 1 :=
    rfl
  rw [h0, h1, h2]
  exact hq

/-- The attitude built from the angles `168 / 625`, `1`, `1`, with the heading set to 2. -/
theorem C25_setHeading_replaces_only_the_yaw_witness :
    (Sckf.tiltedAttitude.setHeading pythagoreanLib 2).q4.squaredNorm = 1
    ∧ (Sckf.tiltedAttitude.setHeading pythagoreanLib 2).q4.toRotationMatrix
      = (Quat.ofAngleAxis pythagoreanLib 2 unitZ).toRotationMatrix
        * (Quat.ofAngleAxis pythagoreanLib (Sckf.tiltedAttitude.getEuler pythagoreanLib 2)
            unitZ).toRotationMatrixᵀ
        * Sckf.tiltedAttitude.q4.toRotationMatrix :=
  (fun x => ⟨x.2.1, x.2.2.2⟩)
    (C25_setHeading_replaces_only_the_yaw pythagoreanLib pythagoreanLib_trig
      Sckf.tiltedAttitude 2 Sckf.tiltedAttitude_decomposition)


/-! ### The quaternion integration of the prediction -/

/-- Claim C28, refuted on the code.  The literals `1/6`, `1/24` and `1/48` of `predict` are
quotients of `int` constants and evaluate to 0, so for every input the un-normalised
quaternion is `(I + 0.75 * Ω * dt - 0.25 * Ω_prev * dt) * q`: the three higher-order terms of
the specified formula are absent (the retained matrix is set to `Ω`, as specified).  At the
identity attitude with zero bias, `Ω_prev = 0`, angular velocity `(1, 0, 0)` and `dt = 1` the
code computes `(1, 3/4, 0, 0)` where the specified formula gives `(5/6, 35/48, 0, 0)`. -/
theorem C28_predict_integrates_without_the_higher_order_terms :
    (∀ (s : Sckf α M1) (u : Fin 3 → α) (dt : α),
      Sckf.predictQuat s u dt
        = (1 + ((0.75 * dt) • omegaMatrix (u - s.bghat) - (0.25 * dt) • s.oldomega4))
            *ᵥ s.q4.toVec)
    ∧ (∀ (L : NumericLib α) (s : Sckf α M1) (u v : Fin 3 → α) (dt : α),
      (s.predict L u v dt).oldomega4 = omegaMatrix (u - s.bghat))
    ∧ Sckf.predictQuat (Sckf.blank Quat.identity : Sckf ℚ 1) ![1, 0, 0] 1 = ![1, 3 / 4, 0, 0]
    ∧ Sckf.integrationMatrixOfSpec (![1, 0, 0] : Fin 3 → ℚ) (omegaMatrix ![1, 0, 0]) 0 1
        *ᵥ (Quat.identity : Quat ℚ).toVec = ![5 / 6, 35 / 48, 0, 0]
    ∧ Sckf.predictQuat (Sckf.blank Quat.identity : Sckf ℚ 1) ![1, 0, 0] 1
      ≠ Sckf.integrationMatrixOfSpec (![1, 0, 0] : Fin 3 → ℚ) (omegaMatrix ![1, 0, 0]) 0 1
          *ᵥ (Quat.identity : Quat ℚ).toVec := by
  have h1 : ∀ (s : Sckf α M1) (u : Fin 3 → α) (dt : α),
      Sckf.predictQuat s u dt
        = (1 + ((0.75 * dt) • omegaMatrix (u - s.bghat) - (0.25 * dt) • s.oldomega4))
            *ᵥ s.q4.toVec := by
    intro s u dt
    unfold Sckf.predictQuat
    simp only [integrationMatrix_eq]
  have h3 : Sckf.predictQuat (Sckf.blank Quat.identity : Sckf ℚ 1) ![1, 0, 0] 1
      = ![1, 3 / 4, 0, 0] := by
    unfold Sckf.predictQuat
    simp only [integrationMatrix_eq]
    funext i
    fin_cases i <;>
      simp [Sckf.blank, omegaMatrix, Quat.toVec, Quat.identity, Matrix.mulVec,
        Matrix.dotProduct, Fin.sum_univ_four, Matrix.add_apply, Matrix.one_apply]
    norm_num
  have h4 : Sckf.integrationMatrixOfSpec (![1, 0, 0] : Fin 3 → ℚ) (omegaMatrix ![1, 0, 0]) 0 1
        *ᵥ (Quat.identity : Quat ℚ).toVec = ![5 / 6, 35 / 48, 0, 0] := by
    funext i
    fin_cases i <;>
      simp [Sckf.integrationMatrixOfSpec, omegaMatrix, Quat.toVec, Quat.identity, Matrix.mulVec,
        Matrix.dotProduct, Fin.sum_univ_four, Matrix.add_apply, Matrix.sub_apply,
        Matrix.one_apply, Localization.squaredNorm, Fin.sum_univ_three] <;>
      norm_num
  refine ⟨h1, fun L s u v dt => rfl, h3, h4, ?_⟩
  rw [h3, h4]
  intro h
  have := congrFun h 0
  norm_num at this


/-! ### Positive semi-definiteness of the Joseph-form update -/

theorem isPSD_conj {ι κ : Type} [Fintype ι] [Fintype κ] (B : Matrix κ ι α) (P : Matrix ι ι α)
    (hP : IsPSD P) : IsPSD (B * P * Bᵀ) := by
  refine ⟨?_, fun w => ?_⟩
  · rw [Matrix.transpose_mul, Matrix.transpose_mul, Matrix.transpose_transpose, hP.1,
      Matrix.mul_assoc]
  · have h1 : w ⬝ᵥ (B * P * Bᵀ) *ᵥ w = (Bᵀ *ᵥ w) ⬝ᵥ P *ᵥ (Bᵀ *ᵥ w) := by
      rw [← Matrix.mulVec_mulVec, ← Matrix.mulVec_mulVec, Matrix.dotProduct_mulVec w B,
        ← Matrix.mulVec_transpose]
    rw [h1]
    exact hP.2 _

theorem isPSD_add {ι : Type} [Fintype ι] (A B : Matrix ι ι α) (hA : IsPSD A) (hB : IsPSD B) :
    IsPSD (A + B) := by
  refine ⟨by rw [Matrix.transpose_add, hA.1, hB.1], fun w => ?_⟩
  rw [Matrix.add_mulVec, dotProduct_add]
  exact add_nonneg (hA.2 w) (hB.2 w)

theorem isPSD_joseph {ι κ : Type} [Fintype ι] [Fintype κ] [DecidableEq ι] [StorageIndex ι]
    (P : Matrix ι ι α) (R : Matrix κ κ α) (K : Matrix ι κ α) (H : Matrix κ ι α) (hP : IsPSD P)
    (hR : IsPSD R) :
    IsPSD (symmetrizeInPlace ((1 - K * H) * P * (1 - K * H)ᵀ + K * R * Kᵀ)) := by
  have h := isPSD_add _ _ (isPSD_conj (1 - K * H) P hP) (isPSD_conj K R hR)
  rw [symmetrizeInPlace_of_isSymm _ h.1]
  exact h

theorem isPSD_identity {ι : Type} [Fintype ι] [DecidableEq ι] :
    IsPSD (1 : Matrix ι ι α) := by
  refine ⟨Matrix.transpose_one, fun v => ?_⟩
  rw [Matrix.one_mulVec]
  exact Finset.sum_nonneg (fun i _ => mul_self_nonneg (v i))

theorem Sckf.update_Pki_k_joseph {sl : Nat} (L : NumericLib α) (M2 : Nat) (GAMMA : α)
    (auxvector0 : Fin 3 → α) (s : Sckf α M1) (Hme : Matrix (Fin 3) (Fin sl) α)
    (Rme : Matrix (Fin sl) (Fin sl) α) (slip_error : Fin sl → α) (acc mag : Fin 3 → α) (dt : α)
    (flag : Bool) :
    (s.update L M2 GAMMA auxvector0 Hme Rme slip_error acc mag dt flag).Pki_k
      = symmetrizeInPlace
        ((1 - (s.update L M2 GAMMA auxvector0 Hme Rme slip_error acc mag dt flag).K
              * (s.update L M2 GAMMA auxvector0 Hme Rme slip_error acc mag dt flag).Hk)
            * s.Pki_k
            * (1 - (s.update L M2 GAMMA auxvector0 Hme Rme slip_error acc mag dt flag).K
              * (s.update L M2 GAMMA auxvector0 Hme Rme slip_error acc mag dt flag).Hk)ᵀ
          + (s.update L M2 GAMMA auxvector0 Hme Rme slip_error acc mag dt flag).K
            * (s.update L M2 GAMMA auxvector0 Hme Rme slip_error acc mag dt flag).Rk
            * ((s.update L M2 GAMMA auxvector0 Hme Rme slip_error acc mag dt flag).K)ᵀ) :=
  rfl

/-- Claim C21.  When the covariance and the measurement noise are symmetric
positive-semi-definite, the covariance that the Joseph form followed by the symmetrisation
produces is symmetric positive-semi-definite, whatever the observation matrix and the gain
are: in `Sckf::update` (with the noise `Rk` that the call composes), in `Usckf::ekfUpdate`
(where the accepted branch stores the Joseph form and the rejected branch keeps the
covariance) and in `Usckf::ekfSingleUpdate` (for the covariance block of the active epoch). -/
theorem C21_joseph_form_keeps_positive_semidefiniteness :
    (∀ (sl : Nat) (L : NumericLib α) (M2 : Nat) (GAMMA : α) (auxvector0 : Fin 3 → α)
        (s : Sckf α M1) (Hme : Matrix (Fin 3) (Fin sl) α) (Rme : Matrix (Fin sl) (Fin sl) α)
        (slip_error : Fin sl → α) (acc mag : Fin 3 → α) (dt : α) (magn_on_off : Bool),
      IsPSD s.Pki_k →
      IsPSD (s.update L M2 GAMMA auxvector0 Hme Rme slip_error acc mag dt magn_on_off).Rk →
        IsPSD (s.update L M2 GAMMA auxvector0 Hme Rme slip_error acc mag dt magn_on_off).Pki_k)
    ∧ (∀ (n m : Nat) (S : Type) (opsA : ManifoldOps α (Epoch × Fin n) (AugmentedState S))
        (s : Usckf α n S) (z : Fin m → α) (H : Matrix (Fin m) (Epoch × Fin n) α)
        (R : Matrix (Fin m) (Fin m) α) (mt : α → Int → Bool),
      IsPSD s.Pk_error → IsPSD R →
        (Usckf.ekfUpdateAccepted opsA s z H R mt = true →
          (s.ekfUpdate opsA z H R mt).1.Pk_error = Usckf.josephUpdate s.Pk_error H R)
        ∧ IsPSD (Usckf.josephUpdate s.Pk_error H R)
        ∧ IsPSD (s.ekfUpdate opsA z H R mt).1.Pk_error)
    ∧ (∀ (m : Nat) (L : NumericLib α) (ops : ManifoldOps α (Fin 15) (SingleState α))
        (s : Usckf α 15 (SingleState α)) (z : Fin m → α) (H : Matrix (Fin m) (Fin 15) α)
        (R : Matrix (Fin m) (Fin m) α) (mt : α → Int → Bool),
      IsPSD (subblock s.Pk_error Epoch.statek_i Epoch.statek_i) → IsPSD R →
        (Usckf.ekfSingleUpdateAccepted ops s z H R mt = true →
          subblock (s.ekfSingleUpdate L ops z H R mt).Pk_error Epoch.statek_i Epoch.statek_i
            = Usckf.josephUpdate (subblock s.Pk_error Epoch.statek_i Epoch.statek_i) H R)
        ∧ IsPSD (subblock (s.ekfSingleUpdate L ops z H R mt).Pk_error Epoch.statek_i
            Epoch.statek_i)) := by
  refine ⟨?_, ?_, ?_⟩
  · intro sl L M2 GAMMA auxvector0 s Hme Rme slip_error acc mag dt flag hP hR
    rw [Sckf.update_Pki_k_joseph]
    exact isPSD_joseph _ _ _ _ hP hR
  · intro n m S opsA s z H R mt hP hR
    have hJ : IsPSD (Usckf.josephUpdate s.Pk_error H R) := isPSD_joseph _ _ _ _ hP hR
    rw [Usckf.ekfUpdate_eq]
    refine ⟨fun h => by rw [if_pos h], hJ, ?_⟩
    split_ifs
    · exact hJ
    · exact hP
  · intro m L ops s z H R mt hP hR
    have hJ : IsPSD (Usckf.josephUpdate (subblock s.Pk_error Epoch.statek_i Epoch.statek_i)
        H R) := isPSD_joseph _ _ _ _ hP hR
    have hsub : subblock (s.ekfSingleUpdate L ops z H R mt).Pk_error Epoch.statek_i
        Epoch.statek_i
        = if Usckf.ekfSingleUpdateAccepted ops s z H R mt then
            Usckf.josephUpdate (subblock s.Pk_error Epoch.statek_i Epoch.statek_i) H R
          else subblock s.Pk_error Epoch.statek_i Epoch.statek_i := by
      unfold Usckf.ekfSingleUpdate
      simp only [subblock_setSubblock, and_self, if_true]
      rfl
    rw [hsub]
    refine ⟨fun h => by rw [if_pos h], ?_⟩
    split_ifs
    · exact hJ
    · exact hP

theorem Sckf.updateDetected_ratLib_of_isPSD (s : Sckf ℚ M1) (acc : Fin 3 → ℚ)
    (hP : IsPSD (block 9 9 s.Pki_k 6 6)) (hR : IsPSD s.Ra) :
    Sckf.updateDetected ratLib 0 s acc = false := by
  have hd : ∀ i, Sckf.updateLambdaMinusMu ratLib s acc i ≤ 0 := by
    intro i
    unfold Sckf.updateLambdaMinusMu
    simp only [ratLib, Pi.sub_apply, Pi.zero_apply, zero_sub, neg_nonpos]
    rw [← Matrix.dotProduct_mulVec]
    exact (isPSD_add _ _ (isPSD_conj _ _ hP) hR).2 _
  unfold Sckf.updateDetected
  simp only [gt_iff_lt, decide_eq_false_iff_not, not_lt]
  exact max_le (max_le (hd 0) (hd 1)) (hd 2)

theorem Sckf.update_Rk {sl : Nat} (L : NumericLib α) (M2 : Nat) (GAMMA : α)
    (auxvector0 : Fin 3 → α) (s : Sckf α M1) (Hme : Matrix (Fin 3) (Fin sl) α)
    (Rme : Matrix (Fin sl) (Fin sl) α) (slip_error : Fin sl → α) (acc mag : Fin 3 → α) (dt : α)
    (flag : Bool) :
    (s.update L M2 GAMMA auxvector0 Hme Rme slip_error acc mag dt flag).Rk
      = setBlock (setBlock s.Rk 0 0 (Hme * Rme * Hmeᵀ)) 3 3
          (s.Ra + s.Rat + Sckf.updateQstar L M2 GAMMA auxvector0 s acc) :=
  rfl

theorem Sckf.noiseFreeAtIdentity_update_Rk (acc : Fin 3 → ℚ) :
    (Sckf.noiseFreeAtIdentity.update ratLib 0 0 0 (0 : Matrix (Fin 3) (Fin 2) ℚ) 0 0 acc 0 0
      false).Rk = 0 := by
  have hblock : block 9 9 Sckf.noiseFreeAtIdentity.Pki_k 6 6 = 1 := by
    ext i j
    have hi := i.isLt
    have hj := j.isLt
    simp [Sckf.noiseFreeAtIdentity, Sckf.Init, Sckf.setAttitude, block, Matrix.one_apply,
      Fin.ext_iff]
    omega
  have hq : Sckf.updateQstar ratLib 0 0 0 Sckf.noiseFreeAtIdentity acc = 0 :=
    Sckf.updateQstar_quiet ratLib 0 0 0 _ acc
      (Sckf.updateDetected_ratLib_of_isPSD _ acc (by rw [hblock]; exact isPSD_identity)
        isPSD_zero) (Nat.zero_le _)
  rw [Sckf.update_Rk, hq]
  ext i j
  simp [Sckf.noiseFreeAtIdentity, Sckf.Init, Sckf.setAttitude, Sckf.blank, setBlock]

/-- The noise-free filter with unit covariance, and the filter at the origin with unit
covariance observed through its velocity rows with unit noise. -/
theorem C21_joseph_form_keeps_positive_semidefiniteness_witness :
    IsPSD (Sckf.noiseFreeAtIdentity.update ratLib 0 0 0 (0 : Matrix (Fin 3) (Fin 2) ℚ) 0 0
      ![0, 0, 9.81] 0 0 false).Pki_k
    ∧ IsPSD ((Usckf.atOrigin (1 : Matrix (Epoch × Fin 15) (Epoch × Fin 15) ℚ)).ekfUpdate
        (augmentedOps flatOps) ![1, 0, 0] velocityRows 1 accept_mahalanobis_distance).1.Pk_error
    ∧ IsPSD (subblock ((Usckf.atOrigin (1 : Matrix (Epoch × Fin 15) (Epoch × Fin 15) ℚ)
        ).ekfSingleUpdate ratLib flatOps ![1, 0, 0] velocityRowsSingle 1
        accept_mahalanobis_distance).Pk_error Epoch.statek_i Epoch.statek_i) :=
  have h := @C21_joseph_form_keeps_positive_semidefiniteness ℚ _ 1
  ⟨h.1 2 ratLib 0 0 0 Sckf.noiseFreeAtIdentity 0 0 0 ![0, 0, 9.81] 0 0 false isPSD_identity
      (by rw [Sckf.noiseFreeAtIdentity_update_Rk]; exact isPSD_zero),
    (h.2.1 15 3 (SingleState ℚ) (augmentedOps flatOps) (Usckf.atOrigin 1) ![1, 0, 0]
      velocityRows 1 accept_mahalanobis_distance isPSD_identity isPSD_identity).2.2,
    (h.2.2 3 ratLib flatOps (Usckf.atOrigin 1) ![1, 0, 0] velocityRowsSingle 1
      accept_mahalanobis_distance
      (by
        show IsPSD (subblock (1 : Matrix (Epoch × Fin 15) (Epoch × Fin 15) ℚ) Epoch.statek_i
          Epoch.statek_i)
        rw [subblock_one]
        exact isPSD_identity)
      isPSD_identity).2⟩


/-! ### The precondition of the sigma-point generation -/

theorem length_flatMap_pair {β γ : Type} (a b : β → γ) (l : List β) :
    (l.flatMap (fun j => [a j, b j])).length = 2 * l.length := by
  induction l with
  | nil => rfl
  | cons x rest ih =>
    simp only [List.flatMap_cons, List.length_append, List.length_cons, List.length_nil, ih]
    omega

theorem Usckf.generateSigmaPointsSingle_length {n : Nat} {S : Type}
    (ops : ManifoldOps α (Fin n) S) (llt : Matrix (Fin n) (Fin n) α → Matrix (Fin n) (Fin n) α)
    (mu : S) (sigma : Matrix (Fin n) (Fin n) α) :
    (Usckf.generateSigmaPointsSingle ops llt mu sigma).length = 2 * n + 1 := by
  unfold Usckf.generateSigmaPointsSingle
  simp only [List.length_cons, length_flatMap_pair, List.length_finRange]

/-- Claim C22, refuted on the code for the single-state generator.  The augmented-state
generator fails its assertion when the Cholesky factorisation reports that the covariance is
not positive-definite, and then `Usckf::update` produces nothing.  The single-state
generator, used by `predict` and `singleUpdate`, reads the factor of `Eigen::LLT` without
testing its outcome: for every covariance, positive-definite or not, and whatever factor the
library leaves, it returns the `2 * DOF + 1` sigma points, the first being the mean; so it
does for the negative-definite covariance `-1`, whose quadratic form is negative on the
first unit vector. -/
theorem C22_single_state_sigma_points_have_no_precondition :
    (∀ (n m : Nat) (S : Type) (opsA : ManifoldOps α (Epoch × Fin n) (AugmentedState S))
        (chol : Matrix (Epoch × Fin n) (Epoch × Fin n) α →
          Option (Matrix (Epoch × Fin n) (Epoch × Fin n) α))
        (s : Usckf α n S) (mu : AugmentedState S) (delta : Epoch × Fin n → α)
        (z : Fin m → α) (h : AugmentedState S → (Fin m → α)) (R : Matrix (Fin m) (Fin m) α)
        (mt : α → Bool),
      (∀ sigma, chol sigma = none →
        Usckf.generateSigmaPointsDelta opsA chol mu delta sigma = none
        ∧ Usckf.generateSigmaPoints opsA chol mu sigma = none)
      ∧ (chol s.Pk_error = none → s.update opsA chol z h R mt = none))
    ∧ (∀ (n : Nat) (S : Type) (ops : ManifoldOps α (Fin n) S)
        (llt : Matrix (Fin n) (Fin n) α → Matrix (Fin n) (Fin n) α) (mu : S)
        (sigma : Matrix (Fin n) (Fin n) α),
      (Usckf.generateSigmaPointsSingle ops llt mu sigma).length = 2 * n + 1
      ∧ (Usckf.generateSigmaPointsSingle ops llt mu sigma).head? = some mu)
    ∧ (∀ (ops : ManifoldOps α (Fin 15) (SingleState α))
        (llt : Matrix (Fin 15) (Fin 15) α → Matrix (Fin 15) (Fin 15) α) (mu : SingleState α),
      (Pi.single 0 1 : Fin 15 → α) ⬝ᵥ (-1 : Matrix (Fin 15) (Fin 15) α) *ᵥ Pi.single 0 1 < 0
      ∧ (Usckf.generateSigmaPointsSingle ops llt mu (-1)).length = 31) := by
  refine ⟨?_, ?_, ?_⟩
  · intro n m S opsA chol s mu delta z h R mt
    refine ⟨fun sigma hs => ?_, fun hs => ?_⟩
    · simp only [Usckf.generateSigmaPoints, Usckf.generateSigmaPointsDelta, hs, and_self]
    · simp only [Usckf.update, Usckf.updateGain, Usckf.generateSigmaPoints,
        Usckf.generateSigmaPointsDelta, hs]
  · intro n S ops llt mu sigma
    exact ⟨Usckf.generateSigmaPointsSingle_length ops llt mu sigma, rfl⟩
  · intro ops llt mu
    refine ⟨?_, Usckf.generateSigmaPointsSingle_length ops llt mu _⟩
    simp [Matrix.neg_mulVec]

/-- A factorisation that reports every covariance as not positive-definite. -/
theorem C22_single_state_sigma_points_have_no_precondition_witness :
    Usckf.generateSigmaPoints (augmentedOps (flatOps : ManifoldOps ℚ (Fin 15) (SingleState ℚ)))
        (fun _ => none) (Usckf.atOrigin (0 : Matrix (Epoch × Fin 15) (Epoch × Fin 15) ℚ)).mu_error
        0 = none
    ∧ (Usckf.atOrigin (0 : Matrix (Epoch × Fin 15) (Epoch × Fin 15) ℚ)).update
        (augmentedOps flatOps) (fun _ => none) (0 : Fin 3 → ℚ) (fun _ => 0) 1 (fun _ => true)
        = none :=
  have h := (@C22_single_state_sigma_points_have_no_precondition ℚ _).1 15 3 (SingleState ℚ)
    (augmentedOps flatOps) (fun _ => none) (Usckf.atOrigin 0) (Usckf.atOrigin 0).mu_error 0 0
    (fun _ => 0) 1 (fun _ => true)
  ⟨(h.1 0 rfl).2, h.2 rfl⟩


/-! ### Termination of the manifold mean -/

theorem Usckf.meanSigmaPointsLoop_succ {ι M : Type} [Fintype ι] (L : NumericLib α)
    (ops : ManifoldOps α ι M) (X : List M) (k : Nat) (r : M) :
    Usckf.meanSigmaPointsLoop L ops X (k + 1) r
      = if L.sqrt (Usckf.meanSigmaPointsDelta ops X r ⬝ᵥ Usckf.meanSigmaPointsDelta ops X r)
            > 1e-6 then
          Usckf.meanSigmaPointsLoop L ops X k
            (ops.boxplus r (Usckf.meanSigmaPointsDelta ops X r))
        else some (ops.boxplus r (Usckf.meanSigmaPointsDelta ops X r)) :=
  rfl

theorem Usckf.meanSigmaPointsLoop_none_iff {ι M : Type} [Fintype ι] (L : NumericLib α)
    (ops : ManifoldOps α ι M) (X : List M) (fuel : Nat) :
    ∀ r : M, Usckf.meanSigmaPointsLoop L ops X fuel r = none ↔
      ∀ k < fuel,
        L.sqrt (Usckf.meanSigmaPointsDelta ops X (Usckf.meanSigmaPointsIterate ops X k r)
          ⬝ᵥ Usckf.meanSigmaPointsDelta ops X (Usckf.meanSigmaPointsIterate ops X k r))
          > 1e-6 := by
  induction fuel with
  | zero =>
    intro r
    constructor
    · intro _ k hk
      omega
    · intro _
      rfl
  | succ f ih =>
    intro r
    rw [Usckf.meanSigmaPointsLoop_succ]
    by_cases h0 : L.sqrt (Usckf.meanSigmaPointsDelta ops X r
        ⬝ᵥ Usckf.meanSigmaPointsDelta ops X r) > 1e-6
    · rw [if_pos h0, ih]
      constructor
      · intro h k hk
        cases k with
        | zero => exact h0
        | succ j => exact h j (by omega)
      · intro h k hk
        exact h (k + 1) (by omega)
    · rw [if_neg h0]
      constructor
      · intro h
        cases h
      · intro h
        exact absurd (h 0 (by omega)) h0

theorem Usckf.meanSigmaPointsLoop_some {ι M : Type} [Fintype ι] (L : NumericLib α)
    (ops : ManifoldOps α ι M) (X : List M) (fuel : Nat) :
    ∀ (r : M) (k : Nat), k < fuel →
      L.sqrt (Usckf.meanSigmaPointsDelta ops X (Usckf.meanSigmaPointsIterate ops X k r)
        ⬝ᵥ Usckf.meanSigmaPointsDelta ops X (Usckf.meanSigmaPointsIterate ops X k r))
        ≤ 1e-6 →
      (∀ j < k,
        L.sqrt (Usckf.meanSigmaPointsDelta ops X (Usckf.meanSigmaPointsIterate ops X j r)
          ⬝ᵥ Usckf.meanSigmaPointsDelta ops X (Usckf.meanSigmaPointsIterate ops X j r))
          > 1e-6) →
      Usckf.meanSigmaPointsLoop L ops X fuel r
        = some (Usckf.meanSigmaPointsIterate ops X (k + 1) r) := by
  induction fuel with
  | zero =>
    intro r k hk
    omega
  | succ f ih =>
    intro r k hk hle hgt
    rw [Usckf.meanSigmaPointsLoop_succ]
    cases k with
    | zero =>
      have hle0 : L.sqrt (Usckf.meanSigmaPointsDelta ops X r
          ⬝ᵥ Usckf.meanSigmaPointsDelta ops X r) ≤ 1e-6 := hle
      rw [if_neg (not_lt.mpr hle0)]
      rfl
    | succ j =>
      have hgt0 : L.sqrt (Usckf.meanSigmaPointsDelta ops X r
          ⬝ᵥ Usckf.meanSigmaPointsDelta ops X r) > 1e-6 := hgt 0 (by omega)
      rw [if_pos hgt0]
      exact ih _ j (by omega) hle (fun i hi => hgt (i + 1) (by omega))

/-- Claim C23.  The manifold `meanSigmaPoints` is a total function of its input that makes at
most 10000 averaging steps from `X[0]`: it fails its assertion exactly when each of the
10000 steps has a mean displacement of norm greater than `1e-6`, and otherwise it returns the
reference displaced by the first step whose mean displacement has norm at most `1e-6`. -/
theorem C23_meanSigmaPoints_stops_within_max_it {ι M : Type} [Fintype ι] (L : NumericLib α)
    (ops : ManifoldOps α ι M) (X0 : M) (rest : List M) :
    (Usckf.meanSigmaPoints L ops (X0 :: rest) = none ↔
      ∀ k < 10000,
        L.sqrt (Usckf.meanSigmaPointsDelta ops (X0 :: rest)
            (Usckf.meanSigmaPointsIterate ops (X0 :: rest) k X0)
          ⬝ᵥ Usckf.meanSigmaPointsDelta ops (X0 :: rest)
            (Usckf.meanSigmaPointsIterate ops (X0 :: rest) k X0)) > 1e-6)
    ∧ (∀ k < 10000,
        L.sqrt (Usckf.meanSigmaPointsDelta ops (X0 :: rest)
            (Usckf.meanSigmaPointsIterate ops (X0 :: rest) k X0)
          ⬝ᵥ Usckf.meanSigmaPointsDelta ops (X0 :: rest)
            (Usckf.meanSigmaPointsIterate ops (X0 :: rest) k X0)) ≤ 1e-6 →
        (∀ j < k,
          L.sqrt (Usckf.meanSigmaPointsDelta ops (X0 :: rest)
              (Usckf.meanSigmaPointsIterate ops (X0 :: rest) j X0)
            ⬝ᵥ Usckf.meanSigmaPointsDelta ops (X0 :: rest)
              (Usckf.meanSigmaPointsIterate ops (X0 :: rest) j X0)) > 1e-6) →
        Usckf.meanSigmaPoints L ops (X0 :: rest)
          = some (Usckf.meanSigmaPointsIterate ops (X0 :: rest) (k + 1) X0))
    ∧ (Usckf.meanSigmaPoints L ops (X0 :: rest) = none
      ∨ ∃ k < 10000, Usckf.meanSigmaPoints L ops (X0 :: rest)
          = some (Usckf.meanSigmaPointsIterate ops (X0 :: rest) (k + 1) X0)) := by
  have hnone := Usckf.meanSigmaPointsLoop_none_iff L ops (X0 :: rest) 10000 X0
  have hsome := Usckf.meanSigmaPointsLoop_some L ops (X0 :: rest) 10000 X0
  refine ⟨hnone, fun k hk hle hgt => hsome k hk hle hgt, ?_⟩
  by_cases hall : ∀ k < 10000,
      L.sqrt (Usckf.meanSigmaPointsDelta ops (X0 :: rest)
          (Usckf.meanSigmaPointsIterate ops (X0 :: rest) k X0)
        ⬝ᵥ Usckf.meanSigmaPointsDelta ops (X0 :: rest)
          (Usckf.meanSigmaPointsIterate ops (X0 :: rest) k X0)) > 1e-6
  · exact Or.inl (hnone.mpr hall)
  · right
    have hex : ∃ k, k < 10000 ∧
        ¬ L.sqrt (Usckf.meanSigmaPointsDelta ops (X0 :: rest)
            (Usckf.meanSigmaPointsIterate ops (X0 :: rest) k X0)
          ⬝ᵥ Usckf.meanSigmaPointsDelta ops (X0 :: rest)
            (Usckf.meanSigmaPointsIterate ops (X0 :: rest) k X0)) > 1e-6 := by
      by_contra hne
      exact hall (fun k hk => by
        by_contra hk2
        exact hne ⟨k, hk, hk2⟩)
    classical
    let k0 := Nat.find hex
    have hk0 := Nat.find_spec hex
    refine ⟨k0, hk0.1, hsome k0 hk0.1 (not_lt.mp hk0.2) (fun j hj => ?_)⟩
    by_contra hj2
    exact Nat.find_min hex hj ⟨by omega, hj2⟩

/-- One sigma point at the origin: the mean is reached at the first step with the exact
square root, and never with a norm that is constantly 1. -/
theorem C23_meanSigmaPoints_stops_within_max_it_witness :
    Usckf.meanSigmaPoints ratLib (flatOps : ManifoldOps ℚ (Fin 15) (SingleState ℚ))
        [SingleState.origin]
      = some (Usckf.meanSigmaPointsIterate (flatOps : ManifoldOps ℚ (Fin 15) (SingleState ℚ))
          [SingleState.origin] (0 + 1) SingleState.origin)
    ∧ Usckf.meanSigmaPoints stalledLib (flatOps : ManifoldOps ℚ (Fin 15) (SingleState ℚ))
        [SingleState.origin] = none :=
  ⟨(C23_meanSigmaPoints_stops_within_max_it ratLib flatOps SingleState.origin []).2.1 0
      (by norm_num)
      (by
        have h : Usckf.meanSigmaPointsDelta (flatOps : ManifoldOps ℚ (Fin 15) (SingleState ℚ))
            [SingleState.origin] SingleState.origin = 0 := by
          simp [Usckf.meanSigmaPointsDelta, flatOps]
        show ratLib.sqrt (Usckf.meanSigmaPointsDelta flatOps [SingleState.origin]
          SingleState.origin ⬝ᵥ Usckf.meanSigmaPointsDelta flatOps [SingleState.origin]
          SingleState.origin) ≤ 1e-6
        rw [h]
        norm_num [ratLib])
      (fun j hj => absurd hj (Nat.not_lt_zero j)),
    (C23_meanSigmaPoints_stops_within_max_it stalledLib flatOps SingleState.origin []).1.mpr
      (fun k _ => by norm_num [stalledLib])⟩


/-! ### The window of the adaptive covariance estimator -/

theorem take_set_self {β : Type} (l : List β) (o : β) :
    ∀ r : Nat, (l.set r o).take r = l.take r := by
  induction l with
  | nil => intro r; simp
  | cons x rest ih =>
    intro r
    cases r with
    | zero => simp
    | succ k => simp [ih k]

theorem rotate_set_succ {β : Type} (l : List β) (r : Nat) (o : β) (hr : r < l.length) :
    (l.set r o).rotate ((r + 1) % l.length) = (l.rotate r).tail ++ [o] := by
  have hlen : (l.set r o).length = l.length := List.length_set _ _ _
  have h1 : (l.set r o).rotate ((r + 1) % l.length) = (l.set r o).rotate (r + 1) := by
    rw [← hlen, List.rotate_mod]
  rw [h1, List.rotate_eq_drop_append_take (by rw [hlen]; omega),
    List.rotate_eq_drop_append_take (by omega)]
  have h2 : (l.set r o).drop (r + 1) = l.drop (r + 1) := by
    rw [List.drop_set_of_lt o l (Nat.lt_succ_self r)]
  have h3 : (l.set r o).take (r + 1) = l.take r ++ [o] := by
    rw [List.take_succ, take_set_self, List.getElem?_set_self hr]
    rfl
  have h4 : (l.drop r ++ l.take r).tail = l.drop (r + 1) ++ l.take r := by
    have hne : l.drop r ≠ [] := by
      intro h
      have := congrArg List.length h
      simp at this
      omega
    rw [List.tail_append_of_ne_nil hne, List.tail_drop]
  rw [h2, h3, h4, List.append_assoc]

theorem foldl_range_getD {β : Type} [AddCommMonoid β] (l : List β) :
    (List.range l.length).foldl (fun U j => U + l.getD j 0) 0 = l.sum := by
  induction l using List.reverseRecOn with
  | nil => rfl
  | append_singleton l a ih =>
    rw [List.length_append, List.length_singleton, List.range_succ, List.foldl_append]
    have h : (List.range l.length).foldl (fun U j => U + (l ++ [a]).getD j 0) 0
        = (List.range l.length).foldl (fun U j => U + l.getD j 0) 0 := by
      apply List.foldl_ext
      intro U j hj
      rw [List.mem_range] at hj
      simp [List.getD_eq_getElem?_getD, List.getElem?_append_left hj]
    rw [h, ih]
    simp [List.getD_eq_getElem?_getD]

theorem sum_rotate {β : Type} [AddCommMonoid β] (l : List β) (n : Nat) :
    (l.rotate n).sum = l.sum :=
  (List.rotate_perm l n).sum_eq

theorem sum_drop_replicate_append {β : Type} [AddCommMonoid β] (m : Nat) (os : List β) :
    ((List.replicate m (0 : β) ++ os).drop os.length).sum = (os.drop (os.length - m)).sum := by
  by_cases h : os.length ≤ m
  · rw [List.drop_append_of_le_length (by simp [h]), List.drop_replicate,
      Nat.sub_eq_zero_of_le h]
    simp
  · have h' : m ≤ os.length := by omega
    rw [List.drop_append_eq_append_drop]
    simp [List.drop_eq_nil_of_le, h']

namespace AdaptiveAttitudeCov

theorem matrix_snd {n : Nat} (L : NumericLib α) (c : AdaptiveAttitudeCov α)
    (a : Args α n) :
    (matrix L c a.xk a.Pk a.z a.H a.R).2.m1 = c.m1
    ∧ (matrix L c a.xk a.Pk a.z a.H a.R).2.r1count = (c.r1count + 1) % c.m1
    ∧ (matrix L c a.xk a.Pk a.z a.H a.R).2.RHist = c.RHist.set c.r1count a.residualOuter := by
  unfold matrix
  dsimp only
  split_ifs <;> exact ⟨rfl, rfl, rfl⟩

theorem matrix_window {n : Nat} (L : NumericLib α) (c : AdaptiveAttitudeCov α)
    (a : Args α n) (w : List (Matrix (Fin 3) (Fin 3) α))
    (hlen : c.RHist.length = c.m1) (hr : c.r1count < c.m1)
    (hw : c.RHist.rotate c.r1count = w) :
    (matrix L c a.xk a.Pk a.z a.H a.R).2.RHist.length
        = (matrix L c a.xk a.Pk a.z a.H a.R).2.m1
    ∧ (matrix L c a.xk a.Pk a.z a.H a.R).2.r1count < (matrix L c a.xk a.Pk a.z a.H a.R).2.m1
    ∧ (matrix L c a.xk a.Pk a.z a.H a.R).2.RHist.rotate
        (matrix L c a.xk a.Pk a.z a.H a.R).2.r1count = w.tail ++ [a.residualOuter] := by
  obtain ⟨e1, e2, e3⟩ := matrix_snd L c a
  rw [e1, e2, e3]
  refine ⟨by rw [List.length_set, hlen], Nat.mod_lt _ (by omega), ?_⟩
  rw [← hw, ← hlen]
  exact rotate_set_succ c.RHist c.r1count _ (by omega)

theorem after_window {n : Nat} (L : NumericLib α) (calls : List (Args α n)) :
    ∀ (c : AdaptiveAttitudeCov α) (w : List (Matrix (Fin 3) (Fin 3) α)),
      c.RHist.length = c.m1 → c.r1count < c.m1 → c.RHist.rotate c.r1count = w →
      (after L c calls).m1 = c.m1
      ∧ (after L c calls).RHist.length = c.m1
      ∧ (after L c calls).r1count < c.m1
      ∧ (after L c calls).RHist.rotate (after L c calls).r1count
          = (w ++ calls.map Args.residualOuter).drop calls.length := by
  induction calls with
  | nil =>
    intro c w hlen hr hw
    simpa [after] using ⟨hlen, hr, hw⟩
  | cons a rest ih =>
    intro c w hlen hr hw
    obtain ⟨h1, h2, h3⟩ := matrix_window L c a w hlen hr hw
    have hm : (matrix L c a.xk a.Pk a.z a.H a.R).2.m1 = c.m1 := (matrix_snd L c a).1
    obtain ⟨i1, i2, i3, i4⟩ := ih _ _ h1 h2 h3
    rw [hm] at i1 i2 i3
    refine ⟨i1, i2, i3, ?_⟩
    show (after L (matrix L c a.xk a.Pk a.z a.H a.R).2 rest).RHist.rotate
      (after L (matrix L c a.xk a.Pk a.z a.H a.R).2 rest).r1count = _
    rw [i4]
    have hne : w ≠ [] := by
      intro h
      have := congrArg List.length hw
      rw [List.length_rotate, h, hlen] at this
      simp at this
      omega
    obtain ⟨x, t, rfl⟩ := List.exists_cons_of_ne_nil hne
    simp [List.append_assoc]

theorem after_append {n : Nat} (L : NumericLib α) (calls : List (Args α n)) (a : Args α n) :
    ∀ c : AdaptiveAttitudeCov α,
      after L c (calls ++ [a]) = (matrix L (after L c calls) a.xk a.Pk a.z a.H a.R).2 := by
  induction calls with
  | nil => intro c; rfl
  | cons b rest ih => intro c; exact ih _

end AdaptiveAttitudeCov

theorem AdaptiveAttitudeCov.matrixUk_eq_sum {n : Nat} (c : AdaptiveAttitudeCov α)
    (a : AdaptiveAttitudeCov.Args α n) (hlen : c.RHist.length = c.m1) :
    AdaptiveAttitudeCov.matrixUk c a.xk a.z a.H
      = (c.m1 : α)⁻¹ • (c.RHist.set c.r1count a.residualOuter).sum := by
  unfold AdaptiveAttitudeCov.matrixUk AdaptiveAttitudeCov.matrixRHist
  have h := foldl_range_getD (c.RHist.set c.r1count a.residualOuter)
  rw [List.length_set, hlen] at h
  simp only [← h]
  rfl

/-- Claim C30.  For `M1 >= 1`, on an object built by the constructor, the matrix `Uk` that the
call number `n` of `AdaptiveAttitudeCov::matrix` decomposes is `1 / M1` times the sum of the
outer products of the residuals of the last `min(n, M1)` calls, the slots not yet written
counting as zero; and after every call the history, read from the slot that the next call
overwrites, is the list of the `M1` most recent outer products in the order of the calls,
preceded by zero matrices while fewer than `M1` calls were made. -/
theorem C30_window_holds_the_most_recent_outer_products {n : Nat} (L : NumericLib α)
    (m1 m2 r2count : Nat) (gamma : α) (hm : 1 ≤ m1)
    (calls : List (AdaptiveAttitudeCov.Args α n)) (a : AdaptiveAttitudeCov.Args α n) :
    AdaptiveAttitudeCov.matrixUk
        (AdaptiveAttitudeCov.after L (AdaptiveAttitudeCov.create m1 m2 gamma r2count) calls)
        a.xk a.z a.H
      = (m1 : α)⁻¹ •
          (((calls ++ [a]).map AdaptiveAttitudeCov.Args.residualOuter).drop
            ((calls ++ [a]).length - m1)).sum
    ∧ (AdaptiveAttitudeCov.after L (AdaptiveAttitudeCov.create m1 m2 gamma r2count)
          (calls ++ [a])).RHist.rotate
        (AdaptiveAttitudeCov.after L (AdaptiveAttitudeCov.create m1 m2 gamma r2count)
          (calls ++ [a])).r1count
      = (List.replicate m1 0 ++ (calls ++ [a]).map AdaptiveAttitudeCov.Args.residualOuter).drop
          (calls ++ [a]).length
    ∧ (AdaptiveAttitudeCov.after L (AdaptiveAttitudeCov.create m1 m2 gamma r2count)
          (calls ++ [a])).RHist.length = m1 := by
  have hw := AdaptiveAttitudeCov.after_window L (calls ++ [a])
    (AdaptiveAttitudeCov.create m1 m2 gamma r2count) (List.replicate m1 0)
    (by simp [AdaptiveAttitudeCov.create]) (by simp [AdaptiveAttitudeCov.create]; omega)
    (by simp [AdaptiveAttitudeCov.create])
  have hc := AdaptiveAttitudeCov.after_window L calls
    (AdaptiveAttitudeCov.create m1 m2 gamma r2count) (List.replicate m1 0)
    (by simp [AdaptiveAttitudeCov.create]) (by simp [AdaptiveAttitudeCov.create]; omega)
    (by simp [AdaptiveAttitudeCov.create])
  have hm1 : (AdaptiveAttitudeCov.create m1 m2 gamma r2count).m1 = m1 := rfl
  rw [hm1] at hw hc
  refine ⟨?_, hw.2.2.2, hw.2.1⟩
  rw [AdaptiveAttitudeCov.matrixUk_eq_sum _ _ (by rw [hc.2.1, hc.1]), hc.1]
  have hset : (AdaptiveAttitudeCov.after L (AdaptiveAttitudeCov.create m1 m2 gamma r2count)
      calls).RHist.set
        (AdaptiveAttitudeCov.after L (AdaptiveAttitudeCov.create m1 m2 gamma r2count)
          calls).r1count a.residualOuter
      = (AdaptiveAttitudeCov.after L (AdaptiveAttitudeCov.create m1 m2 gamma r2count)
          (calls ++ [a])).RHist := by
    rw [AdaptiveAttitudeCov.after_append]
    exact (AdaptiveAttitudeCov.matrix_snd L _ a).2.2.symm
  rw [hset, ← sum_rotate _ (AdaptiveAttitudeCov.after L
    (AdaptiveAttitudeCov.create m1 m2 gamma r2count) (calls ++ [a])).r1count, hw.2.2.2]
  have hs := sum_drop_replicate_append m1
    ((calls ++ [a]).map AdaptiveAttitudeCov.Args.residualOuter)
  rw [List.length_map] at hs
  rw [hs]

/-- A window of two slots and three calls with the residuals `(1,0,0)`, `(0,1,0)` and
`(0,0,1)`: the third call averages the last two outer products. -/
theorem C30_window_holds_the_most_recent_outer_products_witness :
    AdaptiveAttitudeCov.matrixUk
        (AdaptiveAttitudeCov.after ratLib (AdaptiveAttitudeCov.create 2 5 0 0)
          [(⟨0, 0, ![1, 0, 0], 0, 0⟩ : AdaptiveAttitudeCov.Args ℚ 1),
            ⟨0, 0, ![0, 1, 0], 0, 0⟩])
        (0 : Fin 1 → ℚ) ![0, 0, 1] 0
      = (2 : ℚ)⁻¹ • (vecMulVec ![0, 1, 0] ![0, 1, 0] + vecMulVec ![0, 0, 1] ![0, 0, 1]) := by
  have h := (C30_window_holds_the_most_recent_outer_products ratLib 2 5 0 (0 : ℚ)
    (by norm_num) [(⟨0, 0, ![1, 0, 0], 0, 0⟩ : AdaptiveAttitudeCov.Args ℚ 1),
      ⟨0, 0, ![0, 1, 0], 0, 0⟩] ⟨0, 0, ![0, 0, 1], 0, 0⟩).1
  simpa [AdaptiveAttitudeCov.Args.residualOuter] using h


/-! ### The window of residuals in the update of the SCKF -/

theorem foldl_add_zero {β : Type} [AddCommMonoid β] (f : Nat → β) (l : List Nat)
    (h : ∀ j ∈ l, f j = 0) (U : β) : l.foldl (fun U j => U + f j) U = U := by
  induction l generalizing U with
  | nil => rfl
  | cons x rest ih =>
    rw [List.foldl_cons, h x (List.mem_cons_self _ _), add_zero]
    exact ih (fun j hj => h j (List.mem_cons_of_mem _ hj)) U

theorem Sckf.updateUk_eq (s : Sckf α M1) (acc : Fin 3 → α) :
    Sckf.updateUk s acc
      = (M1 : α)⁻¹ •
        (List.range M1).foldl
          (fun U j => U + block 3 3
            (setBlock s.RHist 0 ((s.r1count * (M1 - 1)) % M1)
              (vecMulVec (Sckf.updateResidual s acc) (Sckf.updateResidual s acc))) 0 (3 * j))
          (vecMulVec (Sckf.updateResidual s acc) (Sckf.updateResidual s acc)) :=
  rfl

theorem Sckf.updateUk_single_slot (s : Sckf α 1) (acc : Fin 3 → α) :
    Sckf.updateUk s acc
      = (2 : α) • vecMulVec (Sckf.updateResidual s acc) (Sckf.updateResidual s acc) := by
  have hb : ∀ B : Matrix (Fin 3) (Fin 3) α,
      block 3 3 (setBlock s.RHist 0 0 B) 0 0 = B :=
    fun B => block_setBlock_self _ 0 0 B (by norm_num) (by norm_num)
  rw [Sckf.updateUk_eq]
  simp [List.range_succ, hb, two_smul]

theorem Sckf.updateUk_first_call (s : Sckf α M1) (acc : Fin 3 → α) (hM : 1 ≤ M1)
    (hH : s.RHist = 0) (hr : s.r1count = 0) :
    Sckf.updateUk s acc
      = (M1 : α)⁻¹ •
        ((2 : α) • vecMulVec (Sckf.updateResidual s acc) (Sckf.updateResidual s acc)) := by
  rw [Sckf.updateUk_eq, hH, hr]
  have hcol : (0 * (M1 - 1)) % M1 = 0 := by simp
  rw [hcol]
  obtain ⟨k, rfl⟩ : ∃ k, M1 = k + 1 := ⟨M1 - 1, by omega⟩
  rw [List.range_succ_eq_map, List.foldl_cons]
  have h0 : block 3 3 (setBlock (0 : Matrix (Fin 3) (Fin (3 * (k + 1))) α) 0 0
      (vecMulVec (Sckf.updateResidual s acc) (Sckf.updateResidual s acc))) 0 (3 * 0)
      = vecMulVec (Sckf.updateResidual s acc) (Sckf.updateResidual s acc) :=
    block_setBlock_self _ 0 0 _ (by norm_num) (by omega)
  rw [h0, foldl_add_zero, two_smul]
  intro j hj
  obtain ⟨i, _, rfl⟩ := List.mem_map.mp hj
  ext a b
  have ha := a.isLt
  have hb := b.isLt
  simp only [block, setBlock, Matrix.zero_apply]
  split_ifs with h1 h2
  · exfalso
    simp only [Nat.succ_eq_add_one] at h2
    omega
  · rfl
  · rfl

theorem Sckf.updateResidual_blank (q : Quat α) (acc : Fin 3 → α) :
    Sckf.updateResidual (Sckf.blank q : Sckf α M1) acc = acc := by
  simp [Sckf.updateResidual, Sckf.blank, segment_zero]

/-- Claim C29, refuted on the code.  `update` starts the sum `Uk` at the current outer product
`R1a` and then adds the blocks of the history, in which `R1a` has just been stored, and it
increments `r1count` without taking it modulo `M1` while it stores at the column
`(r1count * (M1 - 1)) % M1`, not at a multiple of 3.  With a history of one slot (`M1 = 1`)
every call decomposes `Uk = 2 * R1a`, twice the most recent outer product; for every
`M1 >= 1` the first call on a zero history decomposes `(2 / M1) * R1a`.  For the blank
filter with one slot and the accelerometer sample `(1, 0, 0)` the residual is `(1, 0, 0)` and
`Uk` has the entry 2 where the average of the window has 1. -/
theorem C29_update_window_counts_the_current_residual_twice :
    (∀ (s : Sckf α 1) (acc : Fin 3 → α),
      Sckf.updateUk s acc
        = (2 : α) • vecMulVec (Sckf.updateResidual s acc) (Sckf.updateResidual s acc))
    ∧ (∀ (m : Nat) (s : Sckf α m) (acc : Fin 3 → α), 1 ≤ m → s.RHist = 0 → s.r1count = 0 →
      Sckf.updateUk s acc
        = (m : α)⁻¹ •
          ((2 : α) • vecMulVec (Sckf.updateResidual s acc) (Sckf.updateResidual s acc)))
    ∧ (∀ (sl : Nat) (L : NumericLib α) (M2 : Nat) (GAMMA : α) (auxvector0 : Fin 3 → α)
        (s : Sckf α M1) (Hme : Matrix (Fin 3) (Fin sl) α) (Rme : Matrix (Fin sl) (Fin sl) α)
        (slip_error : Fin sl → α) (acc mag : Fin 3 → α) (dt : α) (magn_on_off : Bool),
      (s.update L M2 GAMMA auxvector0 Hme Rme slip_error acc mag dt magn_on_off).r1count
          = s.r1count + 1
      ∧ (s.update L M2 GAMMA auxvector0 Hme Rme slip_error acc mag dt magn_on_off).RHist
          = setBlock s.RHist 0 ((s.r1count * (M1 - 1)) % M1)
              (vecMulVec (Sckf.updateResidual s acc) (Sckf.updateResidual s acc)))
    ∧ Sckf.updateResidual (Sckf.blank Quat.identity : Sckf ℚ 1) ![1, 0, 0] = ![1, 0, 0]
    ∧ Sckf.updateUk (Sckf.blank Quat.identity : Sckf ℚ 1) ![1, 0, 0] 0 0 = 2
    ∧ ((1 : ℚ)⁻¹ • vecMulVec (Sckf.updateResidual (Sckf.blank Quat.identity : Sckf ℚ 1)
          ![1, 0, 0]) (Sckf.updateResidual (Sckf.blank Quat.identity : Sckf ℚ 1) ![1, 0, 0]))
        0 0 = 1 := by
  refine ⟨Sckf.updateUk_single_slot, fun m s acc hm hH hr => Sckf.updateUk_first_call s acc hm hH hr,
    fun sl L M2 GAMMA auxvector0 s Hme Rme slip_error acc mag dt flag => ⟨rfl, rfl⟩,
    Sckf.updateResidual_blank _ _, ?_, ?_⟩
  · rw [Sckf.updateUk_single_slot, Sckf.updateResidual_blank]
    simp [Matrix.vecMulVec_apply]
  · rw [Sckf.updateResidual_blank]
    simp [Matrix.vecMulVec_apply]

/-- A blank filter with five slots: the first call decomposes two fifths of the outer
product. -/
theorem C29_update_window_counts_the_current_residual_twice_witness :
    Sckf.updateUk (Sckf.blank Quat.identity : Sckf ℚ 5) ![1, 0, 0]
      = ((5 : Nat) : ℚ)⁻¹ • ((2 : ℚ) • vecMulVec
          (Sckf.updateResidual (Sckf.blank Quat.identity : Sckf ℚ 5) ![1, 0, 0])
          (Sckf.updateResidual (Sckf.blank Quat.identity : Sckf ℚ 5) ![1, 0, 0])) :=
  (@C29_update_window_counts_the_current_residual_twice ℚ _ 5).2.1 5
    (Sckf.blank Quat.identity) ![1, 0, 0] (by norm_num) rfl rfl


/-! ### The attitude error applied by the update -/

theorem Sckf.updateErrorQuat_eq_errorQuat (L : NumericLib α) (s : Sckf α M1) :
    Sckf.updateErrorQuat L s = Sckf.errorQuat L (s.xki_k 6) (s.xki_k 7) (s.xki_k 8) :=
  rfl

theorem Sckf.update_xki_k {sl : Nat} (L : NumericLib α) (M2 : Nat) (GAMMA : α)
    (auxvector0 : Fin 3 → α) (s : Sckf α M1) (Hme : Matrix (Fin 3) (Fin sl) α)
    (Rme : Matrix (Fin sl) (Fin sl) α) (slip_error : Fin sl → α) (acc mag : Fin 3 → α) (dt : α)
    (flag : Bool) :
    (s.update L M2 GAMMA auxvector0 Hme Rme slip_error acc mag dt flag).xki_k
      = s.xki_k
        + (s.update L M2 GAMMA auxvector0 Hme Rme slip_error acc mag dt flag).K
          *ᵥ ((s.update L M2 GAMMA auxvector0 Hme Rme slip_error acc mag dt flag).zki
            - (s.update L M2 GAMMA auxvector0 Hme Rme slip_error acc mag dt flag).Hk
              *ᵥ s.xki_k) :=
  rfl

theorem Sckf.update_K {sl : Nat} (L : NumericLib α) (M2 : Nat) (GAMMA : α)
    (auxvector0 : Fin 3 → α) (s : Sckf α M1) (Hme : Matrix (Fin 3) (Fin sl) α)
    (Rme : Matrix (Fin sl) (Fin sl) α) (slip_error : Fin sl → α) (acc mag : Fin 3 → α) (dt : α)
    (flag : Bool) :
    (s.update L M2 GAMMA auxvector0 Hme Rme slip_error acc mag dt flag).K
      = s.Pki_k * ((s.update L M2 GAMMA auxvector0 Hme Rme slip_error acc mag dt flag).Hk)ᵀ
        * inverse
          ((s.update L M2 GAMMA auxvector0 Hme Rme slip_error acc mag dt flag).Hk * s.Pki_k
              * ((s.update L M2 GAMMA auxvector0 Hme Rme slip_error acc mag dt flag).Hk)ᵀ
            + (s.update L M2 GAMMA auxvector0 Hme Rme slip_error acc mag dt flag).Rk) :=
  rfl

theorem Sckf.update_Hk {sl : Nat} (L : NumericLib α) (M2 : Nat) (GAMMA : α)
    (auxvector0 : Fin 3 → α) (s : Sckf α M1) (Hme : Matrix (Fin 3) (Fin sl) α)
    (Rme : Matrix (Fin sl) (Fin sl) α) (slip_error : Fin sl → α) (acc mag : Fin 3 → α) (dt : α)
    (flag : Bool) :
    (s.update L M2 GAMMA auxvector0 Hme Rme slip_error acc mag dt flag).Hk
      = setBlock (setBlock (0 : Matrix (Fin 6) (Fin 15) α) 0 3 (Quaternion2DCM s.q4)) 3 6
          (setBlock s.H1a 0 0
            ((2 : α) • crossProductMatrix (Quaternion2DCM s.q4 *ᵥ s.gtilde))) :=
  rfl

theorem Sckf.update_zki {sl : Nat} (L : NumericLib α) (M2 : Nat) (GAMMA : α)
    (auxvector0 : Fin 3 → α) (s : Sckf α M1) (Hme : Matrix (Fin 3) (Fin sl) α)
    (Rme : Matrix (Fin sl) (Fin sl) α) (slip_error : Fin sl → α) (acc mag : Fin 3 → α) (dt : α)
    (flag : Bool) :
    (s.update L M2 GAMMA auxvector0 Hme Rme slip_error acc mag dt flag).zki
      = setSegment (setSegment s.zki 0 (Hme *ᵥ slip_error)) 3
          (acc - s.bahat - Quaternion2DCM s.q4 *ᵥ s.gtilde) :=
  rfl

theorem mul_vecMulVec {ι κ μ : Type} [Fintype κ] (A : Matrix ι κ α) (u : κ → α) (v : μ → α) :
    A * vecMulVec u v = vecMulVec (A *ᵥ u) v := by
  ext i j
  simp [Matrix.mul_apply, Matrix.vecMulVec_apply, Matrix.mulVec, Matrix.dotProduct,
    Finset.sum_mul, mul_assoc]

theorem vecMulVec_mul_transpose {ι κ μ : Type} [Fintype κ] (u : ι → α) (v : κ → α)
    (B : Matrix μ κ α) : vecMulVec u v * Bᵀ = vecMulVec u (B *ᵥ v) := by
  ext i j
  simp [Matrix.mul_apply, Matrix.vecMulVec_apply, Matrix.mulVec, Matrix.dotProduct,
    Finset.mul_sum, mul_assoc, mul_comm, mul_left_comm]

theorem isPSD_vecMulVec_self {ι : Type} [Fintype ι] (u : ι → α) : IsPSD (vecMulVec u u) := by
  refine ⟨?_, fun w => ?_⟩
  · ext i j
    simp [Matrix.vecMulVec_apply, mul_comm]
  · have h : w ⬝ᵥ vecMulVec u u *ᵥ w = (w ⬝ᵥ u) * (w ⬝ᵥ u) := by
      simp only [Matrix.mulVec, Matrix.dotProduct, Matrix.vecMulVec_apply, Finset.mul_sum,
        Finset.sum_mul]
      rw [Finset.sum_comm]
      refine Finset.sum_congr rfl (fun i _ => Finset.sum_congr rfl (fun j _ => ?_))
      ring
    rw [h]
    exact mul_self_nonneg _

theorem isPSD_diagonal {ι : Type} [Fintype ι] [DecidableEq ι] (d : ι → α) (hd : ∀ i, 0 ≤ d i) :
    IsPSD (Matrix.diagonal d) := by
  refine ⟨Matrix.diagonal_transpose d, fun w => ?_⟩
  simp only [Matrix.mulVec_diagonal, Matrix.dotProduct]
  refine Finset.sum_nonneg (fun i _ => ?_)
  have : w i * (d i * w i) = d i * (w i * w i) := by ring
  rw [this]
  exact mul_nonneg (hd i) (mul_self_nonneg _)

theorem Quaternion2DCM_identity : Quaternion2DCM (Quat.identity : Quat α) = 1 := by
  obtain ⟨e00, e01, e02, e10, e11, e12, e20, e21, e22⟩ :=
    Quaternion2DCM_entries (Quat.identity : Quat α)
  apply matrix3_ext
  simp only [e00, e01, e02, e10, e11, e12, e20, e21, e22, Matrix.one_apply_eq,
    ne_eq, not_false_eq_true, Matrix.one_apply_ne, Fin.reduceEq, zero_ne_one, one_ne_zero]
  norm_num [Quat.identity]

theorem Sckf.updateDetected_of_isPSD (L : NumericLib α) (GAMMA : α) (hG : 0 ≤ GAMMA)
    (hsv : ∀ A, L.svdSingularValues A = 0) (s : Sckf α M1) (acc : Fin 3 → α)
    (hP : IsPSD (block 9 9 s.Pki_k 6 6)) (hR : IsPSD s.Ra) :
    Sckf.updateDetected L GAMMA s acc = false := by
  have hd : ∀ i, Sckf.updateLambdaMinusMu L s acc i ≤ 0 := by
    intro i
    unfold Sckf.updateLambdaMinusMu
    simp only [hsv, Pi.sub_apply, Pi.zero_apply, zero_sub, neg_nonpos]
    rw [← Matrix.dotProduct_mulVec]
    exact (isPSD_add _ _ (isPSD_conj _ _ hP) hR).2 _
  unfold Sckf.updateDetected
  simp only [gt_iff_lt, decide_eq_false_iff_not, not_lt]
  exact le_trans (max_le (max_le (hd 0) (hd 1)) (hd 2)) hG

theorem Sckf.attitudeErrorExample_Hk_column :
    (Sckf.attitudeErrorExample.update smallAngleLib 0 0 0 (1 : Matrix (Fin 3) (Fin 3) ℚ)
        ((2 : ℚ) • 1) 0 ![0, 2, 1 / 2] 0 0 false).Hk *ᵥ Pi.single 6 1
      = Pi.single 4 1 := by
  rw [Sckf.update_Hk]
  have hq : Sckf.attitudeErrorExample.q4 = Quat.identity := rfl
  have hg : Sckf.attitudeErrorExample.gtilde = ![0, 0, 1 / 2] := rfl
  rw [hq, hg, Quaternion2DCM_identity, Matrix.one_mulVec, Matrix.mulVec_single]
  funext i
  fin_cases i <;>
    simp [setBlock, crossProductMatrix, Pi.single_apply, Fin.ext_iff, Matrix.one_apply,
      Fin.coe_ofNat_eq_mod]

theorem Sckf.attitudeErrorExample_Qstar :
    Sckf.updateQstar smallAngleLib 0 0 0 Sckf.attitudeErrorExample ![0, 2, 1 / 2] = 0 := by
  refine Sckf.updateQstar_quiet smallAngleLib 0 0 0 _ _
    (Sckf.updateDetected_of_isPSD smallAngleLib 0 (le_refl 0) (fun _ => rfl) _ _ ?_ ?_)
    (Nat.zero_le _)
  · have hb : block 9 9 Sckf.attitudeErrorExample.Pki_k 6 6
        = vecMulVec (Pi.single 0 1) (Pi.single 0 1) := by
      ext i j
      have hi := i.isLt
      have hj := j.isLt
      have hP : Sckf.attitudeErrorExample.Pki_k
          = vecMulVec (Pi.single 6 1) (Pi.single 6 1) := rfl
      rw [hP]
      simp [block, Matrix.vecMulVec_apply, Pi.single_apply, Fin.ext_iff, Fin.coe_ofNat_eq_mod]
      omega
    rw [hb]
    exact isPSD_vecMulVec_self _
  · refine isPSD_diagonal _ (fun i => ?_)
    fin_cases i <;> simp

theorem Sckf.attitudeErrorExample_innovationCov :
    (Sckf.attitudeErrorExample.update smallAngleLib 0 0 0 (1 : Matrix (Fin 3) (Fin 3) ℚ)
        ((2 : ℚ) • 1) 0 ![0, 2, 1 / 2] 0 0 false).Hk * Sckf.attitudeErrorExample.Pki_k
      * ((Sckf.attitudeErrorExample.update smallAngleLib 0 0 0 (1 : Matrix (Fin 3) (Fin 3) ℚ)
        ((2 : ℚ) • 1) 0 ![0, 2, 1 / 2] 0 0 false).Hk)ᵀ
      + (Sckf.attitudeErrorExample.update smallAngleLib 0 0 0 (1 : Matrix (Fin 3) (Fin 3) ℚ)
        ((2 : ℚ) • 1) 0 ![0, 2, 1 / 2] 0 0 false).Rk
      = (2 : ℚ) • 1 := by
  have hP : Sckf.attitudeErrorExample.Pki_k = vecMulVec (Pi.single 6 1) (Pi.single 6 1) := rfl
  rw [hP, mul_vecMulVec, vecMulVec_mul_transpose, Sckf.attitudeErrorExample_Hk_column,
    Sckf.update_Rk, Sckf.attitudeErrorExample_Qstar]
  have hR : Sckf.attitudeErrorExample.Rk = 0 := rfl
  have hRa : Sckf.attitudeErrorExample.Ra = Matrix.diagonal ![2, 1, 2] := rfl
  have hRat : Sckf.attitudeErrorExample.Rat = 0 := rfl
  rw [hR, hRa, hRat]
  ext i j
  fin_cases i <;> fin_cases j <;>
    simp [setBlock, Matrix.vecMulVec_apply, Pi.single_apply, Fin.ext_iff, Matrix.one_apply,
      Fin.coe_ofNat_eq_mod, Matrix.diagonal_apply]
  norm_num

theorem Sckf.attitudeErrorExample_K :
    (Sckf.attitudeErrorExample.update smallAngleLib 0 0 0 (1 : Matrix (Fin 3) (Fin 3) ℚ)
        ((2 : ℚ) • 1) 0 ![0, 2, 1 / 2] 0 0 false).K
      = (2 : ℚ)⁻¹ • vecMulVec (Pi.single 6 1) (Pi.single 4 1) := by
  rw [Sckf.update_K, Sckf.attitudeErrorExample_innovationCov,
    inverse_smul_one (2 : ℚ) two_ne_zero, Matrix.mul_smul, Matrix.mul_one]
  have hP : Sckf.attitudeErrorExample.Pki_k = vecMulVec (Pi.single 6 1) (Pi.single 6 1) := rfl
  rw [hP, vecMulVec_mul_transpose, Sckf.attitudeErrorExample_Hk_column]

theorem Sckf.attitudeErrorExample_xki_k :
    (Sckf.attitudeErrorExample.update smallAngleLib 0 0 0 (1 : Matrix (Fin 3) (Fin 3) ℚ)
        ((2 : ℚ) • 1) 0 ![0, 2, 1 / 2] 0 0 false).xki_k 6 = 1 := by
  rw [Sckf.update_xki_k, Sckf.attitudeErrorExample_K, Sckf.update_zki]
  have hx : Sckf.attitudeErrorExample.xki_k = 0 := rfl
  have hq : Sckf.attitudeErrorExample.q4 = Quat.identity := rfl
  have hg : Sckf.attitudeErrorExample.gtilde = ![0, 0, 1 / 2] := rfl
  have hb : Sckf.attitudeErrorExample.bahat = 0 := rfl
  have hz : Sckf.attitudeErrorExample.zki = 0 := rfl
  rw [hx, hq, hg, hb, hz, Quaternion2DCM_identity, Matrix.one_mulVec, Matrix.mulVec_zero,
    sub_zero, sub_zero]
  simp [Matrix.mulVec, Matrix.dotProduct, Matrix.vecMulVec_apply, Pi.single_apply,
    setSegment, Fin.ext_iff, Fin.coe_ofNat_eq_mod, Fin.sum_univ_succ]

/-- Claim C27, refuted on the code.  `update` builds the error quaternion from `xa_k`, the
copy of the attitude error taken on entry, before the Kalman correction: for every input the
attitude after the call is `normalize(q4 * qe)` with `qe` built from the components 6 to 8
of the error state before the call, so it does not depend on the measurement, while the
biases are corrected with the error state after the correction.  For the filter
`attitudeErrorExample`, whose attitude error is zero on entry, the accelerometer sample
`(0, 2, 1/2)` gives the corrected error state the value 1 at component 6, yet the attitude
after the call is the attitude before it; built from the corrected error, the attitude would
be `(1/2, 1/2, 0, 0)` for the small-angle library. -/
theorem C27_update_corrects_the_attitude_with_the_prior_error :
    (∀ (sl : Nat) (L : NumericLib α) (M2 : Nat) (GAMMA : α) (auxvector0 : Fin 3 → α)
        (s : Sckf α M1) (Hme : Matrix (Fin 3) (Fin sl) α) (Rme : Matrix (Fin sl) (Fin sl) α)
        (slip_error : Fin sl → α) (acc mag : Fin 3 → α) (dt : α) (magn_on_off : Bool),
      (s.update L M2 GAMMA auxvector0 Hme Rme slip_error acc mag dt magn_on_off).q4
          = Quat.normalize L
              (Quat.mul s.q4 (Sckf.errorQuat L (s.xki_k 6) (s.xki_k 7) (s.xki_k 8)))
      ∧ (s.update L M2 GAMMA auxvector0 Hme Rme slip_error acc mag dt magn_on_off).bghat
          = s.bghat + segment 3
              (s.update L M2 GAMMA auxvector0 Hme Rme slip_error acc mag dt magn_on_off).xki_k 9)
    ∧ Sckf.attitudeErrorExample.xki_k 6 = 0
    ∧ (Sckf.attitudeErrorExample.update smallAngleLib 0 0 0 (1 : Matrix (Fin 3) (Fin 3) ℚ)
        ((2 : ℚ) • 1) 0 ![0, 2, 1 / 2] 0 0 false).xki_k 6 = 1
    ∧ (Sckf.attitudeErrorExample.update smallAngleLib 0 0 0 (1 : Matrix (Fin 3) (Fin 3) ℚ)
        ((2 : ℚ) • 1) 0 ![0, 2, 1 / 2] 0 0 false).q4 = Sckf.attitudeErrorExample.q4
    ∧ Quat.normalize smallAngleLib
        (Quat.mul Sckf.attitudeErrorExample.q4 (Sckf.errorQuat smallAngleLib 1 0 0))
      = ⟨1 / 2, 1 / 2, 0, 0⟩
    ∧ Sckf.attitudeErrorExample.q4 = ⟨1, 0, 0, 0⟩ := by
  refine ⟨fun sl L M2 GAMMA auxvector0 s Hme Rme slip_error acc mag dt flag => ⟨rfl, rfl⟩,
    rfl, Sckf.attitudeErrorExample_xki_k, ?_, ?_, rfl⟩
  · show Quat.normalize smallAngleLib
        (Quat.mul Sckf.attitudeErrorExample.q4
          (Sckf.errorQuat smallAngleLib (Sckf.attitudeErrorExample.xki_k 6)
            (Sckf.attitudeErrorExample.xki_k 7) (Sckf.attitudeErrorExample.xki_k 8)))
        = Sckf.attitudeErrorExample.q4
    have hx : Sckf.attitudeErrorExample.xki_k = 0 := rfl
    have hq : Sckf.attitudeErrorExample.q4 = Quat.identity := rfl
    rw [hx, hq]
    simp [Sckf.errorQuat, smallAngleLib, Quat.toRotationMatrix, Quat.ofAngleAxis, Quat.mul,
      Quat.normalize, Quat.norm, Quat.squaredNorm, Quat.identity, unitX, unitY, unitZ,
      Matrix.vecHead, Matrix.vecTail]
  · have hq : Sckf.attitudeErrorExample.q4 = Quat.identity := rfl
    rw [hq]
    simp [Sckf.errorQuat, smallAngleLib, Quat.toRotationMatrix, Quat.ofAngleAxis, Quat.mul,
      Quat.normalize, Quat.norm, Quat.squaredNorm, Quat.identity, unitX, unitY, unitZ,
      Matrix.vecHead, Matrix.vecTail]
    norm_num


/-! ### The displacement and the difference of manifold states -/

theorem segment_orient_getVectorizedSingleState (st : SingleState α) :
    segment 3 (getVectorizedSingleState st) 6 = ![st.orient.x, st.orient.y, st.orient.z] := by
  funext i
  fin_cases i <;> simp [segment, getVectorizedSingleState, setSegment, Fin.coe_ofNat_eq_mod]

theorem Quat.conj_mul (a b : Quat α) :
    Quat.conj (Quat.mul a b) = Quat.mul (Quat.conj b) (Quat.conj a) := by
  simp only [Quat.mul, Quat.conj, Quat.mk.injEq]
  refine ⟨?_, ?_, ?_, ?_⟩ <;> ring

theorem Quat.conj_conj (a : Quat α) : Quat.conj (Quat.conj a) = a := by
  cases a
  simp [Quat.conj]

theorem Quat.mul_conj_mul_cancel (a b : Quat α) (ha : a.squaredNorm = 1) :
    Quat.mul a (Quat.mul (Quat.conj a) b) = b := by
  unfold Quat.squaredNorm at ha
  cases b with
  | mk bw bx b_y bz =>
    simp only [Quat.mul, Quat.conj, Quat.mk.injEq]
    refine ⟨?_, ?_, ?_, ?_⟩
    · linear_combination bw * ha
    · linear_combination bx * ha
    · linear_combination b_y * ha
    · linear_combination bz * ha

theorem getVectorizedSingleState_neg (a b : SingleState α) (hp : a.pos = -b.pos)
    (hv : a.vel = -b.vel) (hx : a.orient.x = -b.orient.x) (hy : a.orient.y = -b.orient.y)
    (hz : a.orient.z = -b.orient.z) (hg : a.gbias = -b.gbias) (hab : a.abias = -b.abias) :
    getVectorizedSingleState a = -getVectorizedSingleState b := by
  funext i
  have h3 : ∀ (u w : Fin 3 → α), u = -w → ∀ k, u k = -w k := by
    intro u w h k
    rw [h]
    rfl
  have ho : (![a.orient.x, a.orient.y, a.orient.z] : Fin 3 → α)
      = -![b.orient.x, b.orient.y, b.orient.z] := by
    rw [hx, hy, hz]
    funext k
    fin_cases k <;> simp
  simp only [getVectorizedSingleState, setSegment, Pi.neg_apply]
  split_ifs <;>
    first
      | exact h3 _ _ hp _
      | exact h3 _ _ hv _
      | exact h3 _ _ hg _
      | exact h3 _ _ hab _
      | exact h3 _ _ ho _
      | simp

/-- Claim C26.  For the manifold operations of the single state, with the orientation of `x`
of unit norm and an exponential and a logarithm of the orientation group that are inverse to
each other at the rotation from `x` to `y` and odd under inversion there: displacing `x` by
the difference of `y` and `x` gives `y`, the difference of `y` and `x` is the opposite of the
difference of `x` and `y`, and setting a state from its own vectorised form gives the same
state. -/
theorem C26_displacement_by_the_difference_recovers_the_state (chart : RotationChart α)
    (x y : SingleState α) (hx : x.orient.squaredNorm = 1)
    (hexp : chart.exp (chart.log (Quat.mul (Quat.conj x.orient) y.orient))
      = Quat.mul (Quat.conj x.orient) y.orient)
    (hlog : chart.log (Quat.conj (Quat.mul (Quat.conj x.orient) y.orient))
      = -chart.log (Quat.mul (Quat.conj x.orient) y.orient)) :
    (manifoldOps chart).boxplus x ((manifoldOps chart).boxminus y x) = y
    ∧ (manifoldOps chart).boxminus y x = -(manifoldOps chart).boxminus x y
    ∧ (manifoldOps chart).set x ((manifoldOps chart).getVectorizedState x) = x := by
  have hl : chart.log (Quat.mul (Quat.conj y.orient) x.orient)
      = -chart.log (Quat.mul (Quat.conj x.orient) y.orient) := by
    rw [← hlog, Quat.conj_mul, Quat.conj_conj]
  refine ⟨?_, ?_, ?_⟩
  · show ({ pos := _, vel := _, orient := _, gbias := _, abias := _ } : SingleState α) = y
    obtain ⟨s0, s3, s9, s12⟩ := segment_getVectorizedSingleState
      ({ pos := y.pos - x.pos, vel := y.vel - x.vel,
         orient := ⟨0, chart.log (Quat.mul (Quat.conj x.orient) y.orient) 0,
           chart.log (Quat.mul (Quat.conj x.orient) y.orient) 1,
           chart.log (Quat.mul (Quat.conj x.orient) y.orient) 2⟩,
         gbias := y.gbias - x.gbias, abias := y.abias - x.abias } : SingleState α)
    have s6 := segment_orient_getVectorizedSingleState
      ({ pos := y.pos - x.pos, vel := y.vel - x.vel,
         orient := ⟨0, chart.log (Quat.mul (Quat.conj x.orient) y.orient) 0,
           chart.log (Quat.mul (Quat.conj x.orient) y.orient) 1,
           chart.log (Quat.mul (Quat.conj x.orient) y.orient) 2⟩,
         gbias := y.gbias - x.gbias, abias := y.abias - x.abias } : SingleState α)
    have s6' : (![chart.log (Quat.mul (Quat.conj x.orient) y.orient) 0,
        chart.log (Quat.mul (Quat.conj x.orient) y.orient) 1,
        chart.log (Quat.mul (Quat.conj x.orient) y.orient) 2] : Fin 3 → α)
        = chart.log (Quat.mul (Quat.conj x.orient) y.orient) := by
      funext i
      fin_cases i <;> rfl
    simp only [manifoldOps]
    rw [s0, s3, s9, s12, s6]
    simp only [s6', hexp, Quat.mul_conj_mul_cancel _ _ hx, add_sub_cancel]
  · exact getVectorizedSingleState_neg _ _ (by simp) (by simp)
      (by simp [hl]) (by simp [hl]) (by simp [hl]) (by simp) (by simp)
  · show flatOps.set x (getVectorizedSingleState x) = x
    obtain ⟨s0, s3, s9, s12⟩ := segment_getVectorizedSingleState x
    cases x with
    | mk p v o g a =>
      cases o
      simp only [flatOps, s0, s3, s9, s12]
      simp [getVectorizedSingleState, setSegment, Fin.coe_ofNat_eq_mod]

/-- The default state and the state at position `(1, 2, -3)` rotated about the X axis, with
the rational chart of the orientation group. -/
theorem C26_displacement_by_the_difference_recovers_the_state_witness :
    (manifoldOps cayleyChart).boxplus SingleState.origin
        ((manifoldOps cayleyChart).boxminus
          { pos := ![1, 2, -3], vel := 0, orient := ⟨3 / 5, 4 / 5, 0, 0⟩, gbias := 0,
            abias := 0 } SingleState.origin)
      = { pos := ![1, 2, -3], vel := 0, orient := ⟨3 / 5, 4 / 5, 0, 0⟩, gbias := 0, abias := 0 }
    ∧ (manifoldOps cayleyChart).boxminus
        { pos := ![1, 2, -3], vel := 0, orient := ⟨3 / 5, 4 / 5, 0, 0⟩, gbias := 0, abias := 0 }
        SingleState.origin
      = -(manifoldOps cayleyChart).boxminus SingleState.origin
          { pos := ![1, 2, -3], vel := 0, orient := ⟨3 / 5, 4 / 5, 0, 0⟩, gbias := 0,
            abias := 0 }
    ∧ (manifoldOps cayleyChart).set SingleState.origin
        ((manifoldOps cayleyChart).getVectorizedState SingleState.origin)
      = SingleState.origin :=
  C26_displacement_by_the_difference_recovers_the_state cayleyChart SingleState.origin
    { pos := ![1, 2, -3], vel := 0, orient := ⟨3 / 5, 4 / 5, 0, 0⟩, gbias := 0, abias := 0 }
    (by norm_num [SingleState.origin, Quat.identity, Quat.squaredNorm])
    (by
      simp [cayleyChart, Quat.mul, Quat.conj, SingleState.origin, Quat.identity,
        Matrix.dotProduct, Fin.sum_univ_three]
      norm_num)
    (by
      funext i
      fin_cases i <;>
        simp [cayleyChart, Quat.mul, Quat.conj, SingleState.origin, Quat.identity]
      norm_num)

/-! ### The bounds of the history index of the adaptive covariance estimator -/

/-- Claim C39.  For `M1 >= 1`, in every state that calls of `matrix` reach from the
constructor the history has `M1` elements and the index `r1count` is below `M1`; it is 0 at
construction and becomes `(r1count + 1) mod M1` with each call.  Hence the write
`RHist[r1count]` of the next call lands in the history (the slot holds the new outer product
afterwards) and each of the `M1` reads `RHist[j]`, `j < M1`, of the averaging loop finds an
element. -/
theorem C39_history_index_stays_below_the_history_length {n : Nat} (L : NumericLib α)
    (m1 m2 r2count : Nat) (gamma : α) (hm : 1 ≤ m1)
    (calls : List (AdaptiveAttitudeCov.Args α n)) (a : AdaptiveAttitudeCov.Args α n) :
    (AdaptiveAttitudeCov.create m1 m2 gamma r2count : AdaptiveAttitudeCov α).r1count = 0
    ∧ (AdaptiveAttitudeCov.after L (AdaptiveAttitudeCov.create m1 m2 gamma r2count) calls).m1
        = m1
    ∧ (AdaptiveAttitudeCov.after L (AdaptiveAttitudeCov.create m1 m2 gamma r2count)
        calls).RHist.length = m1
    ∧ (AdaptiveAttitudeCov.after L (AdaptiveAttitudeCov.create m1 m2 gamma r2count)
        calls).r1count < m1
    ∧ (AdaptiveAttitudeCov.matrix L
          (AdaptiveAttitudeCov.after L (AdaptiveAttitudeCov.create m1 m2 gamma r2count) calls)
          a.xk a.Pk a.z a.H a.R).2.r1count
        = ((AdaptiveAttitudeCov.after L (AdaptiveAttitudeCov.create m1 m2 gamma r2count)
            calls).r1count + 1) % m1
    ∧ (AdaptiveAttitudeCov.matrixRHist
          (AdaptiveAttitudeCov.after L (AdaptiveAttitudeCov.create m1 m2 gamma r2count) calls)
          a.xk a.z a.H)[(AdaptiveAttitudeCov.after L
            (AdaptiveAttitudeCov.create m1 m2 gamma r2count) calls).r1count]?
        = some a.residualOuter
    ∧ ∀ j, j < m1 →
        ∃ B, (AdaptiveAttitudeCov.matrixRHist
          (AdaptiveAttitudeCov.after L (AdaptiveAttitudeCov.create m1 m2 gamma r2count) calls)
          a.xk a.z a.H)[j]? = some B := by
  have hc := AdaptiveAttitudeCov.after_window L calls
    (AdaptiveAttitudeCov.create m1 m2 gamma r2count) (List.replicate m1 0)
    (by simp [AdaptiveAttitudeCov.create]) (by simp [AdaptiveAttitudeCov.create]; omega)
    (by simp [AdaptiveAttitudeCov.create])
  have hm1 : (AdaptiveAttitudeCov.create m1 m2 gamma r2count).m1 = m1 := rfl
  rw [hm1] at hc
  obtain ⟨h1, h2, h3, -⟩ := hc
  refine ⟨rfl, h1, h2, h3, ?_, ?_, ?_⟩
  · rw [(AdaptiveAttitudeCov.matrix_snd L _ a).2.1, h1]
  · unfold AdaptiveAttitudeCov.matrixRHist
    rw [List.getElem?_set_self (by rw [h2]; exact h3)]
    rfl
  · intro j hj
    have hlen : (AdaptiveAttitudeCov.matrixRHist
        (AdaptiveAttitudeCov.after L (AdaptiveAttitudeCov.create m1 m2 gamma r2count) calls)
        a.xk a.z a.H).length = m1 := by
      unfold AdaptiveAttitudeCov.matrixRHist
      rw [List.length_set, h2]
    exact ⟨_, List.getElem?_eq_getElem (by rw [hlen]; exact hj)⟩

/-- A history of two slots after three calls: the index has wrapped to 1, and the next call
writes slot 1 and reads the slots 0 and 1. -/
theorem C39_history_index_stays_below_the_history_length_witness :
    (AdaptiveAttitudeCov.after ratLib (AdaptiveAttitudeCov.create 2 5 (0 : ℚ) 0)
        [(⟨0, 0, ![1, 0, 0], 0, 0⟩ : AdaptiveAttitudeCov.Args ℚ 1),
          ⟨0, 0, ![0, 1, 0], 0, 0⟩, ⟨0, 0, ![0, 0, 1], 0, 0⟩]).r1count < 2 :=
  (C39_history_index_stays_below_the_history_length ratLib 2 5 0 (0 : ℚ) (by norm_num)
    [(⟨0, 0, ![1, 0, 0], 0, 0⟩ : AdaptiveAttitudeCov.Args ℚ 1),
      ⟨0, 0, ![0, 1, 0], 0, 0⟩, ⟨0, 0, ![0, 0, 1], 0, 0⟩] ⟨0, 0, 0, 0, 0⟩).2.2.2.1

/-! ### The inflation returned by a quiet call -/

theorem AdaptiveAttitudeCov.matrixUk_single_slot {n : Nat} (c : AdaptiveAttitudeCov α)
    (xk : Fin n → α) (z : Fin 3 → α) (H : Matrix (Fin 3) (Fin n) α) (B : Matrix (Fin 3) (Fin 3) α)
    (hm : c.m1 = 1) (hr : c.r1count = 0) (hh : c.RHist = [B]) :
    AdaptiveAttitudeCov.matrixUk c xk z H = vecMulVec (z - H *ᵥ xk) (z - H *ᵥ xk) := by
  simp [AdaptiveAttitudeCov.matrixUk, AdaptiveAttitudeCov.matrixRHist, hm, hr, hh,
    List.range_succ]

theorem AdaptiveAttitudeCov.matrixLambdaMinusMu_diagLib (c : AdaptiveAttitudeCov ℚ)
    (z : Fin 3 → ℚ) (B : Matrix (Fin 3) (Fin 3) ℚ)
    (hm : c.m1 = 1) (hr : c.r1count = 0) (hh : c.RHist = [B]) :
    AdaptiveAttitudeCov.matrixLambdaMinusMu diagLib c (0 : Fin 1 → ℚ) 0 z 0 0
      = fun i => z i * z i := by
  funext i
  simp [AdaptiveAttitudeCov.matrixLambdaMinusMu,
    AdaptiveAttitudeCov.matrixUk_single_slot c 0 z 0 B hm hr hh, diagLib,
    Matrix.vecMulVec_apply]

theorem Sckf.inflation_one (a : Fin 3 → α) :
    Sckf.inflation a (1 : Matrix (Fin 3) (Fin 3) α) = Matrix.diagonal a := by
  apply matrix3_ext
  simp [Sckf.inflation, Matrix.vecMulVec_apply, Matrix.one_apply]

/-- Claim C31, as the code has it.  In a quiet call of `AdaptiveAttitudeCov::matrix` (the test
`max(λ - μ) > gamma` is false) whose incremented quiet counter is still below `M2`, the
returned `Qstar` is the inflation `Σ max(λᵢ - μᵢ, 0) uᵢ uᵢᵀ` computed from the values `λ`, `μ`
and `u` of the current call, and the counter is left incremented. -/
theorem C31_quiet_call_below_m2_returns_the_current_inflation {n : Nat} (L : NumericLib α)
    (c : AdaptiveAttitudeCov α) (xk : Fin n → α) (Pk : Matrix (Fin n) (Fin n) α)
    (z : Fin 3 → α) (H : Matrix (Fin 3) (Fin n) α) (R : Matrix (Fin 3) (Fin 3) α)
    (hq : AdaptiveAttitudeCov.matrixDetected L c xk Pk z H R = false)
    (hlt : (c.r2count + 1) % 2 ^ 32 < c.m2) :
    (AdaptiveAttitudeCov.matrix L c xk Pk z H R).1
      = Sckf.inflation
          (fun i => max (L.svdSingularValues (AdaptiveAttitudeCov.matrixUk c xk z H) i
            - (fun j => L.svdMatrixU (AdaptiveAttitudeCov.matrixUk c xk z H) j i)
                ᵥ* (H * Pk * Hᵀ + R)
              ⬝ᵥ (fun j => L.svdMatrixU (AdaptiveAttitudeCov.matrixUk c xk z H) j i)) 0)
          (L.svdMatrixU (AdaptiveAttitudeCov.matrixUk c xk z H))
    ∧ (AdaptiveAttitudeCov.matrix L c xk Pk z H R).2.r2count = (c.r2count + 1) % 2 ^ 32 := by
  unfold AdaptiveAttitudeCov.matrix
  dsimp only
  rw [if_neg (by rw [hq]; exact Bool.false_ne_true), if_pos hlt]
  exact ⟨rfl, rfl⟩

theorem AdaptiveAttitudeCov.matrixDetected_diagLib_single_slot (c : AdaptiveAttitudeCov ℚ)
    (z : Fin 3 → ℚ) (B : Matrix (Fin 3) (Fin 3) ℚ)
    (hm : c.m1 = 1) (hr : c.r1count = 0) (hh : c.RHist = [B]) :
    AdaptiveAttitudeCov.matrixDetected diagLib c (0 : Fin 1 → ℚ) 0 z 0 0
      = decide (max (max (z 0 * z 0) (z 1 * z 1)) (z 2 * z 2) > c.gamma) := by
  simp only [AdaptiveAttitudeCov.matrixDetected,
    AdaptiveAttitudeCov.matrixLambdaMinusMu_diagLib c z B hm hr hh]

theorem AdaptiveAttitudeCov.matrix_detecting_example :
    AdaptiveAttitudeCov.matrix diagLib (AdaptiveAttitudeCov.create 1 5 (1 : ℚ) 0)
        (0 : Fin 1 → ℚ) 0 ![2, 0, 0] 0 0
      = (Matrix.diagonal ![4, 0, 0],
          { r1count := 0, m1 := 1, m2 := 5, gamma := 1, r2count := 0,
            RHist := [vecMulVec ![2, 0, 0] ![2, 0, 0]] }) := by
  have hd : AdaptiveAttitudeCov.matrixDetected diagLib
      (AdaptiveAttitudeCov.create 1 5 (1 : ℚ) 0) (0 : Fin 1 → ℚ) 0 ![2, 0, 0] 0 0 = true := by
    rw [AdaptiveAttitudeCov.matrixDetected_diagLib_single_slot _ _ 0 rfl rfl rfl]
    simp [AdaptiveAttitudeCov.create]
    norm_num
  unfold AdaptiveAttitudeCov.matrix
  dsimp only
  rw [if_pos hd, AdaptiveAttitudeCov.matrixLambdaMinusMu_diagLib _ _ 0 rfl rfl rfl]
  have hu : diagLib.svdMatrixU (AdaptiveAttitudeCov.matrixUk
      (AdaptiveAttitudeCov.create 1 5 (1 : ℚ) 0) (0 : Fin 1 → ℚ) ![2, 0, 0] 0) = 1 := rfl
  rw [hu, Sckf.inflation_one]
  refine Prod.ext ?_ ?_
  · have hv : (fun i => max ((![2, 0, 0] : Fin 3 → ℚ) i * (![2, 0, 0] : Fin 3 → ℚ) i) 0)
        = ![4, 0, 0] := by
      funext i
      fin_cases i <;> norm_num
    show Matrix.diagonal _ = Matrix.diagonal _
    rw [hv]
  · simp [AdaptiveAttitudeCov.matrixRHist, AdaptiveAttitudeCov.create]

theorem AdaptiveAttitudeCov.matrix_quiet_example :
    AdaptiveAttitudeCov.matrixDetected diagLib
        { r1count := 0, m1 := 1, m2 := 5, gamma := (1 : ℚ), r2count := 0,
          RHist := [vecMulVec ![2, 0, 0] ![2, 0, 0]] }
        (0 : Fin 1 → ℚ) 0 ![1, 0, 0] 0 0 = false := by
  rw [AdaptiveAttitudeCov.matrixDetected_diagLib_single_slot _ _ _ rfl rfl rfl]
  simp

/-- A quiet call below `M2` after a detecting call, with one history slot, `gamma = 1`,
`M2 = 5` and the decomposition of diagonal matrices: the residual `(1, 0, 0)` is quiet and
the call returns its own inflation `diag(1, 0, 0)`. -/
theorem C31_quiet_call_below_m2_returns_the_current_inflation_witness :
    (AdaptiveAttitudeCov.matrix diagLib
        (AdaptiveAttitudeCov.matrix diagLib (AdaptiveAttitudeCov.create 1 5 (1 : ℚ) 0)
          (0 : Fin 1 → ℚ) 0 ![2, 0, 0] 0 0).2
        (0 : Fin 1 → ℚ) 0 ![1, 0, 0] 0 0).1 = Matrix.diagonal ![1, 0, 0] := by
  rw [AdaptiveAttitudeCov.matrix_detecting_example]
  rw [(C31_quiet_call_below_m2_returns_the_current_inflation diagLib _
    (0 : Fin 1 → ℚ) 0 ![1, 0, 0] 0 0 AdaptiveAttitudeCov.matrix_quiet_example
    (by norm_num)).1]
  rw [AdaptiveAttitudeCov.matrixUk_single_slot _ _ _ _ _ rfl rfl rfl]
  have hu : diagLib.svdMatrixU (vecMulVec (![1, 0, 0] - (0 : Matrix (Fin 3) (Fin 1) ℚ) *ᵥ 0)
      (![1, 0, 0] - (0 : Matrix (Fin 3) (Fin 1) ℚ) *ᵥ 0)) = 1 := rfl
  rw [hu, Sckf.inflation_one]
  refine congrArg Matrix.diagonal ?_
  funext i
  fin_cases i <;> simp [diagLib, Matrix.vecMulVec_apply]

/-- Claim C31, the counterexample.  With one history slot, `gamma = 1` and `M2 = 5`, a call
with the residual `(2, 0, 0)` detects an external acceleration and returns the inflation
`diag(4, 0, 0)`; the next call, with the residual `(1, 0, 0)`, is quiet and its incremented
counter 1 is below `M2`, yet it returns `diag(1, 0, 0)`, the inflation of its own `λ`, `μ`
and `u`, and not the matrix of the detecting call. -/
theorem C31_quiet_call_does_not_hold_the_detected_inflation :
    AdaptiveAttitudeCov.matrixDetected diagLib (AdaptiveAttitudeCov.create 1 5 (1 : ℚ) 0)
        (0 : Fin 1 → ℚ) 0 ![2, 0, 0] 0 0 = true
    ∧ (AdaptiveAttitudeCov.matrix diagLib (AdaptiveAttitudeCov.create 1 5 (1 : ℚ) 0)
        (0 : Fin 1 → ℚ) 0 ![2, 0, 0] 0 0).1 = Matrix.diagonal ![4, 0, 0]
    ∧ AdaptiveAttitudeCov.matrixDetected diagLib
        (AdaptiveAttitudeCov.matrix diagLib (AdaptiveAttitudeCov.create 1 5 (1 : ℚ) 0)
          (0 : Fin 1 → ℚ) 0 ![2, 0, 0] 0 0).2 (0 : Fin 1 → ℚ) 0 ![1, 0, 0] 0 0 = false
    ∧ (AdaptiveAttitudeCov.matrix diagLib
        (AdaptiveAttitudeCov.matrix diagLib (AdaptiveAttitudeCov.create 1 5 (1 : ℚ) 0)
          (0 : Fin 1 → ℚ) 0 ![2, 0, 0] 0 0).2
        (0 : Fin 1 → ℚ) 0 ![1, 0, 0] 0 0).2.r2count = 1
    ∧ (AdaptiveAttitudeCov.matrix diagLib
        (AdaptiveAttitudeCov.matrix diagLib (AdaptiveAttitudeCov.create 1 5 (1 : ℚ) 0)
          (0 : Fin 1 → ℚ) 0 ![2, 0, 0] 0 0).2
        (0 : Fin 1 → ℚ) 0 ![1, 0, 0] 0 0).2.m2 = 5
    ∧ (AdaptiveAttitudeCov.matrix diagLib
        (AdaptiveAttitudeCov.matrix diagLib (AdaptiveAttitudeCov.create 1 5 (1 : ℚ) 0)
          (0 : Fin 1 → ℚ) 0 ![2, 0, 0] 0 0).2
        (0 : Fin 1 → ℚ) 0 ![1, 0, 0] 0 0).1 = Matrix.diagonal ![1, 0, 0]
    ∧ (AdaptiveAttitudeCov.matrix diagLib
        (AdaptiveAttitudeCov.matrix diagLib (AdaptiveAttitudeCov.create 1 5 (1 : ℚ) 0)
          (0 : Fin 1 → ℚ) 0 ![2, 0, 0] 0 0).2
        (0 : Fin 1 → ℚ) 0 ![1, 0, 0] 0 0).1
      ≠ (AdaptiveAttitudeCov.matrix diagLib (AdaptiveAttitudeCov.create 1 5 (1 : ℚ) 0)
        (0 : Fin 1 → ℚ) 0 ![2, 0, 0] 0 0).1 := by
  have hq := AdaptiveAttitudeCov.matrix_quiet_example
  have hsecond : (AdaptiveAttitudeCov.matrix diagLib
      { r1count := 0, m1 := 1, m2 := 5, gamma := (1 : ℚ), r2count := 0,
        RHist := [vecMulVec ![2, 0, 0] ![2, 0, 0]] }
      (0 : Fin 1 → ℚ) 0 ![1, 0, 0] 0 0).1 = Matrix.diagonal ![1, 0, 0] := by
    unfold AdaptiveAttitudeCov.matrix
    dsimp only
    rw [if_neg (by rw [hq]; exact Bool.false_ne_true), if_pos (by norm_num),
      AdaptiveAttitudeCov.matrixLambdaMinusMu_diagLib _ _ _ rfl rfl rfl]
    have hu : diagLib.svdMatrixU (AdaptiveAttitudeCov.matrixUk
        { r1count := 0, m1 := 1, m2 := 5, gamma := (1 : ℚ), r2count := 0,
          RHist := [vecMulVec ![2, 0, 0] ![2, 0, 0]] } (0 : Fin 1 → ℚ) ![1, 0, 0] 0) = 1 := rfl
    rw [hu, Sckf.inflation_one]
    refine congrArg Matrix.diagonal ?_
    funext i
    fin_cases i <;> norm_num
  have hcount : (AdaptiveAttitudeCov.matrix diagLib
      { r1count := 0, m1 := 1, m2 := 5, gamma := (1 : ℚ), r2count := 0,
        RHist := [vecMulVec ![2, 0, 0] ![2, 0, 0]] }
      (0 : Fin 1 → ℚ) 0 ![1, 0, 0] 0 0).2.r2count = 1
      ∧ (AdaptiveAttitudeCov.matrix diagLib
      { r1count := 0, m1 := 1, m2 := 5, gamma := (1 : ℚ), r2count := 0,
        RHist := [vecMulVec ![2, 0, 0] ![2, 0, 0]] }
      (0 : Fin 1 → ℚ) 0 ![1, 0, 0] 0 0).2.m2 = 5 := by
    unfold AdaptiveAttitudeCov.matrix
    dsimp only
    rw [if_neg (by rw [hq]; exact Bool.false_ne_true), if_pos (by norm_num)]
    exact ⟨rfl, rfl⟩
  rw [AdaptiveAttitudeCov.matrix_detecting_example]
  refine ⟨?_, rfl, hq, hcount.1, hcount.2, hsecond, ?_⟩
  · rw [AdaptiveAttitudeCov.matrixDetected_diagLib_single_slot _ _ 0 rfl rfl rfl]
    simp [AdaptiveAttitudeCov.create]
    norm_num
  · rw [hsecond]
    intro h
    have h00 := congrFun (congrFun h 0) 0
    simp at h00

/-! ### Positive semi-definiteness of the adaptive covariance -/

theorem isPSD_smul {ι : Type} [Fintype ι] (c : α) (A : Matrix ι ι α) (hc : 0 ≤ c)
    (hA : IsPSD A) : IsPSD (c • A) := by
  refine ⟨by rw [Matrix.transpose_smul, hA.1], fun v => ?_⟩
  rw [Matrix.smul_mulVec_assoc, dotProduct_smul, smul_eq_mul]
  exact mul_nonneg hc (hA.2 v)

theorem Sckf.isPSD_inflation (a : Fin 3 → α) (u : Matrix (Fin 3) (Fin 3) α)
    (ha : ∀ i, 0 ≤ a i) : IsPSD (Sckf.inflation a u) := by
  unfold Sckf.inflation
  exact isPSD_add _ _ (isPSD_add _ _ (isPSD_smul _ _ (ha 0) (isPSD_vecMulVec_self _))
    (isPSD_smul _ _ (ha 1) (isPSD_vecMulVec_self _)))
    (isPSD_smul _ _ (ha 2) (isPSD_vecMulVec_self _))

/-- Claim C37.  Every matrix returned by `AdaptiveAttitudeCov::matrix` is symmetric
positive-semi-definite: it is the zero matrix or the combination of the rank-one projectors
`uᵢ uᵢᵀ` on the columns of the factor `u` of the current call with the coefficients
`max(λᵢ - μᵢ, 0)`, which are not negative; and in a quiet call, one whose test
`max(λ - μ) > gamma` is false, each of these coefficients is at most `max(gamma, 0)`. -/
theorem C37_returned_covariance_is_positive_semidefinite {n : Nat} (L : NumericLib α)
    (c : AdaptiveAttitudeCov α) (xk : Fin n → α) (Pk : Matrix (Fin n) (Fin n) α)
    (z : Fin 3 → α) (H : Matrix (Fin 3) (Fin n) α) (R : Matrix (Fin 3) (Fin 3) α) :
    IsPSD (AdaptiveAttitudeCov.matrix L c xk Pk z H R).1
    ∧ ((AdaptiveAttitudeCov.matrix L c xk Pk z H R).1 = 0
        ∨ (AdaptiveAttitudeCov.matrix L c xk Pk z H R).1
          = Sckf.inflation
              (fun i => max (AdaptiveAttitudeCov.matrixLambdaMinusMu L c xk Pk z H R i) 0)
              (L.svdMatrixU (AdaptiveAttitudeCov.matrixUk c xk z H)))
    ∧ (∀ i, 0 ≤ max (AdaptiveAttitudeCov.matrixLambdaMinusMu L c xk Pk z H R i) 0)
    ∧ (AdaptiveAttitudeCov.matrixDetected L c xk Pk z H R = false →
        ∀ i, max (AdaptiveAttitudeCov.matrixLambdaMinusMu L c xk Pk z H R i) 0
          ≤ max c.gamma 0) := by
  have hcases : (AdaptiveAttitudeCov.matrix L c xk Pk z H R).1 = 0
      ∨ (AdaptiveAttitudeCov.matrix L c xk Pk z H R).1
        = Sckf.inflation
            (fun i => max (AdaptiveAttitudeCov.matrixLambdaMinusMu L c xk Pk z H R i) 0)
            (L.svdMatrixU (AdaptiveAttitudeCov.matrixUk c xk z H)) := by
    unfold AdaptiveAttitudeCov.matrix
    dsimp only
    split_ifs
    · exact Or.inr rfl
    · exact Or.inr rfl
    · exact Or.inl rfl
  refine ⟨?_, hcases, fun i => le_max_right _ _, ?_⟩
  · rcases hcases with h | h
    · rw [h]
      exact ⟨Matrix.transpose_zero, fun v => by simp⟩
    · rw [h]
      exact Sckf.isPSD_inflation _ _ (fun i => le_max_right _ _)
  · intro hq i
    unfold AdaptiveAttitudeCov.matrixDetected at hq
    simp only [decide_eq_false_iff_not, not_lt, max_le_iff] at hq
    have hi : AdaptiveAttitudeCov.matrixLambdaMinusMu L c xk Pk z H R i ≤ c.gamma := by
      fin_cases i
      · exact hq.1.1
      · exact hq.1.2
      · exact hq.2
    exact max_le_max hi le_rfl

/-- A quiet call with one history slot, `gamma = 1` and the residual `(1, 0, 0)`, under the
decomposition of diagonal matrices: the returned matrix is positive-semi-definite and the
first coefficient `max(λ₀ - μ₀, 0) = 1` does not exceed `max(gamma, 0) = 1`. -/
theorem C37_returned_covariance_is_positive_semidefinite_witness :
    AdaptiveAttitudeCov.matrixDetected diagLib
        { r1count := 0, m1 := 1, m2 := 5, gamma := (1 : ℚ), r2count := 0,
          RHist := [vecMulVec ![2, 0, 0] ![2, 0, 0]] }
        (0 : Fin 1 → ℚ) 0 ![1, 0, 0] 0 0 = false
    ∧ IsPSD (AdaptiveAttitudeCov.matrix diagLib
        { r1count := 0, m1 := 1, m2 := 5, gamma := (1 : ℚ), r2count := 0,
          RHist := [vecMulVec ![2, 0, 0] ![2, 0, 0]] }
        (0 : Fin 1 → ℚ) 0 ![1, 0, 0] 0 0).1
    ∧ max (AdaptiveAttitudeCov.matrixLambdaMinusMu diagLib
        { r1count := 0, m1 := 1, m2 := 5, gamma := (1 : ℚ), r2count := 0,
          RHist := [vecMulVec ![2, 0, 0] ![2, 0, 0]] }
        (0 : Fin 1 → ℚ) 0 ![1, 0, 0] 0 0 0) 0 ≤ max (1 : ℚ) 0 :=
  ⟨AdaptiveAttitudeCov.matrix_quiet_example,
    (C37_returned_covariance_is_positive_semidefinite diagLib _ _ _ _ _ _).1,
    (C37_returned_covariance_is_positive_semidefinite diagLib _ _ _ _ _ _).2.2.2
      AdaptiveAttitudeCov.matrix_quiet_example 0⟩

/-! ### The covariance that cloning leaves -/

theorem sum_epoch {β : Type} [AddCommMonoid β] (f : Epoch → β) :
    ∑ e : Epoch, f e = f Epoch.statek + f Epoch.statek_l + f Epoch.statek_i := by
  have h : (Finset.univ : Finset Epoch) = {Epoch.statek, Epoch.statek_l, Epoch.statek_i} := rfl
  rw [h, Finset.sum_insert (by decide), Finset.sum_insert (by decide), Finset.sum_singleton,
    add_assoc]

theorem mulVec_epoch {n : Nat} (P : Matrix (Epoch × Fin n) (Epoch × Fin n) α)
    (w : Epoch × Fin n → α) (a : Epoch) (i : Fin n) :
    (P *ᵥ w) (a, i)
      = (subblock P a Epoch.statek *ᵥ fun j => w (Epoch.statek, j)) i
        + (subblock P a Epoch.statek_l *ᵥ fun j => w (Epoch.statek_l, j)) i
        + (subblock P a Epoch.statek_i *ᵥ fun j => w (Epoch.statek_i, j)) i := by
  simp only [Matrix.mulVec, Matrix.dotProduct, Fintype.sum_prod_type, sum_epoch, subblock]

theorem Usckf.cloning_mulVec_cloneDifference {n : Nat} {S : Type} (s : Usckf α n S)
    (v : Fin n → α) : s.cloning.Pk_error *ᵥ cloneDifference v = 0 := by
  funext ⟨a, i⟩
  rw [mulVec_epoch, Usckf.cloning_subblock, Usckf.cloning_subblock, Usckf.cloning_subblock]
  have h1 : (fun j => cloneDifference v (Epoch.statek, j)) = v := rfl
  have h2 : (fun j => cloneDifference v (Epoch.statek_l, j)) = -v := rfl
  have h3 : (fun j => cloneDifference v (Epoch.statek_i, j)) = 0 := rfl
  rw [h1, h2, h3, Matrix.mulVec_neg, Matrix.mulVec_zero]
  simp

theorem cloneDifference_ne_zero {n : Nat} (v : Fin n → α) (hv : v ≠ 0) :
    cloneDifference v ≠ 0 := by
  intro h
  apply hv
  funext j
  exact congrFun h (Epoch.statek, j)

theorem Usckf.cloning_not_isSPD {n : Nat} {S : Type} (s : Usckf α n S) (hn : 0 < n) :
    ¬ IsSPD s.cloning.Pk_error := by
  intro h
  have hne : cloneDifference (fun _ : Fin n => (1 : α)) ≠ 0 :=
    cloneDifference_ne_zero _ (fun h0 => one_ne_zero (congrFun h0 ⟨0, hn⟩))
  have hpos := h.2 _ hne
  rw [Usckf.cloning_mulVec_cloneDifference, Matrix.dotProduct_zero] at hpos
  exact lt_irrefl _ hpos

/-- Claim C36.  Immediately after `cloning` the augmented covariance is singular: for every
vector `v` the stacked vector with `v` on the `statek` part, `-v` on the `statek_l` part and
zero on the `statek_i` part is in its null space; so for a state of positive dimension its
determinant is zero and it is not positive-definite.  Hence, with a factorisation whose
`isSPD()` holds for positive-definite matrices only, the augmented sigma-point generator
fails its assertion on this covariance and the unscented full-state `update` called in the
state that `cloning` leaves produces no result. -/
theorem C36_cloned_covariance_is_singular {n m : Nat} {S : Type} (s : Usckf α n S)
    (opsA : ManifoldOps α (Epoch × Fin n) (AugmentedState S))
    (chol : Matrix (Epoch × Fin n) (Epoch × Fin n) α →
      Option (Matrix (Epoch × Fin n) (Epoch × Fin n) α))
    (z : Fin m → α) (h : AugmentedState S → (Fin m → α)) (R : Matrix (Fin m) (Fin m) α)
    (mt : α → Bool) :
    (∀ v : Fin n → α, s.cloning.Pk_error *ᵥ cloneDifference v = 0)
    ∧ (0 < n →
        (∃ w : Epoch × Fin n → α, w ≠ 0 ∧ s.cloning.Pk_error *ᵥ w = 0)
        ∧ s.cloning.Pk_error.det = 0
        ∧ ¬ IsSPD s.cloning.Pk_error)
    ∧ (0 < n → (∀ P Lm, chol P = some Lm → IsSPD P) →
        Usckf.generateSigmaPoints opsA chol s.cloning.mu_error s.cloning.Pk_error = none
        ∧ Usckf.update opsA chol s.cloning z h R mt = none) := by
  refine ⟨Usckf.cloning_mulVec_cloneDifference s, fun hn => ?_, fun hn hchol => ?_⟩
  · have hex : ∃ w : Epoch × Fin n → α, w ≠ 0 ∧ s.cloning.Pk_error *ᵥ w = 0 :=
      ⟨cloneDifference (fun _ : Fin n => (1 : α)),
        cloneDifference_ne_zero _ (fun h0 => one_ne_zero (congrFun h0 ⟨0, hn⟩)),
        Usckf.cloning_mulVec_cloneDifference s _⟩
    exact ⟨hex, Matrix.exists_mulVec_eq_zero_iff.mp hex, Usckf.cloning_not_isSPD s hn⟩
  · have hnone : chol s.cloning.Pk_error = none := by
      cases hc : chol s.cloning.Pk_error with
      | none => rfl
      | some Lm => exact absurd (hchol _ _ hc) (Usckf.cloning_not_isSPD s hn)
    have hg : Usckf.generateSigmaPoints opsA chol s.cloning.mu_error s.cloning.Pk_error
        = none := by
      unfold Usckf.generateSigmaPoints Usckf.generateSigmaPointsDelta
      rw [hnone]
    refine ⟨hg, ?_⟩
    unfold Usckf.update Usckf.updateGain
    rw [hg]

/-- The filter at the origin with the identity as covariance: after `cloning` the vector with
one on the `statek` part and minus one on the `statek_l` part is annihilated, the covariance
is not positive-definite, and with a factorisation that reports failure the unscented
`update` produces no result. -/
theorem C36_cloned_covariance_is_singular_witness :
    (Usckf.atOrigin (1 : Matrix (Epoch × Fin 15) (Epoch × Fin 15) ℚ)).cloning.Pk_error
        *ᵥ cloneDifference (fun _ => 1) = 0
    ∧ ¬ IsSPD (Usckf.atOrigin (1 : Matrix (Epoch × Fin 15) (Epoch × Fin 15) ℚ)).cloning.Pk_error
    ∧ Usckf.update (augmentedOps flatOps) (fun _ => none)
        (Usckf.atOrigin (1 : Matrix (Epoch × Fin 15) (Epoch × Fin 15) ℚ)).cloning
        (0 : Fin 1 → ℚ) (fun _ => 0) 0 (fun _ => true) = none :=
  ⟨(C36_cloned_covariance_is_singular
      (Usckf.atOrigin (1 : Matrix (Epoch × Fin 15) (Epoch × Fin 15) ℚ))
      (augmentedOps flatOps) (fun _ => none) (0 : Fin 1 → ℚ) (fun _ => 0) 0
      (fun _ => true)).1 (fun _ => 1),
    ((C36_cloned_covariance_is_singular
      (Usckf.atOrigin (1 : Matrix (Epoch × Fin 15) (Epoch × Fin 15) ℚ))
      (augmentedOps flatOps) (fun _ => none) (0 : Fin 1 → ℚ) (fun _ => 0) 0
      (fun _ => true)).2.1 (by norm_num)).2.2,
    ((C36_cloned_covariance_is_singular
      (Usckf.atOrigin (1 : Matrix (Epoch × Fin 15) (Epoch × Fin 15) ℚ))
      (augmentedOps flatOps) (fun _ => none) (0 : Fin 1 → ℚ) (fun _ => 0) 0
      (fun _ => true)).2.2 (by norm_num) (fun _ _ hc => by cases hc)).2⟩

/-! ### The linearised prediction as a congruence of the augmented covariance -/

theorem subblock_mul {n : Nat} (X Y : Matrix (Epoch × Fin n) (Epoch × Fin n) α) (a b : Epoch) :
    subblock (X * Y) a b
      = subblock X a Epoch.statek * subblock Y Epoch.statek b
        + subblock X a Epoch.statek_l * subblock Y Epoch.statek_l b
        + subblock X a Epoch.statek_i * subblock Y Epoch.statek_i b := by
  ext i j
  simp only [subblock, Matrix.mul_apply, Matrix.add_apply, Fintype.sum_prod_type, sum_epoch]

theorem subblock_transpose {n : Nat} (X : Matrix (Epoch × Fin n) (Epoch × Fin n) α)
    (a b : Epoch) : subblock Xᵀ a b = (subblock X b a)ᵀ := rfl

theorem subblock_add {n : Nat} (X Y : Matrix (Epoch × Fin n) (Epoch × Fin n) α) (a b : Epoch) :
    subblock (X + Y) a b = subblock X a b + subblock Y a b := rfl

theorem subblock_augmentedTransitionOfSpec {n : Nat} (F : Matrix (Fin n) (Fin n) α)
    (a b : Epoch) :
    subblock (augmentedTransitionOfSpec F) a b
      = if a = b then (if a = Epoch.statek_i then F else 1) else 0 := by
  ext i j
  by_cases h : a = b
  · subst h
    by_cases h2 : a = Epoch.statek_i
    · simp [subblock, augmentedTransitionOfSpec, h2]
    · simp [subblock, augmentedTransitionOfSpec, h2]
  · simp [subblock, augmentedTransitionOfSpec, h]

theorem subblock_augmentedNoiseOfSpec {n : Nat} (Q : Matrix (Fin n) (Fin n) α)
    (a b : Epoch) :
    subblock (augmentedNoiseOfSpec Q) a b
      = if a = Epoch.statek_i ∧ b = Epoch.statek_i then Q else 0 := by
  ext i j
  by_cases h : a = Epoch.statek_i ∧ b = Epoch.statek_i
  · simp [subblock, augmentedNoiseOfSpec, h]
  · simp [subblock, augmentedNoiseOfSpec, h]

theorem Usckf.ekfPredict_subblock {n : Nat} {S : Type} (ops : ManifoldOps α (Fin n) S)
    (s : Usckf α n S) (F Q : Matrix (Fin n) (Fin n) α) (a b : Epoch) :
    subblock (s.ekfPredict ops F Q).Pk_error a b
      = subblock (augmentedTransitionOfSpec F * s.Pk_error * (augmentedTransitionOfSpec F)ᵀ
          + augmentedNoiseOfSpec Q) a b := by
  rw [subblock_add, subblock_mul, subblock_mul, subblock_mul, subblock_mul]
  simp only [subblock_transpose, subblock_augmentedTransitionOfSpec,
    subblock_augmentedNoiseOfSpec]
  cases a <;> cases b <;>
    simp [Usckf.ekfPredict, Usckf.propagateCrossCov, subblock_setSubblock]

theorem getVectorizedSingleState_flatOps_set (st : SingleState α) (v : Fin 15 → α) :
    getVectorizedSingleState (flatOps.set st v) = v := by
  funext i
  fin_cases i <;>
    simp [getVectorizedSingleState, flatOps, setSegment, segment, Fin.coe_ofNat_eq_mod]

/-- Claim C33.  For every three-epoch augmented covariance `P`, transition `F` and process
noise `Q`, the covariance after `ekfPredict` is `A P Aᵀ + Q̃`, with `A` block-diagonal (`F`
on the `statek_i` block, the identity on the `statek` and `statek_l` blocks) and `Q̃` equal to
`Q` on the `(statek_i, statek_i)` block and zero elsewhere; the four blocks among `statek` and
`statek_l` are unchanged; the error state of the active epoch is set from `F` times its
vectorised value, so that it vectorises to that product when `set` and the vectorisation
are inverse to each other; the nominal state and the two other error states stay. -/
theorem C33_ekfPredict_is_a_congruence_of_the_augmented_covariance {n : Nat} {S : Type}
    (ops : ManifoldOps α (Fin n) S) (s : Usckf α n S) (F Q : Matrix (Fin n) (Fin n) α) :
    (s.ekfPredict ops F Q).Pk_error
      = augmentedTransitionOfSpec F * s.Pk_error * (augmentedTransitionOfSpec F)ᵀ
          + augmentedNoiseOfSpec Q
    ∧ (∀ a b : Epoch, a ≠ Epoch.statek_i → b ≠ Epoch.statek_i →
        subblock (s.ekfPredict ops F Q).Pk_error a b = subblock s.Pk_error a b)
    ∧ (s.ekfPredict ops F Q).mu_error.statek_i
        = ops.set s.mu_error.statek_i (F *ᵥ ops.getVectorizedState s.mu_error.statek_i)
    ∧ ((∀ st v, ops.getVectorizedState (ops.set st v) = v) →
        ops.getVectorizedState (s.ekfPredict ops F Q).mu_error.statek_i
          = F *ᵥ ops.getVectorizedState s.mu_error.statek_i)
    ∧ (s.ekfPredict ops F Q).mu_error.statek = s.mu_error.statek
    ∧ (s.ekfPredict ops F Q).mu_error.statek_l = s.mu_error.statek_l
    ∧ (s.ekfPredict ops F Q).mu_state = s.mu_state := by
  refine ⟨matrix_ext_subblock _ _ (Usckf.ekfPredict_subblock ops s F Q), ?_, rfl,
    fun hset => hset _ _, rfl, rfl, rfl⟩
  intro a b ha hb
  cases a <;> cases b <;>
    first
      | exact absurd rfl ha
      | exact absurd rfl hb
      | simp [Usckf.ekfPredict, Usckf.propagateCrossCov, subblock_setSubblock]

/-- The filter at the origin with the identity as covariance and an error state displaced to
the position `(1, 2, 3)`, predicted with `F = 2 I` and `Q = I`: the active block of the
covariance becomes `5 I`, the block `(statek, statek)` stays the identity and the error
state vectorises to twice its former value. -/
theorem C33_ekfPredict_is_a_congruence_of_the_augmented_covariance_witness :
    subblock ((Usckf.atOriginWithError (1 : Matrix (Epoch × Fin 15) (Epoch × Fin 15) ℚ)
        (SingleState.atPosition ![1, 2, 3])).ekfPredict flatOps ((2 : ℚ) • 1) 1).Pk_error
        Epoch.statek Epoch.statek = 1
    ∧ getVectorizedSingleState
        ((Usckf.atOriginWithError (1 : Matrix (Epoch × Fin 15) (Epoch × Fin 15) ℚ)
          (SingleState.atPosition ![1, 2, 3])).ekfPredict flatOps
            ((2 : ℚ) • 1) 1).mu_error.statek_i
      = ((2 : ℚ) • (1 : Matrix (Fin 15) (Fin 15) ℚ))
          *ᵥ getVectorizedSingleState (SingleState.atPosition ![1, 2, 3]) := by
  have h := C33_ekfPredict_is_a_congruence_of_the_augmented_covariance flatOps
    (Usckf.atOriginWithError (1 : Matrix (Epoch × Fin 15) (Epoch × Fin 15) ℚ)
      (SingleState.atPosition ![1, 2, 3])) ((2 : ℚ) • 1) 1
  refine ⟨?_, h.2.2.2.1 getVectorizedSingleState_flatOps_set⟩
  rw [h.2.1 Epoch.statek Epoch.statek (by decide) (by decide)]
  ext i j
  simp [subblock, Usckf.atOriginWithError, Matrix.one_apply]

/-! ### The fusion of two data models -/

theorem DataModel.add_square (d : Nat) (hd : d ≠ 0) (da db : Fin d → α)
    (Ca Cb : Matrix (Fin d) (Fin d) α) :
    (DataModel.square d da Ca).add (DataModel.square d db Cb)
      = some (DataModel.square d
          (inverse (inverse Cb + inverse Ca) *ᵥ (inverse Cb *ᵥ db + inverse Ca *ᵥ da))
          (inverse (inverse Cb + inverse Ca))) := by
  unfold DataModel.add
  have hs : (DataModel.square d da Ca).covSize = d * d := rfl
  have hs2 : (DataModel.square d db Cb).covSize = d * d := rfl
  rw [if_pos ⟨by rw [hs2]; exact Nat.mul_ne_zero hd hd, by rw [hs]; exact Nat.mul_ne_zero hd hd,
    by rw [hs, hs2]⟩, dif_pos ⟨rfl, rfl, rfl, rfl, rfl⟩]
  rfl

theorem DataModel.add_of_size_mismatch (x y : DataModel α)
    (h : x.covSize = 0 ∨ y.covSize = 0 ∨ x.covSize ≠ y.covSize) : x.add y = some y := by
  unfold DataModel.add
  rw [if_neg]
  rintro ⟨h1, h2, h3⟩
  rcases h with h | h | h
  · exact h2 h
  · exact h1 h
  · exact h h3.symm

/-- Claim C38.  For two data models with vectors of `d >= 1` rows and `d x d` covariances
`Ca`, `Cb` that are invertible with an invertible sum of inverses, `a + b` is the
information-weighted fusion: its covariance is `(Ca⁻¹ + Cb⁻¹)⁻¹`, a genuine inverse, and its
vector is that covariance times `Ca⁻¹ da + Cb⁻¹ db`; on such operands `a + b = b + a`.  When
the covariance sizes differ or one covariance is empty, `x + y` is the right-hand operand `y`
unchanged. -/
theorem C38_operator_plus_is_the_information_weighted_fusion (d : Nat) (hd : d ≠ 0)
    (da db : Fin d → α) (Ca Cb : Matrix (Fin d) (Fin d) α)
    (hCa : Ca.det ≠ 0) (hCb : Cb.det ≠ 0) (hsum : (Ca⁻¹ + Cb⁻¹).det ≠ 0) :
    (DataModel.square d da Ca).add (DataModel.square d db Cb)
        = some (DataModel.square d ((Ca⁻¹ + Cb⁻¹)⁻¹ *ᵥ (Ca⁻¹ *ᵥ da + Cb⁻¹ *ᵥ db))
            (Ca⁻¹ + Cb⁻¹)⁻¹)
    ∧ (Ca⁻¹ * Ca = 1 ∧ Cb⁻¹ * Cb = 1 ∧ (Ca⁻¹ + Cb⁻¹)⁻¹ * (Ca⁻¹ + Cb⁻¹) = 1)
    ∧ (DataModel.square d da Ca).add (DataModel.square d db Cb)
        = (DataModel.square d db Cb).add (DataModel.square d da Ca)
    ∧ ∀ x y : DataModel α,
        (x.covSize = 0 ∨ y.covSize = 0 ∨ x.covSize ≠ y.covSize) → x.add y = some y := by
  refine ⟨?_, ⟨Matrix.nonsing_inv_mul _ (isUnit_iff_ne_zero.mpr hCa),
    Matrix.nonsing_inv_mul _ (isUnit_iff_ne_zero.mpr hCb),
    Matrix.nonsing_inv_mul _ (isUnit_iff_ne_zero.mpr hsum)⟩, ?_,
    DataModel.add_of_size_mismatch⟩
  · rw [DataModel.add_square d hd]
    simp only [inverse_eq_inv]
    rw [add_comm Cb⁻¹ Ca⁻¹, add_comm (Cb⁻¹ *ᵥ db) (Ca⁻¹ *ᵥ da)]
  · rw [DataModel.add_square d hd, DataModel.add_square d hd]
    rw [add_comm (inverse Cb) (inverse Ca), add_comm (inverse Cb *ᵥ db) (inverse Ca *ᵥ da)]

/-- Two scalar data models with the values 2 and 4 and the variance 2 each: the fusion has
the variance 1 and the value 3. -/
theorem C38_operator_plus_is_the_information_weighted_fusion_witness :
    (DataModel.square 1 (fun _ => (2 : ℚ)) ((2 : ℚ) • 1)).add
        (DataModel.square 1 (fun _ => (4 : ℚ)) ((2 : ℚ) • 1))
      = some (DataModel.square 1 (fun _ => (3 : ℚ)) 1) := by
  have hinv : ((2 : ℚ) • (1 : Matrix (Fin 1) (Fin 1) ℚ))⁻¹ = (2 : ℚ)⁻¹ • 1 := by
    rw [← inverse_eq_inv, inverse_smul_one 2 (by norm_num)]
  have hsum : ((2 : ℚ)⁻¹ • (1 : Matrix (Fin 1) (Fin 1) ℚ) + (2 : ℚ)⁻¹ • 1) = 1 := by
    rw [← add_smul]
    norm_num
  have h := (C38_operator_plus_is_the_information_weighted_fusion 1 (by norm_num)
    (fun _ => (2 : ℚ)) (fun _ => (4 : ℚ)) ((2 : ℚ) • 1) ((2 : ℚ) • 1)
    (by rw [Matrix.det_smul, Matrix.det_one]; norm_num)
    (by rw [Matrix.det_smul, Matrix.det_one]; norm_num)
    (by rw [hinv, hsum, Matrix.det_one]; norm_num)).1
  rw [h, hinv, hsum, inv_one]
  congr 2
  funext i
  have hi : i = 0 := Subsingleton.elim _ _
  subst hi
  simp [Matrix.mulVec, Matrix.dotProduct]
  norm_num

/-! ### The error-state matrix of the prediction -/

theorem Sckf.predictFki_apply (s : Sckf α M1) (u v : Fin 3 → α) (i j : Fin 15) :
    s.predictFki u v i j
      = if h : (6 ≤ i.val ∧ i.val < 6 + 9) ∧ (6 ≤ j.val ∧ j.val < 6 + 9) then
          setBlock s.A 0 0 (-crossProductMatrix (u - s.bghat))
            ⟨i.val - 6, by omega⟩ ⟨j.val - 6, by omega⟩
        else if h : (3 ≤ i.val ∧ i.val < 3 + 3) ∧ (12 ≤ j.val ∧ j.val < 12 + 3) then
          (-(inverse (Quaternion2DCM s.q4))) ⟨i.val - 3, by omega⟩ ⟨j.val - 12, by omega⟩
        else if h : (3 ≤ i.val ∧ i.val < 3 + 3) ∧ (6 ≤ j.val ∧ j.val < 6 + 3) then
          (-(inverse (Quaternion2DCM s.q4))
            * crossProductMatrix (v - s.bahat - Quaternion2DCM s.q4 *ᵥ s.gtilde))
            ⟨i.val - 3, by omega⟩ ⟨j.val - 6, by omega⟩
        else if h : (0 ≤ i.val ∧ i.val < 0 + 3) ∧ (3 ≤ j.val ∧ j.val < 3 + 3) then
          (1 : Matrix (Fin 3) (Fin 3) α) ⟨i.val - 0, by omega⟩ ⟨j.val - 3, by omega⟩
        else s.Fki i j := rfl

theorem Sckf.systemMatrixOfSpec_apply (C : Matrix (Fin 3) (Fin 3) α) (f_c omega_c : Fin 3 → α)
    (i j : Fin 15) :
    Sckf.systemMatrixOfSpec C f_c omega_c i j
      = if h : (6 ≤ i.val ∧ i.val < 6 + 3) ∧ (9 ≤ j.val ∧ j.val < 9 + 3) then
          ((-0.5 : α) • (1 : Matrix (Fin 3) (Fin 3) α)) ⟨i.val - 6, by omega⟩
            ⟨j.val - 9, by omega⟩
        else if h : (6 ≤ i.val ∧ i.val < 6 + 3) ∧ (6 ≤ j.val ∧ j.val < 6 + 3) then
          (-crossProductMatrix omega_c) ⟨i.val - 6, by omega⟩ ⟨j.val - 6, by omega⟩
        else if h : (3 ≤ i.val ∧ i.val < 3 + 3) ∧ (12 ≤ j.val ∧ j.val < 12 + 3) then
          (-(inverse C)) ⟨i.val - 3, by omega⟩ ⟨j.val - 12, by omega⟩
        else if h : (3 ≤ i.val ∧ i.val < 3 + 3) ∧ (6 ≤ j.val ∧ j.val < 6 + 3) then
          (-(inverse C) * crossProductMatrix f_c) ⟨i.val - 3, by omega⟩ ⟨j.val - 6, by omega⟩
        else if h : (0 ≤ i.val ∧ i.val < 0 + 3) ∧ (3 ≤ j.val ∧ j.val < 3 + 3) then
          (1 : Matrix (Fin 3) (Fin 3) α) ⟨i.val - 0, by omega⟩ ⟨j.val - 3, by omega⟩
        else 0 := rfl

theorem Sckf.predictFki_eq_systemMatrixOfSpec (s : Sckf α M1) (hs : s.SystemShape)
    (u v : Fin 3 → α) :
    s.predictFki u v
      = Sckf.systemMatrixOfSpec (Quaternion2DCM s.q4)
          (v - s.bahat - Quaternion2DCM s.q4 *ᵥ s.gtilde) (u - s.bghat) := by
  obtain ⟨hA, hF⟩ := hs
  ext i j
  rw [Sckf.predictFki_apply, Sckf.systemMatrixOfSpec_apply]
  by_cases h66 : (6 ≤ i.val ∧ i.val < 6 + 9) ∧ (6 ≤ j.val ∧ j.val < 6 + 9)
  · have n312 : ¬ ((3 ≤ i.val ∧ i.val < 3 + 3) ∧ (12 ≤ j.val ∧ j.val < 12 + 3)) := by omega
    have n36 : ¬ ((3 ≤ i.val ∧ i.val < 3 + 3) ∧ (6 ≤ j.val ∧ j.val < 6 + 3)) := by omega
    have n03 : ¬ ((0 ≤ i.val ∧ i.val < 0 + 3) ∧ (3 ≤ j.val ∧ j.val < 3 + 3)) := by omega
    simp only [dif_pos h66, dif_neg n312, dif_neg n36, dif_neg n03]
    by_cases hin : (6 ≤ i.val ∧ i.val < 6 + 3) ∧ (6 ≤ j.val ∧ j.val < 6 + 3)
    · have n69 : ¬ ((6 ≤ i.val ∧ i.val < 6 + 3) ∧ (9 ≤ j.val ∧ j.val < 9 + 3)) := by omega
      simp only [dif_pos hin, dif_neg n69]
      unfold setBlock
      rw [dif_pos (by simp only; omega)]
      rfl
    · have hAij := hA ⟨i.val - 6, by omega⟩ ⟨j.val - 6, by omega⟩ (by simp only; omega)
      simp only [dif_neg hin]
      unfold setBlock
      rw [dif_neg (by simp only; omega), hAij]
      by_cases h69 : (6 ≤ i.val ∧ i.val < 6 + 3) ∧ (9 ≤ j.val ∧ j.val < 9 + 3)
      · simp only [dif_pos h69, Matrix.smul_apply, Matrix.one_apply, Fin.mk.injEq, smul_eq_mul]
        by_cases hd : j.val = i.val + 3
        · rw [if_pos (by omega), if_pos (by omega)]
          ring
        · rw [if_neg (by omega), if_neg (by omega)]
          ring
      · simp only [dif_neg h69]
        rw [if_neg (by omega)]
  · have n69 : ¬ ((6 ≤ i.val ∧ i.val < 6 + 3) ∧ (9 ≤ j.val ∧ j.val < 9 + 3)) := by omega
    have n66 : ¬ ((6 ≤ i.val ∧ i.val < 6 + 3) ∧ (6 ≤ j.val ∧ j.val < 6 + 3)) := by omega
    simp only [dif_neg h66, dif_neg n69, dif_neg n66]
    by_cases h312 : (3 ≤ i.val ∧ i.val < 3 + 3) ∧ (12 ≤ j.val ∧ j.val < 12 + 3)
    · simp only [dif_pos h312]
    · simp only [dif_neg h312]
      by_cases h36 : (3 ≤ i.val ∧ i.val < 3 + 3) ∧ (6 ≤ j.val ∧ j.val < 6 + 3)
      · simp only [dif_pos h36]
      · simp only [dif_neg h36]
        by_cases h03 : (0 ≤ i.val ∧ i.val < 0 + 3) ∧ (3 ≤ j.val ∧ j.val < 3 + 3)
        · simp only [dif_pos h03]
        · simp only [dif_neg h03]
          exact hF i j (by omega)

theorem Sckf.systemMatrixOfSpec_zero_outside (C : Matrix (Fin 3) (Fin 3) α)
    (f_c omega_c : Fin 3 → α) (i j : Fin 15)
    (h : ¬ ((i.val < 3 ∧ 3 ≤ j.val ∧ j.val < 6) ∨ (3 ≤ i.val ∧ i.val < 6 ∧ 6 ≤ j.val ∧ j.val < 9)
      ∨ (3 ≤ i.val ∧ i.val < 6 ∧ 12 ≤ j.val) ∨ (6 ≤ i.val ∧ i.val < 9 ∧ 6 ≤ j.val ∧ j.val < 12))) :
    Sckf.systemMatrixOfSpec C f_c omega_c i j = 0 := by
  rw [Sckf.systemMatrixOfSpec_apply]
  have n1 : ¬ ((6 ≤ i.val ∧ i.val < 6 + 3) ∧ (9 ≤ j.val ∧ j.val < 9 + 3)) := by omega
  have n2 : ¬ ((6 ≤ i.val ∧ i.val < 6 + 3) ∧ (6 ≤ j.val ∧ j.val < 6 + 3)) := by omega
  have n3 : ¬ ((3 ≤ i.val ∧ i.val < 3 + 3) ∧ (12 ≤ j.val ∧ j.val < 12 + 3)) := by omega
  have n4 : ¬ ((3 ≤ i.val ∧ i.val < 3 + 3) ∧ (6 ≤ j.val ∧ j.val < 6 + 3)) := by omega
  have n5 : ¬ ((0 ≤ i.val ∧ i.val < 0 + 3) ∧ (3 ≤ j.val ∧ j.val < 3 + 3)) := by omega
  simp only [dif_neg n1, dif_neg n2, dif_neg n3, dif_neg n4, dif_neg n5]

theorem Sckf.systemMatrixOfSpec_blocks (C : Matrix (Fin 3) (Fin 3) α)
    (f_c omega_c : Fin 3 → α) :
    block 3 3 (Sckf.systemMatrixOfSpec C f_c omega_c) 0 3 = 1
    ∧ block 3 3 (Sckf.systemMatrixOfSpec C f_c omega_c) 3 6
        = -(inverse C) * crossProductMatrix f_c
    ∧ block 3 3 (Sckf.systemMatrixOfSpec C f_c omega_c) 3 12 = -(inverse C)
    ∧ block 3 3 (Sckf.systemMatrixOfSpec C f_c omega_c) 6 6 = -crossProductMatrix omega_c
    ∧ block 3 3 (Sckf.systemMatrixOfSpec C f_c omega_c) 6 9
        = (-0.5 : α) • (1 : Matrix (Fin 3) (Fin 3) α) := by
  refine ⟨?_, ?_, ?_, ?_, ?_⟩ <;>
  · ext a b
    have ha := a.isLt
    have hb := b.isLt
    unfold block
    rw [dif_pos (by omega), Sckf.systemMatrixOfSpec_apply]
    first
      | (rw [dif_pos (by simp only; omega)]
         exact congrArg₂ _ (Fin.ext (by simp)) (Fin.ext (by simp)))
      | (rw [dif_neg (by simp only; omega), dif_pos (by simp only; omega)]
         exact congrArg₂ _ (Fin.ext (by simp)) (Fin.ext (by simp)))
      | (rw [dif_neg (by simp only; omega), dif_neg (by simp only; omega),
           dif_pos (by simp only; omega)]
         exact congrArg₂ _ (Fin.ext (by simp)) (Fin.ext (by simp)))
      | (rw [dif_neg (by simp only; omega), dif_neg (by simp only; omega),
           dif_neg (by simp only; omega), dif_pos (by simp only; omega)]
         exact congrArg₂ _ (Fin.ext (by simp)) (Fin.ext (by simp)))
      | (rw [dif_neg (by simp only; omega), dif_neg (by simp only; omega),
           dif_neg (by simp only; omega), dif_neg (by simp only; omega),
           dif_pos (by simp only; omega)]
         exact congrArg₂ _ (Fin.ext (by simp)) (Fin.ext (by simp)))

theorem Sckf.systemShape_of_reachable (L : NumericLib α) (s : Sckf α M1)
    (h : Sckf.Reachable L s) : s.SystemShape := by
  induction h with
  | Init s P_0 Rg Qbg Qba Ra Rat Rm g alpha R2COUNT =>
    refine ⟨fun i j hij => ?_, fun i j _ => rfl⟩
    show (if (i.val = 0 ∧ j.val = 3) ∨ (i.val = 1 ∧ j.val = 4) ∨ (i.val = 2 ∧ j.val = 5)
      then (-0.5 : α) else (0 : Matrix (Fin 9) (Fin 9) α) i j) = _
    by_cases hc : i.val < 3 ∧ j.val = i.val + 3
    · rw [if_pos (by omega), if_pos hc]
    · rw [if_neg (by omega), if_neg hc]
      rfl
  | setAttitude s initq _ ih => exact ih
  | setGravity s g _ ih => exact ih
  | setOmega s u _ ih => exact ih
  | setStatex s x_0 _ ih => exact ih
  | setHeading s yaw _ ih => exact ih
  | resetStateVector s _ ih => exact ih
  | predict s u v dt _ ih =>
    refine ⟨fun i j hij => ?_, fun i j hij => ?_⟩
    · show setBlock s.A 0 0 (-crossProductMatrix (u - s.bghat)) i j = _
      unfold setBlock
      rw [dif_neg (by omega)]
      exact ih.1 i j hij
    · show s.predictFki u v i j = 0
      rw [Sckf.predictFki_eq_systemMatrixOfSpec s ih]
      exact Sckf.systemMatrixOfSpec_zero_outside _ _ _ i j (by omega)
  | update s M2 GAMMA auxvector0 Hme Rme slip_error acc mag dt magn_on_off _ ih => exact ih

/-- Claim C32, as the code has it.  In every state that the member functions reach after
`Init`, the error-state matrix `Fki` that `predict` leaves has exactly these non-zero 3x3
blocks (block order: position, velocity, attitude, gyroscope bias, accelerometer bias): the
identity at (position, velocity); `-C(q)⁻¹ [f_c]×` at (velocity, attitude), where
`f_c = v - bahat - C(q) g̃` is the specific force corrected for the bias and for the gravity
vector in the body frame; `-C(q)⁻¹` at (velocity, accelerometer bias); `-[ω_c]×` with
`ω_c = u - bghat` at (attitude, attitude); `-0.5 I` at (attitude, gyroscope bias).  The
error state and the covariance are propagated with `Φ = I + F dt + F F dt² / 2`. -/
theorem C32_predict_builds_the_error_state_matrix (L : NumericLib α) (s : Sckf α M1)
    (hs : Sckf.Reachable L s) (u v : Fin 3 → α) (dt : α) :
    (s.predict L u v dt).Fki
        = Sckf.systemMatrixOfSpec (Quaternion2DCM s.q4)
            (v - s.bahat - Quaternion2DCM s.q4 *ᵥ s.gtilde) (u - s.bghat)
    ∧ (block 3 3 (s.predict L u v dt).Fki 0 3 = 1
      ∧ block 3 3 (s.predict L u v dt).Fki 3 6
          = -(inverse (Quaternion2DCM s.q4))
              * crossProductMatrix (v - s.bahat - Quaternion2DCM s.q4 *ᵥ s.gtilde)
      ∧ block 3 3 (s.predict L u v dt).Fki 3 12 = -(inverse (Quaternion2DCM s.q4))
      ∧ block 3 3 (s.predict L u v dt).Fki 6 6 = -crossProductMatrix (u - s.bghat)
      ∧ block 3 3 (s.predict L u v dt).Fki 6 9 = (-0.5 : α) • (1 : Matrix (Fin 3) (Fin 3) α))
    ∧ (∀ i j : Fin 15,
        ¬ ((i.val < 3 ∧ 3 ≤ j.val ∧ j.val < 6) ∨ (3 ≤ i.val ∧ i.val < 6 ∧ 6 ≤ j.val ∧ j.val < 9)
          ∨ (3 ≤ i.val ∧ i.val < 6 ∧ 12 ≤ j.val)
          ∨ (6 ≤ i.val ∧ i.val < 9 ∧ 6 ≤ j.val ∧ j.val < 12)) →
        (s.predict L u v dt).Fki i j = 0)
    ∧ (s.predict L u v dt).xki_k
        = (1 + dt • (s.predict L u v dt).Fki
            + (dt ^ 2 / 2) • ((s.predict L u v dt).Fki * (s.predict L u v dt).Fki)) *ᵥ s.xki_k
    ∧ (s.predict L u v dt).Pki_k
        = (1 + dt • (s.predict L u v dt).Fki
            + (dt ^ 2 / 2) • ((s.predict L u v dt).Fki * (s.predict L u v dt).Fki)) * s.Pki_k
          * (1 + dt • (s.predict L u v dt).Fki
            + (dt ^ 2 / 2) • ((s.predict L u v dt).Fki * (s.predict L u v dt).Fki))ᵀ
          + s.predictQdk u v dt := by
  have hF : (s.predict L u v dt).Fki
      = Sckf.systemMatrixOfSpec (Quaternion2DCM s.q4)
          (v - s.bahat - Quaternion2DCM s.q4 *ᵥ s.gtilde) (u - s.bghat) :=
    Sckf.predictFki_eq_systemMatrixOfSpec s (Sckf.systemShape_of_reachable L s hs) u v
  refine ⟨hF, ?_, ?_, rfl, rfl⟩
  · rw [hF]
    exact Sckf.systemMatrixOfSpec_blocks _ _ _
  · intro i j hij
    rw [hF]
    exact Sckf.systemMatrixOfSpec_zero_outside _ _ _ i j hij

theorem Sckf.noiseFreeAtIdentity_reachable :
    Sckf.Reachable ratLib Sckf.noiseFreeAtIdentity :=
  Sckf.Reachable.setAttitude _ _ (Sckf.Reachable.Init _ _ _ _ _ _ _ _ _ _ _)

theorem Sckf.systemMatrixOfSpec_apply_3_7 (C : Matrix (Fin 3) (Fin 3) α)
    (f_c omega_c : Fin 3 → α) :
    Sckf.systemMatrixOfSpec C f_c omega_c 3 7 = (-(inverse C) * crossProductMatrix f_c) 0 1 := by
  rw [Sckf.systemMatrixOfSpec_apply]
  rw [dif_neg (by decide), dif_neg (by decide), dif_neg (by decide), dif_pos (by decide)]
  rfl

/-- The filter at the identity attitude with gravity 9.81 and a sample at rest: the entry
`(3, 7)` of `Fki`, in the block (velocity, attitude), is `-9.81`. -/
theorem C32_predict_builds_the_error_state_matrix_witness :
    (Sckf.noiseFreeAtIdentity.predict ratLib 0 0 1).Fki 3 7 = -9.81 := by
  rw [(C32_predict_builds_the_error_state_matrix ratLib Sckf.noiseFreeAtIdentity
    Sckf.noiseFreeAtIdentity_reachable 0 0 1).1, Sckf.systemMatrixOfSpec_apply_3_7]
  have hq : Sckf.noiseFreeAtIdentity.q4 = Quat.identity := rfl
  have hb : Sckf.noiseFreeAtIdentity.bahat = 0 := rfl
  have hg : Sckf.noiseFreeAtIdentity.gtilde = ![0, 0, 9.81] := rfl
  rw [hq, hb, hg, Quaternion2DCM_identity, inverse_eq_inv, inv_one]
  simp [crossProductMatrix, Matrix.mul_apply, Fin.sum_univ_three, Matrix.one_apply]

/-- Claim C32, the counterexample.  At the identity attitude with gravity 9.81, zero biases
and a sample at rest (`u = v = 0`), the matrix `Fki` that `predict` leaves is not the matrix
of the claim with `f_c = v - bahat`: the entry `(3, 7)`, in the block (velocity, attitude), is
`-9.81` in the code and `0` in the claim. -/
theorem C32_velocity_attitude_block_uses_the_gravity_corrected_force :
    (Sckf.noiseFreeAtIdentity.predict ratLib 0 0 1).Fki
      ≠ Sckf.systemMatrixOfSpec (Quaternion2DCM Sckf.noiseFreeAtIdentity.q4)
          (0 - Sckf.noiseFreeAtIdentity.bahat) (0 - Sckf.noiseFreeAtIdentity.bghat) := by
  intro h
  have h37 := congrFun (congrFun h 3) 7
  have hlhs : (Sckf.noiseFreeAtIdentity.predict ratLib 0 0 1).Fki 3 7 = -9.81 := by
    have hF : (Sckf.noiseFreeAtIdentity.predict ratLib 0 0 1).Fki
        = Sckf.systemMatrixOfSpec (Quaternion2DCM Sckf.noiseFreeAtIdentity.q4)
            (0 - Sckf.noiseFreeAtIdentity.bahat
              - Quaternion2DCM Sckf.noiseFreeAtIdentity.q4 *ᵥ Sckf.noiseFreeAtIdentity.gtilde)
            (0 - Sckf.noiseFreeAtIdentity.bghat) :=
      Sckf.predictFki_eq_systemMatrixOfSpec _
        (Sckf.systemShape_of_reachable ratLib _ Sckf.noiseFreeAtIdentity_reachable) 0 0
    rw [hF, Sckf.systemMatrixOfSpec_apply_3_7]
    have hq : Sckf.noiseFreeAtIdentity.q4 = Quat.identity := rfl
    have hb : Sckf.noiseFreeAtIdentity.bahat = 0 := rfl
    have hg : Sckf.noiseFreeAtIdentity.gtilde = ![0, 0, 9.81] := rfl
    rw [hq, hb, hg, Quaternion2DCM_identity, inverse_eq_inv, inv_one]
    simp [crossProductMatrix, Matrix.mul_apply, Fin.sum_univ_three, Matrix.one_apply]
  rw [hlhs, Sckf.systemMatrixOfSpec_apply_3_7] at h37
  have hb : Sckf.noiseFreeAtIdentity.bahat = 0 := rfl
  rw [hb] at h37
  simp [crossProductMatrix, Matrix.mul_apply, Fin.sum_univ_three] at h37
  norm_num at h37

/-! ### Sigma points of a Euclidean state -/

theorem boxminus_self {ι M : Type} (ops : ManifoldOps α ι M)
    (hplus : ∀ m, ops.boxplus m 0 = m) (hminus : ∀ m d, ops.boxminus (ops.boxplus m d) m = d)
    (m : M) : ops.boxminus m m = 0 := by
  have h := hminus m 0
  rwa [hplus] at h

theorem foldl_sub_center {ι κ M : Type} (ops : ManifoldOps α ι M)
    (hminus : ∀ m d, ops.boxminus (ops.boxplus m d) m = d)
    (m : M) (c : κ → (ι → α)) (l : List κ) :
    ∀ a : ι → α,
      (l.flatMap (fun j => [ops.boxplus m (c j), ops.boxplus m (-(c j))])).foldl
          (fun acc Xi => acc + ops.boxminus Xi m) a
        = a := by
  induction l with
  | nil => intro a; rfl
  | cons x rest ih =>
    intro a
    rw [List.flatMap_cons, List.foldl_append, ih]
    simp only [List.foldl_cons, List.foldl_nil, hminus]
    abel

theorem vecMulVec_neg_neg {ι κ : Type} (a : ι → α) (b : κ → α) :
    vecMulVec (-a) (-b) = vecMulVec a b := by
  ext i j
  simp [Matrix.vecMulVec_apply]

theorem foldl_outer_symmetric {ι κ M : Type} (ops : ManifoldOps α ι M)
    (hminus : ∀ m d, ops.boxminus (ops.boxplus m d) m = d)
    (m : M) (c : κ → (ι → α)) (l : List κ) :
    ∀ a : Matrix ι ι α,
      ((l.flatMap (fun j => [ops.boxplus m (c j), ops.boxplus m (-(c j))])).map
          (fun Vi => ops.boxminus Vi m)).foldl (fun C d => C + vecMulVec d d) a
        = a + (2 : α) • (l.map (fun j => vecMulVec (c j) (c j))).sum := by
  induction l with
  | nil => intro a; simp
  | cons x rest ih =>
    intro a
    rw [List.flatMap_cons, List.map_append, List.foldl_append, ih]
    simp only [List.map_cons, List.map_nil, List.foldl_cons, List.foldl_nil, List.sum_cons,
      hminus, vecMulVec_neg_neg, smul_add, two_smul]
    abel

theorem foldl_cross_symmetric {ι ι2 κ M M2 : Type} (ops : ManifoldOps α ι M)
    (ops2 : ManifoldOps α ι2 M2)
    (hminus : ∀ m d, ops.boxminus (ops.boxplus m d) m = d)
    (hminus2 : ∀ m d, ops2.boxminus (ops2.boxplus m d) m = d)
    (m : M) (m2 : M2) (c : κ → (ι → α)) (c2 : κ → (ι2 → α)) (l : List κ) :
    ∀ a : Matrix ι ι2 α,
      (((l.flatMap (fun j => [ops.boxplus m (c j), ops.boxplus m (-(c j))])).zip
          (l.flatMap (fun j => [ops2.boxplus m2 (c2 j), ops2.boxplus m2 (-(c2 j))]))).map
            (fun p => (ops.boxminus p.1 m, ops2.boxminus p.2 m2))).foldl
          (fun C d => C + vecMulVec d.1 d.2) a
        = a + (2 : α) • (l.map (fun j => vecMulVec (c j) (c2 j))).sum := by
  induction l with
  | nil => intro a; simp
  | cons x rest ih =>
    intro a
    simp only [List.flatMap_cons, List.cons_append, List.nil_append, List.zip_cons_cons,
      List.map_cons, List.foldl_cons]
    rw [ih]
    simp only [List.sum_cons, hminus, hminus2, vecMulVec_neg_neg, smul_add, two_smul]
    abel

theorem sum_outer_columns {n : Nat} (A B : Matrix (Fin n) (Fin n) α) :
    ((List.finRange n).map (fun j => vecMulVec (fun i => A i j) (fun i => B i j))).sum
      = A * Bᵀ := by
  ext a b
  rw [Matrix.mul_apply]
  have h : ∀ l : List (Fin n),
      (l.map (fun j => vecMulVec (fun i => A i j) (fun i => B i j))).sum a b
        = (l.map (fun j => A a j * Bᵀ j b)).sum := by
    intro l
    induction l with
    | nil => rfl
    | cons x rest ih =>
      simp only [List.map_cons, List.sum_cons, Matrix.add_apply, ih, Matrix.vecMulVec_apply,
        Matrix.transpose_apply]
  rw [h, Fin.sum_univ_def]

theorem Usckf.meanSigmaPoints_symmetric {ι κ M : Type} [Fintype ι] (L : NumericLib α)
    (hsqrt : L.sqrt 0 ≤ 1e-6) (ops : ManifoldOps α ι M)
    (hplus : ∀ m, ops.boxplus m 0 = m) (hminus : ∀ m d, ops.boxminus (ops.boxplus m d) m = d)
    (m : M) (c : κ → (ι → α)) (l : List κ) :
    Usckf.meanSigmaPoints L ops
        (m :: l.flatMap (fun j => [ops.boxplus m (c j), ops.boxplus m (-(c j))])) = some m := by
  have hdelta : Usckf.meanSigmaPointsDelta ops
      (m :: l.flatMap (fun j => [ops.boxplus m (c j), ops.boxplus m (-(c j))])) m = 0 := by
    unfold Usckf.meanSigmaPointsDelta
    rw [List.foldl_cons, boxminus_self ops hplus hminus, add_zero,
      foldl_sub_center ops hminus m c l 0, smul_zero]
  show Usckf.meanSigmaPointsLoop L ops _ (9999 + 1) m = some m
  rw [Usckf.meanSigmaPointsLoop_succ, hdelta, Matrix.dotProduct_zero,
    if_neg (not_lt.mpr hsqrt), hplus]

theorem Usckf.covSigmaPoints_symmetric {ι κ M : Type} (ops : ManifoldOps α ι M)
    (hplus : ∀ m, ops.boxplus m 0 = m) (hminus : ∀ m d, ops.boxminus (ops.boxplus m d) m = d)
    (m : M) (c : κ → (ι → α)) (l : List κ) :
    Usckf.covSigmaPoints ops m
        (m :: l.flatMap (fun j => [ops.boxplus m (c j), ops.boxplus m (-(c j))]))
      = (l.map (fun j => vecMulVec (c j) (c j))).sum := by
  unfold Usckf.covSigmaPoints Usckf.covSigmaPointsOfDiffs
  rw [List.map_cons, List.foldl_cons, boxminus_self ops hplus hminus]
  have h0 : (0 : Matrix ι ι α) + vecMulVec (0 : ι → α) (0 : ι → α) = 0 := by
    ext i j
    simp [Matrix.vecMulVec_apply]
  rw [h0, foldl_outer_symmetric ops hminus m c l 0, zero_add, smul_smul]
  norm_num

theorem Usckf.crossCovSigmaPoints_symmetric {ι ι2 κ M M2 : Type} (ops : ManifoldOps α ι M)
    (ops2 : ManifoldOps α ι2 M2)
    (hplus : ∀ m, ops.boxplus m 0 = m) (hminus : ∀ m d, ops.boxminus (ops.boxplus m d) m = d)
    (hplus2 : ∀ m, ops2.boxplus m 0 = m)
    (hminus2 : ∀ m d, ops2.boxminus (ops2.boxplus m d) m = d)
    (m : M) (m2 : M2) (c : κ → (ι → α)) (c2 : κ → (ι2 → α)) (l : List κ) :
    Usckf.crossCovSigmaPoints ops ops2 m m2
        (m :: l.flatMap (fun j => [ops.boxplus m (c j), ops.boxplus m (-(c j))]))
        (m2 :: l.flatMap (fun j => [ops2.boxplus m2 (c2 j), ops2.boxplus m2 (-(c2 j))]))
      = (l.map (fun j => vecMulVec (c j) (c2 j))).sum := by
  unfold Usckf.crossCovSigmaPoints Usckf.crossCovSigmaPointsOfDiffs
  rw [List.zip_cons_cons, List.map_cons, List.foldl_cons, boxminus_self ops hplus hminus,
    boxminus_self ops2 hplus2 hminus2]
  have h0 : (0 : Matrix ι ι2 α) + vecMulVec (0 : ι → α) (0 : ι2 → α) = 0 := by
    ext i j
    simp [Matrix.vecMulVec_apply]
  rw [h0, foldl_cross_symmetric ops ops2 hminus hminus2 m m2 c c2 l 0, zero_add, smul_smul]
  norm_num

theorem vectorOps_boxplus_zero {ι : Type} (m : ι → α) : (vectorOps ι).boxplus m 0 = m :=
  add_zero m

theorem vectorOps_boxminus_boxplus {ι : Type} (m d : ι → α) :
    (vectorOps ι).boxminus ((vectorOps ι).boxplus m d) m = d :=
  add_sub_cancel_left m d

theorem augmentedOps_vectorOps_boxplus_zero {n : Nat} (m : AugmentedState (Fin n → α)) :
    (augmentedOps (vectorOps (Fin n))).boxplus m 0 = m := by
  cases m
  simp [augmentedOps, vectorOps]
  rfl

theorem augmentedOps_vectorOps_boxminus_boxplus {n : Nat} (m : AugmentedState (Fin n → α))
    (d : Epoch × Fin n → α) :
    (augmentedOps (vectorOps (Fin n))).boxminus
      ((augmentedOps (vectorOps (Fin n))).boxplus m d) m = d := by
  funext ⟨e, i⟩
  cases e <;> simp [augmentedOps, vectorOps, AugmentedState.slot]

theorem sum_outer_augmentedColumns {n : Nat}
    (A B : Matrix (Epoch × Fin n) (Epoch × Fin n) α) :
    ((augmentedColumns n).map (fun j => vecMulVec (fun i => A i j) (fun i => B i j))).sum
      = A * Bᵀ := by
  ext a b
  rw [Matrix.mul_apply, Fintype.sum_prod_type, sum_epoch]
  have h : ∀ l : List (Epoch × Fin n),
      (l.map (fun j => vecMulVec (fun i => A i j) (fun i => B i j))).sum a b
        = (l.map (fun j => A a j * Bᵀ j b)).sum := by
    intro l
    induction l with
    | nil => rfl
    | cons x rest ih =>
      simp only [List.map_cons, List.sum_cons, Matrix.add_apply, ih, Matrix.vecMulVec_apply,
        Matrix.transpose_apply]
  rw [h]
  simp only [augmentedColumns, List.flatMap_cons, List.flatMap_nil, List.append_nil,
    List.map_append, List.sum_append, List.map_map, Fin.sum_univ_def, add_assoc]
  rfl

theorem Usckf.generateSigmaPoints_of_factor {n : Nat} {S : Type}
    (opsA : ManifoldOps α (Epoch × Fin n) (AugmentedState S))
    (hplus : ∀ m, opsA.boxplus m 0 = m)
    (chol : Matrix (Epoch × Fin n) (Epoch × Fin n) α →
      Option (Matrix (Epoch × Fin n) (Epoch × Fin n) α))
    (mu : AugmentedState S) (P Lm : Matrix (Epoch × Fin n) (Epoch × Fin n) α)
    (hchol : chol P = some Lm) :
    Usckf.generateSigmaPoints opsA chol mu P
      = some (mu :: (augmentedColumns n).flatMap
          (fun j => [opsA.boxplus mu (fun i => Lm i j), opsA.boxplus mu (-(fun i => Lm i j))])) := by
  unfold Usckf.generateSigmaPoints Usckf.generateSigmaPointsDelta
  rw [hchol]
  simp only [hplus, zero_add, zero_sub]

theorem Usckf.checkSigmaPoints_of_factor {n : Nat} {S : Type} (L : NumericLib α)
    (hsqrt : L.sqrt 0 ≤ 1e-6)
    (opsA : ManifoldOps α (Epoch × Fin n) (AugmentedState S))
    (hplus : ∀ m, opsA.boxplus m 0 = m) (hminus : ∀ m d, opsA.boxminus (opsA.boxplus m d) m = d)
    (chol : Matrix (Epoch × Fin n) (Epoch × Fin n) α →
      Option (Matrix (Epoch × Fin n) (Epoch × Fin n) α))
    (eq : AugmentedState S → AugmentedState S → Bool) (heq : ∀ x, eq x x = true)
    (s : Usckf α n S) (Lm : Matrix (Epoch × Fin n) (Epoch × Fin n) α)
    (hchol : chol s.Pk_error = some Lm) (hLm : Lm * Lmᵀ = s.Pk_error) :
    Usckf.checkSigmaPoints L opsA chol eq s = true := by
  unfold Usckf.checkSigmaPoints
  rw [Usckf.generateSigmaPoints_of_factor opsA hplus chol _ _ Lm hchol]
  simp only
  rw [Usckf.meanSigmaPoints_symmetric L hsqrt opsA hplus hminus]
  simp only
  rw [Usckf.covSigmaPoints_symmetric opsA hplus hminus, sum_outer_augmentedColumns, hLm,
    sub_self, if_neg, heq]
  rintro ⟨i, j, hij⟩
  simp at hij
  norm_num at hij

theorem Usckf.generateSigmaPointsSingle_eq {n : Nat} {S : Type}
    (ops : ManifoldOps α (Fin n) S)
    (llt : Matrix (Fin n) (Fin n) α → Matrix (Fin n) (Fin n) α)
    (mu : S) (P : Matrix (Fin n) (Fin n) α) :
    Usckf.generateSigmaPointsSingle ops llt mu P
      = mu :: (List.finRange n).flatMap
          (fun j => [ops.boxplus mu (fun i => llt P i j),
            ops.boxplus mu (-(fun i => llt P i j))]) := rfl

/-- Claim C34.  For a Euclidean state of dimension `n`, every mean `μ` and every covariance
`P` with a factor `L` such that `L Lᵀ = P`, the single-state generator produces the `2n + 1`
sigma points `μ`, `μ + L eⱼ` and `μ - L eⱼ` for the columns `L eⱼ` of the factor; their mean
computed by the manifold `meanSigmaPoints` is `μ` (the first averaging step has a zero
displacement, whose norm does not exceed the tolerance), and `covSigmaPoints` about `μ`,
half the sum of the outer products of the differences, is `P`.  This is the consistency
that `checkSigmaPoints` asserts of the augmented generator: on a Euclidean augmented state
whose covariance has such a factor, every assertion of `checkSigmaPoints` holds. -/
theorem C34_sigma_points_reproduce_mean_and_covariance {n : Nat} (L : NumericLib α)
    (hsqrt : L.sqrt 0 ≤ 1e-6)
    (llt : Matrix (Fin n) (Fin n) α → Matrix (Fin n) (Fin n) α)
    (mu : Fin n → α) (P : Matrix (Fin n) (Fin n) α) (hL : llt P * (llt P)ᵀ = P) :
    Usckf.generateSigmaPointsSingle (vectorOps (Fin n)) llt mu P
        = mu :: (List.finRange n).flatMap
            (fun j => [mu + llt P *ᵥ Pi.single j 1, mu - llt P *ᵥ Pi.single j 1])
    ∧ (Usckf.generateSigmaPointsSingle (vectorOps (Fin n)) llt mu P).length = 2 * n + 1
    ∧ Usckf.meanSigmaPoints L (vectorOps (Fin n))
        (Usckf.generateSigmaPointsSingle (vectorOps (Fin n)) llt mu P) = some mu
    ∧ Usckf.covSigmaPoints (vectorOps (Fin n)) mu
        (Usckf.generateSigmaPointsSingle (vectorOps (Fin n)) llt mu P) = P
    ∧ ∀ (chol : Matrix (Epoch × Fin n) (Epoch × Fin n) α →
          Option (Matrix (Epoch × Fin n) (Epoch × Fin n) α))
        (eq : AugmentedState (Fin n → α) → AugmentedState (Fin n → α) → Bool)
        (s : Usckf α n (Fin n → α)) (Lm : Matrix (Epoch × Fin n) (Epoch × Fin n) α),
        (∀ x, eq x x = true) → chol s.Pk_error = some Lm → Lm * Lmᵀ = s.Pk_error →
        Usckf.checkSigmaPoints L (augmentedOps (vectorOps (Fin n))) chol eq s = true := by
  refine ⟨?_, Usckf.generateSigmaPointsSingle_length _ _ _ _, ?_, ?_, ?_⟩
  · rw [Usckf.generateSigmaPointsSingle_eq]
    have hcol : ∀ j : Fin n, llt P *ᵥ Pi.single j 1 = fun i => llt P i j := by
      intro j
      funext i
      simp [Matrix.mulVec_single]
    simp only [hcol, sub_eq_add_neg]
    rfl
  · rw [Usckf.generateSigmaPointsSingle_eq]
    exact Usckf.meanSigmaPoints_symmetric L hsqrt _ vectorOps_boxplus_zero
      vectorOps_boxminus_boxplus mu _ _
  · rw [Usckf.generateSigmaPointsSingle_eq,
      Usckf.covSigmaPoints_symmetric _ vectorOps_boxplus_zero vectorOps_boxminus_boxplus,
      sum_outer_columns, hL]
  · intro chol eq s Lm heq hchol hLm
    exact Usckf.checkSigmaPoints_of_factor L hsqrt _ augmentedOps_vectorOps_boxplus_zero
      augmentedOps_vectorOps_boxminus_boxplus chol eq heq s Lm hchol hLm

/-- The plane with the mean `(1, 2)` and the covariance `4 I`, whose factor is `2 I`: the
five sigma points have the mean `(1, 2)` and the covariance `4 I`. -/
theorem C34_sigma_points_reproduce_mean_and_covariance_witness :
    Usckf.meanSigmaPoints ratLib (vectorOps (Fin 2))
        (Usckf.generateSigmaPointsSingle (vectorOps (Fin 2)) (fun _ => (2 : ℚ) • 1) ![1, 2]
          ((4 : ℚ) • 1)) = some ![1, 2]
    ∧ Usckf.covSigmaPoints (vectorOps (Fin 2)) (![1, 2] : Fin 2 → ℚ)
        (Usckf.generateSigmaPointsSingle (vectorOps (Fin 2)) (fun _ => (2 : ℚ) • 1) ![1, 2]
          ((4 : ℚ) • 1)) = (4 : ℚ) • 1 := by
  have hsqrt : ratLib.sqrt 0 ≤ (1e-6 : ℚ) := by
    show (0 : ℚ) ≤ 1e-6
    norm_num
  have hL : ((2 : ℚ) • (1 : Matrix (Fin 2) (Fin 2) ℚ)) * ((2 : ℚ) • 1)ᵀ = (4 : ℚ) • 1 := by
    rw [Matrix.transpose_smul, Matrix.transpose_one, Matrix.smul_mul, Matrix.mul_smul,
      Matrix.one_mul, smul_smul]
    norm_num
  have h := C34_sigma_points_reproduce_mean_and_covariance ratLib hsqrt
    (fun _ => (2 : ℚ) • 1) ![1, 2] ((4 : ℚ) • 1) hL
  exact ⟨h.2.2.1, h.2.2.2.1⟩

/-! ### The unscented prediction of a linear model -/

theorem isSPD_det_ne_zero {ι : Type} [Fintype ι] [DecidableEq ι] (P : Matrix ι ι α)
    (hP : IsSPD P) : P.det ≠ 0 := by
  intro hdet
  obtain ⟨v, hv, hPv⟩ := Matrix.exists_mulVec_eq_zero_iff.mpr hdet
  have hpos := hP.2 v hv
  rw [hPv, Matrix.dotProduct_zero] at hpos
  exact lt_irrefl _ hpos

theorem map_flatMap_pair {β γ δ : Type} (f : γ → δ) (a b : β → γ) (l : List β) :
    (l.flatMap (fun j => [a j, b j])).map f = l.flatMap (fun j => [f (a j), f (b j)]) := by
  induction l with
  | nil => rfl
  | cons x rest ih =>
    simp only [List.flatMap_cons, List.map_append, List.map_cons, List.map_nil, ih]

theorem Usckf.generateSigmaPointsSingle_map_linear {n : Nat}
    (llt : Matrix (Fin n) (Fin n) α → Matrix (Fin n) (Fin n) α)
    (mu : Fin n → α) (P A : Matrix (Fin n) (Fin n) α) :
    (Usckf.generateSigmaPointsSingle (vectorOps (Fin n)) llt mu P).map (fun x => A *ᵥ x)
      = (A *ᵥ mu) :: (List.finRange n).flatMap
          (fun j => [(vectorOps (Fin n)).boxplus (A *ᵥ mu) (fun i => (A * llt P) i j),
            (vectorOps (Fin n)).boxplus (A *ᵥ mu) (-(fun i => (A * llt P) i j))]) := by
  rw [Usckf.generateSigmaPointsSingle_eq, List.map_cons, map_flatMap_pair]
  have hcol : ∀ j : Fin n, (fun i => (A * llt P) i j) = A *ᵥ (fun i => llt P i j) := by
    intro j
    rfl
  simp only [hcol]
  show _ :: (List.finRange n).flatMap
      (fun j => [A *ᵥ (mu + fun i => llt P i j), A *ᵥ (mu + -(fun i => llt P i j))])
    = _ :: (List.finRange n).flatMap
      (fun j => [A *ᵥ mu + A *ᵥ (fun i => llt P i j), A *ᵥ mu + -(A *ᵥ (fun i => llt P i j))])
  simp only [Matrix.mulVec_add, Matrix.mulVec_neg]

theorem Usckf.predict_linear_mean {n : Nat} (L : NumericLib α) (hsqrt : L.sqrt 0 ≤ 1e-6)
    (llt : Matrix (Fin n) (Fin n) α → Matrix (Fin n) (Fin n) α)
    (mu : Fin n → α) (P A : Matrix (Fin n) (Fin n) α) :
    Usckf.meanSigmaPoints L (vectorOps (Fin n))
        ((Usckf.generateSigmaPointsSingle (vectorOps (Fin n)) llt mu P).map (fun x => A *ᵥ x))
      = some (A *ᵥ mu) := by
  rw [Usckf.generateSigmaPointsSingle_map_linear]
  exact Usckf.meanSigmaPoints_symmetric L hsqrt _ vectorOps_boxplus_zero
    vectorOps_boxminus_boxplus _ _ _

theorem Usckf.predict_linear_cov {n : Nat}
    (llt : Matrix (Fin n) (Fin n) α → Matrix (Fin n) (Fin n) α)
    (mu : Fin n → α) (P A : Matrix (Fin n) (Fin n) α) (hL : llt P * (llt P)ᵀ = P) :
    Usckf.covSigmaPoints (vectorOps (Fin n)) (A *ᵥ mu)
        ((Usckf.generateSigmaPointsSingle (vectorOps (Fin n)) llt mu P).map (fun x => A *ᵥ x))
      = A * P * Aᵀ := by
  rw [Usckf.generateSigmaPointsSingle_map_linear,
    Usckf.covSigmaPoints_symmetric _ vectorOps_boxplus_zero vectorOps_boxminus_boxplus,
    sum_outer_columns, Matrix.transpose_mul, ← Matrix.mul_assoc, Matrix.mul_assoc A, hL]

theorem Usckf.predict_linear_crossCov {n : Nat}
    (llt : Matrix (Fin n) (Fin n) α → Matrix (Fin n) (Fin n) α)
    (mu : Fin n → α) (P A : Matrix (Fin n) (Fin n) α) (hL : llt P * (llt P)ᵀ = P) :
    Usckf.crossCovSigmaPoints (vectorOps (Fin n)) (vectorOps (Fin n)) mu (A *ᵥ mu)
        (Usckf.generateSigmaPointsSingle (vectorOps (Fin n)) llt mu P)
        ((Usckf.generateSigmaPointsSingle (vectorOps (Fin n)) llt mu P).map (fun x => A *ᵥ x))
      = P * Aᵀ := by
  rw [Usckf.generateSigmaPointsSingle_map_linear, Usckf.generateSigmaPointsSingle_eq,
    Usckf.crossCovSigmaPoints_symmetric _ _ vectorOps_boxplus_zero vectorOps_boxminus_boxplus
      vectorOps_boxplus_zero vectorOps_boxminus_boxplus,
    sum_outer_columns, Matrix.transpose_mul, ← Matrix.mul_assoc, hL]

theorem Usckf.predict_linear_Fk {n : Nat} (P A : Matrix (Fin n) (Fin n) α) (hP : IsSPD P) :
    (P * Aᵀ)ᵀ * inverse P = A := by
  rw [Matrix.transpose_mul, Matrix.transpose_transpose, hP.1, inverse_eq_inv, Matrix.mul_assoc,
    Matrix.mul_nonsing_inv _ (isUnit_iff_ne_zero.mpr (isSPD_det_ne_zero P hP)), Matrix.mul_one]

/-- Claim C35.  For a Euclidean single state, a linear process model `f(x) = A x` and a
symmetric positive-definite covariance `P` of the active epoch with its Cholesky factor, the
unscented `predict(f, Q)` returns, and the filter it leaves is the one that the linearised
`ekfPredict(A, Q)` leaves: the error mean of the active epoch is `A μ`, its covariance is
`A P Aᵀ + Q`, the four cross-covariance blocks are propagated with the same matrix, and the
transition `Fk = Pxyᵀ P⁻¹` recovered from the sigma points is `A`. -/
theorem C35_unscented_predict_of_a_linear_model_is_ekfPredict {n : Nat} (L : NumericLib α)
    (hsqrt : L.sqrt 0 ≤ 1e-6)
    (llt : Matrix (Fin n) (Fin n) α → Matrix (Fin n) (Fin n) α)
    (s : Usckf α n (Fin n → α)) (A Q : Matrix (Fin n) (Fin n) α)
    (hP : IsSPD (subblock s.Pk_error Epoch.statek_i Epoch.statek_i))
    (hL : llt (subblock s.Pk_error Epoch.statek_i Epoch.statek_i)
        * (llt (subblock s.Pk_error Epoch.statek_i Epoch.statek_i))ᵀ
      = subblock s.Pk_error Epoch.statek_i Epoch.statek_i) :
    s.predict L (vectorOps (Fin n)) llt (fun x => A *ᵥ x) Q
        = some (s.ekfPredict (vectorOps (Fin n)) A Q)
    ∧ s.predictFk L (vectorOps (Fin n)) llt (fun x => A *ᵥ x) = some A
    ∧ (s.ekfPredict (vectorOps (Fin n)) A Q).mu_error.statek_i = A *ᵥ s.mu_error.statek_i
    ∧ subblock (s.ekfPredict (vectorOps (Fin n)) A Q).Pk_error Epoch.statek_i Epoch.statek_i
        = A * subblock s.Pk_error Epoch.statek_i Epoch.statek_i * Aᵀ + Q
    ∧ (∀ a : Epoch, a ≠ Epoch.statek_i →
        subblock (s.ekfPredict (vectorOps (Fin n)) A Q).Pk_error a Epoch.statek_i
            = subblock s.Pk_error a Epoch.statek_i * Aᵀ
        ∧ subblock (s.ekfPredict (vectorOps (Fin n)) A Q).Pk_error Epoch.statek_i a
            = A * subblock s.Pk_error Epoch.statek_i a) := by
  refine ⟨?_, ?_, rfl, ?_, ?_⟩
  · unfold Usckf.predict
    simp only
    rw [Usckf.predict_linear_mean L hsqrt]
    simp only
    rw [Usckf.predict_linear_cov llt _ _ A hL, Usckf.predict_linear_crossCov llt _ _ A hL,
      Usckf.predict_linear_Fk _ A hP]
    rfl
  · unfold Usckf.predictFk
    simp only
    rw [Usckf.predict_linear_mean L hsqrt]
    simp only
    rw [Usckf.predict_linear_crossCov llt _ _ A hL, Usckf.predict_linear_Fk _ A hP]
  · simp [Usckf.ekfPredict, Usckf.propagateCrossCov, subblock_setSubblock]
  · intro a ha
    cases a <;>
      first
        | exact absurd rfl ha
        | simp [Usckf.ekfPredict, Usckf.propagateCrossCov, subblock_setSubblock]

theorem Usckf.planeExample_subblock :
    subblock Usckf.planeExample.Pk_error Epoch.statek_i Epoch.statek_i = (4 : ℚ) • 1 := by
  unfold Usckf.planeExample
  rw [subblock_setSubblock, if_pos ⟨rfl, rfl⟩]

theorem isSPD_smul_one {k : Nat} (c : α) (hc : 0 < c) :
    IsSPD (c • (1 : Matrix (Fin k) (Fin k) α)) := by
  refine ⟨by rw [Matrix.transpose_smul, Matrix.transpose_one], fun v hv => ?_⟩
  rw [Matrix.smul_mulVec_assoc, Matrix.one_mulVec, dotProduct_smul, smul_eq_mul]
  have hex : ∃ i, v i ≠ 0 := by
    by_contra hne
    push_neg at hne
    exact hv (funext hne)
  obtain ⟨i, hi⟩ := hex
  have hsq : 0 < v ⬝ᵥ v := by
    unfold Matrix.dotProduct
    exact Finset.sum_pos' (fun j _ => mul_self_nonneg (v j))
      ⟨i, Finset.mem_univ i, mul_self_pos.mpr hi⟩
  exact mul_pos hc hsq

/-- The plane with the error mean `(1, 2)`, the covariance `4 I` of the active epoch with
its factor `2 I`, a shear as linear model and the identity as process noise: the unscented
prediction returns the filter of the linearised prediction. -/
theorem C35_unscented_predict_of_a_linear_model_is_ekfPredict_witness :
    Usckf.planeExample.predict ratLib (vectorOps (Fin 2)) (fun _ => (2 : ℚ) • 1)
        (fun x => !![1, 1; 0, 1] *ᵥ x) 1
      = some (Usckf.planeExample.ekfPredict (vectorOps (Fin 2)) !![1, 1; 0, 1] 1)
    ∧ Usckf.planeExample.predictFk ratLib (vectorOps (Fin 2)) (fun _ => (2 : ℚ) • 1)
        (fun x => !![1, 1; 0, 1] *ᵥ x) = some !![1, 1; 0, 1] := by
  have hsqrt : ratLib.sqrt 0 ≤ (1e-6 : ℚ) := by
    show (0 : ℚ) ≤ 1e-6
    norm_num
  have hL : ((2 : ℚ) • (1 : Matrix (Fin 2) (Fin 2) ℚ)) * ((2 : ℚ) • 1)ᵀ = (4 : ℚ) • 1 := by
    rw [Matrix.transpose_smul, Matrix.transpose_one, Matrix.smul_mul, Matrix.mul_smul,
      Matrix.one_mul, smul_smul]
    norm_num
  have h := C35_unscented_predict_of_a_linear_model_is_ekfPredict ratLib hsqrt
    (fun _ => (2 : ℚ) • 1) Usckf.planeExample !![1, 1; 0, 1] 1
    (by rw [Usckf.planeExample_subblock]; exact isSPD_smul_one 4 (by norm_num))
    (by rw [Usckf.planeExample_subblock]; exact hL)
  exact ⟨h.1, h.2.1⟩

/-! ### The symmetrising assignment of the indirect filter, evaluated (C2) -/

theorem Sckf.turnedAboutVertical_entries :
    (Sckf.turnedAboutVertical.predict ratLib 0 0 1).Pki_k 3 4 = -12 / 25
    ∧ (Sckf.turnedAboutVertical.predict ratLib 0 0 1).Pki_k 4 3 = 0 := by
  refine ⟨?_, ?_⟩ <;>
  · simp [Sckf.turnedAboutVertical, Sckf.predict, Sckf.Init, Sckf.blank, Sckf.setAttitude,
      Sckf.predictdFki, Sckf.predictFki, setBlock, Matrix.mul_apply, Fin.sum_univ_succ,
      Fin.coe_ofNat_eq_mod, Matrix.one_apply, Fin.ext_iff, crossProductMatrix_zero,
      symmetrizeInPlace, StorageIndex.position, inverse, Quaternion2DCM,
      Matrix.det_fin_three, Matrix.adjugate_fin_three]
    try norm_num

theorem Sckf.turnedAboutVertical_noise_block :
    (inverse (Quaternion2DCM Sckf.turnedAboutVertical.q4) * Sckf.turnedAboutVertical.Ra) 0 1
      = -24 / 25
    ∧ (inverse (Quaternion2DCM Sckf.turnedAboutVertical.q4) * Sckf.turnedAboutVertical.Ra) 1 0
      = 24 / 25 := by
  refine ⟨?_, ?_⟩ <;>
  · simp [Sckf.turnedAboutVertical, Sckf.Init, Sckf.setAttitude, inverse, Quaternion2DCM,
      Matrix.det_fin_three, Matrix.adjugate_fin_three]
    try norm_num

theorem Sckf.lopsidedCovariance_gain (M2 : Nat) (GAMMA : ℚ) (auxvector0 : Fin 3 → ℚ)
    (acc : Fin 3 → ℚ) :
    (Sckf.lopsidedCovariance.update ratLib M2 GAMMA auxvector0 (1 : Matrix (Fin 3) (Fin 3) ℚ) 1
      0 acc 0 1 false).K = 0 := by
  have h : Sckf.lopsidedCovariance.Pki_k
      * ((Sckf.lopsidedCovariance.update ratLib M2 GAMMA auxvector0
          (1 : Matrix (Fin 3) (Fin 3) ℚ) 1 0 acc 0 1 false).Hk)ᵀ = 0 := by
    rw [Sckf.update_Hk]
    ext i j
    rw [Matrix.mul_apply]
    refine Finset.sum_eq_zero (fun x _ => ?_)
    by_cases hx : x = 1
    · subst hx
      simp [setBlock]
    · have hP : Sckf.lopsidedCovariance.Pki_k i x = 0 := by
        simp [Sckf.lopsidedCovariance, Sckf.Init, Sckf.setAttitude, Matrix.stdBasisMatrix,
          Ne.symm hx]
      rw [hP, zero_mul]
  rw [Sckf.update_K, h, Matrix.zero_mul]

theorem Sckf.lopsidedCovariance_update (M2 : Nat) (GAMMA : ℚ) (auxvector0 : Fin 3 → ℚ)
    (acc : Fin 3 → ℚ) :
    (Sckf.lopsidedCovariance.update ratLib M2 GAMMA auxvector0 (1 : Matrix (Fin 3) (Fin 3) ℚ) 1
      0 acc 0 1 false).Pki_k = symmetrizeInPlace (Matrix.stdBasisMatrix 0 1 1) := by
  rw [Sckf.update_Pki_k_joseph, Sckf.lopsidedCovariance_gain]
  simp [Sckf.lopsidedCovariance, Sckf.Init, Sckf.setAttitude]

/-- Claim C2, which the code does not meet.  `predict` and `update` end with the assignment
`X = 0.5 * (X + X.transpose())`, which reads the matrix that it writes: an entry above the
diagonal becomes `0.75 a_ij + 0.25 a_ji`, the entry below it the mean, so an operand that is
not symmetric stays asymmetric.  In `predict` the operand holds the block
`Cq.inverse() * Ra`, which is not symmetric at a turned attitude: the filter initialised by
`Init` with zero covariance and `Ra = 1`, set to the unit attitude `(3/5, 0, 0, 4/5)`, has a
symmetric covariance before `predict` and the entries `-12/25` at `(3, 4)` and `0` at
`(4, 3)` after it.  In `update` the operand inherits the asymmetry of the covariance: with
the single entry one at `(0, 1)` before the call, the covariance after `update` has `3/4`
at `(0, 1)` and `1/2` at `(1, 0)`. -/
theorem C2_symmetrisation_in_place_leaves_the_covariance_asymmetric :
    Sckf.turnedAboutVertical.Pki_kᵀ = Sckf.turnedAboutVertical.Pki_k
    ∧ Sckf.turnedAboutVertical.Raᵀ = Sckf.turnedAboutVertical.Ra
    ∧ Sckf.turnedAboutVertical.q4.squaredNorm = 1
    ∧ (inverse (Quaternion2DCM Sckf.turnedAboutVertical.q4) * Sckf.turnedAboutVertical.Ra) 0 1
        = -24 / 25
    ∧ (inverse (Quaternion2DCM Sckf.turnedAboutVertical.q4) * Sckf.turnedAboutVertical.Ra) 1 0
        = 24 / 25
    ∧ (Sckf.turnedAboutVertical.predict ratLib 0 0 1).Pki_k 3 4 = -12 / 25
    ∧ (Sckf.turnedAboutVertical.predict ratLib 0 0 1).Pki_k 4 3 = 0
    ∧ ((Sckf.turnedAboutVertical.predict ratLib 0 0 1).Pki_k)ᵀ
        ≠ (Sckf.turnedAboutVertical.predict ratLib 0 0 1).Pki_k
    ∧ (Sckf.lopsidedCovariance.update ratLib 1 0 0 (1 : Matrix (Fin 3) (Fin 3) ℚ) 1 0 0 0 1
        false).Pki_k 0 1 = 3 / 4
    ∧ (Sckf.lopsidedCovariance.update ratLib 1 0 0 (1 : Matrix (Fin 3) (Fin 3) ℚ) 1 0 0 0 1
        false).Pki_k 1 0 = 1 / 2
    ∧ ((Sckf.lopsidedCovariance.update ratLib 1 0 0 (1 : Matrix (Fin 3) (Fin 3) ℚ) 1 0 0 0 1
        false).Pki_k)ᵀ
        ≠ (Sckf.lopsidedCovariance.update ratLib 1 0 0 (1 : Matrix (Fin 3) (Fin 3) ℚ) 1 0 0 0 1
          false).Pki_k := by
  obtain ⟨e34, e43⟩ := Sckf.turnedAboutVertical_entries
  obtain ⟨b01, b10⟩ := Sckf.turnedAboutVertical_noise_block
  have u01 : (Sckf.lopsidedCovariance.update ratLib 1 0 0 (1 : Matrix (Fin 3) (Fin 3) ℚ) 1 0 0
      0 1 false).Pki_k 0 1 = 3 / 4 := by
    rw [Sckf.lopsidedCovariance_update]
    simp [symmetrizeInPlace, StorageIndex.position, Matrix.stdBasisMatrix]
    norm_num
  have u10 : (Sckf.lopsidedCovariance.update ratLib 1 0 0 (1 : Matrix (Fin 3) (Fin 3) ℚ) 1 0 0
      0 1 false).Pki_k 1 0 = 1 / 2 := by
    rw [Sckf.lopsidedCovariance_update]
    simp [symmetrizeInPlace, StorageIndex.position, Matrix.stdBasisMatrix]
    norm_num
  refine ⟨?_, ?_, ?_, b01, b10, e34, e43, ?_, u01, u10, ?_⟩
  · simp [Sckf.turnedAboutVertical, Sckf.Init, Sckf.setAttitude]
  · simp [Sckf.turnedAboutVertical, Sckf.Init, Sckf.setAttitude]
  · simp [Sckf.turnedAboutVertical, Sckf.setAttitude, Quat.squaredNorm]
    norm_num
  · intro h
    have h34 := congrFun (congrFun h 3) 4
    rw [Matrix.transpose_apply, e34, e43] at h34
    norm_num at h34
  · intro h
    have h01 := congrFun (congrFun h 0) 1
    rw [Matrix.transpose_apply, u01, u10] at h01
    norm_num at h01

/-! ### The covariance after `predict` with a positive-semi-definite discretised noise (C20) -/

/-- Claim C20, amended.  When the covariance is symmetric positive-semi-definite before
`predict` and the discretised process noise `Qdk` that `predict` computes, as its assignment
`Qdk = 0.5 * (Qdk + Qdk.transpose())` leaves it, is symmetric positive-semi-definite, the
covariance after `predict` is symmetric positive-semi-definite. -/
theorem C20_predict_keeps_psd_when_discretised_noise_is_psd (L : NumericLib α)
    (s : Sckf α M1) (u v : Fin 3 → α) (dt : α) (hP : IsPSD s.Pki_k)
    (hQ : IsPSD (Sckf.predictQdk s u v dt)) :
    IsPSD (s.predict L u v dt).Pki_k := by
  rw [Sckf.predict_Pki_k]
  exact isPSD_conj_add _ _ _ hP hQ

theorem Sckf.gyroNoiseTurned_Qk (dt : ℚ) :
    Sckf.predictQk Sckf.gyroNoiseTurned dt
      = Matrix.diagonal (fun i : Fin 15 => if 6 ≤ i.val ∧ i.val < 9 then (1 / 4 : ℚ) else 0) := by
  ext i j
  simp only [Sckf.predictQk, Sckf.gyroNoiseTurned, Sckf.Init, Sckf.setAttitude, setBlock,
    Matrix.diagonal_apply, Matrix.smul_apply, Matrix.zero_apply, Matrix.mul_zero,
    Matrix.one_apply, smul_zero, Fin.ext_iff, smul_eq_mul]
  split_ifs <;> first | rfl | omega | norm_num

theorem Sckf.gyroNoiseTurned_Fki_column (i k : Fin 15) (hk : 6 ≤ k.val ∧ k.val < 9) :
    Sckf.gyroNoiseTurned.predictFki 0 0 i k = 0 := by
  have hz : (![0, 0, 0] : Fin 3 → ℚ) = 0 := by
    ext l
    fin_cases l <;> rfl
  simp only [Sckf.predictFki, Sckf.gyroNoiseTurned, Sckf.Init, Sckf.setAttitude, setBlock,
    Sckf.blank, Matrix.zero_apply, sub_zero, Matrix.mulVec_zero, crossProductMatrix_zero,
    neg_zero, Matrix.mul_zero, Matrix.one_apply, Fin.ext_iff, Matrix.cons_val_zero, hz]
  split_ifs <;> first | rfl | omega

theorem Sckf.gyroNoiseTurned_Qdk :
    Sckf.predictQdk Sckf.gyroNoiseTurned 0 0 1
      = Matrix.diagonal (fun i : Fin 15 => if 6 ≤ i.val ∧ i.val < 9 then (1 / 4 : ℚ) else 0) := by
  have hFQ : Sckf.gyroNoiseTurned.predictFki 0 0
      * Sckf.predictQk Sckf.gyroNoiseTurned 1 = 0 := by
    ext i j
    rw [Matrix.mul_apply]
    refine Finset.sum_eq_zero (fun k _ => ?_)
    by_cases hk : 6 ≤ k.val ∧ k.val < 9
    · rw [Sckf.gyroNoiseTurned_Fki_column i k hk, zero_mul]
    · rw [Sckf.gyroNoiseTurned_Qk, Matrix.diagonal_apply]
      split_ifs <;> simp
  have hQF : Sckf.predictQk Sckf.gyroNoiseTurned 1
      * (Sckf.gyroNoiseTurned.predictFki 0 0)ᵀ = 0 := by
    have h := congrArg Matrix.transpose hFQ
    rw [Matrix.transpose_mul, Matrix.transpose_zero] at h
    rw [Sckf.gyroNoiseTurned_Qk, Matrix.diagonal_transpose] at h
    rw [Sckf.gyroNoiseTurned_Qk]
    exact h
  unfold Sckf.predictQdk
  simp only [Matrix.smul_mul, hFQ, hQF, smul_zero, add_zero, one_smul]
  rw [Sckf.gyroNoiseTurned_Qk]
  exact symmetrizeInPlace_of_isSymm _ (Matrix.diagonal_transpose _)

/-- The filter with unit covariance and the gyroscope noise `Rg = 1`, turned about the
vertical axis: one step of `predict` with `dt = 1`, whose discretised process noise is a
quarter on the three attitude entries of the diagonal. -/
theorem C20_predict_keeps_psd_when_discretised_noise_is_psd_witness :
    IsPSD Sckf.gyroNoiseTurned.Pki_k
    ∧ Sckf.predictQdk Sckf.gyroNoiseTurned 0 0 1 6 6 = 1 / 4
    ∧ IsPSD (Sckf.predictQdk Sckf.gyroNoiseTurned 0 0 1)
    ∧ IsPSD (Sckf.gyroNoiseTurned.predict ratLib 0 0 1).Pki_k := by
  have hP : IsPSD Sckf.gyroNoiseTurned.Pki_k := isPSD_one
  have hQ : IsPSD (Sckf.predictQdk Sckf.gyroNoiseTurned 0 0 1) := by
    rw [Sckf.gyroNoiseTurned_Qdk]
    refine isPSD_diagonal _ (fun i => ?_)
    split_ifs <;> norm_num
  refine ⟨hP, ?_, hQ,
    C20_predict_keeps_psd_when_discretised_noise_is_psd ratLib Sckf.gyroNoiseTurned 0 0 1 hP hQ⟩
  rw [Sckf.gyroNoiseTurned_Qdk, Matrix.diagonal_apply_eq]
  exact if_pos (by decide)

end Properties

end Localization
